import Mathlib

/-!
# AVR library: timekeeping arithmetic and the I2C transaction engine

A shallow embedding of `src/lib/timekeeping.h` and `src/lib/i2c.c`.

Machine integers are natural numbers reduced explicitly: `uint32_t` values
modulo `2^32 = 4294967296`, `uint16_t` values modulo `2^16 = 65536`,
`uint8_t` values modulo `2^8 = 256`.
-/

namespace Avr

/-! ## Timekeeping (`src/lib/timekeeping.h`) -/

/-- The C constant `UINT32_MAX`. -/
def UINT32_MAX : Nat := 4294967295

/-- The C constant `UINT16_MAX`. -/
def UINT16_MAX : Nat := 65535

/-- Absolute timestamp: `struct { uint32_t ticks; uint16_t counts; }`. -/
structure timestamp where
  ticks : Nat
  counts : Nat
deriving DecidableEq, Repr

/-- Interval (relative timestamp): `struct { uint32_t ticks; uint16_t counts; }`. -/
structure timestamp_interval where
  ticks : Nat
  counts : Nat
deriving DecidableEq, Repr

/-- The comparison operator token handed to the comparison macros as `oper`. -/
inductive cmp_oper where
  | lt
  | le
  | gt
  | ge
  | eq
  | ne
deriving DecidableEq, Repr

/-- Value of the C expression `x oper y` on unsigned operands. -/
def cmp_oper.eval : cmp_oper → Nat → Nat → Bool
  | .lt, x, y => decide (x < y)
  | .le, x, y => decide (x ≤ y)
  | .gt, x, y => decide (x > y)
  | .ge, x, y => decide (x ≥ y)
  | .eq, x, y => decide (x = y)
  | .ne, x, y => decide (x ≠ y)

/-- Build configuration of the time base.  `F_CPU` is supplied by the build
and is not defined in the sources; `TIMEKEEPING_DIV` and `TIMEKEEPING_HZ` are
overridable defaults (64 and 8). -/
structure timekeeping_config where
  F_CPU : Nat
  TIMEKEEPING_DIV : Nat
  TIMEKEEPING_HZ : Nat
deriving DecidableEq, Repr

/-- The function `timekeeping_counts_per_tick_internal`: returns the pair
`(counts, top)`; `counts` is the returned `uint32_t`, `top` the value stored
through `top_out` (a `uint16_t`).  The intermediates are `uint64_t`. -/
def timekeeping_counts_per_tick_internal (k : timekeeping_config) : Nat × Nat :=
  let d := (k.TIMEKEEPING_DIV * k.TIMEKEEPING_HZ) % 18446744073709551616
  let counts := k.F_CPU % 18446744073709551616 / d
  let top := if counts > 0 then counts - 1 else 0
  (counts % 4294967296, top % 65536)

/-- The three `_Static_assert`s of `timekeeping_counts_per_tick_internal`
(the last one is present unless `TIMEKEEPING_ALLOW_INEXACT_FREQ` is defined);
a configuration violating them does not compile. -/
def timekeeping_static_asserts (k : timekeeping_config) : Prop :=
  let d := (k.TIMEKEEPING_DIV * k.TIMEKEEPING_HZ) % 18446744073709551616
  let counts := k.F_CPU % 18446744073709551616 / d
  let counts_rem := k.F_CPU % 18446744073709551616 % d
  let top := if counts > 0 then counts - 1 else 0
  top > 0 ∧ top ≤ UINT16_MAX ∧ counts_rem = 0

/-- The function `timekeeping_counts_per_tick`. -/
def timekeeping_counts_per_tick (k : timekeeping_config) : Nat :=
  (timekeeping_counts_per_tick_internal k).1

/-- The macro `timestampi_iszero`. -/
def timestampi_iszero (i : timestamp_interval) : Bool :=
  decide (i.ticks = 0) && decide (i.counts = 0)

/-- The macro `timestamp_cmp_internal` on the fields of its two operands:
`ticks1 == ticks2 ? counts1 oper counts2 : ticks1 oper ticks2`. -/
def timestamp_cmp_internal (ticks1 counts1 ticks2 counts2 : Nat) (oper : cmp_oper) : Bool :=
  if ticks1 = ticks2 then oper.eval counts1 counts2 else oper.eval ticks1 ticks2

/-- The macro `timestamp_value_cmp`: raw compare of two absolute timestamps. -/
def timestamp_value_cmp (in1 in2 : timestamp) (oper : cmp_oper) : Bool :=
  timestamp_cmp_internal in1.ticks in1.counts in2.ticks in2.counts oper

/-- The macro `timestampi_cmp`: compare of two intervals. -/
def timestampi_cmp (in1 in2 : timestamp_interval) (oper : cmp_oper) : Bool :=
  timestamp_cmp_internal in1.ticks in1.counts in2.ticks in2.counts oper

/-- The macro `timestamp_diff`, with `cpt` the value of
`timekeeping_counts_per_tick()`.  `ticks` is `uint32_t` arithmetic, every
assignment to `counts` truncates to `uint16_t`. -/
def timestamp_diff (cpt : Nat) (in1 in2 : timestamp) : timestamp_interval :=
  let ticks := (in1.ticks + 4294967296 - in2.ticks) % 4294967296
  if in1.counts ≥ in2.counts then
    { ticks := ticks, counts := (in1.counts - in2.counts) % 65536 }
  else
    let c0 := (cpt + 4294967296 - 1) % 4294967296 % 65536
    let c1 := (c0 + 65536 - (in2.counts - 1) % 65536) % 65536
    let c2 := (c1 + in1.counts) % 65536
    { ticks := (ticks + 4294967296 - 1) % 4294967296, counts := c2 }

/-- The macro `timestamp_opposite`. -/
def timestamp_opposite (i : timestamp) : timestamp :=
  { ticks := (i.ticks + UINT32_MAX / 2) % 4294967296, counts := i.counts }

/-- The macro `timestamp_temporal_cmp`. -/
def timestamp_temporal_cmp (cpt : Nat) (in1 in2 : timestamp) (oper : cmp_oper) : Bool :=
  let limit : timestamp_interval := { ticks := UINT32_MAX / 2, counts := 0 }
  let is_equal := oper.eval 0 0
  let is_greater := oper.eval 1 0
  let is_less := oper.eval 0 1
  let is_inequal := is_greater && is_less
  let d := timestamp_diff cpt in1 in2
  if is_inequal then
    !timestampi_iszero d
  else if timestampi_iszero d then
    is_equal
  else if is_greater then
    timestampi_cmp d limit .le
  else if is_less then
    timestampi_cmp d limit .gt
  else
    false

/-- The macro `timestamp_add`, with `cpt` the value of
`timekeeping_counts_per_tick()`.  The temporary is a `uint32_t`. -/
def timestamp_add (cpt : Nat) (i : timestamp) (interval : timestamp_interval) : timestamp :=
  let ticks := (i.ticks + interval.ticks) % 4294967296
  let tmp := (i.counts + interval.counts) % 4294967296
  if tmp ≥ cpt then
    { ticks := (ticks + 1) % 4294967296,
      counts := (tmp + 4294967296 - cpt) % 4294967296 % 65536 }
  else
    { ticks := ticks, counts := tmp % 65536 }

/-- The macro `timekeeping_timestamp_max_past`, with `now` the value stored by
its call of `timekeeping_now_timestamp`. -/
def timekeeping_timestamp_max_past (now : timestamp) : timestamp :=
  { now with ticks := (now.ticks + 4294967296 - UINT32_MAX / 4) % 4294967296 }

/-- The macro `timekeeping_timestamp_max_future`, with `now` the value stored
by its call of `timekeeping_now_timestamp`. -/
def timekeeping_timestamp_max_future (now : timestamp) : timestamp :=
  { now with ticks := (now.ticks + UINT32_MAX / 4) % 4294967296 }

/-- The macro `TIMESTAMPI_FROM_MS`, for a value of at most `UINT32_MAX`; the
products are `uint64_t`, the fields truncate to `uint32_t` and `uint16_t`. -/
def TIMESTAMPI_FROM_MS (hz cpt value : Nat) : timestamp_interval :=
  { ticks := (value * hz) % 18446744073709551616 / 1000 % 4294967296,
    counts := ((value * hz) % 18446744073709551616 * cpt) % 18446744073709551616
                / 1000 % cpt % 65536 }

/-- A `timestamp` whose fields fit their C types and whose sub-tick count is
below the counts per tick. -/
def timestamp.valid (cpt : Nat) (t : timestamp) : Prop :=
  t.ticks < 4294967296 ∧ t.counts < cpt

/-- A `timestamp_interval` whose fields fit their C types and whose sub-tick
count is below the counts per tick. -/
def timestamp_interval.valid (cpt : Nat) (i : timestamp_interval) : Prop :=
  i.ticks < 4294967296 ∧ i.counts < cpt

instance (cpt : Nat) (t : timestamp) : Decidable (t.valid cpt) := by
  unfold timestamp.valid
  infer_instance

instance (cpt : Nat) (i : timestamp_interval) : Decidable (i.valid cpt) := by
  unfold timestamp_interval.valid
  infer_instance

instance (k : timekeeping_config) : Decidable (timekeeping_static_asserts k) := by
  unfold timekeeping_static_asserts
  infer_instance

/-- Linearised time of a timestamp, in counts. -/
def timestamp.linear (cpt : Nat) (t : timestamp) : Nat :=
  t.ticks * cpt + t.counts

/-- Linearised length of an interval, in counts. -/
def timestamp_interval.linear (cpt : Nat) (i : timestamp_interval) : Nat :=
  i.ticks * cpt + i.counts

/-! ## I2C transaction engine (`src/lib/i2c.c`) -/

/-- The avr-libc macro `_BV`. -/
def BV (bit : Nat) : Nat := 2 ^ bit

/-- Bit numbers of the TWI control register `TWCR` (avr-libc `avr/io.h`). -/
def TWINT : Nat := 7

/-- Bit `TWEA` of `TWCR`. -/
def TWEA : Nat := 6

/-- Bit `TWSTA` of `TWCR`. -/
def TWSTA : Nat := 5

/-- Bit `TWSTO` of `TWCR`. -/
def TWSTO : Nat := 4

/-- Bit `TWEN` of `TWCR`. -/
def TWEN : Nat := 2

/-- Bit `TWIE` of `TWCR`. -/
def TWIE : Nat := 0

/-- Bit `TWPS0` of `TWSR`. -/
def TWPS0 : Nat := 0

/-- Bit `TWPS1` of `TWSR`. -/
def TWPS1 : Nat := 1

/-- Status codes and direction bits of avr-libc `util/twi.h`. -/
def TW_START : Nat := 0x08

/-- Status `TW_REP_START`. -/
def TW_REP_START : Nat := 0x10

/-- Status `TW_MT_SLA_ACK`. -/
def TW_MT_SLA_ACK : Nat := 0x18

/-- Status `TW_MT_DATA_ACK`. -/
def TW_MT_DATA_ACK : Nat := 0x28

/-- Status `TW_MT_DATA_NACK`. -/
def TW_MT_DATA_NACK : Nat := 0x30

/-- Status `TW_MR_SLA_ACK`. -/
def TW_MR_SLA_ACK : Nat := 0x40

/-- Status `TW_MR_DATA_ACK`. -/
def TW_MR_DATA_ACK : Nat := 0x50

/-- Status `TW_MR_DATA_NACK`. -/
def TW_MR_DATA_NACK : Nat := 0x58

/-- Direction bit `TW_READ`. -/
def TW_READ : Nat := 1

/-- Direction bit `TW_WRITE`. -/
def TW_WRITE : Nat := 0

/-- Mask `TW_STATUS_MASK` of the status bits in `TWSR`. -/
def TW_STATUS_MASK : Nat := 0xF8

/-- The null pointer. -/
def NULL : Nat := 0

/-- The constant `I2C_RESET_POLL_PERIOD`, in milliseconds. -/
def I2C_RESET_POLL_PERIOD : Nat := 5

/-- The constant `I2C_TRANS_TIMEOUT`, in milliseconds. -/
def I2C_TRANS_TIMEOUT : Nat := 5000

/-- The avr-libc macro `bit_is_set`. -/
def bit_is_set (sfr bit : Nat) : Bool := decide (sfr &&& BV bit ≠ 0)

/-- The avr-libc macro `bit_is_clear`. -/
def bit_is_clear (sfr bit : Nat) : Bool := decide (sfr &&& BV bit = 0)

/-- The enumeration `i2c_states`. -/
inductive i2c_states where
  | I2C_IDLE
  | I2C_RESET
  | I2C_START_DO
  | I2C_START_TX
  | I2C_ADDR
  | I2C_WRITE_FIRST
  | I2C_WRITE
  | I2C_REPEATED_START_DO
  | I2C_REPEATED_START_TX
  | I2C_READ_FIRST
  | I2C_READ
  | I2C_TRANS_OK_STOP_DO
  | I2C_TRANS_OK_STOP_TX
  | I2C_TRANS_FAILED_RESET
deriving DecidableEq, Repr

open i2c_states

/-- A node of the transaction queue, `struct _i2c_transaction_list` without
its `next` link (the queue is a list of nodes).  Pointers are addresses, `0`
is `NULL`; `func` is the field `fun`. -/
structure i2c_transaction_list where
  addr : Nat
  wrbuf : Nat
  wrlen : Nat
  rdbuf : Nat
  rdlen : Nat
  func : Nat
  data : Nat
  rdlen_actual : Nat
deriving DecidableEq, Repr

/-- One invocation `fun(data, success, rdlen_actual)` of a completion
callback of type `i2c_completion_fun`. -/
structure i2c_completion where
  func : Nat
  data : Nat
  success : Bool
  rdlen_actual : Nat
deriving DecidableEq, Repr

/-- A queue node that was taken off the queue and freed, as it was at that
moment, with the success flag of its terminal state. -/
structure i2c_release where
  tr : i2c_transaction_list
  success : Bool
deriving DecidableEq, Repr

/-- A write to a TWI hardware register. -/
inductive i2c_hw_write where
  | TWCR (val : Nat)
  | TWDR (val : Nat)
  | TWBR (val : Nat)
  | TWSR (val : Nat)
deriving DecidableEq, Repr

/-- What the hardware presents during one call of `i2c_poll_atomic`: the
contents of the TWI registers and the values stored by the first and by the
second call of `timekeeping_now_timestamp` made in it. -/
structure i2c_hw where
  twcr : Nat
  twsr : Nat
  twdr : Nat
  now : timestamp
  now2 : timestamp
deriving DecidableEq, Repr

/-- The state of the I2C module: its static variables (the queue is the list
reachable from `i2c_transaction_list_head`), the TWI registers, the data
memory the buffers point into, and four histories kept for the specification:
the register writes made, the completion callbacks invoked, the queue nodes
freed and the states set by `i2c_set_state_do`. -/
structure i2c_engine where
  i2c_state : i2c_states
  i2c_state_changed : Bool
  i2c_next_reset_idle_poll : timestamp
  i2c_transaction_deadline : timestamp
  i2c_transaction_list_head : List i2c_transaction_list
  TWCR : Nat
  TWSR : Nat
  TWDR : Nat
  TWBR : Nat
  mem : Nat → Nat
  hw_writes : List i2c_hw_write
  completions : List i2c_completion
  released : List i2c_release
  transitions : List i2c_states

/-- What completion callbacks do to the module: the callback invoked with the
given arguments maps the module state at the call to the state at its return.
A callback that does not call into the module leaves the state as it is. -/
abbrev i2c_callbacks := i2c_completion → i2c_engine → i2c_engine

/-- The function `i2c_twcr_set_bits_atomic`. -/
def i2c_twcr_set_bits_atomic (bits : Nat) (s : i2c_engine) : i2c_engine :=
  let val := ((s.TWCR &&& (255 ^^^ BV TWINT)) ||| bits) % 256
  { s with TWCR := val, hw_writes := s.hw_writes ++ [.TWCR val] }

/-- The function `i2c_twcr_clear_bits_atomic`. -/
def i2c_twcr_clear_bits_atomic (bits : Nat) (s : i2c_engine) : i2c_engine :=
  let val := ((s.TWCR &&& (255 ^^^ BV TWINT)) &&& (255 ^^^ bits)) % 256
  { s with TWCR := val, hw_writes := s.hw_writes ++ [.TWCR val] }

/-- The function `i2c_twcr_set_cmd_bits_atomic`. -/
def i2c_twcr_set_cmd_bits_atomic (bits : Nat) (s : i2c_engine) : i2c_engine :=
  let val := ((s.TWCR &&& (255 ^^^ (BV TWINT ||| BV TWEA ||| BV TWSTA ||| BV TWSTO)))
    ||| bits) % 256
  { s with TWCR := val, hw_writes := s.hw_writes ++ [.TWCR val] }

/-- The function `i2c_twcr_set_bits`: the atomic variant inside an
`ATOMIC_BLOCK`. -/
def i2c_twcr_set_bits (bits : Nat) (s : i2c_engine) : i2c_engine :=
  i2c_twcr_set_bits_atomic bits s

/-- The function `i2c_twcr_clear_bits`: the atomic variant inside an
`ATOMIC_BLOCK`. -/
def i2c_twcr_clear_bits (bits : Nat) (s : i2c_engine) : i2c_engine :=
  i2c_twcr_clear_bits_atomic bits s

/-- The function `i2c_twcr_set_cmd_bits`: the atomic variant inside an
`ATOMIC_BLOCK`. -/
def i2c_twcr_set_cmd_bits (bits : Nat) (s : i2c_engine) : i2c_engine :=
  i2c_twcr_set_cmd_bits_atomic bits s

/-- The function `i2c_is_reset_idle_poll_state`. -/
def i2c_is_reset_idle_poll_state (s : i2c_engine) : Bool :=
  decide (s.i2c_state = I2C_RESET) || decide (s.i2c_state = I2C_TRANS_OK_STOP_TX)

/-- The function `i2c_is_transaction_wait_deadline_state`. -/
def i2c_is_transaction_wait_deadline_state (s : i2c_engine) : Bool :=
  decide (s.i2c_state = I2C_START_TX) ||
    decide (s.i2c_state = I2C_REPEATED_START_TX) || decide (s.i2c_state = I2C_ADDR) ||
    decide (s.i2c_state = I2C_WRITE) || decide (s.i2c_state = I2C_READ) ||
    decide (s.i2c_state = I2C_TRANS_OK_STOP_TX)

/-- The function `i2c_set_state_do`; `now` is the value stored by
`timekeeping_now_timestamp` where it is called.  The result is `none` when the
queue head is dereferenced while it is `NULL`.

In a terminal state `tr_next` is read before the callback runs and becomes
the head after it: when it is `NULL` the queue is empty afterwards, otherwise
the queue is what follows the old head once the callback has returned. -/
def i2c_set_state_do (k : timekeeping_config) (cb : i2c_callbacks) (now : timestamp)
    (state_new : i2c_states) (s : i2c_engine) : Option i2c_engine :=
  let was_reset_idle_poll_state := i2c_is_reset_idle_poll_state s
  let s1 := { s with i2c_state := state_new, transitions := s.transitions ++ [state_new] }
  let r : Option i2c_engine :=
    if s1.i2c_state = I2C_TRANS_OK_STOP_DO ∨ s1.i2c_state = I2C_TRANS_FAILED_RESET then
      match s1.i2c_transaction_list_head with
      | [] => none
      | tr :: tr_next =>
        let call : i2c_completion :=
          ⟨tr.func, tr.data, decide (s1.i2c_state = I2C_TRANS_OK_STOP_DO), tr.rdlen_actual⟩
        let s2 :=
          if tr.func ≠ NULL then
            cb call { s1 with completions := s1.completions ++ [call] }
          else s1
        some { s2 with
          released := s2.released ++ [⟨tr, call.success⟩],
          i2c_transaction_list_head :=
            match tr_next with
            | [] => []
            | _ :: _ => s2.i2c_transaction_list_head.tail }
    else if s1.i2c_state = I2C_START_DO then
      let transaction_timeout :=
        TIMESTAMPI_FROM_MS k.TIMEKEEPING_HZ (timekeeping_counts_per_tick k) I2C_TRANS_TIMEOUT
      some { s1 with
        i2c_transaction_deadline :=
          timestamp_add (timekeeping_counts_per_tick k) now transaction_timeout }
    else
      some s1
  r.map fun s4 =>
    if !was_reset_idle_poll_state && i2c_is_reset_idle_poll_state s4 then
      { s4 with i2c_next_reset_idle_poll := now }
    else s4

/-- The macro `I2C_SETSTATE`. -/
def I2C_SETSTATE (k : timekeeping_config) (cb : i2c_callbacks) (now : timestamp)
    (state_new : i2c_states) (s : i2c_engine) : Option i2c_engine :=
  if s.i2c_state ≠ state_new then
    i2c_set_state_do k cb now state_new { s with i2c_state_changed := true }
  else
    some s

/-- The function `i2c_reset`. -/
def i2c_reset (k : timekeeping_config) (cb : i2c_callbacks) (now : timestamp)
    (s : i2c_engine) : Option i2c_engine :=
  let s1 := i2c_twcr_clear_bits
    (BV TWEA ||| BV TWSTA ||| BV TWSTO ||| BV TWEN ||| BV TWIE) s
  let s2 := i2c_twcr_set_bits (BV TWINT ||| BV TWEN) s1
  I2C_SETSTATE k cb now I2C_RESET s2

/-- The function `i2c_transaction`.  `malloc_ok` tells whether the allocation
of the queue node succeeds, `now` is the value `timekeeping_now_timestamp`
stores when the state is set.  The result is the returned flag and the new
module state. -/
def i2c_transaction (k : timekeeping_config) (cb : i2c_callbacks) (now : timestamp)
    (malloc_ok : Bool) (addr wrbuf wrlen rdbuf rdlen completion comp_data : Nat)
    (s : i2c_engine) : Option (Bool × i2c_engine) :=
  if wrlen = 0 ∧ rdlen = 0 then some (false, s)
  else if wrlen > 0 ∧ wrbuf = NULL then some (false, s)
  else if rdlen > 0 ∧ rdbuf = NULL then some (false, s)
  else if malloc_ok = false then some (false, s)
  else
    let nelem : i2c_transaction_list :=
      { addr := addr, wrbuf := wrbuf, wrlen := wrlen, rdbuf := rdbuf, rdlen := rdlen,
        func := completion, data := comp_data, rdlen_actual := 0 }
    let s1 := { s with i2c_transaction_list_head := s.i2c_transaction_list_head ++ [nelem] }
    if s1.i2c_state = I2C_IDLE then
      (I2C_SETSTATE k cb now I2C_START_DO s1).map fun s2 => (true, s2)
    else
      some (true, s1)

/-- The function `i2c_transaction_maybe_timedout`; `now` is the value stored
by its call of `timekeeping_now_timestamp`. -/
def i2c_transaction_maybe_timedout (k : timekeeping_config) (cb : i2c_callbacks)
    (now : timestamp) (s : i2c_engine) : Option (Bool × i2c_engine) :=
  if timestamp_temporal_cmp (timekeeping_counts_per_tick k) now
      s.i2c_transaction_deadline .lt then
    some (false, s)
  else if s.i2c_state ≠ I2C_TRANS_OK_STOP_TX then
    (I2C_SETSTATE k cb now I2C_TRANS_FAILED_RESET s).map fun s1 => (true, s1)
  else
    (i2c_reset k cb now s).map fun s1 => (true, s1)

/-- The macro `TW_STATUS`. -/
def TW_STATUS (s : i2c_engine) : Nat := s.TWSR &&& TW_STATUS_MASK

/-- Assignment to the data register `TWDR`. -/
def i2c_twdr_write (val : Nat) (s : i2c_engine) : i2c_engine :=
  { s with TWDR := val % 256, hw_writes := s.hw_writes ++ [.TWDR (val % 256)] }

/-- The function `i2c_poll_atomic`, called while the hardware presents `hw`.
The result is `none` when the queue head is dereferenced while it is `NULL`. -/
def i2c_poll_atomic (k : timekeeping_config) (cb : i2c_callbacks) (hw : i2c_hw)
    (s0 : i2c_engine) : Option i2c_engine :=
  let cpt := timekeeping_counts_per_tick k
  let reset_idle_poll_period :=
    TIMESTAMPI_FROM_MS k.TIMEKEEPING_HZ cpt I2C_RESET_POLL_PERIOD
  let s := { s0 with
    TWCR := hw.twcr, TWSR := hw.twsr, TWDR := hw.twdr, i2c_state_changed := false }
  if i2c_is_reset_idle_poll_state s then
    if bit_is_set s.TWCR TWSTO then
      let s1 := { s with
        i2c_next_reset_idle_poll := timestamp_add cpt hw.now reset_idle_poll_period }
      if s1.i2c_state = I2C_TRANS_OK_STOP_TX then
        (i2c_transaction_maybe_timedout k cb hw.now2 s1).map Prod.snd
      else
        some s1
    else if s.i2c_transaction_list_head ≠ [] then
      I2C_SETSTATE k cb hw.now I2C_START_DO s
    else
      I2C_SETSTATE k cb hw.now I2C_IDLE s
  else if s.i2c_state = I2C_START_DO ∨ s.i2c_state = I2C_REPEATED_START_DO then
    let s1 := i2c_twcr_set_cmd_bits (BV TWINT ||| BV TWSTA ||| BV TWIE) s
    if s1.i2c_state = I2C_START_DO then
      I2C_SETSTATE k cb hw.now I2C_START_TX s1
    else
      I2C_SETSTATE k cb hw.now I2C_REPEATED_START_TX s1
  else if s.i2c_state = I2C_START_TX ∨ s.i2c_state = I2C_REPEATED_START_TX then
    if bit_is_clear s.TWCR TWINT then
      (i2c_transaction_maybe_timedout k cb hw.now s).map Prod.snd
    else
      let status := TW_STATUS s
      if status ≠ TW_START ∧ status ≠ TW_REP_START then
        I2C_SETSTATE k cb hw.now I2C_TRANS_FAILED_RESET s
      else
        match s.i2c_transaction_list_head with
        | [] => none
        | tr :: _ =>
          let data := ((tr.addr <<< 1) % 256) |||
            (if tr.wrlen = 0 then TW_READ else TW_WRITE)
          let s1 := i2c_twdr_write data s
          let s2 := i2c_twcr_set_cmd_bits (BV TWINT ||| BV TWIE) s1
          I2C_SETSTATE k cb hw.now I2C_ADDR s2
  else if s.i2c_state = I2C_ADDR then
    if bit_is_clear s.TWCR TWINT then
      (i2c_transaction_maybe_timedout k cb hw.now s).map Prod.snd
    else
      let status := TW_STATUS s
      let no_write_ack : Option Bool :=
        if status ≠ TW_MT_SLA_ACK then some true
        else s.i2c_transaction_list_head.head?.map fun tr => decide (tr.wrlen = 0)
      no_write_ack.bind fun c =>
        if c = true ∧ status ≠ TW_MR_SLA_ACK then
          I2C_SETSTATE k cb hw.now I2C_TRANS_FAILED_RESET s
        else if status = TW_MT_SLA_ACK then
          I2C_SETSTATE k cb hw.now I2C_WRITE_FIRST s
        else
          I2C_SETSTATE k cb hw.now I2C_READ_FIRST s
  else if s.i2c_state = I2C_WRITE_FIRST ∨ s.i2c_state = I2C_WRITE then
    if s.i2c_state = I2C_WRITE ∧ bit_is_clear s.TWCR TWINT = true then
      (i2c_transaction_maybe_timedout k cb hw.now s).map Prod.snd
    else
      let status := TW_STATUS s
      let bad_status : Option Bool :=
        if s.i2c_state = I2C_WRITE then
          if status ≠ TW_MT_DATA_ACK then
            if status ≠ TW_MT_DATA_NACK then some true
            else s.i2c_transaction_list_head.head?.map fun tr => decide (tr.wrlen ≠ 0)
          else some false
        else some false
      bad_status.bind fun bad =>
        if bad = true then
          I2C_SETSTATE k cb hw.now I2C_TRANS_FAILED_RESET s
        else
          match s.i2c_transaction_list_head with
          | [] => none
          | tr :: rest =>
            if tr.wrlen = 0 then
              if tr.rdlen > 0 then
                I2C_SETSTATE k cb hw.now I2C_REPEATED_START_DO s
              else
                I2C_SETSTATE k cb hw.now I2C_TRANS_OK_STOP_DO s
            else
              let s1 := i2c_twdr_write (s.mem tr.wrbuf) s
              let s2 := { s1 with
                i2c_transaction_list_head :=
                  { tr with wrbuf := tr.wrbuf + 1, wrlen := tr.wrlen - 1 } :: rest }
              let s3 := i2c_twcr_set_cmd_bits (BV TWINT ||| BV TWIE) s2
              I2C_SETSTATE k cb hw.now I2C_WRITE s3
  else if s.i2c_state = I2C_READ_FIRST ∨ s.i2c_state = I2C_READ then
    if s.i2c_state = I2C_READ ∧ bit_is_clear s.TWCR TWINT = true then
      (i2c_transaction_maybe_timedout k cb hw.now s).map Prod.snd
    else if s.i2c_state = I2C_READ ∧ TW_STATUS s ≠ TW_MR_DATA_ACK ∧
        TW_STATUS s ≠ TW_MR_DATA_NACK then
      I2C_SETSTATE k cb hw.now I2C_TRANS_FAILED_RESET s
    else
      match s.i2c_transaction_list_head with
      | [] => none
      | tr0 :: rest =>
        let tr : i2c_transaction_list :=
          if s.i2c_state = I2C_READ then
            { tr0 with
              rdbuf := tr0.rdbuf + 1,
              rdlen := (tr0.rdlen + 256 - 1) % 256,
              rdlen_actual := (tr0.rdlen_actual + 1) % 256 }
          else tr0
        let s1 :=
          if s.i2c_state = I2C_READ then
            { s with
              mem := Function.update s.mem tr0.rdbuf s.TWDR,
              i2c_transaction_list_head := tr :: rest }
          else s
        if tr.rdlen > 0 then
          let ackbit := if tr.rdlen > 1 then BV TWEA else 0
          let s2 := i2c_twcr_set_cmd_bits (BV TWINT ||| ackbit ||| BV TWIE) s1
          I2C_SETSTATE k cb hw.now I2C_READ s2
        else
          I2C_SETSTATE k cb hw.now I2C_TRANS_OK_STOP_DO s1
  else if s.i2c_state = I2C_TRANS_OK_STOP_DO then
    let s1 := i2c_twcr_set_cmd_bits (BV TWINT ||| BV TWSTO) s
    I2C_SETSTATE k cb hw.now I2C_TRANS_OK_STOP_TX s1
  else if s.i2c_state = I2C_TRANS_FAILED_RESET then
    i2c_reset k cb hw.now s
  else
    some s

/-- The function `i2c_get_next_poll_time`; `now` is the value stored by the
call of `timekeeping_now_timestamp` it makes. -/
def i2c_get_next_poll_time (now : timestamp) (s : i2c_engine) : timestamp :=
  if s.i2c_state_changed then now
  else if i2c_is_reset_idle_poll_state s then s.i2c_next_reset_idle_poll
  else if i2c_is_transaction_wait_deadline_state s then s.i2c_transaction_deadline
  else timekeeping_timestamp_max_future now

/-- The function `i2c_speed_settings_2_clock`, in `uint32_t` arithmetic
(`F_CPU` is an `unsigned long` constant). -/
def i2c_speed_settings_2_clock (F_CPU twbr prescaler : Nat) : Nat :=
  F_CPU % 4294967296 / ((2 * twbr * prescaler + 16) % 4294967296)

/-- The function `i2c_clock_get_twbr`, in `uint32_t` arithmetic with the
result truncated to `uint8_t`.  The result is `none` when the divisor
`2 * clock * prescaler` is zero in `uint32_t`: the division and the remainder
are then undefined. -/
def i2c_clock_get_twbr (F_CPU clock prescaler : Nat) : Option Nat :=
  let num := (F_CPU % 4294967296 + 4294967296 - (16 * clock) % 4294967296) % 4294967296
  let den := (2 * clock * prescaler) % 4294967296
  if den = 0 then none
  else
    let ret := num / den % 256
    some (if num % den ≠ 0 then (ret + 1) % 256 else ret)

/-- The macro `I2C_GET_SPEED_ERROR`; `none` when `i2c_clock_get_twbr` divides
by zero. -/
def I2C_GET_SPEED_ERROR (F_CPU clock prescaler : Nat) : Option Nat :=
  (i2c_clock_get_twbr F_CPU clock prescaler).map fun twbr =>
    let actual_clock := i2c_speed_settings_2_clock F_CPU twbr prescaler
    if actual_clock ≤ clock then clock - actual_clock else actual_clock - clock

/-- The function `i2c_get_speed_settings`: returns `(twbr, prescaler)`, or
`none` when one of its calls of `i2c_clock_get_twbr` divides by zero. -/
def i2c_get_speed_settings (F_CPU clock : Nat) : Option (Nat × Nat) :=
  (I2C_GET_SPEED_ERROR F_CPU clock 1).bind fun error_1 =>
  (I2C_GET_SPEED_ERROR F_CPU clock 4).bind fun error_4 =>
  (I2C_GET_SPEED_ERROR F_CPU clock 16).bind fun error_16 =>
  (I2C_GET_SPEED_ERROR F_CPU clock 64).bind fun error_64 =>
    let r1 : Nat × Nat := (error_1, 1)
    let r4 : Nat × Nat := if error_4 < r1.1 then (error_4, 4) else r1
    let r16 : Nat × Nat := if error_16 < r4.1 then (error_16, 16) else r4
    let r64 : Nat × Nat := if error_64 < r16.1 then (error_64, 64) else r16
    (i2c_clock_get_twbr F_CPU clock r64.2).map fun twbr => (twbr, r64.2)

/-- The function `i2c_setup`, for the bus clock `clock` (`I2C_BUS_CLOCK`).  The
result is `none` when `i2c_get_speed_settings` divides by zero. -/
def i2c_setup (k : timekeeping_config) (clock : Nat) (s : i2c_engine) : Option i2c_engine :=
  let s1 := i2c_twcr_clear_bits_atomic
    (BV TWEA ||| BV TWSTA ||| BV TWSTO ||| BV TWEN ||| BV TWIE) s
  (i2c_get_speed_settings k.F_CPU clock).map fun settings =>
    let s2 := { s1 with TWBR := settings.1, hw_writes := s1.hw_writes ++ [i2c_hw_write.TWBR settings.1] }
    let twsr0 := s2.TWSR &&& (255 ^^^ (BV TWPS0 ||| BV TWPS1))
    let s3 := { s2 with TWSR := twsr0, hw_writes := s2.hw_writes ++ [i2c_hw_write.TWSR twsr0] }
    let bits :=
      if settings.2 = 4 then some (BV TWPS0)
      else if settings.2 = 16 then some (BV TWPS1)
      else if settings.2 = 64 then some (BV TWPS0 ||| BV TWPS1)
      else none
    let s4 :=
      match bits with
      | some b =>
        { s3 with TWSR := s3.TWSR ||| b, hw_writes := s3.hw_writes ++ [i2c_hw_write.TWSR (s3.TWSR ||| b)] }
      | none => s3
    let s5 := i2c_twcr_set_bits_atomic (BV TWEN) s4
    { s5 with i2c_state := I2C_IDLE, i2c_state_changed := false }

/-- The module state at program start: the static variables are zero (state
`I2C_IDLE`, no queue), the registers and the memory are as given, nothing has
been written or released yet. -/
def i2c_boot (twcr twsr twdr twbr : Nat) (mem : Nat → Nat) : i2c_engine :=
  { i2c_state := I2C_IDLE,
    i2c_state_changed := false,
    i2c_next_reset_idle_poll := ⟨0, 0⟩,
    i2c_transaction_deadline := ⟨0, 0⟩,
    i2c_transaction_list_head := [],
    TWCR := twcr, TWSR := twsr, TWDR := twdr, TWBR := twbr,
    mem := mem,
    hw_writes := [],
    completions := [],
    released := [],
    transitions := [] }

/-- The arguments of one call of `i2c_transaction`. -/
structure i2c_request where
  addr : Nat
  wrbuf : Nat
  wrlen : Nat
  rdbuf : Nat
  rdlen : Nat
  completion : Nat
  comp_data : Nat
deriving DecidableEq, Repr

/-- One call into the module from the main loop: an `i2c_transaction` call
(with the outcome of its allocation and the time read when the state is set)
or an `i2c_poll_atomic` call (with what the hardware presents). -/
inductive i2c_op where
  | transaction (now : timestamp) (malloc_ok : Bool) (r : i2c_request)
  | poll (hw : i2c_hw)
deriving DecidableEq, Repr

/-- `i2c_transaction` on the arguments of a request. -/
def i2c_transaction_req (k : timekeeping_config) (cb : i2c_callbacks) (now : timestamp)
    (malloc_ok : Bool) (r : i2c_request) (s : i2c_engine) : Option (Bool × i2c_engine) :=
  i2c_transaction k cb now malloc_ok r.addr r.wrbuf r.wrlen r.rdbuf r.rdlen
    r.completion r.comp_data s

/-- The module state after one call. -/
def i2c_step (k : timekeeping_config) (cb : i2c_callbacks) (op : i2c_op)
    (s : i2c_engine) : Option i2c_engine :=
  match op with
  | .transaction now malloc_ok r => (i2c_transaction_req k cb now malloc_ok r s).map Prod.snd
  | .poll hw => i2c_poll_atomic k cb hw s

/-- The module state after a sequence of calls, in order. -/
def i2c_run (k : timekeeping_config) (cb : i2c_callbacks) :
    List i2c_op → i2c_engine → Option i2c_engine
  | [], s => some s
  | op :: ops, s => (i2c_step k cb op s).bind (i2c_run k cb ops)

/-- Whether `i2c_transaction` accepts a request: the arguments are well
formed and the allocation succeeds. -/
def i2c_request.accepted (malloc_ok : Bool) (r : i2c_request) : Bool :=
  !(decide (r.wrlen = 0 ∧ r.rdlen = 0) || decide (r.wrlen > 0 ∧ r.wrbuf = NULL) ||
    decide (r.rdlen > 0 ∧ r.rdbuf = NULL) || !malloc_ok)

/-- The identity of a transaction: the fields of its node that the engine
never modifies. -/
def i2c_transaction_list.ident (tr : i2c_transaction_list) : Nat × Nat × Nat :=
  (tr.addr, tr.func, tr.data)

/-- The identity of the transaction a completion callback call belongs to, as
far as the call shows it: the callback and its user data. -/
def i2c_completion.ident (c : i2c_completion) : Nat × Nat :=
  (c.func, c.data)

/-- The identity of the transaction a request asks for. -/
def i2c_request.ident (r : i2c_request) : Nat × Nat × Nat :=
  (r.addr, r.completion, r.comp_data)

/-- The enqueue sequence of a sequence of calls: the requests of the accepted
`i2c_transaction` calls, in call order. -/
def i2c_enqueued : List i2c_op → List i2c_request
  | [] => []
  | .transaction _ malloc_ok r :: ops =>
    if r.accepted malloc_ok then r :: i2c_enqueued ops else i2c_enqueued ops
  | .poll _ :: ops => i2c_enqueued ops

/-- A step enters a terminal state: the state after it is `I2C_TRANS_OK_STOP_DO`
or `I2C_TRANS_FAILED_RESET` and differs from the state before. -/
def i2c_enters_terminal (s s' : i2c_engine) : Prop :=
  (s'.i2c_state = I2C_TRANS_OK_STOP_DO ∨ s'.i2c_state = I2C_TRANS_FAILED_RESET) ∧
    s'.i2c_state ≠ s.i2c_state

/-- A step releases exactly the queue head: the queue loses its first node and
nothing else, that node (as the step left it, `tr1`) is freed with the success
flag of the new state, and its callback, if it has one, is invoked once with
the user data, that flag and the read length of the node. -/
def i2c_releases_head (s s' : i2c_engine) : Prop :=
  ∃ tr rest tr1,
    s.i2c_transaction_list_head = tr :: rest ∧ tr1.ident = tr.ident ∧
    s'.i2c_transaction_list_head = rest ∧
    s'.released = s.released ++ [⟨tr1, decide (s'.i2c_state = I2C_TRANS_OK_STOP_DO)⟩] ∧
    s'.completions = s.completions ++
      (if tr1.func ≠ NULL then
        [⟨tr1.func, tr1.data, decide (s'.i2c_state = I2C_TRANS_OK_STOP_DO), tr1.rdlen_actual⟩]
       else [])

/-- A step releases nothing: no node is freed, no callback is invoked, and the
queue keeps its transactions (the same identities in the same order, every
node but the head untouched). -/
def i2c_keeps_queue (s s' : i2c_engine) : Prop :=
  s'.released = s.released ∧ s'.completions = s.completions ∧
    s'.i2c_transaction_list_head.map i2c_transaction_list.ident =
      s.i2c_transaction_list_head.map i2c_transaction_list.ident ∧
    s'.i2c_transaction_list_head.tail = s.i2c_transaction_list_head.tail

/-- An intermediate state inside a step: same state variable and histories as
at the start of the step, and a queue holding the same transactions (the head
node may have advanced). -/
def i2c_same_transactions (s s1 : i2c_engine) : Prop :=
  s1.i2c_state = s.i2c_state ∧ i2c_keeps_queue s s1

/-- The states in which `i2c_poll_atomic` works on the queue head. -/
def i2c_states.uses_head (st : i2c_states) : Bool :=
  match st with
  | I2C_START_DO | I2C_START_TX | I2C_ADDR | I2C_WRITE_FIRST | I2C_WRITE
  | I2C_REPEATED_START_DO | I2C_REPEATED_START_TX | I2C_READ_FIRST | I2C_READ => true
  | _ => false

/-- The queue node `i2c_transaction` builds for a request. -/
def i2c_request.node (r : i2c_request) : i2c_transaction_list :=
  { addr := r.addr, wrbuf := r.wrbuf, wrlen := r.wrlen, rdbuf := r.rdbuf, rdlen := r.rdlen,
    func := r.completion, data := r.comp_data, rdlen_actual := 0 }

/-- The callback call made when a node is released: none when its callback
pointer is `NULL`. -/
def i2c_release.callback (r : i2c_release) : Option i2c_completion :=
  if r.tr.func ≠ NULL then some ⟨r.tr.func, r.tr.data, r.success, r.tr.rdlen_actual⟩
  else none

/-- The queue is not empty whenever the state is one that works on its head. -/
def i2c_head_present (s : i2c_engine) : Prop :=
  s.i2c_state.uses_head = true → s.i2c_transaction_list_head ≠ []

instance (s s' : i2c_engine) : Decidable (i2c_enters_terminal s s') := by
  unfold i2c_enters_terminal
  infer_instance

instance (s s' : i2c_engine) : Decidable (i2c_keeps_queue s s') := by
  unfold i2c_keeps_queue
  infer_instance

instance (s : i2c_engine) : Decidable (i2c_head_present s) := by
  unfold i2c_head_present
  infer_instance

/-- Callbacks that do not call into the module: they may write data memory but
leave the variables of the module, the registers and the histories alone. -/
def i2c_callbacks_inert (cb : i2c_callbacks) : Prop :=
  ∀ c s, cb c s = { s with mem := (cb c s).mem }

/-! ## TC74 driver (`src/lib/tc74.c`, `src/lib/tc74.h`) -/

/-- The constant `TC74_DATA_READY_POLL_PERIOD`, in milliseconds. -/
def TC74_DATA_READY_POLL_PERIOD : Nat := 250 / 2

/-- The constant `TC74_DATA_READY_POLL_COUNT`. -/
def TC74_DATA_READY_POLL_COUNT : Nat := 3

/-- The enumeration `tc74_states`. -/
inductive tc74_states where
  | TC74_IDLE
  | TC74_CONFIG_READ_DO
  | TC74_CONFIG_READ
  | TC74_CONFIG_WRITE
  | TC74_CONFIG_WRITE_CONFIG_READ_DO
  | TC74_CONFIG_WRITE_CONFIG_READ
  | TC74_DATA_READY_WAIT_INIT
  | TC74_DATA_READY_WAIT
  | TC74_DATA_READY_CONFIG_READ_DO
  | TC74_DATA_READY_CONFIG_READ
  | TC74_TEMP_READ
  | TC74_TEMP_READ_OK
deriving DecidableEq, Repr

open tc74_states

/-- The structure `tc74_data`: one sensor instance.  `temp` is an `int8_t`,
the other numbers are `uint8_t`. -/
structure tc74_data where
  addr : Nat
  state : tc74_states
  state_changed : Bool
  i2c_trans_complete : Bool
  i2c_trans_success : Bool
  i2c_rdlen_actual : Nat
  next_data_ready_poll : timestamp
  data_ready_polls : Nat
  get_temp_result : Bool
  config : Nat
  temp : Int
deriving DecidableEq, Repr

/-- The function `tc74_is_i2c_transfer_state`. -/
def tc74_is_i2c_transfer_state (data : tc74_data) : Bool :=
  decide (data.state = TC74_CONFIG_READ) ||
    decide (data.state = TC74_CONFIG_WRITE) ||
    decide (data.state = TC74_CONFIG_WRITE_CONFIG_READ) ||
    decide (data.state = TC74_DATA_READY_CONFIG_READ) ||
    decide (data.state = TC74_TEMP_READ)

/-- The function `tc74_set_state_do`; `now` is the value stored by
`timekeeping_now_timestamp` where it is called. -/
def tc74_set_state_do (k : timekeeping_config) (now : timestamp) (state_new : tc74_states)
    (data : tc74_data) : tc74_data :=
  let d1 := { data with state := state_new }
  if d1.state = TC74_CONFIG_READ_DO then
    { d1 with get_temp_result := false }
  else if d1.state = TC74_DATA_READY_WAIT_INIT then
    let poll_period :=
      TIMESTAMPI_FROM_MS k.TIMEKEEPING_HZ (timekeeping_counts_per_tick k)
        TC74_DATA_READY_POLL_PERIOD
    { d1 with
      next_data_ready_poll := timestamp_add (timekeeping_counts_per_tick k) now poll_period,
      data_ready_polls := 1 }
  else if d1.state = TC74_TEMP_READ_OK then
    { d1 with get_temp_result := true }
  else
    d1

/-- The macro `TC74_SETSTATE`. -/
def TC74_SETSTATE (k : timekeeping_config) (now : timestamp) (state_new : tc74_states)
    (data : tc74_data) : tc74_data :=
  if data.state ≠ state_new then
    tc74_set_state_do k now state_new { data with state_changed := true }
  else
    data

/-- The function `tc74_is_busy`. -/
def tc74_is_busy (data : tc74_data) : Bool :=
  decide (data.state ≠ TC74_IDLE)

/-- The function `tc74_get_temperature`: the returned flag and the instance
after the call. -/
def tc74_get_temperature (k : timekeeping_config) (now : timestamp) (data : tc74_data) :
    Bool × tc74_data :=
  if tc74_is_busy data then (false, data)
  else (true, TC74_SETSTATE k now TC74_CONFIG_READ_DO data)

/-- The function `tc74_get_next_poll_time`: the value stored through
`next_poll`; `now` is the value stored by the call of
`timekeeping_now_timestamp` it makes. -/
def tc74_get_next_poll_time (now : timestamp) (data : tc74_data) : timestamp :=
  if data.state_changed || (tc74_is_i2c_transfer_state data && data.i2c_trans_complete) then
    now
  else if data.state = TC74_DATA_READY_WAIT then
    data.next_data_ready_poll
  else
    timekeeping_timestamp_max_future now

/-- A call of `i2c_get_next_poll_time` in state-passing form: the value stored
through `next_poll` and the module state after the call.  The body assigns no
variable of the module. -/
def i2c_get_next_poll_time_call (now : timestamp) (s : i2c_engine) :
    timestamp × i2c_engine :=
  (i2c_get_next_poll_time now s, s)

/-- A call of `tc74_get_next_poll_time` in state-passing form: the value
stored through `next_poll` and the instance after the call.  The body assigns
no field of the instance. -/
def tc74_get_next_poll_time_call (now : timestamp) (data : tc74_data) :
    timestamp × tc74_data :=
  (tc74_get_next_poll_time now data, data)

/-- Repeated calls of `i2c_get_next_poll_time`, one for each current time of
the list: the values returned and the module state after the last call. -/
def i2c_get_next_poll_time_calls :
    List timestamp → i2c_engine → List timestamp × i2c_engine
  | [], s => ([], s)
  | now :: nows, s =>
    let r := i2c_get_next_poll_time_call now s
    let rs := i2c_get_next_poll_time_calls nows r.2
    (r.1 :: rs.1, rs.2)

/-- Repeated calls of `tc74_get_next_poll_time`, one for each current time of
the list: the values returned and the instance after the last call. -/
def tc74_get_next_poll_time_calls :
    List timestamp → tc74_data → List timestamp × tc74_data
  | [], data => ([], data)
  | now :: nows, data =>
    let r := tc74_get_next_poll_time_call now data
    let rs := tc74_get_next_poll_time_calls nows r.2
    (r.1 :: rs.1, rs.2)

/-- The states in which `i2c_poll_atomic` waits for the hardware to signal a
completion (`TWINT`) and checks the transaction deadline meanwhile. -/
def i2c_states.waits_for_hw (st : i2c_states) : Bool :=
  match st with
  | I2C_START_TX | I2C_REPEATED_START_TX | I2C_ADDR | I2C_WRITE | I2C_READ => true
  | _ => false

/-- The states in which `i2c_poll_atomic` acts without waiting for the
hardware. -/
def i2c_states.acts_at_once (st : i2c_states) : Bool :=
  match st with
  | I2C_START_DO | I2C_REPEATED_START_DO | I2C_WRITE_FIRST | I2C_READ_FIRST
  | I2C_TRANS_OK_STOP_DO | I2C_TRANS_FAILED_RESET => true
  | _ => false

/-- The current time a call reads when it sets a state. -/
def i2c_op.now : i2c_op → timestamp
  | .transaction now _ _ => now
  | .poll hw => hw.now

/-- The module state as `i2c_poll_atomic` sees it when it starts: the registers
hold what the hardware presents and the state-changed flag is cleared. -/
def i2c_poll_entry (hw : i2c_hw) (s : i2c_engine) : i2c_engine :=
  { s with TWCR := hw.twcr, TWSR := hw.twsr, TWDR := hw.twdr, i2c_state_changed := false }

/-- The queue head after `i2c_poll_atomic` has handed one byte to the data
register: `wrbuf++`, `wrlen--`. -/
def i2c_write_advance (tr : i2c_transaction_list) : i2c_transaction_list :=
  { tr with wrbuf := tr.wrbuf + 1, wrlen := tr.wrlen - 1 }

/-- The queue head after `i2c_poll_atomic` has stored one received byte:
`rdbuf++`, `rdlen--`, `rdlen_actual++`, in `uint8_t` arithmetic. -/
def i2c_read_advance (tr : i2c_transaction_list) : i2c_transaction_list :=
  { tr with
    rdbuf := tr.rdbuf + 1,
    rdlen := (tr.rdlen + 256 - 1) % 256,
    rdlen_actual := (tr.rdlen_actual + 1) % 256 }

/-- How one `i2c_poll_atomic` call started in state `st` can leave the queue
head `tr`: untouched, or advanced by one byte written (in the write states,
when bytes remain), or advanced by one byte read (in `I2C_READ`). -/
def i2c_head_advance (st : i2c_states) (tr tr1 : i2c_transaction_list) : Prop :=
  tr1 = tr ∨
  ((st = I2C_WRITE_FIRST ∨ st = I2C_WRITE) ∧ tr.wrlen ≠ 0 ∧ tr1 = i2c_write_advance tr) ∨
  (st = I2C_READ ∧ tr1 = i2c_read_advance tr)

/-- Whether the lengths and the address of a request fit the `uint8_t`
parameters of `i2c_transaction`. -/
def i2c_request.in_range (r : i2c_request) : Bool :=
  decide (r.addr < 256) && decide (r.wrlen < 256) && decide (r.rdlen < 256)

/-- Whether the arguments of a call fit the C types of its parameters. -/
def i2c_op.in_range : i2c_op → Bool
  | .transaction _ _ r => r.in_range
  | .poll _ => true

/-- What a queue node tells about the read its request asked for: the
identity of the transaction, the read length asked for (the bytes read so far
plus those still to read) and the start of the read buffer (the cursor moved
back by the bytes read so far). -/
def i2c_transaction_list.origin (tr : i2c_transaction_list) : (Nat × Nat × Nat) × Nat × Int :=
  (tr.ident, tr.rdlen_actual + tr.rdlen, (tr.rdbuf : Int) - (tr.rdlen_actual : Int))

/-- The read a request asks for: its identity, read length and read buffer. -/
def i2c_request.origin (r : i2c_request) : (Nat × Nat × Nat) × Nat × Int :=
  (r.ident, r.rdlen, (r.rdbuf : Int))

/-- The values written to the data register `TWDR`, in order. -/
def i2c_twdr_writes : List i2c_hw_write → List Nat
  | [] => []
  | .TWDR val :: ws => val :: i2c_twdr_writes ws
  | _ :: ws => i2c_twdr_writes ws

/-- The hardware signals a completion with the given status: `TWINT` is set in
`TWCR` and the status bits of `TWSR` hold `status`. -/
def i2c_hw.completed (hw : i2c_hw) (status : Nat) : Bool :=
  !bit_is_clear hw.twcr TWINT && decide (hw.twsr &&& TW_STATUS_MASK = status)

/-! ## TC74 driver: the poll state machine (`src/lib/tc74.c`) -/

/-- The constant `TC74_REG_TEMP`. -/
def TC74_REG_TEMP : Nat := 0

/-- The constant `TC74_REG_CONFIG`. -/
def TC74_REG_CONFIG : Nat := 1

/-- The constant `TC74_REG_CONFIG_STANDBY`. -/
def TC74_REG_CONFIG_STANDBY : Nat := BV 7

/-- The constant `TC74_REG_CONFIG_DATA_READY`. -/
def TC74_REG_CONFIG_DATA_READY : Nat := BV 6

/-- The constant `TC74_REG_CONFIG_ZERO_MASK`. -/
def TC74_REG_CONFIG_ZERO_MASK : Nat := BV 5 ||| BV 4 ||| BV 3 ||| BV 2 ||| BV 1 ||| BV 0

/-- The array `tc74_temp_read_wr`. -/
def tc74_temp_read_wr : List Nat := [TC74_REG_TEMP]

/-- The array `tc74_config_read_wr`. -/
def tc74_config_read_wr : List Nat := [TC74_REG_CONFIG]

/-- The array `tc74_config_write_wr`. -/
def tc74_config_write_wr : List Nat := [TC74_REG_CONFIG, 0]

/-- The read buffers the driver hands to `i2c_transaction`: `NULL`,
`&data->config` or `(uint8_t *)&data->temp`. -/
inductive tc74_rdbuf where
  | null
  | config
  | temp
deriving DecidableEq, Repr

/-- The arguments of one call of `tc74_i2c_transaction`: the write buffer (its
contents, `wrlen` is its length), the read buffer and `rdlen`. -/
structure tc74_transfer where
  wrbuf : List Nat
  rdbuf : tc74_rdbuf
  rdlen : Nat
deriving DecidableEq, Repr

/-- One sensor instance together with the history of the bus transactions it
enqueued: the calls of `i2c_transaction` that returned true, in call order. -/
structure tc74_sys where
  data : tc74_data
  enqueued : List tc74_transfer
deriving DecidableEq, Repr

/-- The byte `b` read as an `int8_t`. -/
def int8_of_byte (b : Nat) : Int :=
  if b % 256 ≥ 128 then ((b % 256 : Nat) : Int) - 256 else ((b % 256 : Nat) : Int)

/-- The function `tc74_i2c_complete`, the completion callback of every
transaction of the driver. -/
def tc74_i2c_complete (success : Bool) (rdlen_actual : Nat) (data : tc74_data) : tc74_data :=
  { data with
    i2c_trans_complete := true,
    i2c_trans_success := success,
    i2c_rdlen_actual := rdlen_actual }

/-- The function `tc74_i2c_transaction`; `i2c_ok` is the value its call of
`i2c_transaction` returns. -/
def tc74_i2c_transaction (i2c_ok : Bool) (t : tc74_transfer) (s : tc74_sys) :
    Bool × tc74_sys :=
  let s1 := { s with data := { s.data with i2c_trans_complete := false } }
  (i2c_ok, if i2c_ok then { s1 with enqueued := s1.enqueued ++ [t] } else s1)

/-- The function `tc74_get_temperature_result`: the returned flag and the
value stored through `temperature`, if any; `nonnull` tells whether
`temperature != NULL`. -/
def tc74_get_temperature_result (nonnull : Bool) (data : tc74_data) : Bool × Option Int :=
  if !data.get_temp_result then (false, none)
  else (true, if nonnull then some data.temp else none)

/-- The macro `TC74_SETSTATE` on the instance of a `tc74_sys`. -/
def tc74_sys.setstate (k : timekeeping_config) (now : timestamp) (state_new : tc74_states)
    (s : tc74_sys) : tc74_sys :=
  { s with data := TC74_SETSTATE k now state_new s.data }

/-- The function `tc74_poll`.  `now` is the value stored by the call of
`timekeeping_now_timestamp` the poll makes, if it makes one, and `i2c_ok` the
value returned by its call of `i2c_transaction`, if it makes one (it makes at
most one of each).  The label `idle` is `TC74_SETSTATE(data, TC74_IDLE)`. -/
def tc74_poll (k : timekeeping_config) (now : timestamp) (i2c_ok : Bool) (s0 : tc74_sys) :
    tc74_sys :=
  let s : tc74_sys := { s0 with data := { s0.data with state_changed := false } }
  let idle := tc74_sys.setstate k now TC74_IDLE
  if s.data.state = TC74_CONFIG_READ_DO ∨ s.data.state = TC74_DATA_READY_CONFIG_READ_DO ∨
      s.data.state = TC74_CONFIG_WRITE_CONFIG_READ_DO then
    let r := tc74_i2c_transaction i2c_ok ⟨tc74_config_read_wr, .config, 1⟩ s
    if !r.1 then idle r.2
    else if r.2.data.state = TC74_CONFIG_READ_DO then
      tc74_sys.setstate k now TC74_CONFIG_READ r.2
    else if r.2.data.state = TC74_DATA_READY_CONFIG_READ_DO then
      tc74_sys.setstate k now TC74_DATA_READY_CONFIG_READ r.2
    else
      tc74_sys.setstate k now TC74_CONFIG_WRITE_CONFIG_READ r.2
  else if s.data.state = TC74_CONFIG_READ ∨ s.data.state = TC74_DATA_READY_CONFIG_READ ∨
      s.data.state = TC74_CONFIG_WRITE_CONFIG_READ then
    if !s.data.i2c_trans_complete then s
    else if !s.data.i2c_trans_success ∨ s.data.i2c_rdlen_actual ≠ 1 then idle s
    else if s.data.config &&& TC74_REG_CONFIG_ZERO_MASK ≠ 0 then idle s
    else if s.data.config &&& TC74_REG_CONFIG_STANDBY ≠ 0 then
      if s.data.state ≠ TC74_CONFIG_READ then idle s
      else
        let r := tc74_i2c_transaction i2c_ok ⟨tc74_config_write_wr, .null, 0⟩ s
        if !r.1 then idle r.2
        else tc74_sys.setstate k now TC74_CONFIG_WRITE r.2
    else if s.data.config &&& TC74_REG_CONFIG_DATA_READY = 0 then
      if s.data.state = TC74_DATA_READY_CONFIG_READ then
        let s1 : tc74_sys :=
          { s with data :=
              { s.data with data_ready_polls := (s.data.data_ready_polls + 1) % 256 } }
        if s1.data.data_ready_polls ≥ TC74_DATA_READY_POLL_COUNT then idle s1
        else tc74_sys.setstate k now TC74_DATA_READY_WAIT s1
      else
        tc74_sys.setstate k now TC74_DATA_READY_WAIT_INIT s
    else
      let r := tc74_i2c_transaction i2c_ok ⟨tc74_temp_read_wr, .temp, 1⟩ s
      if !r.1 then idle r.2
      else tc74_sys.setstate k now TC74_TEMP_READ r.2
  else if s.data.state = TC74_DATA_READY_WAIT_INIT then
    tc74_sys.setstate k now TC74_DATA_READY_WAIT s
  else if s.data.state = TC74_DATA_READY_WAIT then
    let poll_period :=
      TIMESTAMPI_FROM_MS k.TIMEKEEPING_HZ (timekeeping_counts_per_tick k)
        TC74_DATA_READY_POLL_PERIOD
    if timestamp_temporal_cmp (timekeeping_counts_per_tick k) now
        s.data.next_data_ready_poll .lt then s
    else
      let s1 : tc74_sys :=
        { s with data :=
            { s.data with
              next_data_ready_poll :=
                timestamp_add (timekeeping_counts_per_tick k) now poll_period } }
      tc74_sys.setstate k now TC74_DATA_READY_CONFIG_READ_DO s1
  else if s.data.state = TC74_CONFIG_WRITE then
    if !s.data.i2c_trans_complete then s
    else if !s.data.i2c_trans_success then idle s
    else tc74_sys.setstate k now TC74_CONFIG_WRITE_CONFIG_READ_DO s
  else if s.data.state = TC74_TEMP_READ then
    if !s.data.i2c_trans_complete then s
    else if !s.data.i2c_trans_success ∨ s.data.i2c_rdlen_actual ≠ 1 then idle s
    else tc74_sys.setstate k now TC74_TEMP_READ_OK s
  else if s.data.state = TC74_TEMP_READ_OK then idle s
  else s

/-- The function `tc74_init`. -/
def tc74_init (addr : Nat) (data : tc74_data) : tc74_data :=
  { data with addr := addr, state := TC74_IDLE, state_changed := false }

/-- What happens to a sensor instance: the calls of the caller
(`tc74_get_temperature`, `tc74_poll` with its inputs) and what the I2C engine
does on behalf of its transactions (a byte received is stored through the read
buffer of the transaction; the completion callback is invoked). -/
inductive tc74_event where
  | get_temperature (now : timestamp)
  | poll (now : timestamp) (i2c_ok : Bool)
  | i2c_store (rdbuf : tc74_rdbuf) (byte : Nat)
  | i2c_complete (success : Bool) (rdlen_actual : Nat)
deriving DecidableEq, Repr

/-- A byte stored through a read buffer of the driver. -/
def tc74_store (rdbuf : tc74_rdbuf) (byte : Nat) (data : tc74_data) : tc74_data :=
  match rdbuf with
  | .null => data
  | .config => { data with config := byte % 256 }
  | .temp => { data with temp := int8_of_byte byte }

/-- The instance and its history after one event. -/
def tc74_step (k : timekeeping_config) (e : tc74_event) (s : tc74_sys) : tc74_sys :=
  match e with
  | .get_temperature now => { s with data := (tc74_get_temperature k now s.data).2 }
  | .poll now i2c_ok => tc74_poll k now i2c_ok s
  | .i2c_store rdbuf byte => { s with data := tc74_store rdbuf byte s.data }
  | .i2c_complete success rdlen_actual =>
    { s with data := tc74_i2c_complete success rdlen_actual s.data }

/-- The instance and its history after a sequence of events, in order. -/
def tc74_run (k : timekeeping_config) : List tc74_event → tc74_sys → tc74_sys
  | [], s => s
  | e :: es, s => tc74_run k es (tc74_step k e s)

/-- The states the instance passes through: the state after each event of the
sequence, in order. -/
def tc74_trace (k : timekeeping_config) : List tc74_event → tc74_sys → List tc74_states
  | [], _ => []
  | e :: es, s => (tc74_step k e s).data.state :: tc74_trace k es (tc74_step k e s)

/-- The instance as `tc74_poll` sees it after its first statement: the
state-changed flag is cleared. -/
def tc74_poll_entry (s : tc74_sys) : tc74_sys :=
  { s with data := { s.data with state_changed := false } }

/-- A config byte the driver accepts: the reserved bits and the standby bit
are clear. -/
def tc74_config_valid (config : Nat) : Bool :=
  decide (config &&& TC74_REG_CONFIG_ZERO_MASK = 0) &&
    decide (config &&& TC74_REG_CONFIG_STANDBY = 0)

/-- The states in which the driver waits for a config-read transaction. -/
def tc74_states.is_config_read (st : tc74_states) : Bool :=
  match st with
  | TC74_CONFIG_READ | TC74_DATA_READY_CONFIG_READ | TC74_CONFIG_WRITE_CONFIG_READ => true
  | _ => false

/-- The transaction that reads the config register: register number written,
one byte read into `data->config`. -/
def tc74_config_read_transfer : tc74_transfer :=
  ⟨tc74_config_read_wr, .config, 1⟩

/-- The transaction that writes zero to the config register. -/
def tc74_config_write_transfer : tc74_transfer :=
  ⟨tc74_config_write_wr, .null, 0⟩

/-- The transaction that reads the temperature register: register number
written, one byte read into `data->temp`. -/
def tc74_temp_read_transfer : tc74_transfer :=
  ⟨tc74_temp_read_wr, .temp, 1⟩

/-- What the caller and the bus do during one read of a sensor that answers
every config read: the caller polls (its `i2c_transaction` calls are
accepted), and the I2C engine finishes a config-read transaction, storing the
byte `b` received and invoking the completion callback with success and one
byte read. -/
inductive tc74_retry_step where
  | poll (now : timestamp)
  | answer (b : Nat)
deriving DecidableEq, Repr

/-- The events of one step of such a read. -/
def tc74_retry_step.events : tc74_retry_step → List tc74_event
  | .poll now => [tc74_event.poll now true]
  | .answer b => [tc74_event.i2c_store tc74_rdbuf.config b, tc74_event.i2c_complete true 1]

/-- The events of a sequence of such steps, in order. -/
def tc74_retry_events : List tc74_retry_step → List tc74_event
  | [] => []
  | st :: sts => st.events ++ tc74_retry_events sts

/-- The bookkeeping of a read whose config reads all return a valid byte with
the data-ready bit clear: every transaction enqueued so far is a config read,
no result is latched, a completed config read left such a byte (once the first
config read has been enqueued), and the number
of config reads enqueued follows the state and the retry counter
`data_ready_polls`. -/
def tc74_retry_inv (s : tc74_sys) : Prop :=
  (∀ t ∈ s.enqueued, t = tc74_config_read_transfer) ∧
  s.data.get_temp_result = false ∧
  (s.data.state ≠ TC74_CONFIG_READ_DO → s.data.i2c_trans_complete = true →
    s.data.i2c_trans_success = true ∧ s.data.i2c_rdlen_actual = 1 ∧
    tc74_config_valid s.data.config = true ∧
    s.data.config &&& TC74_REG_CONFIG_DATA_READY = 0) ∧
  (s.data.state = TC74_CONFIG_READ_DO ∧ s.enqueued.length = 0 ∨
   s.data.state = TC74_CONFIG_READ ∧ s.enqueued.length = 1 ∨
   s.data.state = TC74_DATA_READY_WAIT_INIT ∧ s.enqueued.length = 1 ∧
     s.data.data_ready_polls = 1 ∨
   s.data.state = TC74_DATA_READY_WAIT ∧ s.enqueued.length = s.data.data_ready_polls ∧
     1 ≤ s.data.data_ready_polls ∧ s.data.data_ready_polls ≤ 2 ∨
   s.data.state = TC74_DATA_READY_CONFIG_READ_DO ∧
     s.enqueued.length = s.data.data_ready_polls ∧
     1 ≤ s.data.data_ready_polls ∧ s.data.data_ready_polls ≤ 2 ∨
   s.data.state = TC74_DATA_READY_CONFIG_READ ∧
     s.enqueued.length = s.data.data_ready_polls + 1 ∧
     1 ≤ s.data.data_ready_polls ∧ s.data.data_ready_polls ≤ 2 ∨
   s.data.state = TC74_IDLE ∧ s.enqueued.length = TC74_DATA_READY_POLL_COUNT)

/-! ## Debug log buffer (`src/lib/debug.c`) -/

/-- The default value of `DEBUG_BUF_SIZE` (`UINT8_MAX`); a build may define
another, so the functions below take the size as the parameter `size`. -/
def DEBUG_BUF_SIZE : Nat := 255

/-- The number of values of the type `DEBUG_BUF_LEN_T`: `uint8_t` when the
buffer size is at most `UINT8_MAX`, else `uint16_t`. -/
def DEBUG_BUF_LEN_T (size : Nat) : Nat :=
  if size ≤ 255 then 256 else 65536

/-- The statics `debug_buf`, `debug_buf_first_element` and
`debug_buf_valid_length`. -/
structure debug_state where
  debug_buf : List Nat
  debug_buf_first_element : Nat
  debug_buf_valid_length : Nat
deriving DecidableEq, Repr

/-- The statics at program start (zero-initialised) and after
`debug_buf_reset_atomic`, which `debug_setup` calls. -/
def debug_setup (size : Nat) : debug_state :=
  ⟨List.replicate size 0, 0, 0⟩

/-- The function `debug_buf_is_empty_atomic`. -/
def debug_buf_is_empty_atomic (s : debug_state) : Bool :=
  decide (s.debug_buf_valid_length = 0)

/-- The function `debug_put_atomic`.  The sum is computed in `int` when
`DEBUG_BUF_LEN_T` is `uint8_t`, where it cannot overflow, and in the 16-bit
`unsigned int` when it is `uint16_t`. -/
def debug_put_atomic (size : Nat) (data : Nat) (s : debug_state) : debug_state :=
  let sum :=
    if size ≤ 255 then s.debug_buf_first_element + s.debug_buf_valid_length
    else (s.debug_buf_first_element + s.debug_buf_valid_length) % 65536
  let idx := sum % size % DEBUG_BUF_LEN_T size
  let s1 := { s with debug_buf := s.debug_buf.set idx (data % 256) }
  if s1.debug_buf_valid_length < size then
    { s1 with debug_buf_valid_length := (s1.debug_buf_valid_length + 1) % DEBUG_BUF_LEN_T size }
  else
    s1

/-- The function `debug_buf_get_atomic`: the byte returned and the statics
after the call. -/
def debug_buf_get_atomic (size : Nat) (s : debug_state) : Nat × debug_state :=
  let idx := s.debug_buf_first_element
  let data := s.debug_buf.getD idx 0
  let first1 := (s.debug_buf_first_element + 1) % DEBUG_BUF_LEN_T size
  let first2 := first1 % size % DEBUG_BUF_LEN_T size
  (data,
    { s with
      debug_buf_first_element := first2,
      debug_buf_valid_length :=
        (s.debug_buf_valid_length + DEBUG_BUF_LEN_T size - 1) % DEBUG_BUF_LEN_T size })

/-- The function `debug_put`; the notification callback it invokes afterwards
does not touch the buffer. -/
def debug_put (size : Nat) (data : Nat) (s : debug_state) : debug_state :=
  debug_put_atomic size data s

/-- The function `debug_buf_get`: the byte stored through `out`, if the call
returns true, and the statics after the call. -/
def debug_buf_get (size : Nat) (s : debug_state) : Option Nat × debug_state :=
  if !debug_buf_is_empty_atomic s then
    let r := debug_buf_get_atomic size s
    (some r.1, r.2)
  else
    (none, s)

/-- A call of the debug log buffer. -/
inductive debug_call where
  | put (data : Nat)
  | get
deriving DecidableEq, Repr

/-- The bytes read out by the `debug_buf_get` calls of a sequence of calls, in
order, and the statics after it. -/
def debug_run (size : Nat) : List debug_call → debug_state → List Nat × debug_state
  | [], s => ([], s)
  | .put data :: cs, s => debug_run size cs (debug_put size data s)
  | .get :: cs, s =>
    let r := debug_buf_get size s
    let rest := debug_run size cs r.2
    (match r.1 with
     | some b => b :: rest.1
     | none => rest.1, rest.2)

/-! ## Reading the clock (`src/lib/timekeeping.c`) -/

/-- What `timekeeping_now_timestamp` works on: the static `timekeeping_ticks`,
the compare-match flag `OCF3A` of the register `TIFR3`, and how many times the
function has cleared that flag (a history, not a variable of the program).
Interrupts are off inside the function, so nothing else changes
`timekeeping_ticks` meanwhile. -/
structure timekeeping_state where
  timekeeping_ticks : Nat
  OCF3A : Bool
  cleared : Nat
deriving DecidableEq, Repr

/-- What the timer does around one turn of the loop: whether a compare match
(tick overflow) happens before the first read of `TIFR3`, the value `TCNT3`
holds when it is read, and whether a compare match happens after the first
read of `TIFR3` and before the second. -/
structure timer3_obs where
  match_before : Bool
  TCNT3 : Nat
  match_after : Bool
deriving DecidableEq, Repr

/-- What a call of `timekeeping_now_timestamp` leaves: the value stored
through `out`, the state, and what the timer does after the call. -/
structure timekeeping_now_result where
  out : timestamp
  state : timekeeping_state
  rest : List timer3_obs
deriving DecidableEq, Repr

/-- The function `timekeeping_now_timestamp`, one turn of its loop per element
of `obs`; `none` when the loop has not ended after all of `obs`. -/
def timekeeping_now_timestamp :
    List timer3_obs → timekeeping_state → Option timekeeping_now_result
  | [], _ => none
  | o :: os, s =>
    let s0 : timekeeping_state := { s with OCF3A := s.OCF3A || o.match_before }
    let s1 : timekeeping_state :=
      if s0.OCF3A then
        { s0 with
          timekeeping_ticks := (s0.timekeeping_ticks + 1) % 4294967296,
          OCF3A := false,
          cleared := s0.cleared + 1 }
      else s0
    let counts := o.TCNT3 % 65536
    let s2 : timekeeping_state := { s1 with OCF3A := s1.OCF3A || o.match_after }
    if s2.OCF3A then timekeeping_now_timestamp os s2
    else some ⟨⟨s2.timekeeping_ticks, counts⟩, s2, os⟩

/-! ## Main loop: next wake-up time (`src/smartupsaddon/main.c`) -/

/-- The macro `MAIN_GET_TIMEOUT` on the locals `next_poll_time` and
`next_poll_time_set` of `main`, with `module_next_poll_time` the value the
module function stored and `cpt` the value of `timekeeping_counts_per_tick()`. -/
def MAIN_GET_TIMEOUT (cpt : Nat) (module_next_poll_time : timestamp)
    (st : timestamp × Bool) : timestamp × Bool :=
  if !st.2 || timestamp_temporal_cmp cpt module_next_poll_time st.1 .lt then
    (module_next_poll_time, true)
  else
    st

/-- The locals `next_poll_time` and `next_poll_time_set` of `main` after its
three `MAIN_GET_TIMEOUT` lines, for the times stored by
`temp_get_next_poll_time`, `serial_get_next_poll_time` and
`i2c_get_next_poll_time`; `uninit` is what the uninitialised `next_poll_time`
holds. -/
def main_next_poll_time (cpt : Nat) (uninit temp_next serial_next i2c_next : timestamp) :
    timestamp × Bool :=
  MAIN_GET_TIMEOUT cpt i2c_next
    (MAIN_GET_TIMEOUT cpt serial_next
      (MAIN_GET_TIMEOUT cpt temp_next (uninit, false)))

/-- How far the time `t` lies after the reference time `r`, as one number:
the difference `timestamp_diff(t, r)` with the ticks weighted by 65536. -/
def timestamp_offset (cpt : Nat) (r t : timestamp) : Nat :=
  (timestamp_diff cpt t r).ticks * 65536 + (timestamp_diff cpt t r).counts

/-! ## The transition table of the I2C engine -/

/-- The phases of the engine by the names the transition table uses. -/
inductive i2c_phase where
  | Idle
  | Reset
  | StartPending
  | StartSent
  | AddressPhase
  | WritePhase
  | RepeatedStartPending
  | RepeatedStartSent
  | ReadPhase
  | StopPending
  | StopSent
  | FailedNeedsReset
deriving DecidableEq, Repr

/-- The phase of the transition table each value of `i2c_states` stands for:
the write phase is `I2C_WRITE_FIRST` (before the first byte) and `I2C_WRITE`,
the read phase `I2C_READ_FIRST` and `I2C_READ`. -/
def i2c_states.phase : i2c_states → i2c_phase
  | I2C_IDLE => .Idle
  | I2C_RESET => .Reset
  | I2C_START_DO => .StartPending
  | I2C_START_TX => .StartSent
  | I2C_ADDR => .AddressPhase
  | I2C_WRITE_FIRST => .WritePhase
  | I2C_WRITE => .WritePhase
  | I2C_REPEATED_START_DO => .RepeatedStartPending
  | I2C_REPEATED_START_TX => .RepeatedStartSent
  | I2C_READ_FIRST => .ReadPhase
  | I2C_READ => .ReadPhase
  | I2C_TRANS_OK_STOP_DO => .StopPending
  | I2C_TRANS_OK_STOP_TX => .StopSent
  | I2C_TRANS_FAILED_RESET => .FailedNeedsReset

/-- The phases in which the engine waits for the hardware to finish a bus
operation of the transaction: start sent, repeated start sent, address, write
and read. -/
def i2c_phase.hardware_wait : i2c_phase → Bool
  | .StartSent | .RepeatedStartSent | .AddressPhase | .WritePhase | .ReadPhase => true
  | _ => false

/-- The transition table, as the specification words it: whether there is an
edge from the phase `p` to the phase `q`, with `queue_empty` telling whether
the transaction queue is empty. -/
def i2c_phase_edge (queue_empty : Bool) (p q : i2c_phase) : Bool :=
  match p, q with
  | .StartPending, .StartSent => true
  | .RepeatedStartPending, .RepeatedStartSent => true
  | .StartSent, .AddressPhase => true
  | .RepeatedStartSent, .AddressPhase => true
  | .AddressPhase, .WritePhase => true
  | .AddressPhase, .ReadPhase => true
  | .WritePhase, .WritePhase => true
  | .WritePhase, .RepeatedStartPending => true
  | .WritePhase, .StopPending => true
  | .ReadPhase, .ReadPhase => true
  | .ReadPhase, .StopPending => true
  | .StopPending, .StopSent => true
  | .FailedNeedsReset, .Reset => true
  | .StopSent, .Reset => true
  | .StopSent, .StartPending => !queue_empty
  | .Reset, .StartPending => !queue_empty
  | .StopSent, .Idle => queue_empty
  | .Reset, .Idle => queue_empty
  | p, .FailedNeedsReset => p.hardware_wait
  | _, _ => false

/-! ## Completion callbacks that enqueue -/

/-- A completion callback that calls `i2c_transaction` with the arguments of
the request `r` (the allocation succeeds, `now` is the time read if the state
is set) and does nothing else. -/
def i2c_callback_enqueue (k : timekeeping_config) (now : timestamp) (r : i2c_request) :
    i2c_callbacks :=
  fun _ s =>
    match i2c_transaction_req k (fun _ s1 => s1) now true r s with
    | some (_, s') => s'
    | none => s

/-- What the `i2c_transaction` call of such a callback returns when the
callback is invoked in the state `s`. -/
def i2c_callback_enqueue_result (k : timekeeping_config) (now : timestamp) (r : i2c_request)
    (s : i2c_engine) : Option Bool :=
  (i2c_transaction_req k (fun _ s1 => s1) now true r s).map Prod.fst

/-- A completion callback that calls `i2c_transaction` with the arguments of
the request `r` when it is invoked for the transaction with the user data
`data`, and does nothing for any other transaction. -/
def i2c_callback_enqueue_on (k : timekeeping_config) (now : timestamp) (data : Nat)
    (r : i2c_request) : i2c_callbacks :=
  fun c s => if c.data = data then i2c_callback_enqueue k now r c s else s

/-- The values written to the control register `TWCR`, in order. -/
def i2c_twcr_writes : List i2c_hw_write → List Nat
  | [] => []
  | .TWCR val :: ws => val :: i2c_twcr_writes ws
  | _ :: ws => i2c_twcr_writes ws

/-- The hardware keeps to the direction of the address byte at one call: when
an `i2c_poll_atomic` call in `I2C_ADDR` is presented the status
`TW_MR_SLA_ACK` (the address of a read acknowledged), the queue head has
nothing left to write, as it has whenever the engine sent the address with the
read bit. -/
def i2c_direction_kept (op : i2c_op) (s : i2c_engine) : Bool :=
  match op with
  | .poll hw =>
    !(decide (s.i2c_state = I2C_ADDR) && hw.completed TW_MR_SLA_ACK) ||
      (match s.i2c_transaction_list_head with
       | [] => true
       | tr :: _ => decide (tr.wrlen = 0))
  | .transaction _ _ _ => true

/-- The hardware keeps to the direction of the address byte at every call of a
sequence. -/
def i2c_run_direction_kept (k : timekeeping_config) (cb : i2c_callbacks) :
    List i2c_op → i2c_engine → Bool
  | [], _ => true
  | op :: ops, s =>
    i2c_direction_kept op s &&
      (match i2c_step k cb op s with
       | some s1 => i2c_run_direction_kept k cb ops s1
       | none => true)

/-! ## Theorems: timekeeping -/

/-- A configuration that passes the static assertions has between 2 and 65536
counts per tick. -/
theorem timekeeping_counts_per_tick_range (k : timekeeping_config)
    (h : timekeeping_static_asserts k) :
    2 ≤ timekeeping_counts_per_tick k ∧ timekeeping_counts_per_tick k ≤ 65536 := by
  simp only [timekeeping_static_asserts, UINT16_MAX] at h
  simp only [timekeeping_counts_per_tick, timekeeping_counts_per_tick_internal]
  split at h <;> omega

/-- Reduction of a linearised value modulo the full range: the quotient is
reduced and the sub-tick part is kept. -/
theorem linear_mod (q c m cpt : Nat) (hm : 0 < m) (hc : c < cpt) :
    (q * cpt + c) % (m * cpt) = (q % m) * cpt + c := by
  have hq : q * cpt + c = (q % m * cpt + c) + m * cpt * (q / m) := by
    have := Nat.div_add_mod q m
    calc q * cpt + c = (m * (q / m) + q % m) * cpt + c := by rw [this]
      _ = (q % m * cpt + c) + m * cpt * (q / m) := by ring
  rw [hq, Nat.add_mul_mod_self_left]
  apply Nat.mod_eq_of_lt
  have h1 : q % m < m := Nat.mod_lt _ hm
  have h2 : (q % m + 1) * cpt ≤ m * cpt := Nat.mul_le_mul_right _ h1
  have h3 : (q % m + 1) * cpt = q % m * cpt + cpt := by ring
  omega

/-- C1: adding the difference of two valid timestamps back to the subtrahend
gives the minuend again, in ticks and in counts.  It holds for every pair of
valid timestamps, so in particular when the first is temporally not earlier
than the second, when its ticks have wrapped relative to the second and in the
borrow case of the counts. -/
theorem timestamp_add_diff_roundtrip (cpt : Nat) (a b : timestamp)
    (hcpt : cpt ≤ 65536) (ha : a.valid cpt) (hb : b.valid cpt) :
    timestamp_add cpt b (timestamp_diff cpt a b) = a := by
  obtain ⟨hat, hac⟩ := ha
  obtain ⟨hbt, hbc⟩ := hb
  obtain ⟨at_, ac⟩ := a
  obtain ⟨bt, bc⟩ := b
  simp only at hat hac hbt hbc
  by_cases h : ac ≥ bc
  · simp only [timestamp_add, timestamp_diff, h, if_true]
    split <;> simp only [timestamp.mk.injEq] <;> omega
  · simp only [timestamp_add, timestamp_diff, h, if_false]
    split <;> simp only [timestamp.mk.injEq] <;> omega

/-- Witness of C1: a pair whose ticks wrapped and whose counts borrow. -/
theorem timestamp_add_diff_roundtrip_witness :
    timestamp_add 31250 ⟨4294967295, 30000⟩
      (timestamp_diff 31250 ⟨2, 5⟩ ⟨4294967295, 30000⟩) = ⟨2, 5⟩ :=
  timestamp_add_diff_roundtrip 31250 ⟨2, 5⟩ ⟨4294967295, 30000⟩ (by decide)
    ⟨by decide, by decide⟩ ⟨by decide, by decide⟩

/-- C2: `timestamp_temporal_cmp` is the half-range rule on the difference
`d = timestamp_diff(a, b)`: `>` holds exactly when `d` is non-zero and at most
`(UINT32_MAX / 2, 0)`, `<` exactly when `d` exceeds that limit, `==` exactly
when `d` is zero, and `>=`, `<=`, `!=` are the unions and the complement. -/
theorem timestamp_temporal_cmp_half_range (cpt : Nat) (a b : timestamp) :
    (timestamp_temporal_cmp cpt a b .gt = true ↔
      (timestampi_iszero (timestamp_diff cpt a b) = false ∧
       timestampi_cmp (timestamp_diff cpt a b) ⟨UINT32_MAX / 2, 0⟩ .le = true)) ∧
    (timestamp_temporal_cmp cpt a b .lt = true ↔
      timestampi_cmp (timestamp_diff cpt a b) ⟨UINT32_MAX / 2, 0⟩ .gt = true) ∧
    (timestamp_temporal_cmp cpt a b .eq = true ↔
      timestampi_iszero (timestamp_diff cpt a b) = true) ∧
    (timestamp_temporal_cmp cpt a b .ge =
      (timestamp_temporal_cmp cpt a b .gt || timestamp_temporal_cmp cpt a b .eq)) ∧
    (timestamp_temporal_cmp cpt a b .le =
      (timestamp_temporal_cmp cpt a b .lt || timestamp_temporal_cmp cpt a b .eq)) ∧
    (timestamp_temporal_cmp cpt a b .ne = !timestamp_temporal_cmp cpt a b .eq) := by
  simp only [timestamp_temporal_cmp]
  generalize timestamp_diff cpt a b = d
  obtain ⟨dt, dc⟩ := d
  simp only [timestampi_iszero, timestampi_cmp, timestamp_cmp_internal, cmp_oper.eval,
    UINT32_MAX]
  by_cases h1 : dt = 0 <;> by_cases h2 : dc = 0 <;> by_cases h3 : dt = 4294967295 / 2 <;>
    simp [h1, h2, h3]

/-- The difference between a stepped timestamp and its origin is the step. -/
theorem timestamp_diff_add (cpt : Nat) (a : timestamp) (d : timestamp_interval)
    (hcpt : cpt ≤ 65536) (ha : a.valid cpt) (hd : d.valid cpt) :
    timestamp_diff cpt (timestamp_add cpt a d) a = d := by
  obtain ⟨hat, hac⟩ := ha
  obtain ⟨hdt, hdc⟩ := hd
  obtain ⟨at_, ac⟩ := a
  obtain ⟨dt, dc⟩ := d
  simp only at hat hac hdt hdc
  by_cases h : (ac + dc) % 4294967296 ≥ cpt
  · simp only [timestamp_add, h, if_true, timestamp_diff]
    split <;> simp only [timestamp_interval.mk.injEq] <;> omega
  · simp only [timestamp_add, h, if_false, timestamp_diff]
    split <;> simp only [timestamp_interval.mk.injEq] <;> omega

/-- The difference between an origin and a timestamp stepped from it is the
negated step: the ticks are negated modulo `2^32`, with one more tick borrowed
when the step has a sub-tick part. -/
theorem timestamp_diff_add_rev (cpt : Nat) (a : timestamp) (d : timestamp_interval)
    (hcpt : cpt ≤ 65536) (ha : a.valid cpt) (hd : d.valid cpt) :
    timestamp_diff cpt a (timestamp_add cpt a d) =
      if d.counts = 0 then ⟨(4294967296 - d.ticks) % 4294967296, 0⟩
      else ⟨4294967295 - d.ticks, cpt - d.counts⟩ := by
  obtain ⟨hat, hac⟩ := ha
  obtain ⟨hdt, hdc⟩ := hd
  obtain ⟨at_, ac⟩ := a
  obtain ⟨dt, dc⟩ := d
  simp only at hat hac hdt hdc
  by_cases h : (ac + dc) % 4294967296 ≥ cpt
  · simp only [timestamp_add, h, if_true, timestamp_diff]
    split <;> split <;> simp only [timestamp_interval.mk.injEq] <;> omega
  · simp only [timestamp_add, h, if_false, timestamp_diff]
    split <;> split <;> simp only [timestamp_interval.mk.injEq] <;> omega

/-- C3: stepping a valid timestamp `a` forward by a non-zero valid interval
`d` of at most `(UINT32_MAX / 2, 0)` gives a `b` with `b > a` and `a < b`
temporally, also when the ticks overflow 32 bits; for `a = (UINT32_MAX, 0)`,
`d = (1, 0)` the sum is `(0, 0)` and the raw compare reports `b < a`. -/
theorem timestamp_temporal_cmp_wraparound (cpt : Nat) (a : timestamp)
    (d : timestamp_interval) (hcpt : cpt ≤ 65536) (ha : a.valid cpt) (hd : d.valid cpt)
    (hnz : timestampi_iszero d = false)
    (hle : timestampi_cmp d ⟨UINT32_MAX / 2, 0⟩ .le = true) :
    timestamp_temporal_cmp cpt (timestamp_add cpt a d) a .gt = true ∧
    timestamp_temporal_cmp cpt a (timestamp_add cpt a d) .lt = true ∧
    timestamp_add cpt ⟨UINT32_MAX, 0⟩ ⟨1, 0⟩ = ⟨0, 0⟩ ∧
    timestamp_value_cmp ⟨0, 0⟩ ⟨UINT32_MAX, 0⟩ .lt = true := by
  obtain ⟨hat, hac⟩ := ha
  obtain ⟨hdt, hdc⟩ := hd
  obtain ⟨at_, ac⟩ := a
  obtain ⟨dt, dc⟩ := d
  simp only at hat hac hdt hdc
  simp only [timestampi_iszero, timestampi_cmp, timestamp_cmp_internal, cmp_oper.eval,
    UINT32_MAX, Bool.and_eq_false_imp, decide_eq_true_eq, decide_eq_false_iff_not] at hnz hle
  have hlim : dt < 2147483647 ∨ (dt = 2147483647 ∧ dc = 0) := by
    split at hle
    · right; simp only [decide_eq_true_eq] at hle; omega
    · left; simp only [decide_eq_true_eq] at hle; omega
  have hnz2 : dt ≠ 0 ∨ dc ≠ 0 := by
    by_cases h : dt = 0
    · right; exact hnz h
    · left; exact h
  refine ⟨?_, ?_, ?_, ?_⟩
  · simp only [timestamp_temporal_cmp,
      timestamp_diff_add cpt ⟨at_, ac⟩ ⟨dt, dc⟩ hcpt ⟨hat, hac⟩ ⟨hdt, hdc⟩]
    simp only [timestampi_iszero, timestampi_cmp, timestamp_cmp_internal, cmp_oper.eval,
      UINT32_MAX]
    clear hle hnz
    rcases hlim with h | ⟨h, h0⟩ <;> rcases hnz2 with g | g <;> simp [h, g] <;>
      first | omega | (split <;> omega)
  · simp only [timestamp_temporal_cmp,
      timestamp_diff_add_rev cpt ⟨at_, ac⟩ ⟨dt, dc⟩ hcpt ⟨hat, hac⟩ ⟨hdt, hdc⟩]
    simp only [timestampi_iszero, timestampi_cmp, timestamp_cmp_internal, cmp_oper.eval,
      UINT32_MAX]
    by_cases g : dc = 0
    · simp only [g, if_true]
      simp
      omega
    · simp only [g, if_false]
      simp
      refine ⟨by omega, ?_⟩
      split <;> omega
  · simp only [timestamp_add, UINT32_MAX]
    have : ¬ (0 + 0) % 4294967296 ≥ cpt := by omega
    simp only [this, if_false, timestamp.mk.injEq]
  · decide

/-- Witness of C3: the pair straddling the maximum of the tick counter. -/
theorem timestamp_temporal_cmp_wraparound_witness :
    timestamp_temporal_cmp 31250 (timestamp_add 31250 ⟨4294967295, 0⟩ ⟨1, 0⟩)
      ⟨4294967295, 0⟩ .gt = true ∧
    timestamp_temporal_cmp 31250 ⟨4294967295, 0⟩
      (timestamp_add 31250 ⟨4294967295, 0⟩ ⟨1, 0⟩) .lt = true ∧
    timestamp_add 31250 ⟨UINT32_MAX, 0⟩ ⟨1, 0⟩ = ⟨0, 0⟩ ∧
    timestamp_value_cmp ⟨0, 0⟩ ⟨UINT32_MAX, 0⟩ .lt = true :=
  timestamp_temporal_cmp_wraparound 31250 ⟨4294967295, 0⟩ ⟨1, 0⟩ (by decide)
    ⟨by decide, by decide⟩ ⟨by decide, by decide⟩ (by decide) (by decide)

/-- C4: on valid operands `timestamp_add` and `timestamp_diff` are exact
modular arithmetic on the linearised time `ticks * counts_per_tick + counts`,
modulo `2^32 * counts_per_tick`: a carry or borrow between counts and ticks is
applied exactly once. -/
theorem timestamp_arith_linear (cpt : Nat) (t a b : timestamp) (i : timestamp_interval)
    (hcpt : cpt ≤ 65536) (ht : t.valid cpt) (hi : i.valid cpt)
    (ha : a.valid cpt) (hb : b.valid cpt) :
    (timestamp_add cpt t i).linear cpt =
      (t.linear cpt + i.linear cpt) % (4294967296 * cpt) ∧
    (((timestamp_diff cpt a b).linear cpt : Nat) : Int) =
      ((a.linear cpt : Int) - (b.linear cpt : Int)) % ((4294967296 * cpt : Nat) : Int) := by
  constructor
  · obtain ⟨htt, htc⟩ := ht
    obtain ⟨hit, hic⟩ := hi
    obtain ⟨tt, tc⟩ := t
    obtain ⟨it, ic⟩ := i
    simp only at htt htc hit hic
    simp only [timestamp.linear, timestamp_interval.linear]
    by_cases h : (tc + ic) % 4294967296 ≥ cpt
    · have e1 : timestamp_add cpt ⟨tt, tc⟩ ⟨it, ic⟩ =
          ⟨(tt + it + 1) % 4294967296, tc + ic - cpt⟩ := by
        simp only [timestamp_add, h, if_true, timestamp.mk.injEq, true_and]
        omega
      rw [e1]
      have e2 : tt * cpt + tc + (it * cpt + ic) = (tt + it + 1) * cpt + (tc + ic - cpt) := by
        have : (tt + it + 1) * cpt = tt * cpt + it * cpt + cpt := by ring
        omega
      rw [e2, linear_mod _ _ _ _ (by decide) (by omega)]
    · have e1 : timestamp_add cpt ⟨tt, tc⟩ ⟨it, ic⟩ =
          ⟨(tt + it) % 4294967296, tc + ic⟩ := by
        simp only [timestamp_add, h, if_false, timestamp.mk.injEq, true_and]
        omega
      rw [e1]
      have e2 : tt * cpt + tc + (it * cpt + ic) = (tt + it) * cpt + (tc + ic) := by ring
      rw [e2, linear_mod _ _ _ _ (by decide) (by omega)]
  · obtain ⟨hat, hac⟩ := ha
    obtain ⟨hbt, hbc⟩ := hb
    obtain ⟨at_, ac⟩ := a
    obtain ⟨bt, bc⟩ := b
    simp only at hat hac hbt hbc
    simp only [timestamp.linear, timestamp_interval.linear]
    have key : ∀ q c : Nat, c < cpt →
        q * cpt + c + (bt * cpt + bc) = at_ * cpt + ac + 4294967296 * cpt →
        (((q % 4294967296) * cpt + c : Nat) : Int) =
          (((at_ * cpt + ac : Nat) : Int) - ((bt * cpt + bc : Nat) : Int)) %
            ((4294967296 * cpt : Nat) : Int) := by
      intro q c hc hq
      rw [← linear_mod q c 4294967296 cpt (by decide) hc]
      have : (((at_ * cpt + ac : Nat) : Int) - ((bt * cpt + bc : Nat) : Int)) =
          ((q * cpt + c : Nat) : Int) - ((4294967296 * cpt : Nat) : Int) := by
        omega
      rw [this, Int.sub_emod, Int.emod_self, sub_zero, Int.emod_emod_of_dvd _ (dvd_refl _)]
      exact Int.natCast_mod _ _
    by_cases h : ac ≥ bc
    · have e1 : timestamp_diff cpt ⟨at_, ac⟩ ⟨bt, bc⟩ =
          ⟨(at_ + 4294967296 - bt) % 4294967296, ac - bc⟩ := by
        simp only [timestamp_diff, h, if_true, timestamp_interval.mk.injEq, true_and]
        omega
      rw [e1]
      dsimp only
      apply key _ _ (by omega)
      have : (at_ + 4294967296 - bt) * cpt + bt * cpt = at_ * cpt + 4294967296 * cpt := by
        rw [← Nat.add_mul, ← Nat.add_mul]
        congr 1
        omega
      omega
    · have e1 : timestamp_diff cpt ⟨at_, ac⟩ ⟨bt, bc⟩ =
          ⟨(at_ + 4294967296 - bt - 1) % 4294967296, cpt - bc + ac⟩ := by
        simp only [timestamp_diff, h, if_false, timestamp_interval.mk.injEq, true_and]
        omega
      rw [e1]
      dsimp only
      apply key _ _ (by omega)
      have : (at_ + 4294967296 - bt - 1) * cpt + bt * cpt + cpt =
          at_ * cpt + 4294967296 * cpt := by
        have e : (at_ + 4294967296 - bt - 1) * cpt + bt * cpt + cpt =
            (at_ + 4294967296 - bt - 1 + bt + 1) * cpt := by ring
        rw [e, ← Nat.add_mul]
        congr 1
        omega
      omega

/-- Witness of C4: a carry in the addition and a borrow with wrapped ticks in
the difference. -/
theorem timestamp_arith_linear_witness :
    (timestamp_add 31250 ⟨4294967295, 31000⟩ ⟨3, 500⟩).linear 31250 =
      ((⟨4294967295, 31000⟩ : timestamp).linear 31250 +
        (⟨3, 500⟩ : timestamp_interval).linear 31250) % (4294967296 * 31250) ∧
    (((timestamp_diff 31250 ⟨2, 5⟩ ⟨4294967295, 30000⟩).linear 31250 : Nat) : Int) =
      (((⟨2, 5⟩ : timestamp).linear 31250 : Int) -
        ((⟨4294967295, 30000⟩ : timestamp).linear 31250 : Int)) %
        ((4294967296 * 31250 : Nat) : Int) :=
  timestamp_arith_linear 31250 ⟨4294967295, 31000⟩ ⟨2, 5⟩ ⟨4294967295, 30000⟩ ⟨3, 500⟩
    (by decide) ⟨by decide, by decide⟩ ⟨by decide, by decide⟩ ⟨by decide, by decide⟩
    ⟨by decide, by decide⟩

/-- C5: for every counts per tick between 2 and 65536, `timestamp_add` and
`timestamp_diff` on valid operands give a valid result, whose counts are the
untruncated sum or difference reduced modulo the counts per tick. -/
theorem timestamp_arith_counts_valid (cpt : Nat) (t a b : timestamp) (i : timestamp_interval)
    (hlo : 2 ≤ cpt) (hhi : cpt ≤ 65536) (ht : t.valid cpt) (hi : i.valid cpt)
    (ha : a.valid cpt) (hb : b.valid cpt) :
    (timestamp_add cpt t i).valid cpt ∧
    (timestamp_add cpt t i).counts = (t.counts + i.counts) % cpt ∧
    (timestamp_diff cpt a b).valid cpt ∧
    (timestamp_diff cpt a b).counts = (a.counts + cpt - b.counts) % cpt := by
  obtain ⟨htt, htc⟩ := ht
  obtain ⟨hit, hic⟩ := hi
  obtain ⟨hat, hac⟩ := ha
  obtain ⟨hbt, hbc⟩ := hb
  have hadd : (timestamp_add cpt t i).ticks < 4294967296 ∧
      (timestamp_add cpt t i).counts < cpt ∧
      ((timestamp_add cpt t i).counts = t.counts + i.counts ∨
        (timestamp_add cpt t i).counts + cpt = t.counts + i.counts) := by
    simp only [timestamp_add]
    split <;> dsimp only <;> omega
  have hdiff : (timestamp_diff cpt a b).ticks < 4294967296 ∧
      (timestamp_diff cpt a b).counts < cpt ∧
      ((timestamp_diff cpt a b).counts + b.counts = a.counts ∨
        (timestamp_diff cpt a b).counts + b.counts = a.counts + cpt) := by
    simp only [timestamp_diff]
    split <;> dsimp only <;> omega
  refine ⟨⟨hadd.1, hadd.2.1⟩, ?_, ⟨hdiff.1, hdiff.2.1⟩, ?_⟩
  · rcases hadd.2.2 with h | h
    · rw [← h, Nat.mod_eq_of_lt hadd.2.1]
    · rw [← h, Nat.add_mod_right, Nat.mod_eq_of_lt hadd.2.1]
  · rcases hdiff.2.2 with h | h
    · have e : a.counts + cpt - b.counts = (timestamp_diff cpt a b).counts + cpt := by omega
      rw [e, Nat.add_mod_right, Nat.mod_eq_of_lt hdiff.2.1]
    · have e : a.counts + cpt - b.counts = (timestamp_diff cpt a b).counts := by omega
      rw [e, Nat.mod_eq_of_lt hdiff.2.1]

/-- Witness of C5: the largest counts per tick, with a carry and a borrow. -/
theorem timestamp_arith_counts_valid_witness :
    (timestamp_add 65536 ⟨7, 65535⟩ ⟨0, 65535⟩).valid 65536 ∧
    (timestamp_add 65536 ⟨7, 65535⟩ ⟨0, 65535⟩).counts = (65535 + 65535) % 65536 ∧
    (timestamp_diff 65536 ⟨7, 0⟩ ⟨6, 65535⟩).valid 65536 ∧
    (timestamp_diff 65536 ⟨7, 0⟩ ⟨6, 65535⟩).counts = (0 + 65536 - 65535) % 65536 :=
  timestamp_arith_counts_valid 65536 ⟨7, 65535⟩ ⟨7, 0⟩ ⟨6, 65535⟩ ⟨0, 65535⟩
    (by decide) (by decide) ⟨by decide, by decide⟩ ⟨by decide, by decide⟩
    ⟨by decide, by decide⟩ ⟨by decide, by decide⟩

/-- C6: the sentinels taken at one current time `now` are temporally ordered:
`max_past < now`, `now < max_future`, `max_past < max_future`, and the same
three pairs compare `>` in the other direction. -/
theorem timekeeping_sentinels_ordered (cpt : Nat) (now : timestamp)
    (hnow : now.ticks < 4294967296) :
    timestamp_temporal_cmp cpt (timekeeping_timestamp_max_past now) now .lt = true ∧
    timestamp_temporal_cmp cpt now (timekeeping_timestamp_max_future now) .lt = true ∧
    timestamp_temporal_cmp cpt (timekeeping_timestamp_max_past now)
      (timekeeping_timestamp_max_future now) .lt = true ∧
    timestamp_temporal_cmp cpt (timekeeping_timestamp_max_future now)
      (timekeeping_timestamp_max_past now) .gt = true ∧
    timestamp_temporal_cmp cpt (timekeeping_timestamp_max_future now) now .gt = true ∧
    timestamp_temporal_cmp cpt now (timekeeping_timestamp_max_past now) .gt = true := by
  obtain ⟨nt, nc⟩ := now
  simp only at hnow
  simp only [timestamp_temporal_cmp, timestamp_diff, timekeeping_timestamp_max_past,
    timekeeping_timestamp_max_future, timestampi_iszero, timestampi_cmp,
    timestamp_cmp_internal, cmp_oper.eval, UINT32_MAX, ge_iff_le, le_refl, if_true,
    Nat.sub_self]
  refine ⟨?_, ?_, ?_, ?_, ?_, ?_⟩ <;> simp <;> omega

/-- Witness of C6: a current time whose future sentinel wraps. -/
theorem timekeeping_sentinels_ordered_witness :
    timestamp_temporal_cmp 31250 (timekeeping_timestamp_max_past ⟨4294967000, 17⟩)
      ⟨4294967000, 17⟩ .lt = true ∧
    timestamp_temporal_cmp 31250 ⟨4294967000, 17⟩
      (timekeeping_timestamp_max_future ⟨4294967000, 17⟩) .lt = true ∧
    timestamp_temporal_cmp 31250 (timekeeping_timestamp_max_past ⟨4294967000, 17⟩)
      (timekeeping_timestamp_max_future ⟨4294967000, 17⟩) .lt = true ∧
    timestamp_temporal_cmp 31250 (timekeeping_timestamp_max_future ⟨4294967000, 17⟩)
      (timekeeping_timestamp_max_past ⟨4294967000, 17⟩) .gt = true ∧
    timestamp_temporal_cmp 31250 (timekeeping_timestamp_max_future ⟨4294967000, 17⟩)
      ⟨4294967000, 17⟩ .gt = true ∧
    timestamp_temporal_cmp 31250 ⟨4294967000, 17⟩
      (timekeeping_timestamp_max_past ⟨4294967000, 17⟩) .gt = true :=
  timekeeping_sentinels_ordered 31250 ⟨4294967000, 17⟩ (by decide)

/-! ## Theorems: I2C transaction engine -/

/-- Inert callbacks keep the state variable. -/
theorem i2c_callbacks_inert_state {cb : i2c_callbacks} (hcb : i2c_callbacks_inert cb)
    (c : i2c_completion) (s : i2c_engine) : (cb c s).i2c_state = s.i2c_state := by
  rw [hcb c s]

/-- Inert callbacks keep the queue. -/
theorem i2c_callbacks_inert_head {cb : i2c_callbacks} (hcb : i2c_callbacks_inert cb)
    (c : i2c_completion) (s : i2c_engine) :
    (cb c s).i2c_transaction_list_head = s.i2c_transaction_list_head := by
  rw [hcb c s]

/-- Inert callbacks keep the history of released nodes. -/
theorem i2c_callbacks_inert_released {cb : i2c_callbacks} (hcb : i2c_callbacks_inert cb)
    (c : i2c_completion) (s : i2c_engine) : (cb c s).released = s.released := by
  rw [hcb c s]

/-- Inert callbacks keep the history of callback calls. -/
theorem i2c_callbacks_inert_completions {cb : i2c_callbacks} (hcb : i2c_callbacks_inert cb)
    (c : i2c_completion) (s : i2c_engine) : (cb c s).completions = s.completions := by
  rw [hcb c s]

/-- Setting a state that is not terminal never fails and touches neither the
queue nor the histories of callbacks and released nodes. -/
theorem I2C_SETSTATE_plain (k : timekeeping_config) (cb : i2c_callbacks) (now : timestamp)
    (st : i2c_states) (s : i2c_engine)
    (h1 : st ≠ I2C_TRANS_OK_STOP_DO) (h2 : st ≠ I2C_TRANS_FAILED_RESET) :
    ∃ s', I2C_SETSTATE k cb now st s = some s' ∧ s'.i2c_state = st ∧
      s'.i2c_transaction_list_head = s.i2c_transaction_list_head ∧
      s'.released = s.released ∧ s'.completions = s.completions := by
  unfold I2C_SETSTATE
  by_cases h : s.i2c_state = st
  · exact ⟨s, by simp [h], h, rfl, rfl, rfl⟩
  · simp only [ne_eq, h, not_false_eq_true, if_true, i2c_set_state_do, h1, h2, or_self,
      if_false]
    split <;> simp only [Option.map_some'] <;> split <;> exact ⟨_, rfl, rfl, rfl, rfl, rfl⟩

/-- Setting a terminal state with an empty queue dereferences `NULL`. -/
theorem I2C_SETSTATE_terminal_none (k : timekeeping_config) (cb : i2c_callbacks)
    (now : timestamp) (st : i2c_states) (s : i2c_engine)
    (hst : st = I2C_TRANS_OK_STOP_DO ∨ st = I2C_TRANS_FAILED_RESET)
    (hne : s.i2c_state ≠ st) (hq : s.i2c_transaction_list_head = []) :
    I2C_SETSTATE k cb now st s = none := by
  unfold I2C_SETSTATE
  simp only [ne_eq, hne, not_false_eq_true, if_true, i2c_set_state_do, hst, hq,
    Option.map_none']

/-- Setting a terminal state releases exactly the queue head, with the success
flag of the state. -/
theorem I2C_SETSTATE_terminal (k : timekeeping_config) {cb : i2c_callbacks}
    (hcb : i2c_callbacks_inert cb) (now : timestamp) (st : i2c_states) (s : i2c_engine)
    (tr : i2c_transaction_list) (rest : List i2c_transaction_list)
    (hst : st = I2C_TRANS_OK_STOP_DO ∨ st = I2C_TRANS_FAILED_RESET)
    (hne : s.i2c_state ≠ st) (hq : s.i2c_transaction_list_head = tr :: rest) :
    ∃ s', I2C_SETSTATE k cb now st s = some s' ∧ s'.i2c_state = st ∧
      s'.i2c_transaction_list_head = rest ∧
      s'.released = s.released ++ [⟨tr, decide (st = I2C_TRANS_OK_STOP_DO)⟩] ∧
      s'.completions = s.completions ++
        (if tr.func ≠ NULL then
          [⟨tr.func, tr.data, decide (st = I2C_TRANS_OK_STOP_DO), tr.rdlen_actual⟩]
         else []) := by
  have hp := fun c s => i2c_callbacks_inert_completions hcb c s
  have hc := fun c s => i2c_callbacks_inert_state hcb c s
  have hh := fun c s => i2c_callbacks_inert_head hcb c s
  have hr := fun c s => i2c_callbacks_inert_released hcb c s
  unfold I2C_SETSTATE
  rcases hst with rfl | rfl
  all_goals
    simp only [ne_eq, hne, not_false_eq_true, if_true, i2c_set_state_do, hq, true_or, or_true,
      Option.map_some', i2c_is_reset_idle_poll_state]
    by_cases hf : tr.func = NULL
    · simp only [hf, ne_eq, not_true_eq_false, if_false]
      cases rest <;> simp
    · simp only [hf, ne_eq, not_false_eq_true, if_true, hc]
      cases rest <;> simp [hc, hh, hr, hp]

/-- C7: `i2c_transaction` always returns, and it returns false exactly when
both lengths are zero, or a write is asked for without a write buffer, or a
read without a read buffer, or the allocation of the queue node fails; when it
returns false the whole module state is unchanged (queue, state, state-changed
flag, transaction deadline, and the history of released nodes, so no callback
was invoked). -/
theorem i2c_transaction_rejects (k : timekeeping_config) (cb : i2c_callbacks)
    (now : timestamp) (malloc_ok : Bool)
    (addr wrbuf wrlen rdbuf rdlen completion comp_data : Nat) (s : i2c_engine) :
    ∃ ret s', i2c_transaction k cb now malloc_ok addr wrbuf wrlen rdbuf rdlen
        completion comp_data s = some (ret, s') ∧
      (ret = false ↔
        ((wrlen = 0 ∧ rdlen = 0) ∨ (wrlen > 0 ∧ wrbuf = NULL) ∨
          (rdlen > 0 ∧ rdbuf = NULL) ∨ malloc_ok = false)) ∧
      (ret = false → s' = s) := by
  unfold i2c_transaction
  by_cases h1 : wrlen = 0 ∧ rdlen = 0
  · exact ⟨false, s, by simp only [h1, and_self, if_true], by simp [h1], fun _ => rfl⟩
  by_cases h2 : wrlen > 0 ∧ wrbuf = NULL
  · exact ⟨false, s, by simp only [h1, h2, and_self, if_true, if_false], by simp [h2],
      fun _ => rfl⟩
  by_cases h3 : rdlen > 0 ∧ rdbuf = NULL
  · exact ⟨false, s, by simp only [h1, h2, h3, and_self, if_true, if_false], by simp [h3],
      fun _ => rfl⟩
  by_cases h4 : malloc_ok = false
  · exact ⟨false, s, by simp only [h1, h2, h3, h4, if_true, if_false], by simp [h4],
      fun _ => rfl⟩
  simp only [h1, h2, h3, h4, if_false]
  by_cases hs : s.i2c_state = I2C_IDLE
  · simp only [hs, if_true, I2C_SETSTATE, ne_eq, not_false_eq_true, i2c_set_state_do,
      reduceCtorEq, or_self, if_false, Option.map_some', i2c_is_reset_idle_poll_state,
      decide_False, Bool.or_self, Bool.and_false, Bool.false_eq_true]
    refine ⟨true, _, rfl, ?_, fun h => Bool.noConfusion h⟩
    simp
  · simp only [hs, if_false]
    refine ⟨true, _, rfl, ?_, fun h => Bool.noConfusion h⟩
    simp

/-- C8: when `i2c_transaction` returns true the new queue is the old queue
with one node appended at the tail, holding the given address, buffers,
lengths, callback and user data and `rdlen_actual = 0`; the state becomes
`I2C_START_DO` with the state-changed flag set if it was `I2C_IDLE`, and state
and flag are unchanged otherwise. -/
theorem i2c_transaction_enqueues (k : timekeeping_config) (cb : i2c_callbacks)
    (now : timestamp) (malloc_ok : Bool)
    (addr wrbuf wrlen rdbuf rdlen completion comp_data : Nat) (s : i2c_engine)
    (h : (i2c_transaction k cb now malloc_ok addr wrbuf wrlen rdbuf rdlen
        completion comp_data s).map Prod.fst = some true) :
    ∃ s', i2c_transaction k cb now malloc_ok addr wrbuf wrlen rdbuf rdlen
        completion comp_data s = some (true, s') ∧
      s'.i2c_transaction_list_head = s.i2c_transaction_list_head ++
        [{ addr := addr, wrbuf := wrbuf, wrlen := wrlen, rdbuf := rdbuf, rdlen := rdlen,
           func := completion, data := comp_data, rdlen_actual := 0 }] ∧
      (s.i2c_state = I2C_IDLE →
        s'.i2c_state = I2C_START_DO ∧ s'.i2c_state_changed = true) ∧
      (s.i2c_state ≠ I2C_IDLE →
        s'.i2c_state = s.i2c_state ∧ s'.i2c_state_changed = s.i2c_state_changed) := by
  unfold i2c_transaction at h ⊢
  by_cases h1 : wrlen = 0 ∧ rdlen = 0
  · simp [h1] at h
  by_cases h2 : wrlen > 0 ∧ wrbuf = NULL
  · simp [h1, h2] at h
  by_cases h3 : rdlen > 0 ∧ rdbuf = NULL
  · simp [h1, h2, h3] at h
  by_cases h4 : malloc_ok = false
  · simp [h1, h2, h3, h4] at h
  simp only [h1, h2, h3, h4, if_false]
  by_cases hs : s.i2c_state = I2C_IDLE
  · simp only [hs, if_true, I2C_SETSTATE, ne_eq, not_false_eq_true, i2c_set_state_do,
      reduceCtorEq, or_self, if_false, Option.map_some', i2c_is_reset_idle_poll_state,
      decide_False, Bool.or_self, Bool.and_false, Bool.false_eq_true]
    exact ⟨_, rfl, rfl, fun _ => ⟨rfl, rfl⟩, fun hn => absurd trivial hn⟩
  · simp only [hs, if_false]
    exact ⟨_, rfl, rfl, fun hi => False.elim hi, fun _ => ⟨rfl, rfl⟩⟩

/-- Witness of C8: a two-byte write to address `0x48` on the idle engine at
program start. -/
theorem i2c_transaction_enqueues_witness :
    ∃ s', i2c_transaction ⟨16000000, 64, 8⟩ (fun _ s => s) ⟨7, 0⟩ true 0x48 100 2 0 0 5 9
        (i2c_boot 0 0 0 0 (fun _ => 0)) =
          some (true, s') ∧
      s'.i2c_transaction_list_head =
        (i2c_boot 0 0 0 0 (fun _ => 0)).i2c_transaction_list_head ++
        [{ addr := 0x48, wrbuf := 100, wrlen := 2, rdbuf := 0, rdlen := 0,
           func := 5, data := 9, rdlen_actual := 0 }] ∧
      ((i2c_boot 0 0 0 0 (fun _ => 0)).i2c_state = I2C_IDLE →
        s'.i2c_state = I2C_START_DO ∧ s'.i2c_state_changed = true) ∧
      ((i2c_boot 0 0 0 0 (fun _ => 0)).i2c_state ≠ I2C_IDLE →
        s'.i2c_state = (i2c_boot 0 0 0 0 (fun _ => 0)).i2c_state ∧
          s'.i2c_state_changed = (i2c_boot 0 0 0 0 (fun _ => 0)).i2c_state_changed) :=
  i2c_transaction_enqueues ⟨16000000, 64, 8⟩ (fun _ s => s) ⟨7, 0⟩ true 0x48 100 2 0 0 5 9
    (i2c_boot 0 0 0 0 (fun _ => 0)) (by decide)

/-- What `I2C_SETSTATE` does, seen from the start `s` of the step in which it
is applied to the intermediate state `s1`: it sets the state, and it releases
the queue head exactly when the new state is terminal and differs from the
old one. -/
theorem I2C_SETSTATE_effect (k : timekeeping_config) {cb : i2c_callbacks}
    (hcb : i2c_callbacks_inert cb) {now : timestamp} {st : i2c_states}
    {s s1 s' : i2c_engine} (hrel : i2c_same_transactions s s1)
    (h : I2C_SETSTATE k cb now st s1 = some s') :
    s'.i2c_state = st ∧
    (i2c_enters_terminal s s' → i2c_releases_head s s') ∧
    (¬ i2c_enters_terminal s s' → i2c_keeps_queue s s') := by
  obtain ⟨hst1, hrl, hcp, hid, htl⟩ := hrel
  by_cases hterm : (st = I2C_TRANS_OK_STOP_DO ∨ st = I2C_TRANS_FAILED_RESET) ∧ s1.i2c_state ≠ st
  · obtain ⟨hst, hne⟩ := hterm
    cases hq : s1.i2c_transaction_list_head with
    | nil =>
      rw [I2C_SETSTATE_terminal_none k cb now st s1 hst hne hq] at h
      cases h
    | cons tr1 rest1 =>
      obtain ⟨s2, h2, hs2, hq2, hr2, hc2⟩ := I2C_SETSTATE_terminal k hcb now st s1 tr1 rest1 hst hne hq
      rw [h2] at h
      obtain rfl := Option.some.inj h
      refine ⟨hs2, fun _ => ?_,
        fun hn => absurd ⟨hs2 ▸ hst, by rw [hs2, ← hst1]; exact Ne.symm hne⟩ hn⟩
      cases hq0 : s.i2c_transaction_list_head with
      | nil => rw [hq, hq0] at hid; cases hid
      | cons tr rest =>
        rw [hq, hq0] at hid htl
        simp only [List.map_cons, List.cons.injEq, List.tail_cons] at hid htl
        exact ⟨tr, rest, tr1, hq0, hid.1, by rw [hq2, htl], by rw [hr2, hrl, hs2],
          by rw [hc2, hcp, hs2]⟩
  · have hplain : ∃ s2, I2C_SETSTATE k cb now st s1 = some s2 ∧ s2.i2c_state = st ∧
        s2.i2c_transaction_list_head = s1.i2c_transaction_list_head ∧
        s2.released = s1.released ∧ s2.completions = s1.completions := by
      by_cases hst : st = I2C_TRANS_OK_STOP_DO ∨ st = I2C_TRANS_FAILED_RESET
      · have he : s1.i2c_state = st := by
          by_contra hne
          exact hterm ⟨hst, hne⟩
        exact ⟨s1, by simp [I2C_SETSTATE, he], he, rfl, rfl, rfl⟩
      · exact I2C_SETSTATE_plain k cb now st s1 (fun h => hst (Or.inl h))
          (fun h => hst (Or.inr h))
    obtain ⟨s2, h2, hs2, hq2, hr2, hc2⟩ := hplain
    rw [h2] at h
    obtain rfl := Option.some.inj h
    have hnt : ¬ i2c_enters_terminal s s2 := by
      rintro ⟨ht, hne⟩
      rw [hs2] at ht hne
      exact hterm ⟨ht, by rw [hst1]; exact Ne.symm hne⟩
    exact ⟨hs2, fun ht => absurd ht hnt,
      fun _ => ⟨by rw [hr2, hrl], by rw [hc2, hcp], by rw [hq2, hid], by rw [hq2, htl]⟩⟩

/-- `I2C_SETSTATE` fails only by releasing from an empty queue. -/
theorem I2C_SETSTATE_none (k : timekeeping_config) (cb : i2c_callbacks) {now : timestamp}
    {st : i2c_states} {s1 : i2c_engine} (h : I2C_SETSTATE k cb now st s1 = none) :
    (st = I2C_TRANS_OK_STOP_DO ∨ st = I2C_TRANS_FAILED_RESET) ∧
      s1.i2c_transaction_list_head = [] := by
  by_cases hst : st = I2C_TRANS_OK_STOP_DO ∨ st = I2C_TRANS_FAILED_RESET
  · refine ⟨hst, ?_⟩
    unfold I2C_SETSTATE at h
    split at h
    · simp only [i2c_set_state_do, hst, if_true] at h
      split at h
      · assumption
      · simp at h
    · cases h
  · obtain ⟨s2, h2, _⟩ := I2C_SETSTATE_plain k cb now st s1 (fun h => hst (Or.inl h))
      (fun h => hst (Or.inr h))
    rw [h2] at h
    cases h

/-- Every state holds the same transactions as itself. -/
theorem i2c_same_transactions_refl (s : i2c_engine) : i2c_same_transactions s s :=
  ⟨rfl, rfl, rfl, rfl, rfl⟩

/-- A state that holds the same transactions as the start of the step and did
not change the state variable has released nothing. -/
theorem i2c_same_transactions_effect {s s1 : i2c_engine}
    (hrel : i2c_same_transactions s s1) :
    (i2c_enters_terminal s s1 → i2c_releases_head s s1) ∧
    (¬ i2c_enters_terminal s s1 → i2c_keeps_queue s s1) :=
  ⟨fun ht => absurd hrel.1 ht.2, fun _ => hrel.2⟩

/-- What `i2c_reset` does, seen from the start `s` of the step: it never
fails, sets the state `I2C_RESET` and releases nothing. -/
theorem i2c_reset_effect (k : timekeeping_config) (cb : i2c_callbacks) (now : timestamp)
    (s s1 : i2c_engine) (hrel : i2c_same_transactions s s1) :
    ∃ s', i2c_reset k cb now s1 = some s' ∧ s'.i2c_state = I2C_RESET ∧
      i2c_keeps_queue s s' := by
  obtain ⟨s2, h2, hs2, hq2, hr2, hc2⟩ := I2C_SETSTATE_plain k cb now I2C_RESET
    (i2c_twcr_set_bits (BV TWINT ||| BV TWEN)
      (i2c_twcr_clear_bits (BV TWEA ||| BV TWSTA ||| BV TWSTO ||| BV TWEN ||| BV TWIE) s1))
    (by decide) (by decide)
  obtain ⟨_, hrl, hcp, hid, htl⟩ := hrel
  exact ⟨s2, h2, hs2, by rw [hr2]; exact hrl, by rw [hc2]; exact hcp,
    by rw [hq2]; exact hid, by rw [hq2]; exact htl⟩

/-- What `i2c_transaction_maybe_timedout` does, seen from the start `s` of the
step: without a timeout nothing changes; on a timeout the state becomes
`I2C_TRANS_FAILED_RESET`, or `I2C_RESET` when the stop was already sent; the
queue head is released exactly when a terminal state is entered. -/
theorem i2c_transaction_maybe_timedout_effect (k : timekeeping_config) {cb : i2c_callbacks}
    (hcb : i2c_callbacks_inert cb) {now : timestamp} {s s1 s' : i2c_engine}
    (hrel : i2c_same_transactions s s1)
    (h : (i2c_transaction_maybe_timedout k cb now s1).map Prod.snd = some s') :
    (s'.i2c_state = s.i2c_state ∨
      (s'.i2c_state = I2C_TRANS_FAILED_RESET ∧ s.i2c_state ≠ I2C_TRANS_OK_STOP_TX) ∨
      (s'.i2c_state = I2C_RESET ∧ s.i2c_state = I2C_TRANS_OK_STOP_TX)) ∧
    (i2c_enters_terminal s s' → i2c_releases_head s s') ∧
    (¬ i2c_enters_terminal s s' → i2c_keeps_queue s s') := by
  unfold i2c_transaction_maybe_timedout at h
  split at h
  · simp only [Option.map_some', Option.some.injEq] at h
    subst h
    exact ⟨Or.inl hrel.1, i2c_same_transactions_effect hrel⟩
  · split at h
    · rename_i hne
      simp only [Option.map_map, Option.map_eq_some', Function.comp_apply] at h
      obtain ⟨s2, h2, rfl⟩ := h
      obtain ⟨hs2, he⟩ := I2C_SETSTATE_effect k hcb hrel h2
      exact ⟨Or.inr (Or.inl ⟨hs2, by rw [← hrel.1]; exact hne⟩), he⟩
    · rename_i he
      simp only [ne_eq, not_not] at he
      simp only [Option.map_map, Option.map_eq_some', Function.comp_apply] at h
      obtain ⟨s2, h2, rfl⟩ := h
      obtain ⟨s3, h3, hs3, hk⟩ := i2c_reset_effect k cb now s s1 hrel
      rw [h3] at h2
      obtain rfl := Option.some.inj h2
      refine ⟨Or.inr (Or.inr ⟨hs3, by rw [← hrel.1]; exact he⟩), fun ht => ?_, fun _ => hk⟩
      rcases ht.1 with h | h <;> rw [hs3] at h <;> cases h

/-- `i2c_transaction_maybe_timedout` fails only by releasing from an empty
queue. -/
theorem i2c_transaction_maybe_timedout_none (k : timekeeping_config) (cb : i2c_callbacks)
    {now : timestamp} {s1 : i2c_engine}
    (h : (i2c_transaction_maybe_timedout k cb now s1).map Prod.snd = none) :
    s1.i2c_transaction_list_head = [] ∧ s1.i2c_state ≠ I2C_TRANS_OK_STOP_TX := by
  unfold i2c_transaction_maybe_timedout at h
  split at h
  · simp at h
  · split at h
    · rename_i hne
      simp only [Option.map_map, Option.map_eq_none'] at h
      exact ⟨(I2C_SETSTATE_none k cb h).2, hne⟩
    · obtain ⟨s3, h3, _⟩ := i2c_reset_effect k cb now s1 s1 (i2c_same_transactions_refl s1)
      rw [h3] at h
      simp at h

set_option linter.unusedTactic false in
set_option maxHeartbeats 1000000 in
/-- What one `i2c_poll_atomic` call does to the queue, with callbacks that do
not call into the module: when it enters a terminal state it releases exactly
the queue head (and it was working on the head before); otherwise it releases
nothing; it starts working on a head only when there is one, and it goes idle
only when the queue is empty. -/
theorem i2c_poll_atomic_effect (k : timekeeping_config) {cb : i2c_callbacks}
    (hcb : i2c_callbacks_inert cb) (hw : i2c_hw) {s s' : i2c_engine}
    (h : i2c_poll_atomic k cb hw s = some s') :
    (i2c_enters_terminal s s' → i2c_releases_head s s' ∧ s.i2c_state.uses_head = true) ∧
    (¬ i2c_enters_terminal s s' → i2c_keeps_queue s s') ∧
    (s'.i2c_state.uses_head = true → s.i2c_state.uses_head = false →
      s.i2c_transaction_list_head ≠ []) ∧
    (s'.i2c_state = I2C_IDLE → s.i2c_state ≠ I2C_IDLE →
      s.i2c_transaction_list_head = []) := by
  rcases hs : s.i2c_state <;> cases hq : s.i2c_transaction_list_head
  all_goals
    simp only [i2c_poll_atomic, hs, hq, i2c_is_reset_idle_poll_state, reduceCtorEq,
      decide_False, decide_True, Bool.or_false, Bool.or_true, Bool.true_or, Bool.or_self,
      Bool.false_eq_true, if_false, or_self, or_true, true_or, if_true, false_and, true_and,
      ne_eq, not_true_eq_false, not_false_eq_true, List.head?_nil, List.head?_cons,
      Option.map_none', Option.map_some', Option.some_bind, Option.none_bind,
      i2c_twcr_set_cmd_bits, i2c_twcr_set_cmd_bits_atomic, i2c_twdr_write] at h
  all_goals
    repeat' split at h
  all_goals
    try simp only [Option.some_bind, Option.none_bind, Bool.false_eq_true, if_false,
      if_true, decide_eq_true_eq] at h
  all_goals
    repeat' split at h
  all_goals
    first
    | cases h; done
    | (obtain rfl := Option.some.inj h
       simp [i2c_enters_terminal, i2c_keeps_queue, hs, hq, i2c_states.uses_head]
       done)
    | (have he0 := i2c_reset_effect k cb hw.now s
         { s with TWCR := hw.twcr, TWSR := hw.twsr, TWDR := hw.twdr,
                  i2c_state_changed := false }
         (by simp [i2c_same_transactions, i2c_keeps_queue, hs, hq])
       obtain ⟨s3, h3, hs3, hk⟩ := he0
       simp only [hs, hq] at h3
       rw [h3] at h
       obtain rfl := Option.some.inj h
       have hnt : ¬ i2c_enters_terminal s s3 := by simp [i2c_enters_terminal, hs3]
       refine ⟨fun ht => absurd ht hnt, fun _ => hk, ?_, ?_⟩ <;>
         simp [hs3, hs, i2c_states.uses_head])
    | (have he0 := I2C_SETSTATE_effect k hcb (s := s)
         (by simp [i2c_same_transactions, i2c_keeps_queue, hs, hq, i2c_transaction_list.ident]) h
       obtain ⟨hs', he⟩ := he0
       refine ⟨fun ht => ⟨he.1 ht, ?_⟩, he.2, ?_, ?_⟩ <;>
         simp_all [i2c_states.uses_head, i2c_enters_terminal])
    | (have he0 := i2c_transaction_maybe_timedout_effect k hcb (s := s)
         (by simp [i2c_same_transactions, i2c_keeps_queue, hs, hq, i2c_transaction_list.ident]) h
       obtain ⟨hs', he⟩ := he0
       refine ⟨fun ht => ⟨he.1 ht, ?_⟩, he.2, ?_, ?_⟩ <;>
         rcases hs' with h1 | ⟨h1, h2⟩ | ⟨h1, h2⟩ <;>
         simp_all [i2c_states.uses_head, i2c_enters_terminal])

set_option linter.unusedTactic false in
set_option maxHeartbeats 1000000 in
/-- One `i2c_poll_atomic` call dereferences a `NULL` queue head only in a state
that works on the head while the queue is empty. -/
theorem i2c_poll_atomic_none (k : timekeeping_config) (cb : i2c_callbacks) (hw : i2c_hw)
    {s : i2c_engine} (h : i2c_poll_atomic k cb hw s = none) :
    s.i2c_state.uses_head = true ∧ s.i2c_transaction_list_head = [] := by
  rcases hs : s.i2c_state <;> cases hq : s.i2c_transaction_list_head
  all_goals
    simp only [i2c_poll_atomic, hs, hq, i2c_is_reset_idle_poll_state, reduceCtorEq,
      decide_False, decide_True, Bool.or_false, Bool.or_true, Bool.true_or, Bool.or_self,
      Bool.false_eq_true, if_false, or_self, or_true, true_or, if_true, false_and, true_and,
      ne_eq, not_true_eq_false, not_false_eq_true, List.head?_nil, List.head?_cons,
      Option.map_none', Option.map_some', Option.some_bind, Option.none_bind,
      i2c_twcr_set_cmd_bits, i2c_twcr_set_cmd_bits_atomic, i2c_twdr_write] at h
  all_goals
    repeat' split at h
  all_goals
    try simp only [Option.some_bind, Option.none_bind, Bool.false_eq_true, if_false,
      if_true, decide_eq_true_eq] at h
  all_goals
    repeat' split at h
  all_goals
    first
    | cases h; done
    | (simp [i2c_states.uses_head]; done)
    | (have he0 := i2c_transaction_maybe_timedout_none k cb h
       simp at he0; done)

/-- What one `i2c_transaction` call does to the queue: it returns whether the
request is accepted, appends the node of an accepted request, releases
nothing, and changes the state only from `I2C_IDLE` to `I2C_START_DO`. -/
theorem i2c_transaction_req_effect (k : timekeeping_config) (cb : i2c_callbacks)
    (now : timestamp) (malloc_ok : Bool) (r : i2c_request) (s : i2c_engine) :
    ∃ s', i2c_transaction_req k cb now malloc_ok r s = some (r.accepted malloc_ok, s') ∧
      s'.released = s.released ∧ s'.completions = s.completions ∧
      s'.i2c_transaction_list_head = s.i2c_transaction_list_head ++
        (if r.accepted malloc_ok = true then [r.node] else []) ∧
      (s'.i2c_state = s.i2c_state ∨
        (s.i2c_state = I2C_IDLE ∧ s'.i2c_state = I2C_START_DO ∧
          r.accepted malloc_ok = true)) := by
  unfold i2c_transaction_req i2c_transaction
  by_cases h1 : r.wrlen = 0 ∧ r.rdlen = 0
  · refine ⟨s, ?_, rfl, rfl, ?_, Or.inl rfl⟩ <;> simp [i2c_request.accepted, h1]
  by_cases h2 : r.wrlen > 0 ∧ r.wrbuf = NULL
  · refine ⟨s, ?_, rfl, rfl, ?_, Or.inl rfl⟩ <;> simp [i2c_request.accepted, h1, h2]
  by_cases h3 : r.rdlen > 0 ∧ r.rdbuf = NULL
  · refine ⟨s, ?_, rfl, rfl, ?_, Or.inl rfl⟩ <;> simp [i2c_request.accepted, h1, h2, h3]
  by_cases h4 : malloc_ok = false
  · refine ⟨s, ?_, rfl, rfl, ?_, Or.inl rfl⟩ <;> simp [i2c_request.accepted, h1, h2, h3, h4]
  obtain rfl : malloc_ok = true := by simpa using h4
  have hacc : r.accepted true = true := by
    simp [i2c_request.accepted, h1, h2, h3]
  simp only [h1, h2, h3, if_false, hacc, if_true, reduceCtorEq]
  by_cases hs : s.i2c_state = I2C_IDLE
  · simp only [hs, if_true, I2C_SETSTATE, ne_eq, not_false_eq_true, i2c_set_state_do,
      reduceCtorEq, or_self, if_false, Option.map_some', i2c_is_reset_idle_poll_state,
      decide_False, Bool.or_self, Bool.and_false, Bool.false_eq_true]
    exact ⟨_, rfl, rfl, rfl, rfl, Or.inr ⟨trivial, rfl, trivial⟩⟩
  · simp only [hs, if_false]
    exact ⟨_, rfl, rfl, rfl, rfl, Or.inl rfl⟩

/-- One call preserves the invariants of the queue and its histories: the
call returns, the queue head stays present where it is used, the callbacks
invoked are those of the released nodes, and the released transactions
followed by the queued ones are those of before followed by the one the call
enqueued, if any. -/
theorem i2c_step_accounting (k : timekeeping_config) {cb : i2c_callbacks}
    (hcb : i2c_callbacks_inert cb) (op : i2c_op) (s : i2c_engine)
    (hp : i2c_head_present s)
    (hc : s.completions = s.released.filterMap i2c_release.callback) :
    ∃ s', i2c_step k cb op s = some s' ∧ i2c_head_present s' ∧
      s'.completions = s'.released.filterMap i2c_release.callback ∧
      s'.released.map (fun r => r.tr.ident) ++
          s'.i2c_transaction_list_head.map i2c_transaction_list.ident =
        s.released.map (fun r => r.tr.ident) ++
          s.i2c_transaction_list_head.map i2c_transaction_list.ident ++
          (i2c_enqueued [op]).map i2c_request.ident ∧
      s'.released.length + s'.i2c_transaction_list_head.length =
        s.released.length + s.i2c_transaction_list_head.length + (i2c_enqueued [op]).length := by
  cases op with
  | transaction now malloc_ok r =>
    obtain ⟨s', h, hr, hcm, hq, hst⟩ := i2c_transaction_req_effect k cb now malloc_ok r s
    refine ⟨s', by simp [i2c_step, h], ?_, by rw [hcm, hr, hc], ?_, ?_⟩
    · intro hu
      rw [hq]
      rcases hst with hst | ⟨_, _, hacc⟩
      · rw [hst] at hu
        have := hp hu
        simp [this]
      · simp [hacc]
    · rw [hr, hq]
      by_cases hacc : r.accepted malloc_ok = true <;>
        simp [i2c_enqueued, hacc, i2c_request.node, i2c_request.ident,
          i2c_transaction_list.ident]
    · rw [hr, hq]
      by_cases hacc : r.accepted malloc_ok = true <;> simp [i2c_enqueued, hacc]
      omega
  | poll hw =>
    cases h : i2c_poll_atomic k cb hw s with
    | none =>
      obtain ⟨hu, hq⟩ := i2c_poll_atomic_none k cb hw h
      exact absurd hq (hp hu)
    | some s' =>
      obtain ⟨hterm, hkeep, hstart, _⟩ := i2c_poll_atomic_effect k hcb hw h
      refine ⟨s', by simp [i2c_step, h], ?_⟩
      by_cases ht : i2c_enters_terminal s s'
      · obtain ⟨⟨tr, rest, tr1, hq, hid, hq', hr', hc'⟩, _⟩ := hterm ht
        refine ⟨?_, ?_, ?_, ?_⟩
        · intro hu
          rcases ht.1 with h1 | h1 <;> rw [h1] at hu <;> simp [i2c_states.uses_head] at hu
        · rw [hc', hr', hc, List.filterMap_append]
          simp only [List.filterMap_cons, List.filterMap_nil, i2c_release.callback]
          split <;> simp
        · rw [hr', hq', hq]
          simp [i2c_enqueued, hid]
        · rw [hr', hq', hq]
          simp [i2c_enqueued]
          omega
      · obtain ⟨hr', hc', hid, htl⟩ := hkeep ht
        have hlen : s'.i2c_transaction_list_head.length = s.i2c_transaction_list_head.length := by
          have := congrArg List.length hid
          simpa using this
        refine ⟨?_, by rw [hc', hr', hc], by rw [hr', hid]; simp [i2c_enqueued],
          by rw [hr', hlen]; simp [i2c_enqueued]⟩
        intro hu hq'
        have hq0 : s.i2c_transaction_list_head = [] := by
          rw [hq'] at hlen
          exact List.length_eq_zero.mp hlen.symm
        by_cases hus : s.i2c_state.uses_head = true
        · exact hp hus hq0
        · exact hstart hu (by simpa using hus) hq0

/-- The accounting of a whole sequence of calls, from any state that satisfies
the invariant. -/
theorem i2c_run_accounting (k : timekeeping_config) {cb : i2c_callbacks}
    (hcb : i2c_callbacks_inert cb) (ops : List i2c_op) :
    ∀ s : i2c_engine, i2c_head_present s →
      s.completions = s.released.filterMap i2c_release.callback →
      ∃ s', i2c_run k cb ops s = some s' ∧ i2c_head_present s' ∧
        s'.completions = s'.released.filterMap i2c_release.callback ∧
        s'.released.map (fun r => r.tr.ident) ++
            s'.i2c_transaction_list_head.map i2c_transaction_list.ident =
          s.released.map (fun r => r.tr.ident) ++
            s.i2c_transaction_list_head.map i2c_transaction_list.ident ++
            (i2c_enqueued ops).map i2c_request.ident ∧
        s'.released.length + s'.i2c_transaction_list_head.length =
          s.released.length + s.i2c_transaction_list_head.length +
            (i2c_enqueued ops).length := by
  induction ops with
  | nil =>
    intro s hp hc
    exact ⟨s, rfl, hp, hc, by simp [i2c_enqueued], by simp [i2c_enqueued]⟩
  | cons op ops ih =>
    intro s hp hc
    obtain ⟨s1, h1, hp1, hc1, hid1, hl1⟩ := i2c_step_accounting k hcb op s hp hc
    obtain ⟨s2, h2, hp2, hc2, hid2, hl2⟩ := ih s1 hp1 hc1
    have henq : i2c_enqueued (op :: ops) = i2c_enqueued [op] ++ i2c_enqueued ops := by
      cases op with
      | transaction now malloc_ok r =>
        by_cases hacc : r.accepted malloc_ok = true <;> simp [i2c_enqueued, hacc]
      | poll hw => simp [i2c_enqueued]
    refine ⟨s2, by simp [i2c_run, h1, h2], hp2, hc2, ?_, ?_⟩
    · rw [hid2, hid1, henq]
      simp
    · rw [hl2, hl1, henq]
      simp
      omega

/-- The state `i2c_setup` leaves at program start, when it returns, satisfies
the invariant and has empty histories and an empty queue. -/
theorem i2c_setup_boot (k : timekeeping_config) (clock twcr twsr twdr twbr : Nat)
    (mem : Nat → Nat) (s : i2c_engine)
    (h : i2c_setup k clock (i2c_boot twcr twsr twdr twbr mem) = some s) :
    s.i2c_state = I2C_IDLE ∧ s.i2c_state_changed = false ∧
      s.i2c_transaction_list_head = [] ∧ s.released = [] ∧ s.completions = [] := by
  simp only [i2c_setup, Option.map_eq_some'] at h
  obtain ⟨st, _, rfl⟩ := h
  simp only [i2c_boot, i2c_twcr_clear_bits_atomic, i2c_twcr_set_bits_atomic]
  split <;> simp

/-- The callback identities of released nodes, read off their transaction
identities. -/
theorem i2c_callback_ident_of_released (l : List i2c_release) :
    (l.filterMap i2c_release.callback).map i2c_completion.ident =
      (l.map fun r => r.tr.ident).filterMap
        (fun x => if x.2.1 ≠ NULL then some (x.2.1, x.2.2) else none) := by
  induction l with
  | nil => rfl
  | cons r l ih =>
    by_cases hf : r.tr.func = NULL <;>
      simp [List.filterMap_cons, i2c_release.callback, i2c_transaction_list.ident,
        i2c_completion.ident, hf, ih]

/-- The callback identities of the accepted requests that have a callback,
read off their transaction identities. -/
theorem i2c_callback_ident_of_enqueued (l : List i2c_request) :
    (l.filter fun r => decide (r.completion ≠ NULL)).map
        (fun r => (r.completion, r.comp_data)) =
      (l.map i2c_request.ident).filterMap
        (fun x => if x.2.1 ≠ NULL then some (x.2.1, x.2.2) else none) := by
  induction l with
  | nil => rfl
  | cons r l ih =>
    rw [List.map_cons, List.filterMap_cons, ← ih, List.filter_cons]
    by_cases hf : r.completion = NULL <;> simp [hf, i2c_request.ident]

/-- Strict FIFO completion when no callback calls into the module.  After any
sequence of `i2c_transaction` and `i2c_poll_atomic` calls following
`i2c_setup` (which has left the state `s0`), under arbitrary hardware inputs
and with callbacks that do not call into the module, the calls all return, the
transactions released so far followed by those still queued are exactly the
accepted transactions in enqueue order, so the released ones are a prefix of
the enqueue sequence, and the completion callbacks invoked are, in order, a
prefix of the callbacks of the enqueue sequence. -/
theorem i2c_fifo_completion (k : timekeeping_config) (cb : i2c_callbacks)
    (hcb : i2c_callbacks_inert cb) (clock twcr twsr twdr twbr : Nat) (mem : Nat → Nat)
    (s0 : i2c_engine)
    (hsetup : i2c_setup k clock (i2c_boot twcr twsr twdr twbr mem) = some s0)
    (ops : List i2c_op) :
    ∃ s, i2c_run k cb ops s0 = some s ∧
      s.released.map (fun r => r.tr.ident) ++
          s.i2c_transaction_list_head.map i2c_transaction_list.ident =
        (i2c_enqueued ops).map i2c_request.ident ∧
      s.released.map (fun r => r.tr.ident) <+: (i2c_enqueued ops).map i2c_request.ident ∧
      s.completions.map i2c_completion.ident <+:
        ((i2c_enqueued ops).filter fun r => decide (r.completion ≠ NULL)).map
          (fun r => (r.completion, r.comp_data)) := by
  obtain ⟨hst, _, hq, hr, hc⟩ := i2c_setup_boot k clock twcr twsr twdr twbr mem s0 hsetup
  obtain ⟨s, hrun, _, hcs, hid, _⟩ := i2c_run_accounting k hcb ops
    s0
    (by intro hu; rw [hst] at hu; simp [i2c_states.uses_head] at hu)
    (by rw [hc, hr]; rfl)
  rw [hr, hq] at hid
  simp only [List.map_nil, List.append_nil, List.nil_append] at hid
  have hpre : s.released.map (fun r => r.tr.ident) <+:
      (i2c_enqueued ops).map i2c_request.ident := ⟨_, hid⟩
  refine ⟨s, hrun, hid, hpre, ?_⟩
  rw [hcs, i2c_callback_ident_of_released, i2c_callback_ident_of_enqueued]
  exact hpre.filterMap _

/-- An instance of `i2c_fifo_completion` with a callback that does nothing:
three transactions to distinct addresses enqueued at once;
the first is sent and acknowledged, the second fails at its address, the third
is still queued. -/
theorem i2c_fifo_completion_witness :
    ∃ s0, i2c_setup ⟨16000000, 64, 8⟩ 100000 (i2c_boot 0 0 0 0 (fun _ => 0)) = some s0 ∧
    ∃ s, i2c_run ⟨16000000, 64, 8⟩ (fun _ s => s)
        [i2c_op.transaction ⟨7, 0⟩ true ⟨0x48, 100, 1, 0, 0, 5, 1⟩,
         i2c_op.transaction ⟨7, 0⟩ true ⟨0x4b, 0, 0, 200, 1, 5, 2⟩,
         i2c_op.transaction ⟨7, 0⟩ true ⟨0x4f, 100, 1, 0, 0, 0, 3⟩,
         i2c_op.poll ⟨0, 0, 0, ⟨7, 1⟩, ⟨7, 1⟩⟩,
         i2c_op.poll ⟨0x80, 0x08, 0, ⟨7, 2⟩, ⟨7, 2⟩⟩,
         i2c_op.poll ⟨0x80, 0x18, 0, ⟨7, 3⟩, ⟨7, 3⟩⟩,
         i2c_op.poll ⟨0x80, 0x18, 0, ⟨7, 4⟩, ⟨7, 4⟩⟩,
         i2c_op.poll ⟨0x80, 0x28, 0, ⟨7, 5⟩, ⟨7, 5⟩⟩,
         i2c_op.poll ⟨0x80, 0x28, 0, ⟨7, 6⟩, ⟨7, 6⟩⟩,
         i2c_op.poll ⟨0x00, 0xf8, 0, ⟨7, 7⟩, ⟨7, 7⟩⟩,
         i2c_op.poll ⟨0x00, 0xf8, 0, ⟨7, 8⟩, ⟨7, 8⟩⟩,
         i2c_op.poll ⟨0x80, 0x08, 0, ⟨7, 9⟩, ⟨7, 9⟩⟩,
         i2c_op.poll ⟨0x80, 0x48, 0, ⟨8, 0⟩, ⟨8, 0⟩⟩]
        s0 = some s ∧
      s.released.map (fun r => r.tr.ident) ++
          s.i2c_transaction_list_head.map i2c_transaction_list.ident =
        [(0x48, 5, 1), (0x4b, 5, 2), (0x4f, 0, 3)] ∧
      s.released.map (fun r => r.tr.ident) <+: [(0x48, 5, 1), (0x4b, 5, 2), (0x4f, 0, 3)] ∧
      s.completions.map i2c_completion.ident <+: [(5, 1), (5, 2)] :=
  ⟨_, rfl,
    i2c_fifo_completion ⟨16000000, 64, 8⟩ (fun _ s => s) (fun _ _ => rfl)
    100000 0 0 0 0 (fun _ => 0) _ rfl _⟩

/-- The release rule for one call from a state in which the queue head is
present where it is used: the call returns; if it enters a terminal state it
releases exactly the queue head, otherwise it frees no node, invokes no
callback and removes nothing from the queue. -/
theorem i2c_step_release_rule (k : timekeeping_config) {cb : i2c_callbacks}
    (hcb : i2c_callbacks_inert cb) (op : i2c_op) (s : i2c_engine)
    (hp : i2c_head_present s) :
    ∃ s', i2c_step k cb op s = some s' ∧
      (i2c_enters_terminal s s' → i2c_releases_head s s') ∧
      (¬ i2c_enters_terminal s s' →
        s'.released = s.released ∧ s'.completions = s.completions ∧
        s.i2c_transaction_list_head.map i2c_transaction_list.ident <+:
          s'.i2c_transaction_list_head.map i2c_transaction_list.ident) := by
  cases op with
  | transaction now malloc_ok r =>
    obtain ⟨s', h, hr, hcm, hq, hst⟩ := i2c_transaction_req_effect k cb now malloc_ok r s
    refine ⟨s', by simp [i2c_step, h], fun ht => ?_, fun _ => ⟨hr, hcm, ?_⟩⟩
    · exfalso
      rcases hst with hst | ⟨_, hst, _⟩
      · exact ht.2 hst
      · rcases ht.1 with h1 | h1 <;> rw [hst] at h1 <;> cases h1
    · rw [hq, List.map_append]
      exact List.prefix_append _ _
  | poll hw =>
    cases h : i2c_poll_atomic k cb hw s with
    | none =>
      obtain ⟨hu, hq⟩ := i2c_poll_atomic_none k cb hw h
      exact absurd hq (hp hu)
    | some s' =>
      obtain ⟨hterm, hkeep, _, _⟩ := i2c_poll_atomic_effect k hcb hw h
      refine ⟨s', by simp [i2c_step, h], fun ht => (hterm ht).1, fun ht => ?_⟩
      obtain ⟨hr', hc', hid, _⟩ := hkeep ht
      exact ⟨hr', hc', by rw [hid]⟩

/-- Every queued transaction is released exactly once when no callback calls
into the module.  In every state reached from `i2c_setup` (which has left the
state `s0`) by `i2c_transaction` and `i2c_poll_atomic` calls (arbitrary
hardware inputs, callbacks that do not call into the module) every
accepted transaction is either still queued or was released, once; and every
further call returns and either enters `I2C_TRANS_OK_STOP_DO` or
`I2C_TRANS_FAILED_RESET`, in which case it frees exactly the queue head and
invokes its callback once, with success true for the first state and false for
the second, or it enters neither, in which case it frees no node, invokes no
callback and removes no queue entry (so also when it enters `I2C_RESET`). -/
theorem i2c_released_exactly_once (k : timekeeping_config) (cb : i2c_callbacks)
    (hcb : i2c_callbacks_inert cb) (clock twcr twsr twdr twbr : Nat) (mem : Nat → Nat)
    (s0 : i2c_engine)
    (hsetup : i2c_setup k clock (i2c_boot twcr twsr twdr twbr mem) = some s0)
    (ops : List i2c_op) (op : i2c_op) :
    ∃ s s', i2c_run k cb ops s0 = some s ∧
      i2c_step k cb op s = some s' ∧
      s.released.length + s.i2c_transaction_list_head.length = (i2c_enqueued ops).length ∧
      (i2c_enters_terminal s s' → i2c_releases_head s s') ∧
      (¬ i2c_enters_terminal s s' →
        s'.released = s.released ∧ s'.completions = s.completions ∧
        s.i2c_transaction_list_head.map i2c_transaction_list.ident <+:
          s'.i2c_transaction_list_head.map i2c_transaction_list.ident) ∧
      (s'.i2c_state = I2C_RESET →
        s'.released = s.released ∧ s'.completions = s.completions ∧
        s.i2c_transaction_list_head.map i2c_transaction_list.ident <+:
          s'.i2c_transaction_list_head.map i2c_transaction_list.ident) := by
  obtain ⟨hst, _, hq, hr, hc⟩ := i2c_setup_boot k clock twcr twsr twdr twbr mem s0 hsetup
  obtain ⟨s, hrun, hp, _, _, hlen⟩ := i2c_run_accounting k hcb ops
    s0
    (by intro hu; rw [hst] at hu; simp [i2c_states.uses_head] at hu)
    (by rw [hc, hr]; rfl)
  rw [hr, hq] at hlen
  simp only [List.length_nil, Nat.zero_add] at hlen
  obtain ⟨s', hstep, h1, h2⟩ := i2c_step_release_rule k hcb op s hp
  refine ⟨s, s', hrun, hstep, hlen, h1, h2, fun hre => h2 fun ht => ?_⟩
  rcases ht.1 with h | h <;> rw [hre] at h <;> cases h

/-- An instance of `i2c_released_exactly_once` with a callback that does
nothing: a one-byte write is enqueued and sent; the call that
follows the acknowledged data byte enters `I2C_TRANS_OK_STOP_DO`. -/
theorem i2c_released_exactly_once_witness :
    ∃ s0, i2c_setup ⟨16000000, 64, 8⟩ 100000 (i2c_boot 0 0 0 0 (fun _ => 0)) = some s0 ∧
    ∃ s s', i2c_run ⟨16000000, 64, 8⟩ (fun _ s => s)
        [i2c_op.transaction ⟨7, 0⟩ true ⟨0x48, 100, 1, 0, 0, 5, 1⟩,
         i2c_op.poll ⟨0, 0, 0, ⟨7, 1⟩, ⟨7, 1⟩⟩,
         i2c_op.poll ⟨0x80, 0x08, 0, ⟨7, 2⟩, ⟨7, 2⟩⟩,
         i2c_op.poll ⟨0x80, 0x18, 0, ⟨7, 3⟩, ⟨7, 3⟩⟩,
         i2c_op.poll ⟨0x80, 0x18, 0, ⟨7, 4⟩, ⟨7, 4⟩⟩]
        s0 = some s ∧
      i2c_step ⟨16000000, 64, 8⟩ (fun _ s => s)
        (i2c_op.poll ⟨0x80, 0x28, 0, ⟨7, 5⟩, ⟨7, 5⟩⟩) s = some s' ∧
      s.released.length + s.i2c_transaction_list_head.length = 1 ∧
      (i2c_enters_terminal s s' → i2c_releases_head s s') ∧
      (¬ i2c_enters_terminal s s' →
        s'.released = s.released ∧ s'.completions = s.completions ∧
        s.i2c_transaction_list_head.map i2c_transaction_list.ident <+:
          s'.i2c_transaction_list_head.map i2c_transaction_list.ident) ∧
      (s'.i2c_state = I2C_RESET →
        s'.released = s.released ∧ s'.completions = s.completions ∧
        s.i2c_transaction_list_head.map i2c_transaction_list.ident <+:
          s'.i2c_transaction_list_head.map i2c_transaction_list.ident) :=
  ⟨_, rfl,
    i2c_released_exactly_once ⟨16000000, 64, 8⟩ (fun _ s => s) (fun _ _ => rfl)
    100000 0 0 0 0 (fun _ => 0) _ rfl _ _⟩

/-! ## Theorems: next poll time, bus speed, sensor start -/

/-- C17: `i2c_get_next_poll_time` returns the current time if the
state-changed flag is set; otherwise the reset/idle poll time in the states
`I2C_RESET` and `I2C_TRANS_OK_STOP_TX`; otherwise the transaction deadline in
the states `I2C_START_TX`, `I2C_REPEATED_START_TX`, `I2C_ADDR`, `I2C_WRITE`
and `I2C_READ`; otherwise (the seven remaining states) the `max_future`
sentinel, which is the current time moved `UINT32_MAX / 4` ticks forward. -/
theorem i2c_get_next_poll_time_cases (now : timestamp) (s : i2c_engine) :
    (s.i2c_state_changed = true → i2c_get_next_poll_time now s = now) ∧
    (s.i2c_state_changed = false →
      (s.i2c_state = I2C_RESET ∨ s.i2c_state = I2C_TRANS_OK_STOP_TX) →
      i2c_get_next_poll_time now s = s.i2c_next_reset_idle_poll) ∧
    (s.i2c_state_changed = false →
      (s.i2c_state = I2C_START_TX ∨ s.i2c_state = I2C_REPEATED_START_TX ∨
        s.i2c_state = I2C_ADDR ∨ s.i2c_state = I2C_WRITE ∨ s.i2c_state = I2C_READ) →
      i2c_get_next_poll_time now s = s.i2c_transaction_deadline) ∧
    (s.i2c_state_changed = false →
      (s.i2c_state = I2C_IDLE ∨ s.i2c_state = I2C_START_DO ∨
        s.i2c_state = I2C_WRITE_FIRST ∨ s.i2c_state = I2C_REPEATED_START_DO ∨
        s.i2c_state = I2C_READ_FIRST ∨ s.i2c_state = I2C_TRANS_OK_STOP_DO ∨
        s.i2c_state = I2C_TRANS_FAILED_RESET) →
      i2c_get_next_poll_time now s = timekeeping_timestamp_max_future now) ∧
    timekeeping_timestamp_max_future now =
      ⟨(now.ticks + UINT32_MAX / 4) % 4294967296, now.counts⟩ := by
  refine ⟨?_, ?_, ?_, ?_, rfl⟩
  · intro hc
    simp [i2c_get_next_poll_time, hc]
  · intro hc hs
    rcases hs with hs | hs <;>
      simp [i2c_get_next_poll_time, hc, hs, i2c_is_reset_idle_poll_state]
  · intro hc hs
    rcases hs with hs | hs | hs | hs | hs <;>
      simp [i2c_get_next_poll_time, hc, hs, i2c_is_reset_idle_poll_state,
        i2c_is_transaction_wait_deadline_state]
  · intro hc hs
    rcases hs with hs | hs | hs | hs | hs | hs | hs <;>
      simp [i2c_get_next_poll_time, hc, hs, i2c_is_reset_idle_poll_state,
        i2c_is_transaction_wait_deadline_state]

/-- C18: the next-poll-time queries are read-only.  A call of
`i2c_get_next_poll_time` leaves the whole module state as it was, a call of
`tc74_get_next_poll_time` leaves the whole instance as it was (both store only
through `next_poll`, the variable of the caller), and so any number of calls
leave the state as it was and return, for each current time, the value that
depends on that state and that time only. -/
theorem next_poll_time_read_only (nows : List timestamp) (s : i2c_engine) (data : tc74_data) :
    (∀ now, (i2c_get_next_poll_time_call now s).2 = s) ∧
    (∀ now, (tc74_get_next_poll_time_call now data).2 = data) ∧
    i2c_get_next_poll_time_calls nows s =
      (nows.map fun now => i2c_get_next_poll_time now s, s) ∧
    tc74_get_next_poll_time_calls nows data =
      (nows.map fun now => tc74_get_next_poll_time now data, data) := by
  refine ⟨fun _ => rfl, fun _ => rfl, ?_, ?_⟩
  · induction nows with
    | nil => rfl
    | cons now nows ih =>
      simp only [i2c_get_next_poll_time_calls, i2c_get_next_poll_time_call, ih, List.map_cons]
  · induction nows with
    | nil => rfl
    | cons now nows ih =>
      simp only [tc74_get_next_poll_time_calls, tc74_get_next_poll_time_call, ih,
        List.map_cons]

/-- The divider `i2c_clock_get_twbr` computes fits a `uint8_t`. -/
theorem i2c_clock_get_twbr_lt (F_CPU clock prescaler t : Nat)
    (h : i2c_clock_get_twbr F_CPU clock prescaler = some t) : t < 256 := by
  simp only [i2c_clock_get_twbr] at h
  split at h
  · cases h
  · simp only [Option.some.injEq] at h
    subst h
    split <;> omega

/-- The function `i2c_clock_get_twbr` returns for each of the four prescalers
when the divisor of the largest one is not zero in `uint32_t`. -/
theorem i2c_clock_get_twbr_some (F_CPU clock q : Nat)
    (hq : q = 1 ∨ q = 4 ∨ q = 16 ∨ q = 64) (hc : (2 * clock * 64) % 4294967296 ≠ 0) :
    ∃ t, i2c_clock_get_twbr F_CPU clock q = some t := by
  have hd : (2 * clock * q) % 4294967296 ≠ 0 := by
    rcases hq with rfl | rfl | rfl | rfl <;> omega
  simp only [i2c_clock_get_twbr, hd, if_false]
  exact ⟨_, rfl⟩

/-- The error `I2C_GET_SPEED_ERROR` computes for a prescaler for which
`i2c_clock_get_twbr` returns: the absolute difference between the target clock
and the clock the divider gives. -/
theorem I2C_GET_SPEED_ERROR_some (F_CPU clock q t : Nat) (hF : F_CPU < 4294967296)
    (hq : q = 1 ∨ q = 4 ∨ q = 16 ∨ q = 64)
    (h : i2c_clock_get_twbr F_CPU clock q = some t) :
    I2C_GET_SPEED_ERROR F_CPU clock q =
      some (Int.natAbs ((clock : Int) - ((F_CPU / (2 * t * q + 16) : Nat) : Int))) := by
  have ht := i2c_clock_get_twbr_lt F_CPU clock q t h
  simp only [I2C_GET_SPEED_ERROR, h, Option.map_some', i2c_speed_settings_2_clock,
    Option.some.injEq]
  have hd : (2 * t * q + 16) % 4294967296 = 2 * t * q + 16 := by
    rcases hq with rfl | rfl | rfl | rfl <;> omega
  rw [Nat.mod_eq_of_lt hF, hd]
  split <;> omega

/-- The selection `i2c_get_speed_settings` makes when none of the divisors is
zero in `uint32_t`: it returns a prescaler among 1, 4, 16, 64 with the divider
computed for it, and the error of that prescaler is minimal, strictly smaller
than that of every smaller prescaler. -/
theorem i2c_get_speed_settings_select (F_CPU clock : Nat)
    (hc : (2 * clock * 64) % 4294967296 ≠ 0) :
    ∃ p, i2c_get_speed_settings F_CPU clock =
        some ((i2c_clock_get_twbr F_CPU clock p).getD 0, p) ∧
      (p = 1 ∨ p = 4 ∨ p = 16 ∨ p = 64) ∧
      (∀ q, q = 1 ∨ q = 4 ∨ q = 16 ∨ q = 64 →
        (I2C_GET_SPEED_ERROR F_CPU clock p).getD 0 ≤
            (I2C_GET_SPEED_ERROR F_CPU clock q).getD 0 ∧
          (q < p → (I2C_GET_SPEED_ERROR F_CPU clock p).getD 0 <
            (I2C_GET_SPEED_ERROR F_CPU clock q).getD 0)) := by
  obtain ⟨t1, h1⟩ := i2c_clock_get_twbr_some F_CPU clock 1 (by simp) hc
  obtain ⟨t4, h4⟩ := i2c_clock_get_twbr_some F_CPU clock 4 (by simp) hc
  obtain ⟨t16, h16⟩ := i2c_clock_get_twbr_some F_CPU clock 16 (by simp) hc
  obtain ⟨t64, h64⟩ := i2c_clock_get_twbr_some F_CPU clock 64 (by simp) hc
  obtain ⟨e1, g1⟩ : ∃ e, I2C_GET_SPEED_ERROR F_CPU clock 1 = some e :=
    ⟨_, by rw [I2C_GET_SPEED_ERROR, h1, Option.map_some']⟩
  obtain ⟨e4, g4⟩ : ∃ e, I2C_GET_SPEED_ERROR F_CPU clock 4 = some e :=
    ⟨_, by rw [I2C_GET_SPEED_ERROR, h4, Option.map_some']⟩
  obtain ⟨e16, g16⟩ : ∃ e, I2C_GET_SPEED_ERROR F_CPU clock 16 = some e :=
    ⟨_, by rw [I2C_GET_SPEED_ERROR, h16, Option.map_some']⟩
  obtain ⟨e64, g64⟩ : ∃ e, I2C_GET_SPEED_ERROR F_CPU clock 64 = some e :=
    ⟨_, by rw [I2C_GET_SPEED_ERROR, h64, Option.map_some']⟩
  simp only [i2c_get_speed_settings, g1, g4, g16, g64, Option.some_bind]
  split <;> split <;> split
  all_goals
    first
    | (refine ⟨1, by simp only [h1, Option.map_some', Option.getD_some], Or.inl rfl, ?_⟩
       intro q hq
       rcases hq with rfl | rfl | rfl | rfl <;>
         simp only [g1, g4, g16, g64, Option.getD_some] <;> omega)
    | (refine ⟨4, by simp only [h4, Option.map_some', Option.getD_some],
         Or.inr (Or.inl rfl), ?_⟩
       intro q hq
       rcases hq with rfl | rfl | rfl | rfl <;>
         simp only [g1, g4, g16, g64, Option.getD_some] <;> omega)
    | (refine ⟨16, by simp only [h16, Option.map_some', Option.getD_some],
         Or.inr (Or.inr (Or.inl rfl)), ?_⟩
       intro q hq
       rcases hq with rfl | rfl | rfl | rfl <;>
         simp only [g1, g4, g16, g64, Option.getD_some] <;> omega)
    | (refine ⟨64, by simp only [h64, Option.map_some', Option.getD_some],
         Or.inr (Or.inr (Or.inr rfl)), ?_⟩
       intro q hq
       rcases hq with rfl | rfl | rfl | rfl <;>
         simp only [g1, g4, g16, g64, Option.getD_some] <;> omega)

/-- The function `i2c_get_speed_settings` returns exactly when the divisor
`2 * clock * 64` is not zero in `uint32_t`; then none of the divisors
`2 * clock * p` of the four prescalers is. -/
theorem i2c_get_speed_settings_defined (F_CPU clock : Nat) :
    i2c_get_speed_settings F_CPU clock = none ↔ (2 * clock * 64) % 4294967296 = 0 := by
  constructor
  · intro h
    by_contra hc
    obtain ⟨p, hp, _⟩ := i2c_get_speed_settings_select F_CPU clock hc
    rw [h] at hp
    cases hp
  · intro hc
    have h64 : i2c_clock_get_twbr F_CPU clock 64 = none := by
      simp only [i2c_clock_get_twbr, hc, if_true]
    simp only [i2c_get_speed_settings, I2C_GET_SPEED_ERROR, h64, Option.map_none']
    cases i2c_clock_get_twbr F_CPU clock 1 <;> cases i2c_clock_get_twbr F_CPU clock 4 <;>
      cases i2c_clock_get_twbr F_CPU clock 16 <;> rfl

/-- Counterexample to C19 as stated: for the target clock 0 the divisor
`2 * clock * p` is zero for every prescaler, and for the target clock
33554432 it is zero in `uint32_t` for the prescaler 64; `i2c_clock_get_twbr`
divides by zero and `i2c_get_speed_settings` returns nothing. -/
theorem i2c_get_speed_settings_zero_divisor :
    i2c_clock_get_twbr 16000000 0 1 = none ∧
    i2c_get_speed_settings 16000000 0 = none ∧
    i2c_clock_get_twbr 16000000 33554432 64 = none ∧
    i2c_get_speed_settings 16000000 33554432 = none := by
  decide

/-- C19, as amended: bus speed selection.  For every target clock for which
the divisor `2 * clock * 64` is not zero in `uint32_t` (then none of the four
divisors `2 * clock * p` is; so for every clock from 1 to 33554431),
`i2c_clock_get_twbr` and `I2C_GET_SPEED_ERROR` return for each of the
prescalers 1, 4, 16, 64, the error of a prescaler `q` being the absolute
difference between the target clock and `F_CPU / (2 * twbr(q) * q + 16)`;
`i2c_get_speed_settings` returns a prescaler `p` among 1, 4, 16, 64 and the
divider `twbr(p) = i2c_clock_get_twbr(clock, p)`; the error of `p` is minimal
among the four prescalers and every smaller prescaler has a strictly larger
error.  (`F_CPU` fits its 32-bit type.) -/
theorem i2c_get_speed_settings_minimal (F_CPU clock : Nat) (hF : F_CPU < 4294967296)
    (hc : (2 * clock * 64) % 4294967296 ≠ 0) :
    ∃ (twbr err : Nat → Nat) (p : Nat),
      (∀ q, q = 1 ∨ q = 4 ∨ q = 16 ∨ q = 64 →
        i2c_clock_get_twbr F_CPU clock q = some (twbr q) ∧
        I2C_GET_SPEED_ERROR F_CPU clock q = some (err q) ∧
        err q = Int.natAbs ((clock : Int) -
          ((F_CPU / (2 * twbr q * q + 16) : Nat) : Int))) ∧
      i2c_get_speed_settings F_CPU clock = some (twbr p, p) ∧
      (p = 1 ∨ p = 4 ∨ p = 16 ∨ p = 64) ∧
      (∀ q, q = 1 ∨ q = 4 ∨ q = 16 ∨ q = 64 →
        err p ≤ err q ∧ (q < p → err p < err q)) := by
  have hall : ∀ q, q = 1 ∨ q = 4 ∨ q = 16 ∨ q = 64 →
      i2c_clock_get_twbr F_CPU clock q =
        some ((i2c_clock_get_twbr F_CPU clock q).getD 0) ∧
      I2C_GET_SPEED_ERROR F_CPU clock q =
        some ((I2C_GET_SPEED_ERROR F_CPU clock q).getD 0) ∧
      (I2C_GET_SPEED_ERROR F_CPU clock q).getD 0 =
        Int.natAbs ((clock : Int) -
          ((F_CPU / (2 * (i2c_clock_get_twbr F_CPU clock q).getD 0 * q + 16) : Nat) :
            Int)) := by
    intro q hq
    obtain ⟨t, h⟩ := i2c_clock_get_twbr_some F_CPU clock q hq hc
    have g := I2C_GET_SPEED_ERROR_some F_CPU clock q t hF hq h
    simp only [h, g, Option.getD_some, and_self]
  have hsel := i2c_get_speed_settings_select F_CPU clock hc
  obtain ⟨p, hp1, hp2, hp3⟩ := hsel
  exact ⟨fun q => (i2c_clock_get_twbr F_CPU clock q).getD 0,
    fun q => (I2C_GET_SPEED_ERROR F_CPU clock q).getD 0, p, hall, hp1, hp2, hp3⟩

/-- Witness of C19: a 16 MHz CPU clock and the default 100 kHz bus clock give
the divider 72 with the prescaler 1. -/
theorem i2c_get_speed_settings_minimal_witness :
    i2c_get_speed_settings 16000000 100000 = some (72, 1) ∧
    ∃ (twbr err : Nat → Nat) (p : Nat),
      (∀ q, q = 1 ∨ q = 4 ∨ q = 16 ∨ q = 64 →
        i2c_clock_get_twbr 16000000 100000 q = some (twbr q) ∧
        I2C_GET_SPEED_ERROR 16000000 100000 q = some (err q) ∧
        err q = Int.natAbs (((100000 : Nat) : Int) -
          ((16000000 / (2 * twbr q * q + 16) : Nat) : Int))) ∧
      i2c_get_speed_settings 16000000 100000 = some (twbr p, p) ∧
      (p = 1 ∨ p = 4 ∨ p = 16 ∨ p = 64) ∧
      (∀ q, q = 1 ∨ q = 4 ∨ q = 16 ∨ q = 64 →
        err p ≤ err q ∧ (q < p → err p < err q)) :=
  ⟨by decide, i2c_get_speed_settings_minimal 16000000 100000 (by decide) (by decide)⟩

/-- C20: `tc74_is_busy` is true exactly when the state is not `TC74_IDLE`;
`tc74_get_temperature` returns false exactly when the instance is busy, and
then leaves the instance unchanged; on an idle instance it returns true, sets
the state `TC74_CONFIG_READ_DO`, sets the state-changed flag and clears the
result-available flag, leaving the other fields alone. -/
theorem tc74_get_temperature_spec (k : timekeeping_config) (now : timestamp)
    (data : tc74_data) :
    (tc74_is_busy data = true ↔ data.state ≠ TC74_IDLE) ∧
    ((tc74_get_temperature k now data).1 = false ↔ data.state ≠ TC74_IDLE) ∧
    (data.state ≠ TC74_IDLE → (tc74_get_temperature k now data).2 = data) ∧
    (data.state = TC74_IDLE →
      (tc74_get_temperature k now data).1 = true ∧
      (tc74_get_temperature k now data).2 =
        { data with
          state := TC74_CONFIG_READ_DO, state_changed := true, get_temp_result := false }) := by
  by_cases h : data.state = TC74_IDLE
  · simp [tc74_is_busy, tc74_get_temperature, TC74_SETSTATE, tc74_set_state_do, h]
  · simp [tc74_is_busy, tc74_get_temperature, h]

/-! ## Theorems: one poll in detail -/

/-- Inert callbacks keep the history of register writes. -/
theorem i2c_callbacks_inert_hw_writes {cb : i2c_callbacks} (hcb : i2c_callbacks_inert cb)
    (c : i2c_completion) (s : i2c_engine) : (cb c s).hw_writes = s.hw_writes := by
  rw [hcb c s]

/-- Inert callbacks keep the history of states set. -/
theorem i2c_callbacks_inert_transitions {cb : i2c_callbacks} (hcb : i2c_callbacks_inert cb)
    (c : i2c_completion) (s : i2c_engine) : (cb c s).transitions = s.transitions := by
  rw [hcb c s]

/-- Inert callbacks keep the state-changed flag. -/
theorem i2c_callbacks_inert_changed {cb : i2c_callbacks} (hcb : i2c_callbacks_inert cb)
    (c : i2c_completion) (s : i2c_engine) :
    (cb c s).i2c_state_changed = s.i2c_state_changed := by
  rw [hcb c s]

/-- Inert callbacks keep the transaction deadline. -/
theorem i2c_callbacks_inert_deadline {cb : i2c_callbacks} (hcb : i2c_callbacks_inert cb)
    (c : i2c_completion) (s : i2c_engine) :
    (cb c s).i2c_transaction_deadline = s.i2c_transaction_deadline := by
  rw [hcb c s]

/-- While the hardware has not completed (`TWINT` clear) in a waiting state,
`i2c_poll_atomic` is the timeout check on the entry state. -/
theorem i2c_poll_atomic_waiting (k : timekeeping_config) (cb : i2c_callbacks) (hw : i2c_hw)
    (s : i2c_engine) (hs : s.i2c_state.waits_for_hw = true)
    (hclr : bit_is_clear hw.twcr TWINT = true) :
    i2c_poll_atomic k cb hw s =
      (i2c_transaction_maybe_timedout k cb hw.now (i2c_poll_entry hw s)).map Prod.snd := by
  rcases h : s.i2c_state <;> simp [h, i2c_states.waits_for_hw] at hs <;>
    simp [i2c_poll_atomic, h, i2c_is_reset_idle_poll_state, hclr, i2c_poll_entry]

/-- Everything `I2C_SETSTATE` does, with callbacks that do not call into the
module: the state set, the history of states, the state-changed flag, the
registers and their history, the two deadlines, and the queue with its
histories (a release exactly on a transition into a terminal state). -/
theorem I2C_SETSTATE_frame (k : timekeeping_config) {cb : i2c_callbacks}
    (hcb : i2c_callbacks_inert cb) {now : timestamp} {st : i2c_states}
    {s1 s' : i2c_engine} (h : I2C_SETSTATE k cb now st s1 = some s') :
    s'.i2c_state = st ∧
    s'.transitions = s1.transitions ++ (if s1.i2c_state ≠ st then [st] else []) ∧
    s'.i2c_state_changed = (s1.i2c_state_changed || decide (s1.i2c_state ≠ st)) ∧
    s'.hw_writes = s1.hw_writes ∧
    s'.i2c_transaction_deadline =
      (if st = I2C_START_DO ∧ s1.i2c_state ≠ st then
        timestamp_add (timekeeping_counts_per_tick k) now
          (TIMESTAMPI_FROM_MS k.TIMEKEEPING_HZ (timekeeping_counts_per_tick k)
            I2C_TRANS_TIMEOUT)
       else s1.i2c_transaction_deadline) ∧
    (((st = I2C_TRANS_OK_STOP_DO ∨ st = I2C_TRANS_FAILED_RESET) ∧ s1.i2c_state ≠ st) →
      ∀ tr rest, s1.i2c_transaction_list_head = tr :: rest →
        s'.i2c_transaction_list_head = rest ∧
        s'.released = s1.released ++ [⟨tr, decide (st = I2C_TRANS_OK_STOP_DO)⟩] ∧
        s'.completions = s1.completions ++
          (if tr.func ≠ NULL then
            [⟨tr.func, tr.data, decide (st = I2C_TRANS_OK_STOP_DO), tr.rdlen_actual⟩]
           else [])) ∧
    (¬((st = I2C_TRANS_OK_STOP_DO ∨ st = I2C_TRANS_FAILED_RESET) ∧ s1.i2c_state ≠ st) →
      s'.i2c_transaction_list_head = s1.i2c_transaction_list_head ∧
      s'.released = s1.released ∧ s'.completions = s1.completions ∧ s'.mem = s1.mem) := by
  have hc := fun c s => i2c_callbacks_inert_state hcb c s
  have hh := fun c s => i2c_callbacks_inert_head hcb c s
  have hr := fun c s => i2c_callbacks_inert_released hcb c s
  have hp := fun c s => i2c_callbacks_inert_completions hcb c s
  have hw := fun c s => i2c_callbacks_inert_hw_writes hcb c s
  have ht := fun c s => i2c_callbacks_inert_transitions hcb c s
  have hg := fun c s => i2c_callbacks_inert_changed hcb c s
  have hd := fun c s => i2c_callbacks_inert_deadline hcb c s
  unfold I2C_SETSTATE at h
  by_cases hne : s1.i2c_state = st
  · simp only [hne, ne_eq, not_true_eq_false, if_false, Option.some.injEq] at h
    subst h
    simp [hne]
  · simp only [hne, ne_eq, not_false_eq_true, if_true] at h
    by_cases hterm : st = I2C_TRANS_OK_STOP_DO ∨ st = I2C_TRANS_FAILED_RESET
    · cases hq : s1.i2c_transaction_list_head with
      | nil =>
        simp [i2c_set_state_do, hterm, hq] at h
      | cons tr rest =>
        rcases hterm with rfl | rfl
        all_goals
          simp only [i2c_set_state_do, hq, true_or, or_true, if_true, Option.map_some',
            i2c_is_reset_idle_poll_state, Option.some.injEq] at h
          by_cases hf : tr.func = NULL
          · simp only [hf, ne_eq, not_true_eq_false, if_false] at h
            subst h
            cases rest <;> simp [hne, hf]
          · simp only [hf, ne_eq, not_false_eq_true, if_true, hc] at h
            subst h
            cases rest <;> simp [hne, hf, hc, hh, hr, hp, hw, ht, hg, hd]
    · have h1 : st ≠ I2C_TRANS_OK_STOP_DO := fun e => hterm (Or.inl e)
      have h2 : st ≠ I2C_TRANS_FAILED_RESET := fun e => hterm (Or.inr e)
      simp only [i2c_set_state_do, h1, h2, or_self, if_false] at h
      split at h <;> simp only [Option.map_some', Option.some.injEq] at h <;>
        split at h <;> subst h <;> simp_all

/-- The three outcomes of `i2c_transaction_maybe_timedout`: no timeout and no
change, or a timeout that sets `I2C_TRANS_FAILED_RESET`, or, when the stop was
already sent, a timeout that resets the controller. -/
theorem i2c_transaction_maybe_timedout_cases (k : timekeeping_config) (cb : i2c_callbacks)
    {now : timestamp} {s1 s' : i2c_engine}
    (h : (i2c_transaction_maybe_timedout k cb now s1).map Prod.snd = some s') :
    (timestamp_temporal_cmp (timekeeping_counts_per_tick k) now
        s1.i2c_transaction_deadline .lt = true ∧ s' = s1) ∨
    (timestamp_temporal_cmp (timekeeping_counts_per_tick k) now
        s1.i2c_transaction_deadline .lt = false ∧
      s1.i2c_state ≠ I2C_TRANS_OK_STOP_TX ∧
      I2C_SETSTATE k cb now I2C_TRANS_FAILED_RESET s1 = some s') ∨
    (timestamp_temporal_cmp (timekeeping_counts_per_tick k) now
        s1.i2c_transaction_deadline .lt = false ∧
      s1.i2c_state = I2C_TRANS_OK_STOP_TX ∧ i2c_reset k cb now s1 = some s') := by
  unfold i2c_transaction_maybe_timedout at h
  split at h
  · rename_i hlt
    simp only [Option.map_some', Option.some.injEq] at h
    exact Or.inl ⟨hlt, h.symm⟩
  · rename_i hlt
    simp only [Bool.not_eq_true] at hlt
    split at h
    · rename_i hne
      simp only [Option.map_map, Option.map_eq_some', Function.comp_apply] at h
      obtain ⟨s2, h2, rfl⟩ := h
      exact Or.inr (Or.inl ⟨hlt, hne, h2⟩)
    · rename_i he
      simp only [ne_eq, not_not] at he
      simp only [Option.map_map, Option.map_eq_some', Function.comp_apply] at h
      obtain ⟨s2, h2, rfl⟩ := h
      exact Or.inr (Or.inr ⟨hlt, he, h2⟩)

set_option linter.unusedTactic false in
set_option linter.unreachableTactic false in
set_option maxHeartbeats 4000000 in
/-- One `i2c_poll_atomic` call in detail, with callbacks that do not call into
the module.  It sets at most one state, and the state-changed flag tells
whether it did; from a state that acts at once it always sets one; when it
enters `I2C_START_DO` it sets the transaction deadline to the time read plus
the timeout, and otherwise it leaves the deadline alone; the queue head is left as it was or advanced by one byte, and it
is released, as the call left it, exactly when a terminal state is entered
(with nothing left to read when that state is `I2C_TRANS_OK_STOP_DO`); the
state `I2C_READ` is entered or kept only with bytes left to read. -/
theorem i2c_poll_atomic_step (k : timekeeping_config) {cb : i2c_callbacks}
    (hcb : i2c_callbacks_inert cb) (hw : i2c_hw) {s s' : i2c_engine}
    (h : i2c_poll_atomic k cb hw s = some s') :
    s'.transitions =
      s.transitions ++ (if s'.i2c_state ≠ s.i2c_state then [s'.i2c_state] else []) ∧
    s'.i2c_state_changed = decide (s'.i2c_state ≠ s.i2c_state) ∧
    (s.i2c_state.acts_at_once = true → s'.i2c_state ≠ s.i2c_state) ∧
    s'.i2c_transaction_deadline =
      (if s'.i2c_state = I2C_START_DO ∧ s.i2c_state ≠ I2C_START_DO then
        timestamp_add (timekeeping_counts_per_tick k) hw.now
          (TIMESTAMPI_FROM_MS k.TIMEKEEPING_HZ (timekeeping_counts_per_tick k)
            I2C_TRANS_TIMEOUT)
       else s.i2c_transaction_deadline) ∧
    (∀ tr rest, s.i2c_transaction_list_head = tr :: rest →
      (¬ i2c_enters_terminal s s' →
        s'.released = s.released ∧
        ∃ tr1, i2c_head_advance s.i2c_state tr tr1 ∧
          s'.i2c_transaction_list_head = tr1 :: rest ∧
          (s'.i2c_state = I2C_READ → (s.i2c_state = I2C_READ ∧ tr1 = tr) ∨ 0 < tr1.rdlen)) ∧
      (i2c_enters_terminal s s' →
        s'.i2c_transaction_list_head = rest ∧
        ∃ tr1, i2c_head_advance s.i2c_state tr tr1 ∧
          s'.released =
            s.released ++ [⟨tr1, decide (s'.i2c_state = I2C_TRANS_OK_STOP_DO)⟩] ∧
          (s'.i2c_state = I2C_TRANS_OK_STOP_DO → tr1.rdlen = 0))) := by
  rcases hs : s.i2c_state <;> cases hq : s.i2c_transaction_list_head
  all_goals
    simp only [i2c_poll_atomic, hs, hq, i2c_is_reset_idle_poll_state, reduceCtorEq,
      decide_False, decide_True, Bool.or_false, Bool.or_true, Bool.true_or, Bool.or_self,
      Bool.false_eq_true, if_false, or_self, or_true, true_or, if_true, false_and, true_and,
      ne_eq, not_true_eq_false, not_false_eq_true, List.head?_nil, List.head?_cons,
      Option.map_none', Option.map_some', Option.some_bind, Option.none_bind,
      i2c_twcr_set_cmd_bits, i2c_twcr_set_cmd_bits_atomic, i2c_twdr_write] at h
  all_goals
    repeat' split at h
  all_goals
    try simp only [Option.some_bind, Option.none_bind, Bool.false_eq_true, if_false,
      if_true, decide_eq_true_eq] at h
  all_goals
    repeat' split at h
  all_goals
    first
    | cases h; done
    | (obtain rfl := Option.some.inj h
       simp [i2c_enters_terminal, hs, hq, i2c_states.acts_at_once, i2c_head_advance]
       done)
    | (have he0 := I2C_SETSTATE_frame k hcb h
       simp [i2c_enters_terminal, hs, hq, i2c_states.acts_at_once, i2c_head_advance,
         i2c_twcr_set_bits, i2c_twcr_set_bits_atomic, i2c_twcr_clear_bits,
         i2c_twcr_clear_bits_atomic, i2c_write_advance, i2c_read_advance] at he0 ⊢
       obtain ⟨f1, f2, f3, f4, f5, f6⟩ := he0
       simp_all
       done)
    | (have hc0 := i2c_transaction_maybe_timedout_cases k cb h
       rcases hc0 with ⟨_, he1⟩ | ⟨_, _, h2⟩ | ⟨_, _, h2⟩
       · subst he1
         simp [i2c_enters_terminal, hs, hq, i2c_states.acts_at_once, i2c_head_advance]
       all_goals
         have he0 := I2C_SETSTATE_frame k hcb h2
         simp [i2c_enters_terminal, hs, hq, i2c_states.acts_at_once, i2c_head_advance,
           i2c_twcr_set_bits, i2c_twcr_set_bits_atomic, i2c_twcr_clear_bits,
           i2c_twcr_clear_bits_atomic, i2c_write_advance, i2c_read_advance] at he0 ⊢
         simp_all
       done)

/-! ## Theorems: one transition per call, one active transaction -/

/-- C15: `i2c_poll_atomic` advances one state transition per call.  From a
state in which the queue head is present where it is used, with callbacks that
do not call into the module and for every hardware input, the call returns; it
sets the state at most once (the history of states set grows by the new state
when the state changed and not at all otherwise), the state-changed flag tells
which; from each of the six states that do not wait for the hardware
(`I2C_START_DO`, `I2C_REPEATED_START_DO`, `I2C_WRITE_FIRST`, `I2C_READ_FIRST`,
`I2C_TRANS_OK_STOP_DO`, `I2C_TRANS_FAILED_RESET`) the state after the call
differs from the state before, by exactly one transition; and the call invokes
at most one callback. -/
theorem i2c_poll_atomic_one_transition (k : timekeeping_config) (cb : i2c_callbacks)
    (hcb : i2c_callbacks_inert cb) (hw : i2c_hw) (s : i2c_engine)
    (hp : i2c_head_present s) :
    ∃ s', i2c_poll_atomic k cb hw s = some s' ∧
      s'.transitions =
        s.transitions ++ (if s'.i2c_state ≠ s.i2c_state then [s'.i2c_state] else []) ∧
      s'.transitions.length ≤ s.transitions.length + 1 ∧
      s'.i2c_state_changed = decide (s'.i2c_state ≠ s.i2c_state) ∧
      (s.i2c_state.acts_at_once = true ↔
        s.i2c_state = I2C_START_DO ∨ s.i2c_state = I2C_REPEATED_START_DO ∨
        s.i2c_state = I2C_WRITE_FIRST ∨ s.i2c_state = I2C_READ_FIRST ∨
        s.i2c_state = I2C_TRANS_OK_STOP_DO ∨ s.i2c_state = I2C_TRANS_FAILED_RESET) ∧
      (s.i2c_state.acts_at_once = true →
        s'.i2c_state ≠ s.i2c_state ∧ s'.transitions = s.transitions ++ [s'.i2c_state]) ∧
      (∃ cs, s'.completions = s.completions ++ cs ∧ cs.length ≤ 1) := by
  cases h : i2c_poll_atomic k cb hw s with
  | none =>
    obtain ⟨hu, hq⟩ := i2c_poll_atomic_none k cb hw h
    exact absurd hq (hp hu)
  | some s' =>
    obtain ⟨ht, hc, ha, _, _⟩ := i2c_poll_atomic_step k hcb hw h
    obtain ⟨hterm, hkeep, _, _⟩ := i2c_poll_atomic_effect k hcb hw h
    refine ⟨s', rfl, ht, ?_, hc, ?_, fun hact => ⟨ha hact, ?_⟩, ?_⟩
    · rw [ht]
      split <;> simp
    · cases s.i2c_state <;> simp [i2c_states.acts_at_once]
    · rw [ht, if_pos (ha hact)]
    · by_cases hterm0 : i2c_enters_terminal s s'
      · obtain ⟨⟨tr, rest, tr1, _, _, _, _, hc'⟩, _⟩ := hterm hterm0
        refine ⟨_, hc', ?_⟩
        split <;> simp
      · exact ⟨[], by simp [(hkeep hterm0).2.1], by simp⟩

/-- Witness of C15: a poll in `I2C_START_DO` with one transaction queued. -/
theorem i2c_poll_atomic_one_transition_witness :
    ∃ s', i2c_poll_atomic ⟨16000000, 64, 8⟩ (fun _ s => s) ⟨0, 0, 0, ⟨7, 1⟩, ⟨7, 1⟩⟩
        { i2c_boot 0 0 0 0 (fun _ => 0) with
          i2c_state := I2C_START_DO,
          i2c_transaction_list_head := [⟨0x48, 100, 1, 0, 0, 5, 1, 0⟩] } = some s' ∧
      s'.transitions =
        ([] : List i2c_states) ++ (if s'.i2c_state ≠ I2C_START_DO then [s'.i2c_state] else []) ∧
      s'.transitions.length ≤ 0 + 1 ∧
      s'.i2c_state_changed = decide (s'.i2c_state ≠ I2C_START_DO) ∧
      (I2C_START_DO.acts_at_once = true ↔
        I2C_START_DO = I2C_START_DO ∨ I2C_START_DO = I2C_REPEATED_START_DO ∨
        I2C_START_DO = I2C_WRITE_FIRST ∨ I2C_START_DO = I2C_READ_FIRST ∨
        I2C_START_DO = I2C_TRANS_OK_STOP_DO ∨ I2C_START_DO = I2C_TRANS_FAILED_RESET) ∧
      (I2C_START_DO.acts_at_once = true →
        s'.i2c_state ≠ I2C_START_DO ∧ s'.transitions = [] ++ [s'.i2c_state]) ∧
      (∃ cs, s'.completions = [] ++ cs ∧ cs.length ≤ 1) :=
  i2c_poll_atomic_one_transition ⟨16000000, 64, 8⟩ (fun _ s => s) (fun _ _ => rfl)
    ⟨0, 0, 0, ⟨7, 1⟩, ⟨7, 1⟩⟩
    { i2c_boot 0 0 0 0 (fun _ => 0) with
      i2c_state := I2C_START_DO,
      i2c_transaction_list_head := [⟨0x48, 100, 1, 0, 0, 5, 1, 0⟩] }
    (by intro _ hq; cases hq)

/-- A poll on an empty queue leaves the queue empty and releases nothing. -/
theorem i2c_poll_atomic_empty (k : timekeeping_config) {cb : i2c_callbacks}
    (hcb : i2c_callbacks_inert cb) (hw : i2c_hw) {s s' : i2c_engine}
    (h : i2c_poll_atomic k cb hw s = some s') (hq : s.i2c_transaction_list_head = []) :
    ¬ i2c_enters_terminal s s' ∧ s'.i2c_transaction_list_head = [] ∧
      s'.released = s.released := by
  obtain ⟨hterm, hkeep, _, _⟩ := i2c_poll_atomic_effect k hcb hw h
  have hnt : ¬ i2c_enters_terminal s s' := by
    intro ht
    obtain ⟨⟨tr, rest, _, hq', _⟩, _⟩ := hterm ht
    rw [hq] at hq'
    cases hq'
  obtain ⟨hr, _, hid, _⟩ := hkeep hnt
  rw [hq] at hid
  exact ⟨hnt, by simpa using hid, hr⟩

/-- Advancing the queue head by one byte keeps what the node tells about its
request, as long as a byte read was a byte asked for and the lengths fit a
`uint8_t`. -/
theorem i2c_head_advance_origin {st : i2c_states} {tr tr1 : i2c_transaction_list}
    (ha : i2c_head_advance st tr tr1) (hd : st = I2C_READ → 0 < tr.rdlen)
    (hb : tr.rdlen_actual + tr.rdlen ≤ 255) :
    tr1.origin = tr.origin ∧ tr1.rdlen_actual + tr1.rdlen = tr.rdlen_actual + tr.rdlen := by
  rcases ha with rfl | ⟨_, _, rfl⟩ | ⟨hst, rfl⟩
  · exact ⟨rfl, rfl⟩
  · exact ⟨rfl, rfl⟩
  · have h0 := hd hst
    have h1 : (tr.rdlen_actual + 1) % 256 = tr.rdlen_actual + 1 := by omega
    have h2 : (tr.rdlen + 256 - 1) % 256 = tr.rdlen - 1 := by omega
    simp only [i2c_transaction_list.origin, i2c_read_advance, i2c_transaction_list.ident, h1,
      h2, Prod.mk.injEq, true_and]
    refine ⟨⟨by omega, ?_⟩, by omega⟩
    push_cast
    omega

/-- One call keeps the read ledger of the queue: the lengths of every queued
node fit a `uint8_t`, the state `I2C_READ` is held only with bytes left to
read, a node released with success has nothing left to read, and the released
nodes followed by the queued ones tell the same about their requests as
before, followed by the request the call enqueued, if any. -/
theorem i2c_step_origin (k : timekeeping_config) {cb : i2c_callbacks}
    (hcb : i2c_callbacks_inert cb) (op : i2c_op) (s : i2c_engine)
    (hop : op.in_range = true) (hp : i2c_head_present s)
    (hb : ∀ tr ∈ s.i2c_transaction_list_head, tr.rdlen_actual + tr.rdlen ≤ 255)
    (hd : s.i2c_state = I2C_READ → ∀ tr ∈ s.i2c_transaction_list_head.head?, 0 < tr.rdlen)
    (he : ∀ rel ∈ s.released, rel.success = true → rel.tr.rdlen = 0)
    {s' : i2c_engine} (h : i2c_step k cb op s = some s') :
    (∀ tr ∈ s'.i2c_transaction_list_head, tr.rdlen_actual + tr.rdlen ≤ 255) ∧
    (s'.i2c_state = I2C_READ → ∀ tr ∈ s'.i2c_transaction_list_head.head?, 0 < tr.rdlen) ∧
    (∀ rel ∈ s'.released, rel.success = true → rel.tr.rdlen = 0) ∧
    s'.released.map (fun r => r.tr.origin) ++
        s'.i2c_transaction_list_head.map i2c_transaction_list.origin =
      s.released.map (fun r => r.tr.origin) ++
        s.i2c_transaction_list_head.map i2c_transaction_list.origin ++
        (i2c_enqueued [op]).map i2c_request.origin := by
  cases op with
  | transaction now malloc_ok r =>
    obtain ⟨s2, h2, hr, _, hq, hst⟩ := i2c_transaction_req_effect k cb now malloc_ok r s
    simp only [i2c_step, h2, Option.map_some', Option.some.injEq] at h
    subst h
    simp only [i2c_op.in_range, i2c_request.in_range, Bool.and_eq_true, decide_eq_true_eq] at hop
    refine ⟨?_, ?_, by rw [hr]; exact he, ?_⟩
    · intro tr htr
      rw [hq, List.mem_append] at htr
      rcases htr with htr | htr
      · exact hb tr htr
      · split at htr
        · simp only [List.mem_singleton] at htr
          subst htr
          simp only [i2c_request.node]
          omega
        · cases htr
    · intro hs2
      rcases hst with hst | ⟨_, hst, _⟩
      · rw [hst] at hs2
        have hne := hp (by rw [hs2]; rfl)
        rw [hq, List.head?_append_of_ne_nil _ hne]
        exact hd hs2
      · rw [hst] at hs2
        cases hs2
    · rw [hr, hq]
      by_cases hacc : r.accepted malloc_ok = true <;>
        simp [i2c_enqueued, hacc, i2c_request.node, i2c_request.origin,
          i2c_transaction_list.origin, i2c_transaction_list.ident, i2c_request.ident]
  | poll hw =>
    simp only [i2c_step] at h
    cases hq : s.i2c_transaction_list_head with
    | nil =>
      obtain ⟨_, hq', hr'⟩ := i2c_poll_atomic_empty k hcb hw h hq
      rw [hq', hr']
      refine ⟨by simp, by simp, he, by simp [i2c_enqueued]⟩
    | cons tr rest =>
      obtain ⟨_, _, _, _, hstep⟩ := i2c_poll_atomic_step k hcb hw h
      obtain ⟨hkeep, hterm⟩ := hstep tr rest hq
      have hbt : tr.rdlen_actual + tr.rdlen ≤ 255 := hb tr (by rw [hq]; simp)
      have hdt : s.i2c_state = I2C_READ → 0 < tr.rdlen := fun hs =>
        hd hs tr (by rw [hq]; simp)
      have hbr : ∀ x ∈ rest, x.rdlen_actual + x.rdlen ≤ 255 := fun x hx =>
        hb x (by rw [hq]; simp [hx])
      by_cases ht : i2c_enters_terminal s s'
      · obtain ⟨hq', tr1, hadv, hr', hok⟩ := hterm ht
        obtain ⟨ho, _⟩ := i2c_head_advance_origin hadv hdt hbt
        refine ⟨by rw [hq']; exact hbr, ?_, ?_, ?_⟩
        · intro hs'
          rcases ht.1 with h1 | h1 <;> rw [hs'] at h1 <;> cases h1
        · intro rel hrel
          rw [hr', List.mem_append] at hrel
          rcases hrel with hrel | hrel
          · exact he rel hrel
          · simp only [List.mem_singleton] at hrel
            subst hrel
            intro hsucc
            exact hok (by simpa using hsucc)
        · rw [hr', hq']
          simp [i2c_enqueued, ho]
      · obtain ⟨hr', tr1, hadv, hq', hread⟩ := hkeep ht
        obtain ⟨ho, hsum⟩ := i2c_head_advance_origin hadv hdt hbt
        refine ⟨?_, ?_, by rw [hr']; exact he, ?_⟩
        · intro x hx
          rw [hq', List.mem_cons] at hx
          rcases hx with rfl | hx
          · omega
          · exact hbr x hx
        · intro hs' x hx
          rw [hq'] at hx
          simp only [List.head?_cons, Option.mem_def, Option.some.injEq] at hx
          subst hx
          rcases hread hs' with ⟨hs0, rfl⟩ | hpos
          · exact hdt hs0
          · exact hpos
        · rw [hr', hq']
          simp [i2c_enqueued, ho]

/-- One call keeps the nodes behind the queue head as they were enqueued: with
the requests accepted so far in `reqs`, the nodes behind the head are the
nodes of the requests that follow the released ones and the head. -/
theorem i2c_step_tail (k : timekeeping_config) {cb : i2c_callbacks}
    (hcb : i2c_callbacks_inert cb) (op : i2c_op) (s : i2c_engine) (reqs : List i2c_request)
    (hl : s.released.length + s.i2c_transaction_list_head.length = reqs.length)
    (hb : s.i2c_transaction_list_head.tail =
      (reqs.drop (s.released.length + 1)).map i2c_request.node)
    {s' : i2c_engine} (h : i2c_step k cb op s = some s') :
    s'.i2c_transaction_list_head.tail =
      ((reqs ++ i2c_enqueued [op]).drop (s'.released.length + 1)).map i2c_request.node := by
  cases op with
  | transaction now malloc_ok r =>
    obtain ⟨s2, h2, hr, _, hq, _⟩ := i2c_transaction_req_effect k cb now malloc_ok r s
    simp only [i2c_step, h2, Option.map_some', Option.some.injEq] at h
    subst h
    rw [hr, hq]
    by_cases hacc : r.accepted malloc_ok = true
    · simp only [hacc, if_true, i2c_enqueued]
      cases hq0 : s.i2c_transaction_list_head with
      | nil =>
        rw [hq0] at hl
        simp only [List.length_nil, Nat.add_zero] at hl
        rw [List.drop_eq_nil_of_le (by simp; omega)]
        simp
      | cons tr rest =>
        rw [hq0] at hl hb
        simp only [List.length_cons] at hl
        rw [List.drop_append_of_le_length (by omega)]
        simp only [List.cons_append, List.tail_cons, List.map_append, List.map_cons,
          List.map_nil]
        simp only [List.tail_cons] at hb
        rw [hb]
    · simp only [hacc, Bool.false_eq_true, if_false, i2c_enqueued, List.append_nil]
      exact hb
  | poll hw =>
    simp only [i2c_step] at h
    simp only [i2c_enqueued, List.append_nil]
    cases hq : s.i2c_transaction_list_head with
    | nil =>
      obtain ⟨_, hq', hr'⟩ := i2c_poll_atomic_empty k hcb hw h hq
      rw [hq] at hb
      rw [hq', hr']
      exact hb
    | cons tr rest =>
      obtain ⟨_, _, _, _, hstep⟩ := i2c_poll_atomic_step k hcb hw h
      obtain ⟨hkeep, hterm⟩ := hstep tr rest hq
      rw [hq] at hb
      simp only [List.tail_cons] at hb
      by_cases ht : i2c_enters_terminal s s'
      · obtain ⟨hq', tr1, _, hr', _⟩ := hterm ht
        rw [hq', hr', hb, ← List.map_tail, List.tail_drop]
        simp
      · obtain ⟨hr', tr1, _, hq', _⟩ := hkeep ht
        rw [hq', hr']
        exact hb

/-- The enqueue sequence of a sequence of calls is that of its first call
followed by that of the others. -/
theorem i2c_enqueued_cons (op : i2c_op) (ops : List i2c_op) :
    i2c_enqueued (op :: ops) = i2c_enqueued [op] ++ i2c_enqueued ops := by
  cases op with
  | transaction now malloc_ok r =>
    by_cases hacc : r.accepted malloc_ok = true <;> simp [i2c_enqueued, hacc]
  | poll hw => simp [i2c_enqueued]

/-- The nodes behind the queue head over a whole sequence of calls, from any
state that satisfies the invariant with the requests `reqs` accepted before. -/
theorem i2c_run_tail (k : timekeeping_config) {cb : i2c_callbacks}
    (hcb : i2c_callbacks_inert cb) (ops : List i2c_op) :
    ∀ (s : i2c_engine) (reqs : List i2c_request), i2c_head_present s →
      s.completions = s.released.filterMap i2c_release.callback →
      s.released.length + s.i2c_transaction_list_head.length = reqs.length →
      s.i2c_transaction_list_head.tail =
        (reqs.drop (s.released.length + 1)).map i2c_request.node →
      ∃ s', i2c_run k cb ops s = some s' ∧ i2c_head_present s' ∧
        s'.released.length + s'.i2c_transaction_list_head.length =
          (reqs ++ i2c_enqueued ops).length ∧
        s'.i2c_transaction_list_head.tail =
          ((reqs ++ i2c_enqueued ops).drop (s'.released.length + 1)).map i2c_request.node := by
  induction ops with
  | nil =>
    intro s reqs hp _ hl hb
    exact ⟨s, rfl, hp, by simpa [i2c_enqueued] using hl, by simpa [i2c_enqueued] using hb⟩
  | cons op ops ih =>
    intro s reqs hp hc hl hb
    obtain ⟨s1, h1, hp1, hc1, _, hl1⟩ := i2c_step_accounting k hcb op s hp hc
    have hb1 := i2c_step_tail k hcb op s reqs hl hb h1
    have hl1' : s1.released.length + s1.i2c_transaction_list_head.length =
        (reqs ++ i2c_enqueued [op]).length := by
      rw [hl1, hl, List.length_append]
    obtain ⟨s2, h2, hp2, hl2, hb2⟩ := ih s1 (reqs ++ i2c_enqueued [op]) hp1 hc1 hl1' hb1
    refine ⟨s2, by simp [i2c_run, h1, h2], hp2, ?_, ?_⟩
    · rw [i2c_enqueued_cons, ← List.append_assoc]
      exact hl2
    · rw [i2c_enqueued_cons, ← List.append_assoc]
      exact hb2

/-- The read ledger over a whole sequence of calls whose arguments fit their
C types, from any state that satisfies the invariant. -/
theorem i2c_run_origin (k : timekeeping_config) {cb : i2c_callbacks}
    (hcb : i2c_callbacks_inert cb) (ops : List i2c_op)
    (hops : ∀ op ∈ ops, op.in_range = true) :
    ∀ s : i2c_engine, i2c_head_present s →
      s.completions = s.released.filterMap i2c_release.callback →
      (∀ tr ∈ s.i2c_transaction_list_head, tr.rdlen_actual + tr.rdlen ≤ 255) →
      (s.i2c_state = I2C_READ → ∀ tr ∈ s.i2c_transaction_list_head.head?, 0 < tr.rdlen) →
      (∀ rel ∈ s.released, rel.success = true → rel.tr.rdlen = 0) →
      ∃ s', i2c_run k cb ops s = some s' ∧
        s'.completions = s'.released.filterMap i2c_release.callback ∧
        (∀ rel ∈ s'.released, rel.success = true → rel.tr.rdlen = 0) ∧
        s'.released.map (fun r => r.tr.origin) ++
            s'.i2c_transaction_list_head.map i2c_transaction_list.origin =
          s.released.map (fun r => r.tr.origin) ++
            s.i2c_transaction_list_head.map i2c_transaction_list.origin ++
            (i2c_enqueued ops).map i2c_request.origin := by
  induction ops with
  | nil =>
    intro s _ hc _ _ he
    exact ⟨s, rfl, hc, he, by simp [i2c_enqueued]⟩
  | cons op ops ih =>
    intro s hp hc hb hd he
    obtain ⟨s1, h1, hp1, hc1, _, _⟩ := i2c_step_accounting k hcb op s hp hc
    obtain ⟨hb1, hd1, he1, ho1⟩ :=
      i2c_step_origin k hcb op s (hops op (by simp)) hp hb hd he h1
    obtain ⟨s2, h2, hc2, he2, ho2⟩ :=
      ih (fun x hx => hops x (by simp [hx])) s1 hp1 hc1 hb1 hd1 he1
    refine ⟨s2, by simp [i2c_run, h1, h2], hc2, he2, ?_⟩
    rw [ho2, ho1, i2c_enqueued_cons op ops]
    simp

/-- Two lists whose images agree entry by entry: the entries of the first are
related to those of the second, position by position. -/
theorem i2c_ledger_forall2 {α γ δ : Type} (f : α → δ) (g : γ → δ) (P : α → Prop) :
    ∀ (A : List α) (D : List δ) (C : List γ), A.map f ++ D = C.map g → (∀ a ∈ A, P a) →
      List.Forall₂ (fun a c => f a = g c ∧ P a) A (C.take A.length) := by
  intro A
  induction A with
  | nil =>
    intro D C _ _
    simp
  | cons a A ih =>
    intro D C h hP
    cases C with
    | nil => simp at h
    | cons c C =>
      simp only [List.map_cons, List.cons_append, List.cons.injEq] at h
      simp only [List.length_cons, List.take_succ_cons, List.forall₂_cons]
      exact ⟨⟨h.1, hP a (by simp)⟩, ih D C h.2 (fun x hx => hP x (by simp [hx]))⟩

/-- C14: the reported read length is exact.  In every state reached from
`i2c_setup` (which has left the state `s0`) by `i2c_transaction` and
`i2c_poll_atomic` calls (arguments that
fit their `uint8_t` parameters, arbitrary hardware inputs, callbacks that do
not call into the module), every transaction, released or still queued, has
`rdlen_actual` plus its remaining read length equal to the read length asked
for at enqueue, and its read cursor is the buffer asked for moved forward by
`rdlen_actual` (one step for each byte stored); the callbacks invoked are
those of the released nodes and report the `rdlen_actual` of the node; so a
released transaction reports the number of bytes stored, at most the length
asked for, and exactly the length asked for when it is released with
success. -/
theorem i2c_rdlen_actual_exact (k : timekeeping_config) (cb : i2c_callbacks)
    (hcb : i2c_callbacks_inert cb) (clock twcr twsr twdr twbr : Nat) (mem : Nat → Nat)
    (s0 : i2c_engine)
    (hsetup : i2c_setup k clock (i2c_boot twcr twsr twdr twbr mem) = some s0)
    (ops : List i2c_op) (hops : ∀ op ∈ ops, op.in_range = true) :
    ∃ s, i2c_run k cb ops s0 = some s ∧
      s.released.map (fun r => r.tr.origin) ++
          s.i2c_transaction_list_head.map i2c_transaction_list.origin =
        (i2c_enqueued ops).map i2c_request.origin ∧
      s.completions = s.released.filterMap i2c_release.callback ∧
      List.Forall₂
        (fun rel r =>
          rel.tr.rdlen_actual + rel.tr.rdlen = r.rdlen ∧
          rel.tr.rdbuf = r.rdbuf + rel.tr.rdlen_actual ∧
          rel.tr.rdlen_actual ≤ r.rdlen ∧
          (rel.success = true → rel.tr.rdlen_actual = r.rdlen))
        s.released ((i2c_enqueued ops).take s.released.length) := by
  obtain ⟨hst, _, hq, hr, hc⟩ := i2c_setup_boot k clock twcr twsr twdr twbr mem s0 hsetup
  obtain ⟨s, hrun, hcs, he, ho⟩ := i2c_run_origin k hcb ops hops
    s0
    (by intro hu; rw [hst] at hu; simp [i2c_states.uses_head] at hu)
    (by rw [hc, hr]; rfl)
    (by rw [hq]; simp)
    (by rw [hst]; intro h; cases h)
    (by rw [hr]; simp)
  rw [hr, hq] at ho
  simp only [List.map_nil, List.append_nil, List.nil_append] at ho
  refine ⟨s, hrun, ho, hcs, ?_⟩
  have hf := i2c_ledger_forall2 (fun r : i2c_release => r.tr.origin) i2c_request.origin
    (fun rel => rel.success = true → rel.tr.rdlen = 0) s.released _ _ ho he
  refine hf.imp ?_
  intro rel r hrel
  obtain ⟨ho1, hs1⟩ := hrel
  simp only [i2c_transaction_list.origin, i2c_request.origin, Prod.mk.injEq] at ho1
  obtain ⟨_, hlen, hbuf⟩ := ho1
  refine ⟨hlen, by omega, by omega, fun hsucc => ?_⟩
  have := hs1 hsucc
  omega

/-- Witness of C14: a read of two bytes is enqueued, addressed and
acknowledged; one byte is received and stored, then the bus reports an error
and the transaction fails with one byte read. -/
theorem i2c_rdlen_actual_exact_witness :
    ∃ s0, i2c_setup ⟨16000000, 64, 8⟩ 100000 (i2c_boot 0 0 0 0 (fun _ => 0)) = some s0 ∧
    ∃ s, i2c_run ⟨16000000, 64, 8⟩ (fun _ s => s)
        [i2c_op.transaction ⟨7, 0⟩ true ⟨0x4b, 0, 0, 200, 2, 5, 1⟩,
         i2c_op.poll ⟨0, 0, 0, ⟨7, 1⟩, ⟨7, 1⟩⟩,
         i2c_op.poll ⟨0x80, 0x08, 0, ⟨7, 2⟩, ⟨7, 2⟩⟩,
         i2c_op.poll ⟨0x80, 0x40, 0, ⟨7, 3⟩, ⟨7, 3⟩⟩,
         i2c_op.poll ⟨0x80, 0x40, 0, ⟨7, 4⟩, ⟨7, 4⟩⟩,
         i2c_op.poll ⟨0x80, 0x50, 0x19, ⟨7, 5⟩, ⟨7, 5⟩⟩,
         i2c_op.poll ⟨0x80, 0x00, 0, ⟨7, 6⟩, ⟨7, 6⟩⟩]
        s0 = some s ∧
      s.released.map (fun r => r.tr.origin) ++
          s.i2c_transaction_list_head.map i2c_transaction_list.origin =
        (i2c_enqueued
          [i2c_op.transaction ⟨7, 0⟩ true ⟨0x4b, 0, 0, 200, 2, 5, 1⟩,
           i2c_op.poll ⟨0, 0, 0, ⟨7, 1⟩, ⟨7, 1⟩⟩,
           i2c_op.poll ⟨0x80, 0x08, 0, ⟨7, 2⟩, ⟨7, 2⟩⟩,
           i2c_op.poll ⟨0x80, 0x40, 0, ⟨7, 3⟩, ⟨7, 3⟩⟩,
           i2c_op.poll ⟨0x80, 0x40, 0, ⟨7, 4⟩, ⟨7, 4⟩⟩,
           i2c_op.poll ⟨0x80, 0x50, 0x19, ⟨7, 5⟩, ⟨7, 5⟩⟩,
           i2c_op.poll ⟨0x80, 0x00, 0, ⟨7, 6⟩, ⟨7, 6⟩⟩]).map i2c_request.origin ∧
      s.completions = s.released.filterMap i2c_release.callback ∧
      List.Forall₂
        (fun rel r =>
          rel.tr.rdlen_actual + rel.tr.rdlen = r.rdlen ∧
          rel.tr.rdbuf = r.rdbuf + rel.tr.rdlen_actual ∧
          rel.tr.rdlen_actual ≤ r.rdlen ∧
          (rel.success = true → rel.tr.rdlen_actual = r.rdlen))
        s.released
        ((i2c_enqueued
          [i2c_op.transaction ⟨7, 0⟩ true ⟨0x4b, 0, 0, 200, 2, 5, 1⟩,
           i2c_op.poll ⟨0, 0, 0, ⟨7, 1⟩, ⟨7, 1⟩⟩,
           i2c_op.poll ⟨0x80, 0x08, 0, ⟨7, 2⟩, ⟨7, 2⟩⟩,
           i2c_op.poll ⟨0x80, 0x40, 0, ⟨7, 3⟩, ⟨7, 3⟩⟩,
           i2c_op.poll ⟨0x80, 0x40, 0, ⟨7, 4⟩, ⟨7, 4⟩⟩,
           i2c_op.poll ⟨0x80, 0x50, 0x19, ⟨7, 5⟩, ⟨7, 5⟩⟩,
           i2c_op.poll ⟨0x80, 0x00, 0, ⟨7, 6⟩, ⟨7, 6⟩⟩]).take s.released.length) :=
  ⟨_, rfl,
    i2c_rdlen_actual_exact ⟨16000000, 64, 8⟩ (fun _ s => s) (fun _ _ => rfl)
    100000 0 0 0 0 (fun _ => 0) _ rfl _ (by decide)⟩

/-- C16: at most one transaction is active.  In every state reached from
`i2c_setup` (which has left the state `s0`) by `i2c_transaction` and
`i2c_poll_atomic` calls (callbacks that
do not call into the module), the nodes behind the queue head are the nodes of
their requests exactly as they were enqueued, in enqueue order, so with
`rdlen_actual` still 0; and every further `i2c_poll_atomic` call returns and
either leaves the queue with the same nodes behind the head and the head as it
was or advanced by one byte (write cursor and length, or read cursor, length
and `rdlen_actual`; address, callback and user data untouched), or enters a
terminal state and removes exactly the head; after it the nodes behind the
head are again as enqueued. -/
theorem i2c_poll_atomic_head_only (k : timekeeping_config) (cb : i2c_callbacks)
    (hcb : i2c_callbacks_inert cb) (clock twcr twsr twdr twbr : Nat) (mem : Nat → Nat)
    (s0 : i2c_engine)
    (hsetup : i2c_setup k clock (i2c_boot twcr twsr twdr twbr mem) = some s0)
    (ops : List i2c_op) (hw : i2c_hw) :
    ∃ s s', i2c_run k cb ops s0 = some s ∧
      i2c_poll_atomic k cb hw s = some s' ∧
      s.i2c_transaction_list_head.tail =
        ((i2c_enqueued ops).drop (s.released.length + 1)).map i2c_request.node ∧
      (∀ tr ∈ s.i2c_transaction_list_head.tail, tr.rdlen_actual = 0) ∧
      ((¬ i2c_enters_terminal s s' ∧ s'.released = s.released ∧
          ((s.i2c_transaction_list_head = [] ∧ s'.i2c_transaction_list_head = []) ∨
            ∃ tr tr1 rest, s.i2c_transaction_list_head = tr :: rest ∧
              s'.i2c_transaction_list_head = tr1 :: rest ∧
              i2c_head_advance s.i2c_state tr tr1 ∧ tr1.ident = tr.ident)) ∨
        (i2c_enters_terminal s s' ∧
          ∃ tr rest, s.i2c_transaction_list_head = tr :: rest ∧
            s'.i2c_transaction_list_head = rest)) ∧
      s'.i2c_transaction_list_head.tail =
        ((i2c_enqueued ops).drop (s'.released.length + 1)).map i2c_request.node ∧
      (∀ tr ∈ s'.i2c_transaction_list_head.tail, tr.rdlen_actual = 0) := by
  obtain ⟨hst, _, hq, hr, hc⟩ := i2c_setup_boot k clock twcr twsr twdr twbr mem s0 hsetup
  obtain ⟨s, hrun, hp, hl, hb⟩ := i2c_run_tail k hcb ops
    s0 []
    (by intro hu; rw [hst] at hu; simp [i2c_states.uses_head] at hu)
    (by rw [hc, hr]; rfl)
    (by rw [hr, hq]; rfl)
    (by rw [hq]; simp)
  simp only [List.nil_append] at hl hb
  have hzero : ∀ (l : List i2c_request), ∀ tr ∈ l.map i2c_request.node, tr.rdlen_actual = 0 := by
    intro l tr htr
    obtain ⟨r, _, rfl⟩ := List.mem_map.mp htr
    rfl
  cases h : i2c_poll_atomic k cb hw s with
  | none =>
    obtain ⟨hu, hq0⟩ := i2c_poll_atomic_none k cb hw h
    exact absurd hq0 (hp hu)
  | some s' =>
    have hb' := i2c_step_tail k hcb (i2c_op.poll hw) s (i2c_enqueued ops) hl hb
      (by simpa [i2c_step] using h)
    simp only [i2c_enqueued, List.append_nil] at hb'
    refine ⟨s, s', hrun, h, hb, by rw [hb]; exact hzero _, ?_, hb',
      by rw [hb']; exact hzero _⟩
    cases hq0 : s.i2c_transaction_list_head with
    | nil =>
      obtain ⟨hnt, hq', hr'⟩ := i2c_poll_atomic_empty k hcb hw h hq0
      exact Or.inl ⟨hnt, hr', Or.inl ⟨rfl, hq'⟩⟩
    | cons tr rest =>
      obtain ⟨_, _, _, _, hstep⟩ := i2c_poll_atomic_step k hcb hw h
      obtain ⟨hkeep, hterm⟩ := hstep tr rest hq0
      by_cases ht : i2c_enters_terminal s s'
      · exact Or.inr ⟨ht, tr, rest, rfl, (hterm ht).1⟩
      · obtain ⟨hr', tr1, hadv, hq', _⟩ := hkeep ht
        refine Or.inl ⟨ht, hr', Or.inr ⟨tr, tr1, rest, rfl, hq', hadv, ?_⟩⟩
        rcases hadv with rfl | ⟨_, _, rfl⟩ | ⟨_, rfl⟩ <;> rfl

/-! ## Theorems: the phases of a transaction -/

/-- `I2C_SETSTATE` returns unless it releases from an empty queue. -/
theorem I2C_SETSTATE_total (k : timekeeping_config) (cb : i2c_callbacks) (now : timestamp)
    (st : i2c_states) (s1 : i2c_engine)
    (h : s1.i2c_transaction_list_head ≠ [] ∨
      (st ≠ I2C_TRANS_OK_STOP_DO ∧ st ≠ I2C_TRANS_FAILED_RESET)) :
    ∃ s', I2C_SETSTATE k cb now st s1 = some s' := by
  cases h0 : I2C_SETSTATE k cb now st s1 with
  | some s' => exact ⟨s', rfl⟩
  | none =>
    obtain ⟨hst, hq⟩ := I2C_SETSTATE_none k cb h0
    rcases h with h | ⟨h1, h2⟩
    · exact absurd hq h
    · rcases hst with hst | hst
      · exact absurd hst h1
      · exact absurd hst h2

/-- A poll returns when the queue is not empty. -/
theorem i2c_poll_atomic_total (k : timekeeping_config) (cb : i2c_callbacks) (hw : i2c_hw)
    (s : i2c_engine) (h : s.i2c_transaction_list_head ≠ [] ∨ s.i2c_state.uses_head = false) :
    ∃ s', i2c_poll_atomic k cb hw s = some s' := by
  cases h0 : i2c_poll_atomic k cb hw s with
  | some s' => exact ⟨s', rfl⟩
  | none =>
    obtain ⟨hu, hq⟩ := i2c_poll_atomic_none k cb hw h0
    rcases h with h | h
    · exact absurd hq h
    · rw [hu] at h
      cases h

/-- The data register writes of two histories in a row. -/
theorem i2c_twdr_writes_append (a b : List i2c_hw_write) :
    i2c_twdr_writes (a ++ b) = i2c_twdr_writes a ++ i2c_twdr_writes b := by
  induction a with
  | nil => rfl
  | cons w a ih => cases w <;> simp [i2c_twdr_writes, ih]

/-- A control register value with the stop bit or-ed in has the stop bit. -/
theorem i2c_stop_bit_set (x : Nat) :
    bit_is_set ((x ||| (BV TWINT ||| BV TWSTO)) % 256) TWSTO = true := by
  have h : Nat.testBit (((x ||| 144) % 2 ^ 8) &&& 16) 4 = true := by
    rw [Nat.testBit_and, Nat.testBit_mod_two_pow, Nat.testBit_or]
    have h1 : Nat.testBit 144 4 = true := by decide
    have h2 : Nat.testBit 16 4 = true := by decide
    simp [h1, h2]
  simp only [bit_is_set, BV, TWINT, TWSTO, decide_eq_true_eq]
  intro h0
  have e : (x ||| (2 ^ 7 ||| 2 ^ 4)) % 256 &&& 2 ^ 4 = ((x ||| 144) % 2 ^ 8) &&& 16 := rfl
  rw [e] at h0
  rw [h0] at h
  simp at h

/-- What a completion callback can do to data memory when `I2C_SETSTATE`
releases the queue head: nothing without a callback, otherwise what the
callback does to a state holding the memory of before. -/
theorem I2C_SETSTATE_terminal_mem (k : timekeeping_config) (cb : i2c_callbacks)
    (now : timestamp) (st : i2c_states) (s1 : i2c_engine)
    (tr : i2c_transaction_list) (rest : List i2c_transaction_list)
    (hst : st = I2C_TRANS_OK_STOP_DO ∨ st = I2C_TRANS_FAILED_RESET)
    (hne : s1.i2c_state ≠ st) (hq : s1.i2c_transaction_list_head = tr :: rest)
    {s' : i2c_engine} (h : I2C_SETSTATE k cb now st s1 = some s') :
    (tr.func = NULL → s'.mem = s1.mem) ∧
    (tr.func ≠ NULL → ∃ sx : i2c_engine, sx.mem = s1.mem ∧
      s'.mem =
        (cb ⟨tr.func, tr.data, decide (st = I2C_TRANS_OK_STOP_DO), tr.rdlen_actual⟩ sx).mem) := by
  unfold I2C_SETSTATE at h
  simp only [ne_eq, hne, not_false_eq_true, if_true, i2c_set_state_do, hq, hst,
    Option.map_some', i2c_is_reset_idle_poll_state, Option.some.injEq] at h
  by_cases hf : tr.func = NULL
  · simp only [hf, ne_eq, not_true_eq_false, if_false] at h
    subst h
    refine ⟨fun _ => ?_, fun hn => absurd hf hn⟩
    split <;> rfl
  · simp only [hf, ne_eq, not_false_eq_true, if_true] at h
    subst h
    refine ⟨fun hn => absurd hn hf, fun _ =>
      ⟨{ s1 with
          i2c_state_changed := true,
          i2c_state := st,
          transitions := s1.transitions ++ [st],
          completions := s1.completions ++
            [⟨tr.func, tr.data, decide (st = I2C_TRANS_OK_STOP_DO), tr.rdlen_actual⟩] },
        rfl, ?_⟩⟩
    simp only [apply_ite i2c_engine.mem, ite_self, hq]

/-- The poll in `I2C_START_DO`: it requests a start condition and waits for
it in `I2C_START_TX`. -/
theorem i2c_poll_START_DO (k : timekeeping_config) {cb : i2c_callbacks}
    (hcb : i2c_callbacks_inert cb) (hw : i2c_hw) (s : i2c_engine)
    (tr : i2c_transaction_list) (rest : List i2c_transaction_list)
    (hs : s.i2c_state = I2C_START_DO) (hq : s.i2c_transaction_list_head = tr :: rest) :
    ∃ s', i2c_poll_atomic k cb hw s = some s' ∧ s'.i2c_state = I2C_START_TX ∧
      s'.i2c_transaction_list_head = tr :: rest ∧
      s'.completions = s.completions ∧ s'.released = s.released ∧ s'.mem = s.mem ∧
      s'.i2c_transaction_deadline = s.i2c_transaction_deadline ∧
      i2c_twdr_writes s'.hw_writes = i2c_twdr_writes s.hw_writes := by
  obtain ⟨s', h⟩ := i2c_poll_atomic_total k cb hw s (Or.inl (by rw [hq]; simp))
  refine ⟨s', h, ?_⟩
  simp only [i2c_poll_atomic, hs, hq, i2c_is_reset_idle_poll_state, reduceCtorEq,
    decide_False, decide_True, Bool.or_false, Bool.or_true, Bool.true_or, Bool.or_self,
    Bool.false_eq_true, if_false, or_self, or_true, true_or, if_true, false_and, true_and,
    ne_eq, not_true_eq_false, not_false_eq_true, List.head?_nil, List.head?_cons,
    Option.map_none', Option.map_some', Option.some_bind, Option.none_bind,
    i2c_twcr_set_cmd_bits, i2c_twcr_set_cmd_bits_atomic, i2c_twdr_write] at h
  have hf := I2C_SETSTATE_frame k hcb h
  clear h
  simp [hs, hq] at hf
  simp [hf, i2c_twdr_writes_append, i2c_twdr_writes]

/-- The poll in `I2C_START_TX` once the start condition was sent: it writes
the address byte, with the read bit for a transaction that writes nothing, and
waits for the acknowledge in `I2C_ADDR`. -/
theorem i2c_poll_START_TX (k : timekeeping_config) {cb : i2c_callbacks}
    (hcb : i2c_callbacks_inert cb) (hw : i2c_hw) (s : i2c_engine)
    (tr : i2c_transaction_list) (rest : List i2c_transaction_list)
    (hs : s.i2c_state = I2C_START_TX) (hq : s.i2c_transaction_list_head = tr :: rest)
    (hc : hw.completed TW_START = true) :
    ∃ s', i2c_poll_atomic k cb hw s = some s' ∧ s'.i2c_state = I2C_ADDR ∧
      s'.i2c_transaction_list_head = tr :: rest ∧
      s'.completions = s.completions ∧ s'.released = s.released ∧ s'.mem = s.mem ∧
      s'.i2c_transaction_deadline = s.i2c_transaction_deadline ∧
      i2c_twdr_writes s'.hw_writes = i2c_twdr_writes s.hw_writes ++
        [(((tr.addr <<< 1) % 256) ||| (if tr.wrlen = 0 then TW_READ else TW_WRITE)) % 256] := by
  obtain ⟨s', h⟩ := i2c_poll_atomic_total k cb hw s (Or.inl (by rw [hq]; simp))
  refine ⟨s', h, ?_⟩
  simp only [i2c_hw.completed, Bool.and_eq_true, Bool.not_eq_true', decide_eq_true_eq] at hc
  obtain ⟨hint, hstat⟩ := hc
  simp only [i2c_poll_atomic, hs, hq, i2c_is_reset_idle_poll_state, reduceCtorEq,
    decide_False, decide_True, Bool.or_false, Bool.or_true, Bool.true_or, Bool.or_self,
    Bool.false_eq_true, if_false, or_self, or_true, true_or, if_true, false_and, true_and,
    ne_eq, not_true_eq_false, not_false_eq_true, List.head?_nil, List.head?_cons,
    Option.map_none', Option.map_some', Option.some_bind, Option.none_bind,
    i2c_twcr_set_cmd_bits, i2c_twcr_set_cmd_bits_atomic, i2c_twdr_write] at h
  simp only [hint, TW_STATUS, hstat, Bool.false_eq_true, if_false, ne_eq, not_true_eq_false,
    false_and] at h
  have hf := I2C_SETSTATE_frame k hcb h
  clear h
  simp [hs, hq] at hf
  simp [hf, i2c_twdr_writes_append, i2c_twdr_writes]

/-- The poll in `I2C_ADDR` once the address of a transaction with bytes to
write was acknowledged: it goes on to `I2C_WRITE_FIRST`. -/
theorem i2c_poll_ADDR_write (k : timekeeping_config) {cb : i2c_callbacks}
    (hcb : i2c_callbacks_inert cb) (hw : i2c_hw) (s : i2c_engine)
    (tr : i2c_transaction_list) (rest : List i2c_transaction_list)
    (hs : s.i2c_state = I2C_ADDR) (hq : s.i2c_transaction_list_head = tr :: rest)
    (hc : hw.completed TW_MT_SLA_ACK = true) (hwr : tr.wrlen ≠ 0) :
    ∃ s', i2c_poll_atomic k cb hw s = some s' ∧ s'.i2c_state = I2C_WRITE_FIRST ∧
      s'.i2c_transaction_list_head = tr :: rest ∧
      s'.completions = s.completions ∧ s'.released = s.released ∧ s'.mem = s.mem ∧
      s'.i2c_transaction_deadline = s.i2c_transaction_deadline ∧
      i2c_twdr_writes s'.hw_writes = i2c_twdr_writes s.hw_writes := by
  obtain ⟨s', h⟩ := i2c_poll_atomic_total k cb hw s (Or.inl (by rw [hq]; simp))
  refine ⟨s', h, ?_⟩
  simp only [i2c_hw.completed, Bool.and_eq_true, Bool.not_eq_true', decide_eq_true_eq] at hc
  obtain ⟨hint, hstat⟩ := hc
  simp only [i2c_poll_atomic, hs, hq, i2c_is_reset_idle_poll_state, reduceCtorEq,
    decide_False, decide_True, Bool.or_false, Bool.or_true, Bool.true_or, Bool.or_self,
    Bool.false_eq_true, if_false, or_self, or_true, true_or, if_true, false_and, true_and,
    ne_eq, not_true_eq_false, not_false_eq_true, List.head?_nil, List.head?_cons,
    Option.map_none', Option.map_some', Option.some_bind, Option.none_bind,
    i2c_twcr_set_cmd_bits, i2c_twcr_set_cmd_bits_atomic, i2c_twdr_write] at h
  simp [hint, TW_STATUS, hstat, hwr, TW_MT_SLA_ACK, TW_MR_SLA_ACK] at h
  have hf := I2C_SETSTATE_frame k hcb h
  clear h
  simp [hs, hq] at hf
  simp [hf, i2c_twdr_writes_append, i2c_twdr_writes]

/-- The poll that sends a byte: in `I2C_WRITE_FIRST`, or in `I2C_WRITE` once
the byte before was acknowledged, with bytes left to write it writes the next
byte of the write buffer to the data register and advances the head. -/
theorem i2c_poll_WRITE_byte (k : timekeeping_config) {cb : i2c_callbacks}
    (hcb : i2c_callbacks_inert cb) (hw : i2c_hw) (s : i2c_engine)
    (tr : i2c_transaction_list) (rest : List i2c_transaction_list)
    (hs : s.i2c_state = I2C_WRITE_FIRST ∨
      (s.i2c_state = I2C_WRITE ∧ hw.completed TW_MT_DATA_ACK = true))
    (hq : s.i2c_transaction_list_head = tr :: rest) (hwr : tr.wrlen ≠ 0) :
    ∃ s', i2c_poll_atomic k cb hw s = some s' ∧ s'.i2c_state = I2C_WRITE ∧
      s'.i2c_transaction_list_head = i2c_write_advance tr :: rest ∧
      s'.completions = s.completions ∧ s'.released = s.released ∧ s'.mem = s.mem ∧
      s'.i2c_transaction_deadline = s.i2c_transaction_deadline ∧
      i2c_twdr_writes s'.hw_writes = i2c_twdr_writes s.hw_writes ++ [s.mem tr.wrbuf % 256] := by
  obtain ⟨s', h⟩ := i2c_poll_atomic_total k cb hw s (Or.inl (by rw [hq]; simp))
  refine ⟨s', h, ?_⟩
  rcases hs with hs | ⟨hs, hc⟩
  · simp only [i2c_poll_atomic, hs, hq, i2c_is_reset_idle_poll_state, reduceCtorEq,
    decide_False, decide_True, Bool.or_false, Bool.or_true, Bool.true_or, Bool.or_self,
    Bool.false_eq_true, if_false, or_self, or_true, true_or, if_true, false_and, true_and,
    ne_eq, not_true_eq_false, not_false_eq_true, List.head?_nil, List.head?_cons,
    Option.map_none', Option.map_some', Option.some_bind, Option.none_bind,
    i2c_twcr_set_cmd_bits, i2c_twcr_set_cmd_bits_atomic, i2c_twdr_write] at h
    simp [hwr] at h
    have hf := I2C_SETSTATE_frame k hcb h
    clear h
    simp [hs, hq] at hf
    simp [hf, i2c_twdr_writes_append, i2c_twdr_writes, i2c_write_advance]
  · simp only [i2c_hw.completed, Bool.and_eq_true, Bool.not_eq_true', decide_eq_true_eq] at hc
    obtain ⟨hint, hstat⟩ := hc
    simp only [i2c_poll_atomic, hs, hq, i2c_is_reset_idle_poll_state, reduceCtorEq,
    decide_False, decide_True, Bool.or_false, Bool.or_true, Bool.true_or, Bool.or_self,
    Bool.false_eq_true, if_false, or_self, or_true, true_or, if_true, false_and, true_and,
    ne_eq, not_true_eq_false, not_false_eq_true, List.head?_nil, List.head?_cons,
    Option.map_none', Option.map_some', Option.some_bind, Option.none_bind,
    i2c_twcr_set_cmd_bits, i2c_twcr_set_cmd_bits_atomic, i2c_twdr_write] at h
    simp [hint, TW_STATUS, hstat, hwr] at h
    have hf := I2C_SETSTATE_frame k hcb h
    clear h
    simp [hs, hq] at hf
    simp [hf, i2c_twdr_writes_append, i2c_twdr_writes, i2c_write_advance]

/-- The poll in `I2C_WRITE` once the last byte was acknowledged, for a
transaction that reads nothing: it enters `I2C_TRANS_OK_STOP_DO`, releasing
the head with success. -/
theorem i2c_poll_WRITE_done (k : timekeeping_config) {cb : i2c_callbacks}
    (hcb : i2c_callbacks_inert cb) (hw : i2c_hw) (s : i2c_engine)
    (tr : i2c_transaction_list) (rest : List i2c_transaction_list)
    (hs : s.i2c_state = I2C_WRITE) (hq : s.i2c_transaction_list_head = tr :: rest)
    (hc : hw.completed TW_MT_DATA_ACK = true) (hwr : tr.wrlen = 0) (hrd : tr.rdlen = 0) :
    ∃ s', i2c_poll_atomic k cb hw s = some s' ∧ s'.i2c_state = I2C_TRANS_OK_STOP_DO ∧
      s'.i2c_transaction_list_head = rest ∧
      s'.completions = s.completions ++
        (if tr.func ≠ NULL then [⟨tr.func, tr.data, true, tr.rdlen_actual⟩] else []) ∧
      s'.released = s.released ++ [⟨tr, true⟩] ∧
      s'.hw_writes = s.hw_writes := by
  obtain ⟨s', h⟩ := i2c_poll_atomic_total k cb hw s (Or.inl (by rw [hq]; simp))
  refine ⟨s', h, ?_⟩
  simp only [i2c_hw.completed, Bool.and_eq_true, Bool.not_eq_true', decide_eq_true_eq] at hc
  obtain ⟨hint, hstat⟩ := hc
  simp only [i2c_poll_atomic, hs, hq, i2c_is_reset_idle_poll_state, reduceCtorEq,
    decide_False, decide_True, Bool.or_false, Bool.or_true, Bool.true_or, Bool.or_self,
    Bool.false_eq_true, if_false, or_self, or_true, true_or, if_true, false_and, true_and,
    ne_eq, not_true_eq_false, not_false_eq_true, List.head?_nil, List.head?_cons,
    Option.map_none', Option.map_some', Option.some_bind, Option.none_bind,
    i2c_twcr_set_cmd_bits, i2c_twcr_set_cmd_bits_atomic, i2c_twdr_write] at h
  simp [hint, TW_STATUS, hstat, hwr, hrd] at h
  have hf := I2C_SETSTATE_frame k hcb h
  clear h
  simp [hs, hq] at hf
  simp [hf]

/-- The poll in `I2C_TRANS_OK_STOP_DO`: it requests a stop condition and waits
for it in `I2C_TRANS_OK_STOP_TX`. -/
theorem i2c_poll_TRANS_OK_STOP_DO (k : timekeeping_config) {cb : i2c_callbacks}
    (hcb : i2c_callbacks_inert cb) (hw : i2c_hw) (s : i2c_engine)
    (hs : s.i2c_state = I2C_TRANS_OK_STOP_DO) :
    ∃ s', i2c_poll_atomic k cb hw s = some s' ∧ s'.i2c_state = I2C_TRANS_OK_STOP_TX ∧
      s'.i2c_transaction_list_head = s.i2c_transaction_list_head ∧
      s'.completions = s.completions ∧ s'.released = s.released ∧ s'.mem = s.mem ∧
      ∃ v, s'.hw_writes = s.hw_writes ++ [i2c_hw_write.TWCR v] ∧ bit_is_set v TWSTO = true := by
  obtain ⟨s', h⟩ := i2c_poll_atomic_total k cb hw s (Or.inr (by rw [hs]; rfl))
  refine ⟨s', h, ?_⟩
  simp only [i2c_poll_atomic, hs, i2c_is_reset_idle_poll_state, reduceCtorEq,
    decide_False, Bool.or_self, Bool.false_eq_true, if_false, or_self, if_true,
    i2c_twcr_set_cmd_bits, i2c_twcr_set_cmd_bits_atomic] at h
  have hf := I2C_SETSTATE_frame k hcb h
  clear h
  simp [hs] at hf
  refine ⟨hf.1, hf.2.2.2.2.2.1, hf.2.2.2.2.2.2.2.1, hf.2.2.2.2.2.2.1, hf.2.2.2.2.2.2.2.2, _,
    hf.2.2.2.1, i2c_stop_bit_set _⟩

/-- The poll in `I2C_TRANS_OK_STOP_TX` or `I2C_RESET` once the stop flag is
clear: it starts the next queued transaction, or goes idle when there is
none. -/
theorem i2c_poll_stop_clear (k : timekeeping_config) {cb : i2c_callbacks}
    (hcb : i2c_callbacks_inert cb) (hw : i2c_hw) (s : i2c_engine)
    (hs : s.i2c_state = I2C_TRANS_OK_STOP_TX ∨ s.i2c_state = I2C_RESET)
    (hclr : bit_is_set hw.twcr TWSTO = false) :
    ∃ s', i2c_poll_atomic k cb hw s = some s' ∧
      s'.i2c_state =
        (if s.i2c_transaction_list_head ≠ [] then I2C_START_DO else I2C_IDLE) ∧
      s'.i2c_transaction_list_head = s.i2c_transaction_list_head ∧
      s'.completions = s.completions ∧ s'.released = s.released ∧ s'.mem = s.mem ∧
      s'.hw_writes = s.hw_writes ∧
      (s.i2c_transaction_list_head ≠ [] →
        s'.i2c_transaction_deadline =
          timestamp_add (timekeeping_counts_per_tick k) hw.now
            (TIMESTAMPI_FROM_MS k.TIMEKEEPING_HZ (timekeeping_counts_per_tick k)
              I2C_TRANS_TIMEOUT)) := by
  obtain ⟨s', h⟩ := i2c_poll_atomic_total k cb hw s
    (Or.inr (by rcases hs with hs | hs <;> rw [hs] <;> rfl))
  refine ⟨s', h, ?_⟩
  by_cases hq : s.i2c_transaction_list_head = []
  · rcases hs with hs | hs
    all_goals
      simp [i2c_poll_atomic, hs, hq, i2c_is_reset_idle_poll_state, hclr] at h
      have hf := I2C_SETSTATE_frame k hcb h
      clear h
      simp [hs, hq] at hf
      simp [hf, hq]
  · rcases hs with hs | hs
    all_goals
      simp [i2c_poll_atomic, hs, hq, i2c_is_reset_idle_poll_state, hclr] at h
      have hf := I2C_SETSTATE_frame k hcb h
      clear h
      simp [hs, hq] at hf
      simp [hf, hq]

/-- The poll in `I2C_ADDR` once the address of a transaction that writes
nothing was answered with anything but the acknowledge of a read: it enters
`I2C_TRANS_FAILED_RESET`, releasing the head with a failure; it writes no
register and stores nothing in data memory itself. -/
theorem i2c_poll_ADDR_nack (k : timekeeping_config) {cb : i2c_callbacks}
    (hcb : i2c_callbacks_inert cb) (hw : i2c_hw) (s : i2c_engine)
    (tr : i2c_transaction_list) (rest : List i2c_transaction_list)
    (hs : s.i2c_state = I2C_ADDR) (hq : s.i2c_transaction_list_head = tr :: rest)
    (hint : bit_is_clear hw.twcr TWINT = false)
    (hstat : hw.twsr &&& TW_STATUS_MASK ≠ TW_MR_SLA_ACK) (hwr : tr.wrlen = 0) :
    ∃ s', i2c_poll_atomic k cb hw s = some s' ∧ s'.i2c_state = I2C_TRANS_FAILED_RESET ∧
      s'.i2c_transaction_list_head = rest ∧
      s'.completions = s.completions ++
        (if tr.func ≠ NULL then [⟨tr.func, tr.data, false, tr.rdlen_actual⟩] else []) ∧
      s'.released = s.released ++ [⟨tr, false⟩] ∧
      s'.hw_writes = s.hw_writes ∧
      (tr.func = NULL → s'.mem = s.mem) ∧
      (tr.func ≠ NULL → ∃ sx : i2c_engine, sx.mem = s.mem ∧
        s'.mem = (cb ⟨tr.func, tr.data, false, tr.rdlen_actual⟩ sx).mem) := by
  obtain ⟨s', h⟩ := i2c_poll_atomic_total k cb hw s (Or.inl (by rw [hq]; simp))
  refine ⟨s', h, ?_⟩
  simp only [i2c_poll_atomic, hs, hq, i2c_is_reset_idle_poll_state, reduceCtorEq,
    decide_False, decide_True, Bool.or_false, Bool.or_true, Bool.true_or, Bool.or_self,
    Bool.false_eq_true, if_false, or_self, or_true, true_or, if_true, false_and, true_and,
    ne_eq, not_true_eq_false, not_false_eq_true, List.head?_nil, List.head?_cons,
    Option.map_none', Option.map_some', Option.some_bind, Option.none_bind,
    i2c_twcr_set_cmd_bits, i2c_twcr_set_cmd_bits_atomic, i2c_twdr_write] at h
  simp [hint, TW_STATUS, hstat, hwr] at h
  have hf := I2C_SETSTATE_frame k hcb h
  have hm := I2C_SETSTATE_terminal_mem k cb _ _ _ tr rest (Or.inr rfl) (by simp [hs]) rfl h
  clear h
  simp [hs, hq] at hf
  simp at hm
  simp [hf]
  exact hm

/-- The poll in `I2C_TRANS_FAILED_RESET`: it resets the controller (two writes
to the control register) and enters `I2C_RESET`. -/
theorem i2c_poll_TRANS_FAILED_RESET (k : timekeeping_config) {cb : i2c_callbacks}
    (hcb : i2c_callbacks_inert cb) (hw : i2c_hw) (s : i2c_engine)
    (hs : s.i2c_state = I2C_TRANS_FAILED_RESET) :
    ∃ s', i2c_poll_atomic k cb hw s = some s' ∧ s'.i2c_state = I2C_RESET ∧
      s'.i2c_transaction_list_head = s.i2c_transaction_list_head ∧
      s'.completions = s.completions ∧ s'.released = s.released ∧ s'.mem = s.mem ∧
      s'.i2c_transaction_deadline = s.i2c_transaction_deadline ∧
      ∃ v1 v2, s'.hw_writes = s.hw_writes ++ [i2c_hw_write.TWCR v1, i2c_hw_write.TWCR v2] ∧
        v1 = (hw.twcr &&& (255 ^^^ BV TWINT) &&&
          (255 ^^^ (BV TWEA ||| BV TWSTA ||| BV TWSTO ||| BV TWEN ||| BV TWIE))) % 256 ∧
        v2 = ((v1 &&& (255 ^^^ BV TWINT)) ||| (BV TWINT ||| BV TWEN)) % 256 := by
  obtain ⟨s', h⟩ := i2c_poll_atomic_total k cb hw s (Or.inr (by rw [hs]; rfl))
  refine ⟨s', h, ?_⟩
  simp only [i2c_poll_atomic, hs, i2c_is_reset_idle_poll_state, reduceCtorEq,
    decide_False, Bool.or_self, Bool.false_eq_true, if_false, or_self, if_true,
    i2c_reset, i2c_twcr_set_bits, i2c_twcr_set_bits_atomic, i2c_twcr_clear_bits,
    i2c_twcr_clear_bits_atomic] at h
  have hf := I2C_SETSTATE_frame k hcb h
  clear h
  simp [hs] at hf
  simp [hf]

/-! ## Theorems: timeout recovery -/

/-- One call sets the transaction deadline exactly when it enters
`I2C_START_DO`, to the time it reads plus the timeout. -/
theorem i2c_step_deadline (k : timekeeping_config) {cb : i2c_callbacks}
    (hcb : i2c_callbacks_inert cb) (op : i2c_op) {s s' : i2c_engine}
    (h : i2c_step k cb op s = some s') :
    s'.i2c_transaction_deadline =
      (if s'.i2c_state = I2C_START_DO ∧ s.i2c_state ≠ I2C_START_DO then
        timestamp_add (timekeeping_counts_per_tick k) op.now
          (TIMESTAMPI_FROM_MS k.TIMEKEEPING_HZ (timekeeping_counts_per_tick k)
            I2C_TRANS_TIMEOUT)
       else s.i2c_transaction_deadline) := by
  cases op with
  | poll hw => exact (i2c_poll_atomic_step k hcb hw h).2.2.2.1
  | transaction now malloc_ok r =>
    simp only [i2c_step, i2c_transaction_req, i2c_transaction, i2c_op.now] at h ⊢
    by_cases h1 : r.wrlen = 0 ∧ r.rdlen = 0
    · simp only [h1, and_self, if_true, Option.map_some', Option.some.injEq] at h
      subst h
      simp
    by_cases h2 : r.wrlen > 0 ∧ r.wrbuf = NULL
    · simp only [h1, h2, and_self, if_true, if_false, Option.map_some',
        Option.some.injEq] at h
      subst h
      simp
    by_cases h3 : r.rdlen > 0 ∧ r.rdbuf = NULL
    · simp only [h1, h2, h3, and_self, if_true, if_false, Option.map_some',
        Option.some.injEq] at h
      subst h
      simp
    by_cases h4 : malloc_ok = false
    · simp only [h1, h2, h3, h4, if_true, if_false, Option.map_some',
        Option.some.injEq] at h
      subst h
      simp
    obtain rfl : malloc_ok = true := by simpa using h4
    simp only [h1, h2, h3, if_false, reduceCtorEq] at h
    by_cases hs : s.i2c_state = I2C_IDLE
    · simp only [hs, if_true, Option.map_map, Option.map_eq_some', Function.comp_apply] at h
      obtain ⟨s2, h2', rfl⟩ := h
      have hf := I2C_SETSTATE_frame k hcb h2'
      simp [hs] at hf
      simp [hf, hs]
    · simp only [hs, if_false, Option.map_some', Option.some.injEq] at h
      subst h
      simp [hs]

/-- While the hardware has not completed in a waiting state and the time read
is temporally before the transaction deadline, a poll changes nothing but the
register images and the state-changed flag. -/
theorem i2c_poll_waiting_early (k : timekeeping_config) (cb : i2c_callbacks) (hw : i2c_hw)
    (s : i2c_engine) (hs : s.i2c_state.waits_for_hw = true)
    (hclr : bit_is_clear hw.twcr TWINT = true)
    (hlt : timestamp_temporal_cmp (timekeeping_counts_per_tick k) hw.now
      s.i2c_transaction_deadline .lt = true) :
    i2c_poll_atomic k cb hw s = some (i2c_poll_entry hw s) := by
  rw [i2c_poll_atomic_waiting k cb hw s hs hclr]
  have hd : (i2c_poll_entry hw s).i2c_transaction_deadline = s.i2c_transaction_deadline := rfl
  simp only [i2c_transaction_maybe_timedout, hd, hlt, if_true, Option.map_some']

/-- While the hardware has not completed in a waiting state, the first poll
that reads a time not before the transaction deadline enters
`I2C_TRANS_FAILED_RESET`, releasing the queue head with a failure. -/
theorem i2c_poll_waiting_late (k : timekeeping_config) {cb : i2c_callbacks}
    (hcb : i2c_callbacks_inert cb) (hw : i2c_hw) (s : i2c_engine)
    (tr : i2c_transaction_list) (rest : List i2c_transaction_list)
    (hs : s.i2c_state.waits_for_hw = true) (hq : s.i2c_transaction_list_head = tr :: rest)
    (hclr : bit_is_clear hw.twcr TWINT = true)
    (hge : timestamp_temporal_cmp (timekeeping_counts_per_tick k) hw.now
      s.i2c_transaction_deadline .lt = false) :
    ∃ s', i2c_poll_atomic k cb hw s = some s' ∧ s'.i2c_state = I2C_TRANS_FAILED_RESET ∧
      s'.i2c_transaction_list_head = rest ∧
      s'.completions = s.completions ++
        (if tr.func ≠ NULL then [⟨tr.func, tr.data, false, tr.rdlen_actual⟩] else []) ∧
      s'.released = s.released ++ [⟨tr, false⟩] ∧
      s'.hw_writes = s.hw_writes := by
  obtain ⟨s', h⟩ := i2c_poll_atomic_total k cb hw s (Or.inl (by rw [hq]; simp))
  refine ⟨s', h, ?_⟩
  rw [i2c_poll_atomic_waiting k cb hw s hs hclr] at h
  have hd : (i2c_poll_entry hw s).i2c_transaction_deadline = s.i2c_transaction_deadline := rfl
  have hne : (i2c_poll_entry hw s).i2c_state ≠ I2C_TRANS_OK_STOP_TX := by
    intro he
    have he' : s.i2c_state = I2C_TRANS_OK_STOP_TX := he
    rw [he'] at hs
    cases hs
  simp only [i2c_transaction_maybe_timedout, hd, hge, Bool.false_eq_true, if_false, hne,
    ne_eq, not_false_eq_true, if_true, Option.map_map, Option.map_eq_some',
    Function.comp_apply] at h
  obtain ⟨s2, h2, rfl⟩ := h
  have hf := I2C_SETSTATE_frame k hcb h2
  have hst : s.i2c_state ≠ I2C_TRANS_FAILED_RESET := by
    intro he
    rw [he] at hs
    cases hs
  simp [i2c_poll_entry, hq, hst] at hf
  simp [hf]

/-- Any number of polls in a waiting state, none seeing a completion and each
reading a time before the transaction deadline, leave the state, the queue,
the deadline and the histories as they were. -/
theorem i2c_run_waiting_early (k : timekeeping_config) (cb : i2c_callbacks)
    (early : List i2c_hw) :
    ∀ s : i2c_engine, s.i2c_state.waits_for_hw = true →
      (∀ hw ∈ early, bit_is_clear hw.twcr TWINT = true ∧
        timestamp_temporal_cmp (timekeeping_counts_per_tick k) hw.now
          s.i2c_transaction_deadline .lt = true) →
      ∃ s1, i2c_run k cb (early.map i2c_op.poll) s = some s1 ∧
        s1.i2c_state = s.i2c_state ∧
        s1.i2c_transaction_list_head = s.i2c_transaction_list_head ∧
        s1.completions = s.completions ∧ s1.released = s.released ∧
        s1.i2c_transaction_deadline = s.i2c_transaction_deadline ∧
        s1.hw_writes = s.hw_writes ∧ s1.transitions = s.transitions := by
  induction early with
  | nil =>
    intro s _ _
    exact ⟨s, rfl, rfl, rfl, rfl, rfl, rfl, rfl, rfl⟩
  | cons hw early ih =>
    intro s hs he
    obtain ⟨hclr, hlt⟩ := he hw (by simp)
    have h1 := i2c_poll_waiting_early k cb hw s hs hclr hlt
    obtain ⟨s1, hrun, e1, e2, e3, e4, e5, e6, e7⟩ := ih (i2c_poll_entry hw s) hs
      (fun x hx => he x (by simp [hx]))
    exact ⟨s1, by simp [i2c_run, i2c_step, h1, hrun], e1, e2, e3, e4, e5, e6, e7⟩

/-- C11: timeout recovery.  With callbacks that do not call into the module:
every call sets the transaction deadline exactly when it enters
`I2C_START_DO`, to the time it reads then plus `I2C_TRANS_TIMEOUT` (5000 ms),
and leaves it alone otherwise.  When the engine waits in `I2C_START_TX`,
`I2C_REPEATED_START_TX`, `I2C_ADDR`, `I2C_WRITE` or `I2C_READ` and the hardware
never signals completion (`TWINT` clear in every poll), the polls that read a
time temporally before the deadline leave the state, the queue and the
deadline unchanged and invoke no callback; the first poll that reads a time
not before the deadline enters `I2C_TRANS_FAILED_RESET`, invokes the callback
of the head with success false and removes the head; the next poll resets the
controller (`I2C_RESET`), and the poll after it that sees the stop flag clear
enters `I2C_START_DO`, with a new deadline, if another transaction is queued
and `I2C_IDLE` otherwise. -/
theorem i2c_timeout_recovery (k : timekeeping_config) (cb : i2c_callbacks)
    (hcb : i2c_callbacks_inert cb) (s : i2c_engine)
    (tr : i2c_transaction_list) (rest : List i2c_transaction_list)
    (early : List i2c_hw) (late hw1 hw2 : i2c_hw)
    (hs : s.i2c_state.waits_for_hw = true) (hq : s.i2c_transaction_list_head = tr :: rest)
    (hearly : ∀ hw ∈ early, bit_is_clear hw.twcr TWINT = true ∧
      timestamp_temporal_cmp (timekeeping_counts_per_tick k) hw.now
        s.i2c_transaction_deadline .lt = true)
    (hlate : bit_is_clear late.twcr TWINT = true ∧
      timestamp_temporal_cmp (timekeeping_counts_per_tick k) late.now
        s.i2c_transaction_deadline .lt = false)
    (hstop : bit_is_set hw2.twcr TWSTO = false) :
    (I2C_TRANS_TIMEOUT = 5000 ∧
      ∀ op t t', i2c_step k cb op t = some t' →
        t'.i2c_transaction_deadline =
          (if t'.i2c_state = I2C_START_DO ∧ t.i2c_state ≠ I2C_START_DO then
            timestamp_add (timekeeping_counts_per_tick k) op.now
              (TIMESTAMPI_FROM_MS k.TIMEKEEPING_HZ (timekeeping_counts_per_tick k)
                I2C_TRANS_TIMEOUT)
           else t.i2c_transaction_deadline)) ∧
    (s.i2c_state = I2C_START_TX ∨ s.i2c_state = I2C_REPEATED_START_TX ∨
      s.i2c_state = I2C_ADDR ∨ s.i2c_state = I2C_WRITE ∨ s.i2c_state = I2C_READ) ∧
    ∃ s1 s2 s3 s4,
      i2c_run k cb (early.map i2c_op.poll) s = some s1 ∧
      s1.i2c_state = s.i2c_state ∧
      s1.i2c_transaction_list_head = s.i2c_transaction_list_head ∧
      s1.completions = s.completions ∧ s1.released = s.released ∧
      s1.i2c_transaction_deadline = s.i2c_transaction_deadline ∧
      i2c_poll_atomic k cb late s1 = some s2 ∧
      s2.i2c_state = I2C_TRANS_FAILED_RESET ∧
      s2.i2c_transaction_list_head = rest ∧
      s2.completions = s.completions ++
        (if tr.func ≠ NULL then [⟨tr.func, tr.data, false, tr.rdlen_actual⟩] else []) ∧
      s2.released = s.released ++ [⟨tr, false⟩] ∧
      i2c_poll_atomic k cb hw1 s2 = some s3 ∧
      s3.i2c_state = I2C_RESET ∧ s3.i2c_transaction_list_head = rest ∧
      s3.completions = s2.completions ∧ s3.released = s2.released ∧
      i2c_poll_atomic k cb hw2 s3 = some s4 ∧
      s4.i2c_state = (if rest ≠ [] then I2C_START_DO else I2C_IDLE) ∧
      s4.i2c_transaction_list_head = rest ∧
      s4.completions = s2.completions ∧ s4.released = s2.released ∧
      (rest ≠ [] →
        s4.i2c_transaction_deadline =
          timestamp_add (timekeeping_counts_per_tick k) hw2.now
            (TIMESTAMPI_FROM_MS k.TIMEKEEPING_HZ (timekeeping_counts_per_tick k)
              I2C_TRANS_TIMEOUT)) := by
  refine ⟨⟨rfl, fun op t t' h => i2c_step_deadline k hcb op h⟩, ?_, ?_⟩
  · revert hs
    cases s.i2c_state <;> simp [i2c_states.waits_for_hw]
  obtain ⟨s1, hrun, a1, a2, a3, a4, a5, _, _⟩ := i2c_run_waiting_early k cb early s hs hearly
  obtain ⟨s2, h2, b1, b2, b3, b4, _⟩ := i2c_poll_waiting_late k hcb late s1 tr rest
    (by rw [a1]; exact hs) (by rw [a2]; exact hq) hlate.1 (by rw [a5]; exact hlate.2)
  obtain ⟨s3, h3, c1, c2, c3, c4, _, _, _⟩ := i2c_poll_TRANS_FAILED_RESET k hcb hw1 s2 b1
  obtain ⟨s4, h4, d1, d2, d3, d4, _, _, d7⟩ := i2c_poll_stop_clear k hcb hw2 s3 (Or.inr c1) hstop
  rw [c2, b2] at d1 d2 d7
  exact ⟨s1, s2, s3, s4, hrun, a1, a2, a3, a4, a5, h2, b1, b2, by rw [b3, a3], by rw [b4, a4],
    h3, c1, by rw [c2, b2], c3, c4, h4, d1, d2, by rw [d3, c3], by rw [d4, c4], d7⟩

/-! ## Theorems: scenarios -/

/-- Running two sequences of calls in a row. -/
theorem i2c_run_append (k : timekeeping_config) (cb : i2c_callbacks) (a b : List i2c_op) :
    ∀ s : i2c_engine, i2c_run k cb (a ++ b) s = (i2c_run k cb a s).bind (i2c_run k cb b) := by
  induction a with
  | nil =>
    intro s
    rfl
  | cons op a ih =>
    intro s
    simp only [List.cons_append, i2c_run]
    cases i2c_step k cb op s with
    | none => rfl
    | some s1 =>
      simp only [Option.some_bind]
      exact ih s1

/-- An accepted `i2c_transaction` call on the idle engine appends the node and
enters `I2C_START_DO`, setting the transaction deadline; it writes no register
and invokes no callback. -/
theorem i2c_transaction_req_idle (k : timekeeping_config) {cb : i2c_callbacks}
    (hcb : i2c_callbacks_inert cb) (now : timestamp) (r : i2c_request) (s : i2c_engine)
    (hs : s.i2c_state = I2C_IDLE) (hacc : r.accepted true = true) :
    ∃ s', i2c_step k cb (i2c_op.transaction now true r) s = some s' ∧
      s'.i2c_state = I2C_START_DO ∧
      s'.i2c_transaction_list_head = s.i2c_transaction_list_head ++ [r.node] ∧
      s'.completions = s.completions ∧ s'.released = s.released ∧ s'.mem = s.mem ∧
      s'.hw_writes = s.hw_writes ∧
      s'.i2c_transaction_deadline =
        timestamp_add (timekeeping_counts_per_tick k) now
          (TIMESTAMPI_FROM_MS k.TIMEKEEPING_HZ (timekeeping_counts_per_tick k)
            I2C_TRANS_TIMEOUT) := by
  simp only [i2c_request.accepted, Bool.not_eq_true', Bool.or_eq_false_iff,
    decide_eq_false_iff_not, Bool.not_eq_false] at hacc
  obtain ⟨⟨⟨h1, h2⟩, h3⟩, _⟩ := hacc
  obtain ⟨s2, h2'⟩ := I2C_SETSTATE_total k cb now I2C_START_DO
    { s with i2c_transaction_list_head := s.i2c_transaction_list_head ++ [r.node] }
    (Or.inr ⟨by decide, by decide⟩)
  have hf := I2C_SETSTATE_frame k hcb h2'
  simp [hs] at hf
  refine ⟨s2, ?_, ?_⟩
  · simp only [i2c_step, i2c_transaction_req, i2c_transaction, h1, h2, h3, if_false,
      reduceCtorEq, hs, if_true]
    simp only [i2c_request.node, hs] at h2'
    rw [h2']
    rfl
  · simp [hf]

/-- An accepted `i2c_transaction` call on an engine that is not idle appends
the node and does nothing else. -/
theorem i2c_transaction_req_busy (k : timekeeping_config) (cb : i2c_callbacks)
    (now : timestamp) (r : i2c_request) (s : i2c_engine)
    (hs : s.i2c_state ≠ I2C_IDLE) (hacc : r.accepted true = true) :
    i2c_step k cb (i2c_op.transaction now true r) s =
      some { s with i2c_transaction_list_head := s.i2c_transaction_list_head ++ [r.node] } := by
  simp only [i2c_request.accepted, Bool.not_eq_true', Bool.or_eq_false_iff,
    decide_eq_false_iff_not, Bool.not_eq_false] at hacc
  obtain ⟨⟨⟨h1, h2⟩, h3⟩, _⟩ := hacc
  simp only [i2c_step, i2c_transaction_req, i2c_transaction, h1, h2, h3, if_false,
    reduceCtorEq, hs, Option.map_some', i2c_request.node]

/-- Accepted `i2c_transaction` calls on an engine that is not idle append
their nodes, in call order, and do nothing else. -/
theorem i2c_run_enqueue_busy (k : timekeeping_config) (cb : i2c_callbacks) (now : timestamp)
    (more : List i2c_request) :
    ∀ s : i2c_engine, s.i2c_state ≠ I2C_IDLE → (∀ q ∈ more, q.accepted true = true) →
      i2c_run k cb (more.map fun q => i2c_op.transaction now true q) s =
        some { s with
          i2c_transaction_list_head :=
            s.i2c_transaction_list_head ++ more.map i2c_request.node } := by
  induction more with
  | nil =>
    intro s _ _
    simp [i2c_run]
  | cons q more ih =>
    intro s hs hacc
    simp only [List.map_cons, i2c_run,
      i2c_transaction_req_busy k cb now q s hs (hacc q (by simp)), Option.some_bind]
    have h1 := ih { s with i2c_transaction_list_head := s.i2c_transaction_list_head ++ [q.node] }
      hs (fun x hx => hacc x (by simp [hx]))
    rw [h1]
    simp

/-- The write phase: in `I2C_WRITE` with as many bytes left as there are
polls, each seeing the byte before acknowledged, the polls write the bytes
left to the data register, in buffer order, and nothing else happens. -/
theorem i2c_run_WRITE_bytes (k : timekeeping_config) {cb : i2c_callbacks}
    (hcb : i2c_callbacks_inert cb) (acks : List i2c_hw) :
    ∀ (s : i2c_engine) (tr : i2c_transaction_list) (rest : List i2c_transaction_list),
      s.i2c_state = I2C_WRITE → s.i2c_transaction_list_head = tr :: rest →
      tr.wrlen = acks.length → (∀ hw ∈ acks, hw.completed TW_MT_DATA_ACK = true) →
      ∃ s', i2c_run k cb (acks.map i2c_op.poll) s = some s' ∧ s'.i2c_state = I2C_WRITE ∧
        s'.i2c_transaction_list_head =
          { tr with wrbuf := tr.wrbuf + acks.length, wrlen := 0 } :: rest ∧
        s'.completions = s.completions ∧ s'.released = s.released ∧ s'.mem = s.mem ∧
        s'.i2c_transaction_deadline = s.i2c_transaction_deadline ∧
        i2c_twdr_writes s'.hw_writes = i2c_twdr_writes s.hw_writes ++
          (List.range acks.length).map (fun i => s.mem (tr.wrbuf + i) % 256) := by
  induction acks with
  | nil =>
    intro s tr rest hs hq hlen _
    refine ⟨s, rfl, hs, ?_, rfl, rfl, rfl, rfl, by simp⟩
    rw [hq]
    simp only [List.length_nil] at hlen
    obtain ⟨a, wb, wl, rb, rl, f, d, ra⟩ := tr
    simp only at hlen
    subst hlen
    rfl
  | cons hw acks ih =>
    intro s tr rest hs hq hlen hack
    simp only [List.length_cons] at hlen
    obtain ⟨s1, h1, a1, a2, a3, a4, a5, a6, a7⟩ := i2c_poll_WRITE_byte k hcb hw s tr rest
      (Or.inr ⟨hs, hack hw (by simp)⟩) hq (by omega)
    obtain ⟨s2, h2, b1, b2, b3, b4, b5, b6, b7⟩ := ih s1 (i2c_write_advance tr) rest a1 a2
      (by simp only [i2c_write_advance]; omega) (fun x hx => hack x (by simp [hx]))
    refine ⟨s2, by simp [i2c_run, i2c_step, h1, h2], b1, ?_, by rw [b3, a3], by rw [b4, a4],
      by rw [b5, a5], by rw [b6, a6], ?_⟩
    · rw [b2]
      simp only [i2c_write_advance, List.length_cons, List.cons.injEq, and_true,
        i2c_transaction_list.mk.injEq, true_and]
      omega
    · rw [b7, a7, a5, List.length_cons, List.range_succ_eq_map, List.map_cons, List.map_map,
        List.append_assoc]
      simp only [i2c_write_advance, List.singleton_append, Nat.add_zero, List.cons.injEq,
        true_and, List.append_cancel_left_eq]
      apply List.map_congr_left
      intro i _
      simp only [Function.comp_apply, Nat.succ_eq_add_one]
      congr 2
      omega

/-- C12: the write-only scenario.  A transaction that writes `n >= 1` bytes
and reads nothing is enqueued on the idle engine (callbacks that do not call
into the module), and the hardware acknowledges every phase: the start
condition, the address, and each of the `n` data bytes.  Then the calls
return; the data register receives the address byte with the write bit and
after it exactly the `n` bytes of the write buffer, in buffer order (the first
in `I2C_WRITE_FIRST`, each further one in `I2C_WRITE` once the byte before was
acknowledged); the last register write of all is the control register write
that requests the stop condition; the callback, if there is one, is invoked
once, with success true and read length 0; the node is released and the
engine is back in `I2C_IDLE` with an empty queue. -/
theorem i2c_write_only_scenario (k : timekeeping_config) (cb : i2c_callbacks)
    (hcb : i2c_callbacks_inert cb) (s0 : i2c_engine) (now : timestamp) (r : i2c_request)
    (h0 h1 h2 h3 : i2c_hw) (acks : List i2c_hw) (last h4 h5 : i2c_hw)
    (hs0 : s0.i2c_state = I2C_IDLE) (hq0 : s0.i2c_transaction_list_head = [])
    (hwr : r.wrlen = acks.length + 1) (hrd : r.rdlen = 0) (hbuf : r.wrbuf ≠ NULL)
    (hstart : h1.completed TW_START = true) (haddr : h2.completed TW_MT_SLA_ACK = true)
    (hacks : ∀ hw ∈ acks, hw.completed TW_MT_DATA_ACK = true)
    (hlast : last.completed TW_MT_DATA_ACK = true)
    (hstop : bit_is_set h5.twcr TWSTO = false) :
    ∃ s, i2c_run k cb
        ([i2c_op.transaction now true r, i2c_op.poll h0, i2c_op.poll h1, i2c_op.poll h2,
            i2c_op.poll h3] ++ acks.map i2c_op.poll ++
          [i2c_op.poll last, i2c_op.poll h4, i2c_op.poll h5]) s0 = some s ∧
      s.i2c_state = I2C_IDLE ∧ s.i2c_transaction_list_head = [] ∧
      i2c_twdr_writes s.hw_writes = i2c_twdr_writes s0.hw_writes ++
        ((((r.addr <<< 1) % 256) ||| TW_WRITE) % 256) ::
          (List.range r.wrlen).map (fun i => s0.mem (r.wrbuf + i) % 256) ∧
      (∃ ws v, s.hw_writes = ws ++ [i2c_hw_write.TWCR v] ∧ bit_is_set v TWSTO = true ∧
        i2c_twdr_writes ws = i2c_twdr_writes s.hw_writes) ∧
      s.completions = s0.completions ++
        (if r.completion ≠ NULL then [⟨r.completion, r.comp_data, true, 0⟩] else []) ∧
      s.released = s0.released ++
        [⟨{ r.node with wrbuf := r.wrbuf + r.wrlen, wrlen := 0 }, true⟩] := by
  have hacc : r.accepted true = true := by
    simp [i2c_request.accepted, hrd, hwr, hbuf]
  obtain ⟨s1, e1, a1, a2, a3, a4, a5, a6, _⟩ := i2c_transaction_req_idle k hcb now r s0 hs0 hacc
  rw [hq0, List.nil_append] at a2
  obtain ⟨s2, e2, b1, b2, b3, b4, b5, _, b7⟩ := i2c_poll_START_DO k hcb h0 s1 r.node [] a1 a2
  obtain ⟨s3, e3, c1, c2, c3, c4, c5, _, c7⟩ :=
    i2c_poll_START_TX k hcb h1 s2 r.node [] b1 b2 hstart
  have hnode : r.node.wrlen ≠ 0 := by
    simp only [i2c_request.node]
    omega
  obtain ⟨s4, e4, d1, d2, d3, d4, d5, _, d7⟩ :=
    i2c_poll_ADDR_write k hcb h2 s3 r.node [] c1 c2 haddr hnode
  obtain ⟨s5, e5, f1, f2, f3, f4, f5, _, f7⟩ :=
    i2c_poll_WRITE_byte k hcb h3 s4 r.node [] (Or.inl d1) d2 hnode
  obtain ⟨s6, e6, g1, g2, g3, g4, g5, _, g7⟩ :=
    i2c_run_WRITE_bytes k hcb acks s5 (i2c_write_advance r.node) [] f1 f2
      (by simp only [i2c_write_advance, i2c_request.node]; omega) hacks
  obtain ⟨s7, e7, p1, p2, p3, p4, p5⟩ := i2c_poll_WRITE_done k hcb last s6 _ [] g1 g2 hlast rfl
    (by simp only [i2c_write_advance, i2c_request.node]; exact hrd)
  obtain ⟨s8, e8, q1, q2, q3, q4, _, v, q6, q7⟩ := i2c_poll_TRANS_OK_STOP_DO k hcb h4 s7 p1
  obtain ⟨s9, e9, r1, r2, r3, r4, _, r6, _⟩ :=
    i2c_poll_stop_clear k hcb h5 s8 (Or.inl q1) hstop
  have hmem5 : s5.mem = s0.mem := by rw [f5, d5, c5, b5, a5]
  have hmem4 : s4.mem = s0.mem := by rw [d5, c5, b5, a5]
  have htw : i2c_twdr_writes s7.hw_writes = i2c_twdr_writes s0.hw_writes ++
      ((((r.addr <<< 1) % 256) ||| TW_WRITE) % 256) ::
        (List.range r.wrlen).map (fun i => s0.mem (r.wrbuf + i) % 256) := by
    rw [p5, g7, f7, d7, c7, b7, a6, hmem5, hmem4, hwr, List.range_succ_eq_map, List.map_cons,
      List.map_map]
    simp only [i2c_request.node, i2c_write_advance, hwr, Nat.add_one_ne_zero, if_false,
      List.append_assoc, List.singleton_append, Nat.add_zero, List.cons_append,
      List.nil_append, List.append_cancel_left_eq, List.cons.injEq, true_and]
    apply List.map_congr_left
    intro i _
    simp only [Function.comp_apply, Nat.succ_eq_add_one]
    congr 2
    omega
  refine ⟨s9, ?_, ?_, ?_, ?_, ⟨s7.hw_writes, v, by rw [r6, q6], q7, ?_⟩, ?_, ?_⟩
  · have e1s : (i2c_transaction_req k cb now true r s0).map Prod.snd = some s1 := e1
    rw [i2c_run_append, i2c_run_append]
    simp only [i2c_run, i2c_step, e1s, e2, e3, e4, e5, e6, Option.some_bind, e7, e8, e9]
  · rw [r1, q2, p2]
    simp
  · rw [r2, q2, p2]
  · rw [r6, q6, i2c_twdr_writes_append, htw]
    simp [i2c_twdr_writes]
  · rw [r6, q6, i2c_twdr_writes_append]
    simp [i2c_twdr_writes]
  · rw [r3, q3, p3, g3, f3, d3, c3, b3, a3]
    simp [i2c_write_advance, i2c_request.node]
  · rw [r4, q4, p4, g4, f4, d4, c4, b4, a4]
    simp [i2c_write_advance, i2c_request.node, hwr]
    omega

/-- C13: the address-NACK scenario.  A transaction that writes nothing and
reads at least one byte is enqueued on the idle engine (callbacks that do not
call into the module), followed by any number of further accepted
transactions; the start condition is sent and the address byte with the read
bit is written; then the address phase completes with a status other than the
acknowledge.  The poll that sees it enters `I2C_TRANS_FAILED_RESET`, invokes
the callback, if there is one, with success false and read length 0, and
releases the node as it was enqueued; it writes no register and stores nothing
in data memory itself (memory changes only by what the callback does).  The
next poll resets the controller with two control register writes and enters
`I2C_RESET`; the poll after it that sees the stop flag clear enters
`I2C_START_DO` if more transactions are queued and `I2C_IDLE` otherwise. -/
theorem i2c_address_nack_scenario (k : timekeeping_config) (cb : i2c_callbacks)
    (hcb : i2c_callbacks_inert cb) (s0 : i2c_engine) (now now1 : timestamp)
    (r : i2c_request) (more : List i2c_request) (h0 h1 h2 h3 h4 : i2c_hw)
    (hs0 : s0.i2c_state = I2C_IDLE) (hq0 : s0.i2c_transaction_list_head = [])
    (hwr : r.wrlen = 0) (hrd : 0 < r.rdlen) (hbuf : r.rdbuf ≠ NULL)
    (hmore : ∀ q ∈ more, q.accepted true = true)
    (hstart : h1.completed TW_START = true)
    (hint : bit_is_clear h2.twcr TWINT = false)
    (hnack : h2.twsr &&& TW_STATUS_MASK ≠ TW_MR_SLA_ACK)
    (hstop : bit_is_set h4.twcr TWSTO = false) :
    ∃ sa s1 s2 s3,
      i2c_run k cb
        ([i2c_op.transaction now true r] ++
          (more.map fun q => i2c_op.transaction now1 true q) ++
          [i2c_op.poll h0, i2c_op.poll h1]) s0 = some sa ∧
      sa.i2c_state = I2C_ADDR ∧
      sa.i2c_transaction_list_head = r.node :: more.map i2c_request.node ∧
      i2c_twdr_writes sa.hw_writes = i2c_twdr_writes s0.hw_writes ++
        [(((r.addr <<< 1) % 256) ||| TW_READ) % 256] ∧
      i2c_poll_atomic k cb h2 sa = some s1 ∧
      s1.i2c_state = I2C_TRANS_FAILED_RESET ∧
      s1.completions = s0.completions ++
        (if r.completion ≠ NULL then [⟨r.completion, r.comp_data, false, 0⟩] else []) ∧
      s1.released = s0.released ++ [⟨r.node, false⟩] ∧
      s1.hw_writes = sa.hw_writes ∧
      (r.completion = NULL → s1.mem = s0.mem) ∧
      (r.completion ≠ NULL → ∃ sx : i2c_engine, sx.mem = s0.mem ∧
        s1.mem = (cb ⟨r.completion, r.comp_data, false, 0⟩ sx).mem) ∧
      i2c_poll_atomic k cb h3 s1 = some s2 ∧
      s2.i2c_state = I2C_RESET ∧
      (∃ v1 v2, s2.hw_writes = s1.hw_writes ++ [i2c_hw_write.TWCR v1, i2c_hw_write.TWCR v2] ∧
        v1 = (h3.twcr &&& (255 ^^^ BV TWINT) &&&
          (255 ^^^ (BV TWEA ||| BV TWSTA ||| BV TWSTO ||| BV TWEN ||| BV TWIE))) % 256 ∧
        v2 = ((v1 &&& (255 ^^^ BV TWINT)) ||| (BV TWINT ||| BV TWEN)) % 256) ∧
      i2c_poll_atomic k cb h4 s2 = some s3 ∧
      s3.i2c_state = (if more ≠ [] then I2C_START_DO else I2C_IDLE) ∧
      s3.i2c_transaction_list_head = more.map i2c_request.node ∧
      s3.completions = s1.completions ∧ s3.released = s1.released ∧ s3.mem = s1.mem := by
  have hacc : r.accepted true = true := by
    simp [i2c_request.accepted, hwr, hbuf]
    omega
  obtain ⟨t1, e1, a1, a2, a3, a4, a5, a6, _⟩ := i2c_transaction_req_idle k hcb now r s0 hs0 hacc
  rw [hq0, List.nil_append] at a2
  have e1' := i2c_run_enqueue_busy k cb now1 more t1 (by rw [a1]; decide) hmore
  obtain ⟨t2, e2, b1, b2, b3, b4, b5, _, b7⟩ := i2c_poll_START_DO k hcb h0
    { t1 with i2c_transaction_list_head :=
        t1.i2c_transaction_list_head ++ more.map i2c_request.node }
    r.node (more.map i2c_request.node) a1 (by simp [a2])
  obtain ⟨sa, e3, c1, c2, c3, c4, c5, _, c7⟩ :=
    i2c_poll_START_TX k hcb h1 t2 r.node (more.map i2c_request.node) b1 b2 hstart
  obtain ⟨s1, e4, d1, d2, d3, d4, d5, d6, d7⟩ :=
    i2c_poll_ADDR_nack k hcb h2 sa r.node (more.map i2c_request.node) c1 c2 hint hnack hwr
  obtain ⟨s2, e5, f1, f2, f3, f4, f5, _, f7⟩ := i2c_poll_TRANS_FAILED_RESET k hcb h3 s1 d1
  obtain ⟨s3, e6, g1, g2, g3, g4, g5, _, _⟩ :=
    i2c_poll_stop_clear k hcb h4 s2 (Or.inr f1) hstop
  have hmem : sa.mem = s0.mem := by
    rw [c5, b5]
    exact a5
  have hcomp : sa.completions = s0.completions := by
    rw [c3, b3]
    exact a3
  have hrel : sa.released = s0.released := by
    rw [c4, b4]
    exact a4
  refine ⟨sa, s1, s2, s3, ?_, c1, c2, ?_, e4, d1, ?_, ?_, d5, ?_, ?_, e5, f1, f7, e6, ?_, ?_,
    by rw [g3, f3], by rw [g4, f4], by rw [g5, f5]⟩
  · have e1s : (i2c_transaction_req k cb now true r s0).map Prod.snd = some t1 := e1
    rw [i2c_run_append, i2c_run_append]
    simp only [i2c_run, i2c_step, e1s, Option.some_bind, e1', e2, e3]
  · rw [c7, b7]
    simp only [i2c_request.node, hwr, if_true]
    congr 1
    rw [a6]
  · rw [d3, hcomp]
    simp [i2c_request.node]
  · rw [d4, hrel]
  · intro hn
    rw [d6 hn, hmem]
  · intro hn
    obtain ⟨sx, hsx, hm⟩ := d7 hn
    exact ⟨sx, by rw [hsx, hmem], hm⟩
  · rw [g1, f2, d2]
    simp
  · rw [g2, f2, d2]

/-- Witness of C11: the engine waits in `I2C_ADDR` with two transactions queued
and the deadline at tick 100; polls at ticks 50 and 99 change nothing, the
poll at tick 100 fails the head, and after the reset the second transaction is
started. -/
theorem i2c_timeout_recovery_witness :
    ∃ s1 s2 s3 s4,
      i2c_run ⟨16000000, 64, 8⟩ (fun _ s => s)
        ([⟨0, 0, 0, ⟨50, 0⟩, ⟨50, 0⟩⟩, ⟨0, 0, 0, ⟨99, 31249⟩, ⟨99, 31249⟩⟩].map i2c_op.poll)
        { i2c_boot 0 0 0 0 (fun _ => 0) with
          i2c_state := I2C_ADDR,
          i2c_transaction_deadline := ⟨100, 0⟩,
          i2c_transaction_list_head :=
            [⟨0x4b, 0, 0, 200, 1, 5, 1, 0⟩, ⟨0x48, 100, 2, 0, 0, 5, 2, 0⟩] } = some s1 ∧
      s1.i2c_state = I2C_ADDR ∧
      s1.i2c_transaction_list_head =
        [⟨0x4b, 0, 0, 200, 1, 5, 1, 0⟩, ⟨0x48, 100, 2, 0, 0, 5, 2, 0⟩] ∧
      s1.completions = [] ∧ s1.released = [] ∧
      s1.i2c_transaction_deadline = ⟨100, 0⟩ ∧
      i2c_poll_atomic ⟨16000000, 64, 8⟩ (fun _ s => s) ⟨0, 0, 0, ⟨100, 0⟩, ⟨100, 0⟩⟩ s1 =
        some s2 ∧
      s2.i2c_state = I2C_TRANS_FAILED_RESET ∧
      s2.i2c_transaction_list_head = [⟨0x48, 100, 2, 0, 0, 5, 2, 0⟩] ∧
      s2.completions = [] ++
        (if (5 : Nat) ≠ NULL then [(⟨5, 1, false, 0⟩ : i2c_completion)] else []) ∧
      s2.released = [] ++ [⟨⟨0x4b, 0, 0, 200, 1, 5, 1, 0⟩, false⟩] ∧
      i2c_poll_atomic ⟨16000000, 64, 8⟩ (fun _ s => s) ⟨0, 0, 0, ⟨100, 1⟩, ⟨100, 1⟩⟩ s2 =
        some s3 ∧
      s3.i2c_state = I2C_RESET ∧
      s3.i2c_transaction_list_head = [⟨0x48, 100, 2, 0, 0, 5, 2, 0⟩] ∧
      s3.completions = s2.completions ∧ s3.released = s2.released ∧
      i2c_poll_atomic ⟨16000000, 64, 8⟩ (fun _ s => s) ⟨0, 0, 0, ⟨100, 2⟩, ⟨100, 2⟩⟩ s3 =
        some s4 ∧
      s4.i2c_state =
        (if [(⟨0x48, 100, 2, 0, 0, 5, 2, 0⟩ : i2c_transaction_list)] ≠ [] then I2C_START_DO
         else I2C_IDLE) ∧
      s4.i2c_transaction_list_head = [⟨0x48, 100, 2, 0, 0, 5, 2, 0⟩] ∧
      s4.completions = s2.completions ∧ s4.released = s2.released ∧
      ([(⟨0x48, 100, 2, 0, 0, 5, 2, 0⟩ : i2c_transaction_list)] ≠ [] →
        s4.i2c_transaction_deadline =
          timestamp_add (timekeeping_counts_per_tick ⟨16000000, 64, 8⟩) ⟨100, 2⟩
            (TIMESTAMPI_FROM_MS 8 (timekeeping_counts_per_tick ⟨16000000, 64, 8⟩)
              I2C_TRANS_TIMEOUT)) :=
  (i2c_timeout_recovery ⟨16000000, 64, 8⟩ (fun _ s => s) (fun _ _ => rfl)
    { i2c_boot 0 0 0 0 (fun _ => 0) with
      i2c_state := I2C_ADDR,
      i2c_transaction_deadline := ⟨100, 0⟩,
      i2c_transaction_list_head :=
        [⟨0x4b, 0, 0, 200, 1, 5, 1, 0⟩, ⟨0x48, 100, 2, 0, 0, 5, 2, 0⟩] }
    ⟨0x4b, 0, 0, 200, 1, 5, 1, 0⟩ [⟨0x48, 100, 2, 0, 0, 5, 2, 0⟩]
    [⟨0, 0, 0, ⟨50, 0⟩, ⟨50, 0⟩⟩, ⟨0, 0, 0, ⟨99, 31249⟩, ⟨99, 31249⟩⟩]
    ⟨0, 0, 0, ⟨100, 0⟩, ⟨100, 0⟩⟩ ⟨0, 0, 0, ⟨100, 1⟩, ⟨100, 1⟩⟩ ⟨0, 0, 0, ⟨100, 2⟩, ⟨100, 2⟩⟩
    rfl rfl (by decide) (by decide) (by decide)).2.2

/-- Witness of C12: two bytes, held at addresses 100 and 101, are written to
the device at address `0x48`; the data register receives `0x90` (the address
with the write bit) and the two bytes. -/
theorem i2c_write_only_scenario_witness :
    ∃ s, i2c_run ⟨16000000, 64, 8⟩ (fun _ s => s)
        ([i2c_op.transaction ⟨7, 0⟩ true ⟨0x48, 100, 2, 0, 0, 5, 1⟩,
            i2c_op.poll ⟨0, 0, 0, ⟨7, 1⟩, ⟨7, 1⟩⟩,
            i2c_op.poll ⟨0x80, 0x08, 0, ⟨7, 2⟩, ⟨7, 2⟩⟩,
            i2c_op.poll ⟨0x80, 0x18, 0, ⟨7, 3⟩, ⟨7, 3⟩⟩,
            i2c_op.poll ⟨0x80, 0x18, 0, ⟨7, 4⟩, ⟨7, 4⟩⟩] ++
          [(⟨0x80, 0x28, 0, ⟨7, 5⟩, ⟨7, 5⟩⟩ : i2c_hw)].map i2c_op.poll ++
          [i2c_op.poll ⟨0x80, 0x28, 0, ⟨7, 6⟩, ⟨7, 6⟩⟩,
            i2c_op.poll ⟨0, 0xf8, 0, ⟨7, 7⟩, ⟨7, 7⟩⟩,
            i2c_op.poll ⟨0, 0xf8, 0, ⟨7, 8⟩, ⟨7, 8⟩⟩])
        (i2c_boot 0 0 0 0 (fun a => a + 1)) = some s ∧
      s.i2c_state = I2C_IDLE ∧ s.i2c_transaction_list_head = [] ∧
      i2c_twdr_writes s.hw_writes = [] ++
        ((((0x48 <<< 1) % 256) ||| TW_WRITE) % 256) ::
          (List.range 2).map (fun i => (fun a => a + 1) (100 + i) % 256) ∧
      (∃ ws v, s.hw_writes = ws ++ [i2c_hw_write.TWCR v] ∧ bit_is_set v TWSTO = true ∧
        i2c_twdr_writes ws = i2c_twdr_writes s.hw_writes) ∧
      s.completions = [] ++
        (if (5 : Nat) ≠ NULL then [(⟨5, 1, true, 0⟩ : i2c_completion)] else []) ∧
      s.released = [] ++ [⟨⟨0x48, 100 + 2, 0, 0, 0, 5, 1, 0⟩, true⟩] :=
  i2c_write_only_scenario ⟨16000000, 64, 8⟩ (fun _ s => s) (fun _ _ => rfl)
    (i2c_boot 0 0 0 0 (fun a => a + 1)) ⟨7, 0⟩ ⟨0x48, 100, 2, 0, 0, 5, 1⟩
    ⟨0, 0, 0, ⟨7, 1⟩, ⟨7, 1⟩⟩ ⟨0x80, 0x08, 0, ⟨7, 2⟩, ⟨7, 2⟩⟩ ⟨0x80, 0x18, 0, ⟨7, 3⟩, ⟨7, 3⟩⟩
    ⟨0x80, 0x18, 0, ⟨7, 4⟩, ⟨7, 4⟩⟩ [⟨0x80, 0x28, 0, ⟨7, 5⟩, ⟨7, 5⟩⟩]
    ⟨0x80, 0x28, 0, ⟨7, 6⟩, ⟨7, 6⟩⟩ ⟨0, 0xf8, 0, ⟨7, 7⟩, ⟨7, 7⟩⟩ ⟨0, 0xf8, 0, ⟨7, 8⟩, ⟨7, 8⟩⟩
    rfl rfl rfl rfl (by decide) (by decide) (by decide) (by decide) (by decide) (by decide)

/-- Witness of C13: one byte is to be read from the device at address `0x4b`,
a second transaction is queued behind it, and the address is answered with
the status `0x48` (not acknowledged). -/
theorem i2c_address_nack_scenario_witness :
    ∃ sa s1 s2 s3,
      i2c_run ⟨16000000, 64, 8⟩ (fun _ s => s)
        ([i2c_op.transaction ⟨7, 0⟩ true ⟨0x4b, 0, 0, 200, 1, 5, 1⟩] ++
          ([(⟨0x48, 100, 2, 0, 0, 5, 2⟩ : i2c_request)].map
            fun q => i2c_op.transaction ⟨7, 0⟩ true q) ++
          [i2c_op.poll ⟨0, 0, 0, ⟨7, 1⟩, ⟨7, 1⟩⟩,
            i2c_op.poll ⟨0x80, 0x08, 0, ⟨7, 2⟩, ⟨7, 2⟩⟩])
        (i2c_boot 0 0 0 0 (fun _ => 0)) = some sa ∧
      sa.i2c_state = I2C_ADDR ∧
      sa.i2c_transaction_list_head =
        (⟨0x4b, 0, 0, 200, 1, 5, 1⟩ : i2c_request).node ::
          [(⟨0x48, 100, 2, 0, 0, 5, 2⟩ : i2c_request)].map i2c_request.node ∧
      i2c_twdr_writes sa.hw_writes = [] ++ [(((0x4b <<< 1) % 256) ||| TW_READ) % 256] ∧
      i2c_poll_atomic ⟨16000000, 64, 8⟩ (fun _ s => s) ⟨0x80, 0x48, 0, ⟨7, 3⟩, ⟨7, 3⟩⟩ sa =
        some s1 ∧
      s1.i2c_state = I2C_TRANS_FAILED_RESET ∧
      s1.completions = [] ++
        (if (5 : Nat) ≠ NULL then [(⟨5, 1, false, 0⟩ : i2c_completion)] else []) ∧
      s1.released = [] ++ [⟨(⟨0x4b, 0, 0, 200, 1, 5, 1⟩ : i2c_request).node, false⟩] ∧
      s1.hw_writes = sa.hw_writes ∧
      ((5 : Nat) = NULL → s1.mem = fun _ => 0) ∧
      ((5 : Nat) ≠ NULL → ∃ sx : i2c_engine, sx.mem = (fun _ => 0) ∧
        s1.mem = ((fun (_ : i2c_completion) (s : i2c_engine) => s) ⟨5, 1, false, 0⟩ sx).mem) ∧
      i2c_poll_atomic ⟨16000000, 64, 8⟩ (fun _ s => s) ⟨0x80, 0x48, 0, ⟨7, 4⟩, ⟨7, 4⟩⟩ s1 =
        some s2 ∧
      s2.i2c_state = I2C_RESET ∧
      (∃ v1 v2, s2.hw_writes = s1.hw_writes ++ [i2c_hw_write.TWCR v1, i2c_hw_write.TWCR v2] ∧
        v1 = (0x80 &&& (255 ^^^ BV TWINT) &&&
          (255 ^^^ (BV TWEA ||| BV TWSTA ||| BV TWSTO ||| BV TWEN ||| BV TWIE))) % 256 ∧
        v2 = ((v1 &&& (255 ^^^ BV TWINT)) ||| (BV TWINT ||| BV TWEN)) % 256) ∧
      i2c_poll_atomic ⟨16000000, 64, 8⟩ (fun _ s => s) ⟨0, 0xf8, 0, ⟨7, 5⟩, ⟨7, 5⟩⟩ s2 =
        some s3 ∧
      s3.i2c_state =
        (if [(⟨0x48, 100, 2, 0, 0, 5, 2⟩ : i2c_request)] ≠ [] then I2C_START_DO
         else I2C_IDLE) ∧
      s3.i2c_transaction_list_head =
        [(⟨0x48, 100, 2, 0, 0, 5, 2⟩ : i2c_request)].map i2c_request.node ∧
      s3.completions = s1.completions ∧ s3.released = s1.released ∧ s3.mem = s1.mem :=
  i2c_address_nack_scenario ⟨16000000, 64, 8⟩ (fun _ s => s) (fun _ _ => rfl)
    (i2c_boot 0 0 0 0 (fun _ => 0)) ⟨7, 0⟩ ⟨7, 0⟩ ⟨0x4b, 0, 0, 200, 1, 5, 1⟩
    [⟨0x48, 100, 2, 0, 0, 5, 2⟩]
    ⟨0, 0, 0, ⟨7, 1⟩, ⟨7, 1⟩⟩ ⟨0x80, 0x08, 0, ⟨7, 2⟩, ⟨7, 2⟩⟩ ⟨0x80, 0x48, 0, ⟨7, 3⟩, ⟨7, 3⟩⟩
    ⟨0x80, 0x48, 0, ⟨7, 4⟩, ⟨7, 4⟩⟩ ⟨0, 0xf8, 0, ⟨7, 5⟩, ⟨7, 5⟩⟩
    rfl rfl rfl (by decide) (by decide) (by decide) (by decide) (by decide) (by decide)
    (by decide)

/-- Witness of C16: three transactions are enqueued and the first is being
sent; the poll that writes its address byte leaves the two behind it alone. -/
theorem i2c_poll_atomic_head_only_witness :
    ∃ s0, i2c_setup ⟨16000000, 64, 8⟩ 100000 (i2c_boot 0 0 0 0 (fun _ => 0)) = some s0 ∧
    ∃ s s', i2c_run ⟨16000000, 64, 8⟩ (fun _ s => s)
        [i2c_op.transaction ⟨7, 0⟩ true ⟨0x48, 100, 1, 0, 0, 5, 1⟩,
         i2c_op.transaction ⟨7, 0⟩ true ⟨0x4b, 0, 0, 200, 1, 5, 2⟩,
         i2c_op.transaction ⟨7, 0⟩ true ⟨0x4f, 100, 1, 0, 0, 0, 3⟩,
         i2c_op.poll ⟨0, 0, 0, ⟨7, 1⟩, ⟨7, 1⟩⟩]
        s0 = some s ∧
      i2c_poll_atomic ⟨16000000, 64, 8⟩ (fun _ s => s) ⟨0x80, 0x08, 0, ⟨7, 2⟩, ⟨7, 2⟩⟩ s =
        some s' ∧
      s.i2c_transaction_list_head.tail =
        ((i2c_enqueued
          [i2c_op.transaction ⟨7, 0⟩ true ⟨0x48, 100, 1, 0, 0, 5, 1⟩,
           i2c_op.transaction ⟨7, 0⟩ true ⟨0x4b, 0, 0, 200, 1, 5, 2⟩,
           i2c_op.transaction ⟨7, 0⟩ true ⟨0x4f, 100, 1, 0, 0, 0, 3⟩,
           i2c_op.poll ⟨0, 0, 0, ⟨7, 1⟩, ⟨7, 1⟩⟩]).drop
            (s.released.length + 1)).map i2c_request.node ∧
      (∀ tr ∈ s.i2c_transaction_list_head.tail, tr.rdlen_actual = 0) ∧
      ((¬ i2c_enters_terminal s s' ∧ s'.released = s.released ∧
          ((s.i2c_transaction_list_head = [] ∧ s'.i2c_transaction_list_head = []) ∨
            ∃ tr tr1 rest, s.i2c_transaction_list_head = tr :: rest ∧
              s'.i2c_transaction_list_head = tr1 :: rest ∧
              i2c_head_advance s.i2c_state tr tr1 ∧ tr1.ident = tr.ident)) ∨
        (i2c_enters_terminal s s' ∧
          ∃ tr rest, s.i2c_transaction_list_head = tr :: rest ∧
            s'.i2c_transaction_list_head = rest)) ∧
      s'.i2c_transaction_list_head.tail =
        ((i2c_enqueued
          [i2c_op.transaction ⟨7, 0⟩ true ⟨0x48, 100, 1, 0, 0, 5, 1⟩,
           i2c_op.transaction ⟨7, 0⟩ true ⟨0x4b, 0, 0, 200, 1, 5, 2⟩,
           i2c_op.transaction ⟨7, 0⟩ true ⟨0x4f, 100, 1, 0, 0, 0, 3⟩,
           i2c_op.poll ⟨0, 0, 0, ⟨7, 1⟩, ⟨7, 1⟩⟩]).drop
            (s'.released.length + 1)).map i2c_request.node ∧
      (∀ tr ∈ s'.i2c_transaction_list_head.tail, tr.rdlen_actual = 0) :=
  ⟨_, rfl,
    i2c_poll_atomic_head_only ⟨16000000, 64, 8⟩ (fun _ s => s) (fun _ _ => rfl)
    100000 0 0 0 0 (fun _ => 0) _ rfl _ _⟩

/-! ## Theorems: TC74 driver -/

/-- The macro `TC74_SETSTATE` sets the state. -/
theorem TC74_SETSTATE_state (k : timekeeping_config) (now : timestamp) (st : tc74_states)
    (d : tc74_data) : (TC74_SETSTATE k now st d).state = st := by
  unfold TC74_SETSTATE tc74_set_state_do
  by_cases h : d.state = st
  · simp [h]
  · simp only [ne_eq, h, not_false_eq_true, if_true]
    split
    · rfl
    · split
      · rfl
      · split <;> rfl

/-- The macro `TC74_SETSTATE` touches the result flag only on a change of
state: it clears it on entering `TC74_CONFIG_READ_DO` and sets it on entering
`TC74_TEMP_READ_OK`. -/
theorem TC74_SETSTATE_flag (k : timekeeping_config) (now : timestamp) (st : tc74_states)
    (d : tc74_data) :
    (TC74_SETSTATE k now st d).get_temp_result =
      (if d.state ≠ st ∧ st = TC74_CONFIG_READ_DO then false
       else if d.state ≠ st ∧ st = TC74_TEMP_READ_OK then true
       else d.get_temp_result) := by
  unfold TC74_SETSTATE tc74_set_state_do
  by_cases h : d.state = st
  · simp [h]
  · cases st <;> simp [h]

/-- The macro `TC74_SETSTATE` leaves the bus fields, the config byte and the
latched value alone. -/
theorem TC74_SETSTATE_frame (k : timekeeping_config) (now : timestamp) (st : tc74_states)
    (d : tc74_data) :
    (TC74_SETSTATE k now st d).addr = d.addr ∧
    (TC74_SETSTATE k now st d).i2c_trans_complete = d.i2c_trans_complete ∧
    (TC74_SETSTATE k now st d).i2c_trans_success = d.i2c_trans_success ∧
    (TC74_SETSTATE k now st d).i2c_rdlen_actual = d.i2c_rdlen_actual ∧
    (TC74_SETSTATE k now st d).config = d.config ∧
    (TC74_SETSTATE k now st d).temp = d.temp := by
  unfold TC74_SETSTATE tc74_set_state_do
  by_cases h : d.state = st
  · simp [h]
  · cases st <;> simp [h]

/-- C26: `tc74_get_next_poll_time` returns the current time if the
state-changed flag of the instance is set, or if the instance is in a
bus-transfer state (`TC74_CONFIG_READ`, `TC74_CONFIG_WRITE`,
`TC74_CONFIG_WRITE_CONFIG_READ`, `TC74_DATA_READY_CONFIG_READ`,
`TC74_TEMP_READ`) and its transaction has completed; otherwise the data-ready
retry deadline if the state is `TC74_DATA_READY_WAIT`; otherwise the
`max_future` sentinel. -/
theorem tc74_get_next_poll_time_cases (now : timestamp) (data : tc74_data) :
    (tc74_is_i2c_transfer_state data = true ↔
      data.state = TC74_CONFIG_READ ∨ data.state = TC74_CONFIG_WRITE ∨
      data.state = TC74_CONFIG_WRITE_CONFIG_READ ∨
      data.state = TC74_DATA_READY_CONFIG_READ ∨ data.state = TC74_TEMP_READ) ∧
    (data.state_changed = true → tc74_get_next_poll_time now data = now) ∧
    (tc74_is_i2c_transfer_state data = true → data.i2c_trans_complete = true →
      tc74_get_next_poll_time now data = now) ∧
    (data.state_changed = false →
      ¬ (tc74_is_i2c_transfer_state data = true ∧ data.i2c_trans_complete = true) →
      (data.state = TC74_DATA_READY_WAIT →
        tc74_get_next_poll_time now data = data.next_data_ready_poll) ∧
      (data.state ≠ TC74_DATA_READY_WAIT →
        tc74_get_next_poll_time now data = timekeeping_timestamp_max_future now)) := by
  refine ⟨?_, ?_, ?_, ?_⟩
  · cases h : data.state <;> simp [tc74_is_i2c_transfer_state, h]
  · intro hc
    simp [tc74_get_next_poll_time, hc]
  · intro ht hc
    simp [tc74_get_next_poll_time, ht, hc]
  · intro hc hn
    have hn' : (tc74_is_i2c_transfer_state data && data.i2c_trans_complete) = false := by
      cases h1 : tc74_is_i2c_transfer_state data <;> cases h2 : data.i2c_trans_complete <;>
        simp_all
    constructor
    · intro hs
      simp [tc74_get_next_poll_time, hc, hn', hs]
    · intro hs
      simp [tc74_get_next_poll_time, hc, hn', hs]

/-- The poll that issues a config read: from each of the three states that
ask for one it calls `i2c_transaction` once; when the call is accepted it goes
on to the matching waiting state, otherwise to `TC74_IDLE`. -/
theorem tc74_poll_issue_config_read (k : timekeeping_config) (now : timestamp) (i2c_ok : Bool)
    (s : tc74_sys)
    (hs : s.data.state = TC74_CONFIG_READ_DO ∨ s.data.state = TC74_DATA_READY_CONFIG_READ_DO ∨
      s.data.state = TC74_CONFIG_WRITE_CONFIG_READ_DO) :
    tc74_poll k now i2c_ok s =
      tc74_sys.setstate k now
        (if i2c_ok = false then TC74_IDLE
         else if s.data.state = TC74_CONFIG_READ_DO then TC74_CONFIG_READ
         else if s.data.state = TC74_DATA_READY_CONFIG_READ_DO then TC74_DATA_READY_CONFIG_READ
         else TC74_CONFIG_WRITE_CONFIG_READ)
        (tc74_i2c_transaction i2c_ok tc74_config_read_transfer (tc74_poll_entry s)).2 := by
  cases i2c_ok <;> rcases hs with hs | hs | hs <;>
    simp [tc74_poll, hs, tc74_poll_entry, tc74_i2c_transaction, tc74_config_read_transfer]

/-- The poll in a state that waits for a bus transaction which has not
completed changes nothing but the state-changed flag. -/
theorem tc74_poll_pending (k : timekeeping_config) (now : timestamp) (i2c_ok : Bool)
    (s : tc74_sys) (hs : tc74_is_i2c_transfer_state s.data = true)
    (hc : s.data.i2c_trans_complete = false) :
    tc74_poll k now i2c_ok s = tc74_poll_entry s := by
  cases h : s.data.state <;> simp [tc74_is_i2c_transfer_state, h] at hs <;>
    simp [tc74_poll, h, hc, tc74_poll_entry]

/-- The poll after a config read that failed or read another number of bytes
than one goes to `TC74_IDLE`. -/
theorem tc74_poll_config_read_failed (k : timekeeping_config) (now : timestamp)
    (i2c_ok : Bool) (s : tc74_sys) (hs : s.data.state.is_config_read = true)
    (hc : s.data.i2c_trans_complete = true)
    (hf : s.data.i2c_trans_success = false ∨ s.data.i2c_rdlen_actual ≠ 1) :
    tc74_poll k now i2c_ok s = tc74_sys.setstate k now TC74_IDLE (tc74_poll_entry s) := by
  cases h : s.data.state <;> simp [tc74_states.is_config_read, h] at hs <;>
    rcases hf with hf | hf <;> simp [tc74_poll, h, hc, hf, tc74_poll_entry]

/-- The poll after a successful config read of a byte with a reserved bit set
goes to `TC74_IDLE`. -/
theorem tc74_poll_config_reserved (k : timekeeping_config) (now : timestamp)
    (i2c_ok : Bool) (s : tc74_sys) (hs : s.data.state.is_config_read = true)
    (hc : s.data.i2c_trans_complete = true) (hok : s.data.i2c_trans_success = true)
    (hlen : s.data.i2c_rdlen_actual = 1)
    (hz : s.data.config &&& TC74_REG_CONFIG_ZERO_MASK ≠ 0) :
    tc74_poll k now i2c_ok s = tc74_sys.setstate k now TC74_IDLE (tc74_poll_entry s) := by
  cases h : s.data.state <;> simp [tc74_states.is_config_read, h] at hs <;>
    simp [tc74_poll, h, hc, hok, hlen, hz, tc74_poll_entry]

/-- The poll after a successful config read of a byte with the reserved bits
clear and the standby bit set: after the first config read of a read
(`TC74_CONFIG_READ`) it calls `i2c_transaction` to write zero to the config
register and goes to `TC74_CONFIG_WRITE`, or to `TC74_IDLE` when the call is
not accepted; after a later config read it goes to `TC74_IDLE`. -/
theorem tc74_poll_config_standby (k : timekeeping_config) (now : timestamp)
    (i2c_ok : Bool) (s : tc74_sys) (hs : s.data.state.is_config_read = true)
    (hc : s.data.i2c_trans_complete = true) (hok : s.data.i2c_trans_success = true)
    (hlen : s.data.i2c_rdlen_actual = 1)
    (hz : s.data.config &&& TC74_REG_CONFIG_ZERO_MASK = 0)
    (hsb : s.data.config &&& TC74_REG_CONFIG_STANDBY ≠ 0) :
    tc74_poll k now i2c_ok s =
      (if s.data.state = TC74_CONFIG_READ then
        tc74_sys.setstate k now (if i2c_ok = false then TC74_IDLE else TC74_CONFIG_WRITE)
          (tc74_i2c_transaction i2c_ok tc74_config_write_transfer (tc74_poll_entry s)).2
       else tc74_sys.setstate k now TC74_IDLE (tc74_poll_entry s)) := by
  cases i2c_ok <;> cases h : s.data.state <;> simp [tc74_states.is_config_read, h] at hs <;>
    simp [tc74_poll, h, hc, hok, hlen, hz, hsb, tc74_poll_entry, tc74_i2c_transaction,
      tc74_config_write_transfer]

/-- The poll after a successful config read of a valid byte with the
data-ready bit clear: after a retry (`TC74_DATA_READY_CONFIG_READ`) it counts
the poll and gives up (`TC74_IDLE`) when the count reaches
`TC74_DATA_READY_POLL_COUNT`, else waits again (`TC74_DATA_READY_WAIT`); after
another config read it starts waiting (`TC74_DATA_READY_WAIT_INIT`). -/
theorem tc74_poll_config_not_ready (k : timekeeping_config) (now : timestamp)
    (i2c_ok : Bool) (s : tc74_sys) (hs : s.data.state.is_config_read = true)
    (hc : s.data.i2c_trans_complete = true) (hok : s.data.i2c_trans_success = true)
    (hlen : s.data.i2c_rdlen_actual = 1) (hv : tc74_config_valid s.data.config = true)
    (hr : s.data.config &&& TC74_REG_CONFIG_DATA_READY = 0) :
    tc74_poll k now i2c_ok s =
      (if s.data.state = TC74_DATA_READY_CONFIG_READ then
        tc74_sys.setstate k now
          (if (s.data.data_ready_polls + 1) % 256 ≥ TC74_DATA_READY_POLL_COUNT then TC74_IDLE
           else TC74_DATA_READY_WAIT)
          { tc74_poll_entry s with data :=
              { (tc74_poll_entry s).data with
                data_ready_polls := (s.data.data_ready_polls + 1) % 256 } }
       else tc74_sys.setstate k now TC74_DATA_READY_WAIT_INIT (tc74_poll_entry s)) := by
  simp only [tc74_config_valid, Bool.and_eq_true, decide_eq_true_eq] at hv
  obtain ⟨hz, hsb⟩ := hv
  cases h : s.data.state <;> simp [tc74_states.is_config_read, h] at hs <;>
    simp [tc74_poll, h, hc, hok, hlen, hz, hsb, hr, tc74_poll_entry]
  split <;> rfl

/-- The poll after a successful config read of a valid byte with the
data-ready bit set calls `i2c_transaction` to read the temperature register
and goes to `TC74_TEMP_READ`, or to `TC74_IDLE` when the call is not
accepted. -/
theorem tc74_poll_config_ready (k : timekeeping_config) (now : timestamp)
    (i2c_ok : Bool) (s : tc74_sys) (hs : s.data.state.is_config_read = true)
    (hc : s.data.i2c_trans_complete = true) (hok : s.data.i2c_trans_success = true)
    (hlen : s.data.i2c_rdlen_actual = 1) (hv : tc74_config_valid s.data.config = true)
    (hr : s.data.config &&& TC74_REG_CONFIG_DATA_READY ≠ 0) :
    tc74_poll k now i2c_ok s =
      tc74_sys.setstate k now (if i2c_ok = false then TC74_IDLE else TC74_TEMP_READ)
        (tc74_i2c_transaction i2c_ok tc74_temp_read_transfer (tc74_poll_entry s)).2 := by
  simp only [tc74_config_valid, Bool.and_eq_true, decide_eq_true_eq] at hv
  obtain ⟨hz, hsb⟩ := hv
  cases i2c_ok <;> cases h : s.data.state <;> simp [tc74_states.is_config_read, h] at hs <;>
    simp [tc74_poll, h, hc, hok, hlen, hz, hsb, hr, tc74_poll_entry, tc74_i2c_transaction,
      tc74_temp_read_transfer]

/-- The polls of the states that wait for nothing on the bus:
`TC74_DATA_READY_WAIT_INIT` goes on to `TC74_DATA_READY_WAIT`;
`TC74_DATA_READY_WAIT` stays while the time read is before the retry deadline
and then moves the deadline and goes to `TC74_DATA_READY_CONFIG_READ_DO`;
`TC74_TEMP_READ_OK` goes to `TC74_IDLE`; `TC74_IDLE` stays. -/
theorem tc74_poll_no_bus (k : timekeeping_config) (now : timestamp) (i2c_ok : Bool)
    (s : tc74_sys) :
    (s.data.state = TC74_DATA_READY_WAIT_INIT →
      tc74_poll k now i2c_ok s =
        tc74_sys.setstate k now TC74_DATA_READY_WAIT (tc74_poll_entry s)) ∧
    (s.data.state = TC74_DATA_READY_WAIT →
      timestamp_temporal_cmp (timekeeping_counts_per_tick k) now
        s.data.next_data_ready_poll .lt = true →
      tc74_poll k now i2c_ok s = tc74_poll_entry s) ∧
    (s.data.state = TC74_DATA_READY_WAIT →
      timestamp_temporal_cmp (timekeeping_counts_per_tick k) now
        s.data.next_data_ready_poll .lt = false →
      tc74_poll k now i2c_ok s =
        tc74_sys.setstate k now TC74_DATA_READY_CONFIG_READ_DO
          { tc74_poll_entry s with data :=
              { (tc74_poll_entry s).data with
                next_data_ready_poll :=
                  timestamp_add (timekeeping_counts_per_tick k) now
                    (TIMESTAMPI_FROM_MS k.TIMEKEEPING_HZ (timekeeping_counts_per_tick k)
                      TC74_DATA_READY_POLL_PERIOD) } }) ∧
    (s.data.state = TC74_TEMP_READ_OK →
      tc74_poll k now i2c_ok s = tc74_sys.setstate k now TC74_IDLE (tc74_poll_entry s)) ∧
    (s.data.state = TC74_IDLE → tc74_poll k now i2c_ok s = tc74_poll_entry s) := by
  refine ⟨?_, ?_, ?_, ?_, ?_⟩
  · intro hs
    simp [tc74_poll, hs, tc74_poll_entry]
  · intro hs hlt
    simp [tc74_poll, hs, hlt, tc74_poll_entry]
  · intro hs hlt
    simp [tc74_poll, hs, hlt, tc74_poll_entry]
  · intro hs
    simp [tc74_poll, hs, tc74_poll_entry]
  · intro hs
    simp [tc74_poll, hs, tc74_poll_entry]

/-- The poll after the config write completed: `TC74_IDLE` when it failed,
`TC74_CONFIG_WRITE_CONFIG_READ_DO` when it succeeded. -/
theorem tc74_poll_config_write_done (k : timekeeping_config) (now : timestamp)
    (i2c_ok : Bool) (s : tc74_sys) (hs : s.data.state = TC74_CONFIG_WRITE)
    (hc : s.data.i2c_trans_complete = true) :
    tc74_poll k now i2c_ok s =
      tc74_sys.setstate k now
        (if s.data.i2c_trans_success = false then TC74_IDLE
         else TC74_CONFIG_WRITE_CONFIG_READ_DO) (tc74_poll_entry s) := by
  cases hok : s.data.i2c_trans_success <;> simp [tc74_poll, hs, hc, hok, tc74_poll_entry]

/-- The poll after the temperature read completed: `TC74_TEMP_READ_OK` when it
succeeded with exactly one byte read, `TC74_IDLE` otherwise. -/
theorem tc74_poll_temp_read_done (k : timekeeping_config) (now : timestamp)
    (i2c_ok : Bool) (s : tc74_sys) (hs : s.data.state = TC74_TEMP_READ)
    (hc : s.data.i2c_trans_complete = true) :
    tc74_poll k now i2c_ok s =
      tc74_sys.setstate k now
        (if s.data.i2c_trans_success = true ∧ s.data.i2c_rdlen_actual = 1 then
          TC74_TEMP_READ_OK
         else TC74_IDLE) (tc74_poll_entry s) := by
  cases hok : s.data.i2c_trans_success <;> by_cases hlen : s.data.i2c_rdlen_actual = 1 <;>
    simp [tc74_poll, hs, hc, hok, hlen, tc74_poll_entry]

/-- The macro `TC74_SETSTATE` to the state the instance is in changes nothing. -/
theorem tc74_sys.setstate_same (k : timekeeping_config) (now : timestamp) (s : tc74_sys) :
    tc74_sys.setstate k now s.data.state s = s := by
  simp [tc74_sys.setstate, TC74_SETSTATE]

/-- The shape of every poll: it is one `TC74_SETSTATE` (which enters
`TC74_CONFIG_READ_DO` never) applied to the instance with the state, the
result flag, the config byte and the latched value as they were and with at
most one more transaction enqueued. -/
theorem tc74_poll_shape (k : timekeeping_config) (now : timestamp) (i2c_ok : Bool)
    (s : tc74_sys) :
    ∃ st x, tc74_poll k now i2c_ok s = tc74_sys.setstate k now st x ∧
      (st = TC74_CONFIG_READ_DO → x.data.state = TC74_CONFIG_READ_DO) ∧
      x.data.state = s.data.state ∧ x.data.get_temp_result = s.data.get_temp_result ∧
      x.data.config = s.data.config ∧ x.data.temp = s.data.temp ∧
      (x.enqueued = s.enqueued ∨ ∃ t, x.enqueued = s.enqueued ++ [t]) := by
  have r1 : (tc74_poll_entry s).data.state = s.data.state ∧
      (tc74_poll_entry s).data.get_temp_result = s.data.get_temp_result ∧
      (tc74_poll_entry s).data.config = s.data.config ∧
      (tc74_poll_entry s).data.temp = s.data.temp ∧
      ((tc74_poll_entry s).enqueued = s.enqueued ∨
        ∃ t, (tc74_poll_entry s).enqueued = s.enqueued ++ [t]) :=
    ⟨rfl, rfl, rfl, rfl, Or.inl rfl⟩
  have r2 : ∀ ok t,
      (tc74_i2c_transaction ok t (tc74_poll_entry s)).2.data.state = s.data.state ∧
      (tc74_i2c_transaction ok t (tc74_poll_entry s)).2.data.get_temp_result =
        s.data.get_temp_result ∧
      (tc74_i2c_transaction ok t (tc74_poll_entry s)).2.data.config = s.data.config ∧
      (tc74_i2c_transaction ok t (tc74_poll_entry s)).2.data.temp = s.data.temp ∧
      ((tc74_i2c_transaction ok t (tc74_poll_entry s)).2.enqueued = s.enqueued ∨
        ∃ t1, (tc74_i2c_transaction ok t (tc74_poll_entry s)).2.enqueued =
          s.enqueued ++ [t1]) := by
    intro ok t
    cases ok
    · exact ⟨rfl, rfl, rfl, rfl, Or.inl rfl⟩
    · exact ⟨rfl, rfl, rfl, rfl, Or.inr ⟨t, rfl⟩⟩
  have hstay : tc74_poll k now i2c_ok s = tc74_poll_entry s →
      ∃ st x, tc74_poll k now i2c_ok s = tc74_sys.setstate k now st x ∧
        (st = TC74_CONFIG_READ_DO → x.data.state = TC74_CONFIG_READ_DO) ∧
        x.data.state = s.data.state ∧ x.data.get_temp_result = s.data.get_temp_result ∧
        x.data.config = s.data.config ∧ x.data.temp = s.data.temp ∧
        (x.enqueued = s.enqueued ∨ ∃ t, x.enqueued = s.enqueued ++ [t]) := by
    intro e
    refine ⟨s.data.state, tc74_poll_entry s, ?_, fun h => h, r1⟩
    rw [e]
    exact (tc74_sys.setstate_same k now (tc74_poll_entry s)).symm
  obtain ⟨n1, n2, n3, n4, n5⟩ := tc74_poll_no_bus k now i2c_ok s
  revert r1 r2 hstay
  cases hs : s.data.state <;> intro r1 r2 hstay
  case TC74_IDLE => exact hstay (n5 hs)
  case TC74_CONFIG_READ_DO =>
    refine ⟨_, _, tc74_poll_issue_config_read k now i2c_ok s (Or.inl hs), ?_, r2 _ _⟩
    cases i2c_ok <;> simp [hs]
  case TC74_DATA_READY_CONFIG_READ_DO =>
    refine ⟨_, _, tc74_poll_issue_config_read k now i2c_ok s (Or.inr (Or.inl hs)), ?_, r2 _ _⟩
    cases i2c_ok <;> simp [hs]
  case TC74_CONFIG_WRITE_CONFIG_READ_DO =>
    refine ⟨_, _, tc74_poll_issue_config_read k now i2c_ok s (Or.inr (Or.inr hs)), ?_, r2 _ _⟩
    cases i2c_ok <;> simp [hs]
  case TC74_DATA_READY_WAIT_INIT => exact ⟨_, _, n1 hs, by simp, r1⟩
  case TC74_DATA_READY_WAIT =>
    cases hlt : timestamp_temporal_cmp (timekeeping_counts_per_tick k) now
      s.data.next_data_ready_poll .lt
    · exact ⟨_, _, n3 hs hlt, by simp, hs, rfl, rfl, rfl, Or.inl rfl⟩
    · exact hstay (n2 hs hlt)
  case TC74_TEMP_READ_OK => exact ⟨_, _, n4 hs, by simp, r1⟩
  case TC74_CONFIG_WRITE =>
    cases hc : s.data.i2c_trans_complete
    · exact hstay (tc74_poll_pending k now i2c_ok s
        (by simp [tc74_is_i2c_transfer_state, hs]) hc)
    · refine ⟨_, _, tc74_poll_config_write_done k now i2c_ok s hs hc, ?_, r1⟩
      split <;> simp
  case TC74_TEMP_READ =>
    cases hc : s.data.i2c_trans_complete
    · exact hstay (tc74_poll_pending k now i2c_ok s
        (by simp [tc74_is_i2c_transfer_state, hs]) hc)
    · refine ⟨_, _, tc74_poll_temp_read_done k now i2c_ok s hs hc, ?_, r1⟩
      split <;> simp
  all_goals
    have hcr : s.data.state.is_config_read = true := by rw [hs]; rfl
    cases hc : s.data.i2c_trans_complete
    · exact hstay (tc74_poll_pending k now i2c_ok s
        (by simp [tc74_is_i2c_transfer_state, hs]) hc)
    by_cases hf : s.data.i2c_trans_success = false ∨ s.data.i2c_rdlen_actual ≠ 1
    · exact ⟨_, _, tc74_poll_config_read_failed k now i2c_ok s hcr hc hf, by simp, r1⟩
    have hok : s.data.i2c_trans_success = true := by
      cases h : s.data.i2c_trans_success
      · exact absurd (Or.inl h) hf
      · rfl
    have hlen : s.data.i2c_rdlen_actual = 1 := by
      by_contra h
      exact hf (Or.inr h)
    by_cases hz : s.data.config &&& TC74_REG_CONFIG_ZERO_MASK = 0
    swap
    · exact ⟨_, _, tc74_poll_config_reserved k now i2c_ok s hcr hc hok hlen hz, by simp, r1⟩
    by_cases hsb : s.data.config &&& TC74_REG_CONFIG_STANDBY = 0
    swap
    · have e := tc74_poll_config_standby k now i2c_ok s hcr hc hok hlen hz hsb
      by_cases hst : s.data.state = TC74_CONFIG_READ
      · rw [if_pos hst] at e
        refine ⟨_, _, e, ?_, r2 _ _⟩
        cases i2c_ok <;> simp
      · rw [if_neg hst] at e
        exact ⟨_, _, e, by simp, r1⟩
    have hv : tc74_config_valid s.data.config = true := by
      simp [tc74_config_valid, hz, hsb]
    by_cases hr : s.data.config &&& TC74_REG_CONFIG_DATA_READY = 0
    · have e := tc74_poll_config_not_ready k now i2c_ok s hcr hc hok hlen hv hr
      by_cases hst : s.data.state = TC74_DATA_READY_CONFIG_READ
      · rw [if_pos hst] at e
        refine ⟨_, _, e, ?_, hs, rfl, rfl, rfl, Or.inl rfl⟩
        split <;> simp
      · rw [if_neg hst] at e
        exact ⟨_, _, e, by simp, r1⟩
    · refine ⟨_, _, tc74_poll_config_ready k now i2c_ok s hcr hc hok hlen hv hr, ?_, r2 _ _⟩
      cases i2c_ok <;> simp

/-- What a poll does to the result flag: it sets it exactly by entering
`TC74_TEMP_READ_OK` and never clears it. -/
theorem tc74_poll_flag (k : timekeeping_config) (now : timestamp) (i2c_ok : Bool)
    (s : tc74_sys) :
    (tc74_poll k now i2c_ok s).data.get_temp_result =
      (if s.data.state ≠ TC74_TEMP_READ_OK ∧
          (tc74_poll k now i2c_ok s).data.state = TC74_TEMP_READ_OK then true
       else s.data.get_temp_result) := by
  obtain ⟨st, x, e, hcrd, hxs, hxf, _, _, _⟩ := tc74_poll_shape k now i2c_ok s
  rw [e]
  simp only [tc74_sys.setstate, TC74_SETSTATE_flag, TC74_SETSTATE_state, hxs, hxf]
  by_cases h1 : st = TC74_CONFIG_READ_DO
  · have := hcrd h1
    rw [hxs] at this
    simp [h1, this]
  · by_cases h2 : st = TC74_TEMP_READ_OK
    · by_cases h3 : s.data.state = TC74_TEMP_READ_OK <;> simp [h2, h3]
    · simp [h1, h2]

/-- One event sets the result flag only by entering `TC74_TEMP_READ_OK`. -/
theorem tc74_step_flag (k : timekeeping_config) (e : tc74_event) (s : tc74_sys)
    (h : (tc74_step k e s).data.get_temp_result = true) :
    s.data.get_temp_result = true ∨ (tc74_step k e s).data.state = TC74_TEMP_READ_OK := by
  cases e with
  | get_temperature now =>
    simp only [tc74_step, tc74_get_temperature] at h ⊢
    split at h
    · exact Or.inl h
    · simp only [TC74_SETSTATE_flag] at h
      split at h
      · cases h
      · split at h
        · rename_i h1 h2
          cases h2.2
        · exact Or.inl h
  | i2c_store rdbuf byte =>
    cases rdbuf <;> exact Or.inl h
  | i2c_complete success rdlen_actual => exact Or.inl h
  | poll now i2c_ok =>
    simp only [tc74_step] at h ⊢
    rw [tc74_poll_flag] at h
    split at h
    · rename_i h1
      exact Or.inr h1.2
    · exact Or.inl h

/-- The function `tc74_get_temperature_result` follows the result flag. -/
theorem tc74_get_temperature_result_flag (nonnull : Bool) (data : tc74_data) :
    (data.get_temp_result = false → tc74_get_temperature_result nonnull data = (false, none)) ∧
    (data.get_temp_result = true →
      tc74_get_temperature_result nonnull data =
        (true, if nonnull then some data.temp else none)) := by
  constructor <;> intro h <;> simp [tc74_get_temperature_result, h]

/-- What a poll does to the state it leaves: `TC74_IDLE` is left by no poll,
and the poll in `TC74_TEMP_READ_OK` goes to `TC74_IDLE`. -/
theorem tc74_poll_idle_ok (k : timekeeping_config) (now : timestamp) (i2c_ok : Bool)
    (s : tc74_sys) :
    (s.data.state = TC74_IDLE → (tc74_poll k now i2c_ok s).data.state = TC74_IDLE) ∧
    (s.data.state = TC74_TEMP_READ_OK → (tc74_poll k now i2c_ok s).data.state = TC74_IDLE) := by
  obtain ⟨_, _, _, n4, n5⟩ := tc74_poll_no_bus k now i2c_ok s
  constructor
  · intro hs
    rw [n5 hs]
    exact hs
  · intro hs
    rw [n4 hs]
    exact TC74_SETSTATE_state k now _ _

/-- The result flag and the state agree after every event: the flag is set in
`TC74_TEMP_READ_OK` and clear in every other busy state. -/
theorem tc74_step_flag_inv (k : timekeeping_config) (e : tc74_event) (s : tc74_sys)
    (h1 : s.data.state = TC74_TEMP_READ_OK → s.data.get_temp_result = true)
    (h2 : s.data.state ≠ TC74_IDLE → s.data.state ≠ TC74_TEMP_READ_OK →
      s.data.get_temp_result = false) :
    ((tc74_step k e s).data.state = TC74_TEMP_READ_OK →
      (tc74_step k e s).data.get_temp_result = true) ∧
    ((tc74_step k e s).data.state ≠ TC74_IDLE →
      (tc74_step k e s).data.state ≠ TC74_TEMP_READ_OK →
      (tc74_step k e s).data.get_temp_result = false) := by
  cases e with
  | get_temperature now =>
    simp only [tc74_step, tc74_get_temperature, tc74_is_busy]
    by_cases hs : s.data.state = TC74_IDLE
    · simp [hs, TC74_SETSTATE_state, TC74_SETSTATE_flag]
    · simp only [ne_eq, hs, not_false_eq_true, decide_True, if_true]
      exact ⟨h1, fun _ => h2 hs⟩
  | i2c_store rdbuf byte =>
    cases rdbuf <;> exact ⟨h1, h2⟩
  | i2c_complete success rdlen_actual => exact ⟨h1, h2⟩
  | poll now i2c_ok =>
    simp only [tc74_step]
    obtain ⟨hi, ho⟩ := tc74_poll_idle_ok k now i2c_ok s
    rw [tc74_poll_flag]
    constructor
    · intro hp
      have hne : s.data.state ≠ TC74_TEMP_READ_OK := by
        intro hs
        rw [ho hs] at hp
        cases hp
      simp [hne, hp]
    · intro hp1 hp2
      have hne1 : s.data.state ≠ TC74_IDLE := fun hs => hp1 (hi hs)
      have hne2 : s.data.state ≠ TC74_TEMP_READ_OK := fun hs => hp1 (ho hs)
      simp [hp2, h2 hne1 hne2]

/-- The agreement of result flag and state over a whole sequence of events. -/
theorem tc74_run_flag_inv (k : timekeeping_config) (evs : List tc74_event) :
    ∀ s : tc74_sys,
      (s.data.state = TC74_TEMP_READ_OK → s.data.get_temp_result = true) →
      (s.data.state ≠ TC74_IDLE → s.data.state ≠ TC74_TEMP_READ_OK →
        s.data.get_temp_result = false) →
      ((tc74_run k evs s).data.state = TC74_TEMP_READ_OK →
        (tc74_run k evs s).data.get_temp_result = true) ∧
      ((tc74_run k evs s).data.state ≠ TC74_IDLE →
        (tc74_run k evs s).data.state ≠ TC74_TEMP_READ_OK →
        (tc74_run k evs s).data.get_temp_result = false) := by
  induction evs with
  | nil =>
    intro s h1 h2
    exact ⟨h1, h2⟩
  | cons e evs ih =>
    intro s h1 h2
    obtain ⟨g1, g2⟩ := tc74_step_flag_inv k e s h1 h2
    exact ih _ g1 g2

/-- The instance `tc74_init` leaves satisfies the agreement of result flag and
state, whatever the instance held before. -/
theorem tc74_init_flag_inv (k : timekeeping_config) (addr : Nat) (d0 : tc74_data)
    (enq : List tc74_transfer) (evs : List tc74_event) :
    ((tc74_run k evs ⟨tc74_init addr d0, enq⟩).data.state = TC74_TEMP_READ_OK →
      (tc74_run k evs ⟨tc74_init addr d0, enq⟩).data.get_temp_result = true) ∧
    ((tc74_run k evs ⟨tc74_init addr d0, enq⟩).data.state ≠ TC74_IDLE →
      (tc74_run k evs ⟨tc74_init addr d0, enq⟩).data.state ≠ TC74_TEMP_READ_OK →
      (tc74_run k evs ⟨tc74_init addr d0, enq⟩).data.get_temp_result = false) :=
  tc74_run_flag_inv k evs ⟨tc74_init addr d0, enq⟩
    (fun h => by simp [tc74_init] at h) (fun h => absurd rfl h)

/-- C21, as amended: `tc74_get_temperature_result` returns true, and writes
the latched value through a non-`NULL` pointer, exactly when the result flag
`get_temp_result` of the instance is set, and it returns false and writes
nothing when the flag is clear.  In every state reached from `tc74_init`
(whatever the instance held before, any calls and bus events) the flag is set
in `TC74_TEMP_READ_OK` and clear in every busy state other than
`TC74_TEMP_READ_OK`; in `TC74_IDLE` the flag holds what the last read left. -/
theorem tc74_get_temperature_result_spec (k : timekeeping_config) (addr : Nat)
    (d0 : tc74_data) (evs : List tc74_event) (nonnull : Bool) (data : tc74_data) :
    ((tc74_get_temperature_result nonnull data).1 = data.get_temp_result) ∧
    (data.get_temp_result = false →
      tc74_get_temperature_result nonnull data = (false, none)) ∧
    (data.get_temp_result = true →
      tc74_get_temperature_result nonnull data =
        (true, if nonnull then some data.temp else none)) ∧
    ((tc74_run k evs ⟨tc74_init addr d0, []⟩).data.state = TC74_TEMP_READ_OK →
      tc74_get_temperature_result nonnull (tc74_run k evs ⟨tc74_init addr d0, []⟩).data =
        (true,
          if nonnull then some (tc74_run k evs ⟨tc74_init addr d0, []⟩).data.temp else none)) ∧
    ((tc74_run k evs ⟨tc74_init addr d0, []⟩).data.state ≠ TC74_TEMP_READ_OK →
      (tc74_run k evs ⟨tc74_init addr d0, []⟩).data.state ≠ TC74_IDLE →
      tc74_get_temperature_result nonnull (tc74_run k evs ⟨tc74_init addr d0, []⟩).data =
        (false, none)) := by
  obtain ⟨f1, f2⟩ := tc74_get_temperature_result_flag nonnull data
  obtain ⟨g1, g2⟩ := tc74_init_flag_inv k addr d0 [] evs
  refine ⟨?_, f1, f2, fun h => ?_, fun h3 h4 => ?_⟩
  · cases h : data.get_temp_result <;> simp [tc74_get_temperature_result, h]
  · exact (tc74_get_temperature_result_flag nonnull _).2 (g1 h)
  · exact (tc74_get_temperature_result_flag nonnull _).1 (g2 h4 h3)

/-- Counterexample to C21 as stated: after a read that succeeded (config byte
`0x40`, temperature byte 25) and one more poll, the instance is in `TC74_IDLE`,
not in `TC74_TEMP_READ_OK`, and `tc74_get_temperature_result` returns true and
writes 25. -/
theorem tc74_result_available_in_idle :
    (tc74_run ⟨16000000, 64, 8⟩
      [tc74_event.get_temperature ⟨7, 0⟩, tc74_event.poll ⟨7, 1⟩ true,
        tc74_event.i2c_store tc74_rdbuf.config 0x40, tc74_event.i2c_complete true 1,
        tc74_event.poll ⟨7, 2⟩ true,
        tc74_event.i2c_store tc74_rdbuf.temp 25, tc74_event.i2c_complete true 1,
        tc74_event.poll ⟨7, 3⟩ true, tc74_event.poll ⟨7, 4⟩ true]
      ⟨tc74_init 0x48 ⟨0, TC74_IDLE, false, false, false, 0, ⟨0, 0⟩, 0, false, 0, 0⟩,
        []⟩).data.state = TC74_IDLE ∧
    (tc74_run ⟨16000000, 64, 8⟩
      [tc74_event.get_temperature ⟨7, 0⟩, tc74_event.poll ⟨7, 1⟩ true,
        tc74_event.i2c_store tc74_rdbuf.config 0x40, tc74_event.i2c_complete true 1,
        tc74_event.poll ⟨7, 2⟩ true,
        tc74_event.i2c_store tc74_rdbuf.temp 25, tc74_event.i2c_complete true 1,
        tc74_event.poll ⟨7, 3⟩ true, tc74_event.poll ⟨7, 4⟩ true]
      ⟨tc74_init 0x48 ⟨0, TC74_IDLE, false, false, false, 0, ⟨0, 0⟩, 0, false, 0, 0⟩,
        []⟩).data.state ≠ TC74_TEMP_READ_OK ∧
    tc74_get_temperature_result true
      (tc74_run ⟨16000000, 64, 8⟩
        [tc74_event.get_temperature ⟨7, 0⟩, tc74_event.poll ⟨7, 1⟩ true,
          tc74_event.i2c_store tc74_rdbuf.config 0x40, tc74_event.i2c_complete true 1,
          tc74_event.poll ⟨7, 2⟩ true,
          tc74_event.i2c_store tc74_rdbuf.temp 25, tc74_event.i2c_complete true 1,
          tc74_event.poll ⟨7, 3⟩ true, tc74_event.poll ⟨7, 4⟩ true]
        ⟨tc74_init 0x48 ⟨0, TC74_IDLE, false, false, false, 0, ⟨0, 0⟩, 0, false, 0, 0⟩,
          []⟩).data = (true, some 25) := by
  decide

/-- While no event enters `TC74_TEMP_READ_OK`, a clear result flag stays
clear. -/
theorem tc74_run_flag_clear (k : timekeeping_config) (evs : List tc74_event) :
    ∀ s : tc74_sys, s.data.get_temp_result = false →
      TC74_TEMP_READ_OK ∉ tc74_trace k evs s →
      (tc74_run k evs s).data.get_temp_result = false := by
  induction evs with
  | nil =>
    intro s h _
    exact h
  | cons e evs ih =>
    intro s h hn
    simp only [tc74_trace, List.mem_cons, not_or] at hn
    refine ih _ ?_ hn.2
    cases hf : (tc74_step k e s).data.get_temp_result
    · rfl
    · rcases tc74_step_flag k e s hf with h1 | h1
      · rw [h] at h1
        cases h1
      · exact absurd h1.symm hn.1

/-- C22: a result is available only for a successful last read.  On an idle
instance `tc74_get_temperature` returns true, and after it, whatever calls and
bus events follow (polls, further `tc74_get_temperature` calls, bytes stored,
completions), as long as no event has brought the instance into
`TC74_TEMP_READ_OK`, `tc74_get_temperature_result` returns false and writes
nothing: so also when the read has ended in `TC74_IDLE` without reaching
`TC74_TEMP_READ_OK`, and whatever an earlier read had latched. -/
theorem tc74_result_only_after_read_ok (k : timekeeping_config) (now : timestamp)
    (d : tc74_data) (enq : List tc74_transfer) (evs : List tc74_event) (nonnull : Bool)
    (hidle : d.state = TC74_IDLE) :
    (tc74_get_temperature k now d).1 = true ∧
    (tc74_get_temperature k now d).2.state = TC74_CONFIG_READ_DO ∧
    (TC74_TEMP_READ_OK ∉ tc74_trace k evs ⟨(tc74_get_temperature k now d).2, enq⟩ →
      tc74_get_temperature_result nonnull
        (tc74_run k evs ⟨(tc74_get_temperature k now d).2, enq⟩).data = (false, none)) := by
  have h0 : (tc74_get_temperature k now d).2.get_temp_result = false := by
    simp [tc74_get_temperature, tc74_is_busy, hidle, TC74_SETSTATE_flag]
  refine ⟨by simp [tc74_get_temperature, tc74_is_busy, hidle],
    by simp [tc74_get_temperature, tc74_is_busy, hidle, TC74_SETSTATE_state], fun hn => ?_⟩
  exact (tc74_get_temperature_result_flag nonnull _).1
    (tc74_run_flag_clear k evs _ h0 hn)

/-- Witness of C22: an instance that holds the result 25 of an earlier read
starts a new read; the config read fails on the bus and the read ends in
`TC74_IDLE` without passing `TC74_TEMP_READ_OK`; no result is available. -/
theorem tc74_result_only_after_read_ok_witness :
    (tc74_run ⟨16000000, 64, 8⟩
      [tc74_event.poll ⟨7, 1⟩ true, tc74_event.i2c_complete false 0,
        tc74_event.poll ⟨7, 2⟩ true]
      ⟨(tc74_get_temperature ⟨16000000, 64, 8⟩ ⟨7, 0⟩
        ⟨0x48, TC74_IDLE, false, true, true, 1, ⟨0, 0⟩, 0, true, 0x40, 25⟩).2,
        []⟩).data.state = TC74_IDLE ∧
    tc74_get_temperature_result true
      (tc74_run ⟨16000000, 64, 8⟩
        [tc74_event.poll ⟨7, 1⟩ true, tc74_event.i2c_complete false 0,
          tc74_event.poll ⟨7, 2⟩ true]
        ⟨(tc74_get_temperature ⟨16000000, 64, 8⟩ ⟨7, 0⟩
          ⟨0x48, TC74_IDLE, false, true, true, 1, ⟨0, 0⟩, 0, true, 0x40, 25⟩).2,
          []⟩).data = (false, none) :=
  ⟨by decide,
    (tc74_result_only_after_read_ok ⟨16000000, 64, 8⟩ ⟨7, 0⟩
      ⟨0x48, TC74_IDLE, false, true, true, 1, ⟨0, 0⟩, 0, true, 0x40, 25⟩ []
      [tc74_event.poll ⟨7, 1⟩ true, tc74_event.i2c_complete false 0,
        tc74_event.poll ⟨7, 2⟩ true] true rfl).2.2 (by decide)⟩

/-- The function `i2c_transaction` always returns and writes no hardware
register: it never resets the bus controller. -/
theorem i2c_transaction_req_no_hw_write (k : timekeeping_config) (cb : i2c_callbacks)
    (now : timestamp) (malloc_ok : Bool) (r : i2c_request) (s : i2c_engine) :
    ∃ b s', i2c_transaction_req k cb now malloc_ok r s = some (b, s') ∧
      s'.hw_writes = s.hw_writes ∧ s'.TWCR = s.TWCR := by
  unfold i2c_transaction_req i2c_transaction
  by_cases h1 : r.wrlen = 0 ∧ r.rdlen = 0
  · exact ⟨false, s, by simp [h1], rfl, rfl⟩
  by_cases h2 : r.wrlen > 0 ∧ r.wrbuf = NULL
  · exact ⟨false, s, by simp [h1, h2], rfl, rfl⟩
  by_cases h3 : r.rdlen > 0 ∧ r.rdbuf = NULL
  · exact ⟨false, s, by simp [h1, h2, h3], rfl, rfl⟩
  by_cases h4 : malloc_ok = false
  · exact ⟨false, s, by simp [h1, h2, h3, h4], rfl, rfl⟩
  obtain rfl : malloc_ok = true := by simpa using h4
  simp only [h1, h2, h3, if_false, reduceCtorEq]
  by_cases hs : s.i2c_state = I2C_IDLE
  · simp only [hs, if_true, I2C_SETSTATE, ne_eq, not_false_eq_true, i2c_set_state_do,
      reduceCtorEq, or_self, if_false, Option.map_some', i2c_is_reset_idle_poll_state,
      decide_False, Bool.or_self, Bool.and_false, Bool.false_eq_true]
    exact ⟨true, _, rfl, rfl, rfl⟩
  · simp only [hs, if_false]
    exact ⟨true, _, rfl, rfl, rfl⟩

/-- A poll that does not enter `TC74_TEMP_READ_OK` latches nothing: the result
flag and the latched value stay as they were. -/
theorem tc74_poll_latch_frame (k : timekeeping_config) (now : timestamp) (i2c_ok : Bool)
    (s : tc74_sys) (h : (tc74_poll k now i2c_ok s).data.state ≠ TC74_TEMP_READ_OK) :
    (tc74_poll k now i2c_ok s).data.get_temp_result = s.data.get_temp_result ∧
    (tc74_poll k now i2c_ok s).data.temp = s.data.temp ∧
    (tc74_poll k now i2c_ok s).data.config = s.data.config := by
  refine ⟨?_, ?_, ?_⟩
  · rw [tc74_poll_flag]
    simp [h]
  · obtain ⟨st, x, e, _, _, _, _, hxt, _⟩ := tc74_poll_shape k now i2c_ok s
    rw [e]
    simp only [tc74_sys.setstate]
    rw [(TC74_SETSTATE_frame k now st x.data).2.2.2.2.2, hxt]
  · obtain ⟨st, x, e, _, _, _, hxc, _, _⟩ := tc74_poll_shape k now i2c_ok s
    rw [e]
    simp only [tc74_sys.setstate]
    rw [(TC74_SETSTATE_frame k now st x.data).2.2.2.2.1, hxc]

/-- C24, as amended: config validation.  When a config-read transaction has
completed with success and one byte read: if the config byte has a reserved
bit (bits 0-5) set, or has the standby bit (bit 7) set after a config read
other than the first of the read, `tc74_poll` goes to `TC74_IDLE` and enqueues
nothing; if the reserved bits are clear and the standby bit is set after the
first config read of the read (`TC74_CONFIG_READ`), `tc74_poll` calls
`i2c_transaction` to write zero to the config register and goes to
`TC74_CONFIG_WRITE`, or to `TC74_IDLE` when the call is not accepted.  In all
these cases it latches nothing (result flag and latched value unchanged), and
its only call into the bus module, `i2c_transaction`, writes no hardware
register, so the bus controller is not reset. -/
theorem tc74_config_validation (k : timekeeping_config) (now : timestamp) (i2c_ok : Bool)
    (s : tc74_sys) (hs : s.data.state.is_config_read = true)
    (hc : s.data.i2c_trans_complete = true) (hok : s.data.i2c_trans_success = true)
    (hlen : s.data.i2c_rdlen_actual = 1) :
    (s.data.config &&& TC74_REG_CONFIG_ZERO_MASK ≠ 0 ∨
        (s.data.config &&& TC74_REG_CONFIG_STANDBY ≠ 0 ∧ s.data.state ≠ TC74_CONFIG_READ) →
      (tc74_poll k now i2c_ok s).data.state = TC74_IDLE ∧
      (tc74_poll k now i2c_ok s).enqueued = s.enqueued ∧
      (tc74_poll k now i2c_ok s).data.get_temp_result = s.data.get_temp_result ∧
      (tc74_poll k now i2c_ok s).data.temp = s.data.temp) ∧
    (s.data.config &&& TC74_REG_CONFIG_ZERO_MASK = 0 →
      s.data.config &&& TC74_REG_CONFIG_STANDBY ≠ 0 → s.data.state = TC74_CONFIG_READ →
      (tc74_poll k now i2c_ok s).data.state =
        (if i2c_ok = true then TC74_CONFIG_WRITE else TC74_IDLE) ∧
      (tc74_poll k now i2c_ok s).enqueued =
        s.enqueued ++ (if i2c_ok = true then [tc74_config_write_transfer] else []) ∧
      (tc74_poll k now i2c_ok s).data.get_temp_result = s.data.get_temp_result ∧
      (tc74_poll k now i2c_ok s).data.temp = s.data.temp) ∧
    tc74_config_write_transfer = ⟨[TC74_REG_CONFIG, 0], tc74_rdbuf.null, 0⟩ ∧
    (∀ (cb : i2c_callbacks) (tnow : timestamp) (malloc_ok : Bool) (r : i2c_request)
        (e : i2c_engine),
      ∃ b e', i2c_transaction_req k cb tnow malloc_ok r e = some (b, e') ∧
        e'.hw_writes = e.hw_writes ∧ e'.TWCR = e.TWCR) := by
  refine ⟨fun h => ?_, fun hz hsb hst => ?_, rfl,
    fun cb tnow malloc_ok r e => i2c_transaction_req_no_hw_write k cb tnow malloc_ok r e⟩
  · have e : tc74_poll k now i2c_ok s =
        tc74_sys.setstate k now TC74_IDLE (tc74_poll_entry s) := by
      by_cases hz : s.data.config &&& TC74_REG_CONFIG_ZERO_MASK = 0
      · rcases h with h | ⟨hsb, hst⟩
        · exact absurd hz h
        · rw [tc74_poll_config_standby k now i2c_ok s hs hc hok hlen hz hsb, if_neg hst]
      · exact tc74_poll_config_reserved k now i2c_ok s hs hc hok hlen hz
    have hst : (tc74_poll k now i2c_ok s).data.state = TC74_IDLE := by
      rw [e]
      exact TC74_SETSTATE_state k now _ _
    obtain ⟨l1, l2, _⟩ := tc74_poll_latch_frame k now i2c_ok s (by rw [hst]; decide)
    exact ⟨hst, by rw [e]; rfl, l1, l2⟩
  · have e := tc74_poll_config_standby k now i2c_ok s hs hc hok hlen hz hsb
    rw [if_pos hst] at e
    have hst' : (tc74_poll k now i2c_ok s).data.state =
        (if i2c_ok = true then TC74_CONFIG_WRITE else TC74_IDLE) := by
      rw [e]
      simp only [tc74_sys.setstate, TC74_SETSTATE_state]
      cases i2c_ok <;> rfl
    obtain ⟨l1, l2, _⟩ := tc74_poll_latch_frame k now i2c_ok s
      (by rw [hst']; cases i2c_ok <;> decide)
    refine ⟨hst', ?_, l1, l2⟩
    rw [e]
    cases i2c_ok <;> simp [tc74_sys.setstate, tc74_i2c_transaction, tc74_poll_entry]

/-- Witness of C24: the first config read of a read returns `0x01`, a byte
with a reserved bit set; the poll goes to `TC74_IDLE`, enqueues nothing more
and latches nothing. -/
theorem tc74_config_validation_witness :
    (tc74_poll ⟨16000000, 64, 8⟩ ⟨7, 2⟩ true
      ⟨⟨0x48, TC74_CONFIG_READ, false, true, true, 1, ⟨0, 0⟩, 0, false, 0x01, 0⟩,
        [tc74_config_read_transfer]⟩).data.state = TC74_IDLE ∧
    (tc74_poll ⟨16000000, 64, 8⟩ ⟨7, 2⟩ true
      ⟨⟨0x48, TC74_CONFIG_READ, false, true, true, 1, ⟨0, 0⟩, 0, false, 0x01, 0⟩,
        [tc74_config_read_transfer]⟩).enqueued = [tc74_config_read_transfer] ∧
    (tc74_poll ⟨16000000, 64, 8⟩ ⟨7, 2⟩ true
      ⟨⟨0x48, TC74_CONFIG_READ, false, true, true, 1, ⟨0, 0⟩, 0, false, 0x01, 0⟩,
        [tc74_config_read_transfer]⟩).data.get_temp_result = false ∧
    (tc74_poll ⟨16000000, 64, 8⟩ ⟨7, 2⟩ true
      ⟨⟨0x48, TC74_CONFIG_READ, false, true, true, 1, ⟨0, 0⟩, 0, false, 0x01, 0⟩,
        [tc74_config_read_transfer]⟩).data.temp = 0 :=
  (tc74_config_validation ⟨16000000, 64, 8⟩ ⟨7, 2⟩ true
    ⟨⟨0x48, TC74_CONFIG_READ, false, true, true, 1, ⟨0, 0⟩, 0, false, 0x01, 0⟩,
      [tc74_config_read_transfer]⟩ rfl rfl rfl rfl).1 (Or.inl (by decide))

/-- Counterexample to C24 as stated: the first config read of a read completes
with success and returns `0x80` (standby set, reserved bits clear); the poll
that sees it does not go to `TC74_IDLE` but enqueues a second transaction, the
config write, and waits for it in `TC74_CONFIG_WRITE`. -/
theorem tc74_standby_config_write :
    (tc74_run ⟨16000000, 64, 8⟩
      [tc74_event.get_temperature ⟨7, 0⟩, tc74_event.poll ⟨7, 1⟩ true,
        tc74_event.i2c_store tc74_rdbuf.config 0x80, tc74_event.i2c_complete true 1,
        tc74_event.poll ⟨7, 2⟩ true]
      ⟨tc74_init 0x48 ⟨0, TC74_IDLE, false, false, false, 0, ⟨0, 0⟩, 0, false, 0, 0⟩,
        []⟩).data.state = TC74_CONFIG_WRITE ∧
    (tc74_run ⟨16000000, 64, 8⟩
      [tc74_event.get_temperature ⟨7, 0⟩, tc74_event.poll ⟨7, 1⟩ true,
        tc74_event.i2c_store tc74_rdbuf.config 0x80, tc74_event.i2c_complete true 1,
        tc74_event.poll ⟨7, 2⟩ true]
      ⟨tc74_init 0x48 ⟨0, TC74_IDLE, false, false, false, 0, ⟨0, 0⟩, 0, false, 0, 0⟩,
        []⟩).data.state ≠ TC74_IDLE ∧
    (tc74_run ⟨16000000, 64, 8⟩
      [tc74_event.get_temperature ⟨7, 0⟩, tc74_event.poll ⟨7, 1⟩ true,
        tc74_event.i2c_store tc74_rdbuf.config 0x80, tc74_event.i2c_complete true 1,
        tc74_event.poll ⟨7, 2⟩ true]
      ⟨tc74_init 0x48 ⟨0, TC74_IDLE, false, false, false, 0, ⟨0, 0⟩, 0, false, 0, 0⟩,
        []⟩).enqueued = [⟨[1], tc74_rdbuf.config, 1⟩, ⟨[1, 0], tc74_rdbuf.null, 0⟩] := by
  decide

/-- C25: value latch.  In every state reached from `tc74_init`: when a
config read has completed with success and one byte read, and the byte is
valid with the data-ready bit set, `tc74_poll` calls `i2c_transaction` for the
temperature read (write register 0, read 1 byte into `data->temp`) and goes to
`TC74_TEMP_READ`, or, when the call is not accepted, to `TC74_IDLE` with
`tc74_get_temperature_result` returning false.  When in `TC74_TEMP_READ` the
byte `b` has been stored and the transaction completes with success and
exactly 1 byte read, the next poll enters `TC74_TEMP_READ_OK` and
`tc74_get_temperature_result` returns true and writes `b` read as a signed
8-bit value; when it completes with failure or another read length, the next
poll goes to `TC74_IDLE` and `tc74_get_temperature_result` returns false. -/
theorem tc74_value_latch (k : timekeeping_config) (addr : Nat) (d0 : tc74_data)
    (evs : List tc74_event) (s : tc74_sys) (now : timestamp) (i2c_ok nonnull : Bool)
    (b n : Nat) (success : Bool)
    (hreach : s = tc74_run k evs ⟨tc74_init addr d0, []⟩) :
    (s.data.state.is_config_read = true → s.data.i2c_trans_complete = true →
      s.data.i2c_trans_success = true → s.data.i2c_rdlen_actual = 1 →
      tc74_config_valid s.data.config = true →
      s.data.config &&& TC74_REG_CONFIG_DATA_READY ≠ 0 →
      (tc74_poll k now i2c_ok s).data.state =
        (if i2c_ok = true then TC74_TEMP_READ else TC74_IDLE) ∧
      (tc74_poll k now i2c_ok s).enqueued =
        s.enqueued ++ (if i2c_ok = true then [tc74_temp_read_transfer] else []) ∧
      (i2c_ok = false →
        tc74_get_temperature_result nonnull (tc74_poll k now i2c_ok s).data =
          (false, none))) ∧
    tc74_temp_read_transfer = ⟨[0], tc74_rdbuf.temp, 1⟩ ∧
    (s.data.state = TC74_TEMP_READ → success = true → n = 1 →
      (tc74_poll k now i2c_ok
        (tc74_run k [tc74_event.i2c_store tc74_rdbuf.temp b,
          tc74_event.i2c_complete success n] s)).data.state = TC74_TEMP_READ_OK ∧
      tc74_get_temperature_result true
        (tc74_poll k now i2c_ok
          (tc74_run k [tc74_event.i2c_store tc74_rdbuf.temp b,
            tc74_event.i2c_complete success n] s)).data =
        (true, some (int8_of_byte b))) ∧
    (s.data.state = TC74_TEMP_READ → ¬(success = true ∧ n = 1) →
      (tc74_poll k now i2c_ok
        (tc74_run k [tc74_event.i2c_store tc74_rdbuf.temp b,
          tc74_event.i2c_complete success n] s)).data.state = TC74_IDLE ∧
      tc74_get_temperature_result nonnull
        (tc74_poll k now i2c_ok
          (tc74_run k [tc74_event.i2c_store tc74_rdbuf.temp b,
            tc74_event.i2c_complete success n] s)).data =
        (false, none)) := by
  obtain ⟨_, inv⟩ := tc74_init_flag_inv k addr d0 [] evs
  rw [← hreach] at inv
  refine ⟨fun hs hc hok hlen hv hr => ?_, rfl, fun hs hsucc hn => ?_, fun hs hbad => ?_⟩
  · have e := tc74_poll_config_ready k now i2c_ok s hs hc hok hlen hv hr
    have hst : (tc74_poll k now i2c_ok s).data.state =
        (if i2c_ok = true then TC74_TEMP_READ else TC74_IDLE) := by
      rw [e]
      simp only [tc74_sys.setstate, TC74_SETSTATE_state]
      cases i2c_ok <;> rfl
    refine ⟨hst, ?_, fun hno => ?_⟩
    · rw [e]
      cases i2c_ok <;> simp [tc74_sys.setstate, tc74_i2c_transaction, tc74_poll_entry]
    · have hf : s.data.get_temp_result = false := by
        apply inv <;> intro h <;> rw [h] at hs <;> cases hs
      obtain ⟨l1, _, _⟩ := tc74_poll_latch_frame k now i2c_ok s
        (by rw [hst]; cases i2c_ok <;> decide)
      exact (tc74_get_temperature_result_flag nonnull _).1 (by rw [l1, hf])
  · subst hsucc hn
    have e := tc74_poll_temp_read_done k now i2c_ok
      (tc74_run k [tc74_event.i2c_store tc74_rdbuf.temp b,
        tc74_event.i2c_complete true 1] s) hs rfl
    rw [if_pos ⟨rfl, rfl⟩] at e
    have hst : (tc74_poll k now i2c_ok
        (tc74_run k [tc74_event.i2c_store tc74_rdbuf.temp b,
          tc74_event.i2c_complete true 1] s)).data.state = TC74_TEMP_READ_OK := by
      rw [e]
      exact TC74_SETSTATE_state k now _ _
    refine ⟨hst, ?_⟩
    have hfl := tc74_poll_flag k now i2c_ok
      (tc74_run k [tc74_event.i2c_store tc74_rdbuf.temp b,
        tc74_event.i2c_complete true 1] s)
    rw [if_pos ⟨by rw [show (tc74_run k [tc74_event.i2c_store tc74_rdbuf.temp b,
        tc74_event.i2c_complete true 1] s).data.state = s.data.state from rfl, hs]; decide,
      hst⟩] at hfl
    rw [(tc74_get_temperature_result_flag true _).2 hfl]
    have ht : (tc74_poll k now i2c_ok
        (tc74_run k [tc74_event.i2c_store tc74_rdbuf.temp b,
          tc74_event.i2c_complete true 1] s)).data.temp = int8_of_byte b := by
      rw [e]
      simp only [tc74_sys.setstate]
      rw [(TC74_SETSTATE_frame k now _ _).2.2.2.2.2]
      rfl
    rw [ht]
    rfl
  · have e := tc74_poll_temp_read_done k now i2c_ok
      (tc74_run k [tc74_event.i2c_store tc74_rdbuf.temp b,
        tc74_event.i2c_complete success n] s) hs rfl
    rw [if_neg (by exact hbad)] at e
    have hst : (tc74_poll k now i2c_ok
        (tc74_run k [tc74_event.i2c_store tc74_rdbuf.temp b,
          tc74_event.i2c_complete success n] s)).data.state = TC74_IDLE := by
      rw [e]
      exact TC74_SETSTATE_state k now _ _
    refine ⟨hst, ?_⟩
    have hf : s.data.get_temp_result = false := by
      apply inv <;> rw [hs] <;> decide
    obtain ⟨l1, _, _⟩ := tc74_poll_latch_frame k now i2c_ok
      (tc74_run k [tc74_event.i2c_store tc74_rdbuf.temp b,
        tc74_event.i2c_complete success n] s) (by rw [hst]; decide)
    exact (tc74_get_temperature_result_flag nonnull _).1 (by rw [l1]; exact hf)

/-- Witness of C25: a read is started, the config byte read is `0x40` (valid,
data ready), the temperature read is enqueued, the byte `0xE7` is stored and
the transaction completes with success and one byte read: the next poll enters
`TC74_TEMP_READ_OK` and the result is -25. -/
theorem tc74_value_latch_witness :
    (tc74_run ⟨16000000, 64, 8⟩
      [tc74_event.get_temperature ⟨7, 0⟩, tc74_event.poll ⟨7, 1⟩ true,
        tc74_event.i2c_store tc74_rdbuf.config 0x40, tc74_event.i2c_complete true 1,
        tc74_event.poll ⟨7, 2⟩ true]
      ⟨tc74_init 0x48 ⟨0, TC74_IDLE, false, false, false, 0, ⟨0, 0⟩, 0, false, 0, 0⟩,
        []⟩).data.state = TC74_TEMP_READ ∧
    (tc74_poll ⟨16000000, 64, 8⟩ ⟨7, 3⟩ true
      (tc74_run ⟨16000000, 64, 8⟩
        [tc74_event.i2c_store tc74_rdbuf.temp 0xE7, tc74_event.i2c_complete true 1]
        (tc74_run ⟨16000000, 64, 8⟩
          [tc74_event.get_temperature ⟨7, 0⟩, tc74_event.poll ⟨7, 1⟩ true,
            tc74_event.i2c_store tc74_rdbuf.config 0x40, tc74_event.i2c_complete true 1,
            tc74_event.poll ⟨7, 2⟩ true]
          ⟨tc74_init 0x48 ⟨0, TC74_IDLE, false, false, false, 0, ⟨0, 0⟩, 0, false, 0, 0⟩,
            []⟩))).data.state = TC74_TEMP_READ_OK ∧
    tc74_get_temperature_result true
      (tc74_poll ⟨16000000, 64, 8⟩ ⟨7, 3⟩ true
        (tc74_run ⟨16000000, 64, 8⟩
          [tc74_event.i2c_store tc74_rdbuf.temp 0xE7, tc74_event.i2c_complete true 1]
          (tc74_run ⟨16000000, 64, 8⟩
            [tc74_event.get_temperature ⟨7, 0⟩, tc74_event.poll ⟨7, 1⟩ true,
              tc74_event.i2c_store tc74_rdbuf.config 0x40, tc74_event.i2c_complete true 1,
              tc74_event.poll ⟨7, 2⟩ true]
            ⟨tc74_init 0x48 ⟨0, TC74_IDLE, false, false, false, 0, ⟨0, 0⟩, 0, false, 0, 0⟩,
              []⟩))).data = (true, some (-25)) :=
  ⟨by decide,
    (tc74_value_latch ⟨16000000, 64, 8⟩ 0x48
      ⟨0, TC74_IDLE, false, false, false, 0, ⟨0, 0⟩, 0, false, 0, 0⟩
      [tc74_event.get_temperature ⟨7, 0⟩, tc74_event.poll ⟨7, 1⟩ true,
        tc74_event.i2c_store tc74_rdbuf.config 0x40, tc74_event.i2c_complete true 1,
        tc74_event.poll ⟨7, 2⟩ true] _ ⟨7, 3⟩ true true 0xE7 1 true rfl).2.2.1
      (by decide) rfl rfl⟩

/-- A run over two sequences of events is the run over the second from the
state the first leaves. -/
theorem tc74_run_append (k : timekeeping_config) (a b : List tc74_event) :
    ∀ s : tc74_sys, tc74_run k (a ++ b) s = tc74_run k b (tc74_run k a s) := by
  induction a with
  | nil => intro s; rfl
  | cons e a ih => intro s; exact ih _

/-- A poll whose `i2c_transaction` call is accepted keeps the bookkeeping of
a read that is never answered with data ready. -/
theorem tc74_retry_inv_poll (k : timekeeping_config) (now : timestamp) (s : tc74_sys)
    (h : tc74_retry_inv s) : tc74_retry_inv (tc74_poll k now true s) := by
  obtain ⟨he, hf, hc, hst⟩ := h
  obtain ⟨n1, n2, n3, _, n5⟩ := tc74_poll_no_bus k now true s
  rcases hst with ⟨hs, hl⟩ | ⟨hs, hl⟩ | ⟨hs, hl, hp⟩ | ⟨hs, hl, hp1, hp2⟩ | ⟨hs, hl, hp1, hp2⟩ |
    ⟨hs, hl, hp1, hp2⟩ | ⟨hs, hl⟩
  · rw [tc74_poll_issue_config_read k now true s (Or.inl hs)]
    simp only [hs, tc74_retry_inv, tc74_sys.setstate, TC74_SETSTATE, tc74_set_state_do,
      tc74_poll_entry, tc74_i2c_transaction]
    simp [hf, hl]
    intro t ht
    rcases ht with ht | ht
    · exact he t ht
    · exact ht
  · by_cases hcomp : s.data.i2c_trans_complete = true
    · obtain ⟨c1, c2, c3, c4⟩ := hc (by rw [hs]; decide) hcomp
      rw [tc74_poll_config_not_ready k now true s (by rw [hs]; rfl) hcomp c1 c2 c3 c4]
      simp only [hs, tc74_retry_inv, tc74_sys.setstate, TC74_SETSTATE, tc74_set_state_do,
        tc74_poll_entry]
      simp [hf, hl]
      exact ⟨he, fun _ => ⟨c1, c2, c3, c4⟩⟩
    · rw [tc74_poll_pending k now true s (by simp [tc74_is_i2c_transfer_state, hs])
        (by simpa using hcomp)]
      simp only [hs, tc74_retry_inv, tc74_poll_entry]
      simp [hf, hl]
      exact ⟨he, fun h => absurd h hcomp⟩
  · rw [n1 hs]
    simp only [hs, tc74_retry_inv, tc74_sys.setstate, TC74_SETSTATE, tc74_set_state_do,
      tc74_poll_entry]
    simp [hf, hl, hp]
    exact ⟨he, hc (by rw [hs]; decide)⟩
  · cases hlt : timestamp_temporal_cmp (timekeeping_counts_per_tick k) now
        s.data.next_data_ready_poll .lt
    · rw [n3 hs hlt]
      simp only [hs, tc74_retry_inv, tc74_sys.setstate, TC74_SETSTATE, tc74_set_state_do,
        tc74_poll_entry]
      simp [hf, hl, hp1, hp2]
      exact ⟨he, hc (by rw [hs]; decide)⟩
    · rw [n2 hs hlt]
      simp only [hs, tc74_retry_inv, tc74_poll_entry]
      simp [hf, hl, hp1, hp2]
      exact ⟨he, hc (by rw [hs]; decide)⟩
  · rw [tc74_poll_issue_config_read k now true s (Or.inr (Or.inl hs))]
    simp only [hs, tc74_retry_inv, tc74_sys.setstate, TC74_SETSTATE, tc74_set_state_do,
      tc74_poll_entry, tc74_i2c_transaction]
    simp [hf, hl, hp1, hp2]
    intro t ht
    rcases ht with ht | ht
    · exact he t ht
    · exact ht
  · by_cases hcomp : s.data.i2c_trans_complete = true
    · obtain ⟨c1, c2, c3, c4⟩ := hc (by rw [hs]; decide) hcomp
      rw [tc74_poll_config_not_ready k now true s (by rw [hs]; rfl) hcomp c1 c2 c3 c4]
      have hp : s.data.data_ready_polls = 1 ∨ s.data.data_ready_polls = 2 := by omega
      rcases hp with hp | hp
      · simp only [hs, hp, tc74_retry_inv, tc74_sys.setstate, TC74_SETSTATE, tc74_set_state_do,
          tc74_poll_entry, TC74_DATA_READY_POLL_COUNT]
        simp [hf, hl, hp]
        exact ⟨he, fun _ => ⟨c1, c2, c3, c4⟩⟩
      · simp only [hs, hp, tc74_retry_inv, tc74_sys.setstate, TC74_SETSTATE, tc74_set_state_do,
          tc74_poll_entry, TC74_DATA_READY_POLL_COUNT]
        simp [hf, hl, hp]
        exact ⟨he, fun _ => ⟨c1, c2, c3, c4⟩⟩
    · rw [tc74_poll_pending k now true s (by simp [tc74_is_i2c_transfer_state, hs])
        (by simpa using hcomp)]
      simp only [hs, tc74_retry_inv, tc74_poll_entry]
      simp [hf, hl, hp1, hp2]
      exact ⟨he, fun h => absurd h hcomp⟩
  · rw [n5 hs]
    simp only [hs, tc74_retry_inv, tc74_poll_entry]
    simp [hf, hl]
    exact ⟨he, hc (by rw [hs]; decide)⟩

/-- A config read answered with a valid byte with the data-ready bit clear
keeps the bookkeeping of such a read. -/
theorem tc74_retry_inv_answer (k : timekeeping_config) (b : Nat) (s : tc74_sys)
    (hb : b < 256) (hv : tc74_config_valid b = true)
    (hr : b &&& TC74_REG_CONFIG_DATA_READY = 0) (h : tc74_retry_inv s) :
    tc74_retry_inv (tc74_run k (tc74_retry_step.answer b).events s) := by
  obtain ⟨he, hf, hc, hst⟩ := h
  have hm : b % 256 = b := Nat.mod_eq_of_lt hb
  refine ⟨he, hf, fun _ _ => ⟨rfl, rfl, ?_, ?_⟩, hst⟩
  · show tc74_config_valid (b % 256) = true
    rw [hm]
    exact hv
  · show (b % 256) &&& TC74_REG_CONFIG_DATA_READY = 0
    rw [hm]
    exact hr

/-- The bookkeeping holds throughout a read that is never answered with data
ready. -/
theorem tc74_retry_inv_run (k : timekeeping_config) (steps : List tc74_retry_step) :
    ∀ s : tc74_sys,
      (∀ b, tc74_retry_step.answer b ∈ steps →
        b < 256 ∧ tc74_config_valid b = true ∧ b &&& TC74_REG_CONFIG_DATA_READY = 0) →
      tc74_retry_inv s → tc74_retry_inv (tc74_run k (tc74_retry_events steps) s) := by
  induction steps with
  | nil =>
    intro s _ h
    exact h
  | cons st steps ih =>
    intro s henv h
    simp only [tc74_retry_events]
    rw [tc74_run_append]
    refine ih _ (fun b hb => henv b (List.mem_cons_of_mem _ hb)) ?_
    cases st with
    | poll now => exact tc74_retry_inv_poll k now s h
    | answer b =>
      obtain ⟨h1, h2, h3⟩ := henv b (List.mem_cons_self _ _)
      exact tc74_retry_inv_answer k b s h1 h2 h3 h

/-- Starting a read on an idle instance establishes the bookkeeping. -/
theorem tc74_retry_inv_start (k : timekeeping_config) (now : timestamp) (d : tc74_data)
    (hidle : d.state = TC74_IDLE) :
    tc74_retry_inv ⟨(tc74_get_temperature k now d).2, []⟩ := by
  simp [tc74_retry_inv, tc74_get_temperature, tc74_is_busy, hidle, TC74_SETSTATE,
    tc74_set_state_do]

/-- The read that is answered three times with a valid byte with the
data-ready bit clear, polled once after each event and once after each wait
has run out: the states it passes through. -/
theorem tc74_retry_canonical (k : timekeeping_config) (now : timestamp) (d : tc74_data)
    (hidle : d.state = TC74_IDLE) (t1 t2 t3 t4 t5 t6 t7 t8 t9 : timestamp) (c1 c2 c3 : Nat)
    (hb1 : c1 < 256) (hv1 : tc74_config_valid c1 = true)
    (hr1 : c1 &&& TC74_REG_CONFIG_DATA_READY = 0)
    (hb2 : c2 < 256) (hv2 : tc74_config_valid c2 = true)
    (hr2 : c2 &&& TC74_REG_CONFIG_DATA_READY = 0)
    (hb3 : c3 < 256) (hv3 : tc74_config_valid c3 = true)
    (hr3 : c3 &&& TC74_REG_CONFIG_DATA_READY = 0)
    (hlate1 : timestamp_temporal_cmp (timekeeping_counts_per_tick k) t4
      (timestamp_add (timekeeping_counts_per_tick k) t2
        (TIMESTAMPI_FROM_MS k.TIMEKEEPING_HZ (timekeeping_counts_per_tick k)
          TC74_DATA_READY_POLL_PERIOD)) .lt = false)
    (hlate2 : timestamp_temporal_cmp (timekeeping_counts_per_tick k) t7
      (timestamp_add (timekeeping_counts_per_tick k) t4
        (TIMESTAMPI_FROM_MS k.TIMEKEEPING_HZ (timekeeping_counts_per_tick k)
          TC74_DATA_READY_POLL_PERIOD)) .lt = false) :
    tc74_trace k
      (tc74_retry_events
        [.poll t1, .answer c1, .poll t2, .poll t3, .poll t4, .poll t5, .answer c2, .poll t6,
          .poll t7, .poll t8, .answer c3, .poll t9])
      ⟨(tc74_get_temperature k now d).2, []⟩ =
      [TC74_CONFIG_READ, TC74_CONFIG_READ, TC74_CONFIG_READ, TC74_DATA_READY_WAIT_INIT,
        TC74_DATA_READY_WAIT, TC74_DATA_READY_CONFIG_READ_DO, TC74_DATA_READY_CONFIG_READ,
        TC74_DATA_READY_CONFIG_READ, TC74_DATA_READY_CONFIG_READ, TC74_DATA_READY_WAIT,
        TC74_DATA_READY_CONFIG_READ_DO, TC74_DATA_READY_CONFIG_READ,
        TC74_DATA_READY_CONFIG_READ, TC74_DATA_READY_CONFIG_READ, TC74_IDLE] ∧
    (tc74_run k
      (tc74_retry_events
        [.poll t1, .answer c1, .poll t2, .poll t3, .poll t4, .poll t5, .answer c2, .poll t6,
          .poll t7, .poll t8, .answer c3, .poll t9])
      ⟨(tc74_get_temperature k now d).2, []⟩).data.state = TC74_IDLE := by
  simp only [tc74_config_valid, Bool.and_eq_true, decide_eq_true_eq] at hv1 hv2 hv3
  have m1 : c1 % 256 = c1 := Nat.mod_eq_of_lt hb1
  have m2 : c2 % 256 = c2 := Nat.mod_eq_of_lt hb2
  have m3 : c3 % 256 = c3 := Nat.mod_eq_of_lt hb3
  simp [tc74_retry_events, tc74_retry_step.events, tc74_trace, tc74_run, tc74_step, tc74_poll,
    tc74_get_temperature, tc74_is_busy, hidle, TC74_SETSTATE, tc74_set_state_do, tc74_store,
    tc74_i2c_complete, tc74_i2c_transaction, tc74_sys.setstate, m1, m2, m3, hv1, hv2, hv3,
    hr1, hr2, hr3, hlate1, hlate2, TC74_DATA_READY_POLL_COUNT]

/-- C23: sensor retry bound.  A read is started by `tc74_get_temperature` on
an idle instance; from then on the caller polls at any times, every
`i2c_transaction` call is accepted, and every config read is answered, with
success and one byte read, by a valid byte (reserved bits and standby clear)
with the data-ready bit clear.  Then at every point of the read every
transaction enqueued is a config read, so no temperature read is ever
enqueued, at most `TC74_DATA_READY_POLL_COUNT` have been enqueued,
`tc74_get_temperature_result` returns false, and once the instance is back in
`TC74_IDLE` exactly `TC74_DATA_READY_POLL_COUNT` (3) config reads have been
enqueued.  The read does come back to `TC74_IDLE`: polled once after each
event and once after each wait has run out, it passes through the first
config read, the wait, two retries each after a wait, and ends in
`TC74_IDLE`. -/
theorem tc74_retry_bound (k : timekeeping_config) (now : timestamp) (d : tc74_data)
    (nonnull : Bool) (steps : List tc74_retry_step) (hidle : d.state = TC74_IDLE)
    (henv : ∀ b, tc74_retry_step.answer b ∈ steps →
      b < 256 ∧ tc74_config_valid b = true ∧ b &&& TC74_REG_CONFIG_DATA_READY = 0) :
    (tc74_get_temperature k now d).1 = true ∧
    (∀ t ∈ (tc74_run k (tc74_retry_events steps)
        ⟨(tc74_get_temperature k now d).2, []⟩).enqueued, t = tc74_config_read_transfer) ∧
    tc74_temp_read_transfer ∉ (tc74_run k (tc74_retry_events steps)
        ⟨(tc74_get_temperature k now d).2, []⟩).enqueued ∧
    (tc74_run k (tc74_retry_events steps)
        ⟨(tc74_get_temperature k now d).2, []⟩).enqueued.length ≤
      TC74_DATA_READY_POLL_COUNT ∧
    tc74_get_temperature_result nonnull
      (tc74_run k (tc74_retry_events steps)
        ⟨(tc74_get_temperature k now d).2, []⟩).data = (false, none) ∧
    ((tc74_run k (tc74_retry_events steps)
        ⟨(tc74_get_temperature k now d).2, []⟩).data.state = TC74_IDLE →
      (tc74_run k (tc74_retry_events steps)
        ⟨(tc74_get_temperature k now d).2, []⟩).enqueued.length =
        TC74_DATA_READY_POLL_COUNT) ∧
    TC74_DATA_READY_POLL_COUNT = 3 ∧
    (∀ (t1 t2 t3 t4 t5 t6 t7 t8 t9 : timestamp) (c1 c2 c3 : Nat),
      (c1 < 256 ∧ tc74_config_valid c1 = true ∧ c1 &&& TC74_REG_CONFIG_DATA_READY = 0) →
      (c2 < 256 ∧ tc74_config_valid c2 = true ∧ c2 &&& TC74_REG_CONFIG_DATA_READY = 0) →
      (c3 < 256 ∧ tc74_config_valid c3 = true ∧ c3 &&& TC74_REG_CONFIG_DATA_READY = 0) →
      timestamp_temporal_cmp (timekeeping_counts_per_tick k) t4
        (timestamp_add (timekeeping_counts_per_tick k) t2
          (TIMESTAMPI_FROM_MS k.TIMEKEEPING_HZ (timekeeping_counts_per_tick k)
            TC74_DATA_READY_POLL_PERIOD)) .lt = false →
      timestamp_temporal_cmp (timekeeping_counts_per_tick k) t7
        (timestamp_add (timekeeping_counts_per_tick k) t4
          (TIMESTAMPI_FROM_MS k.TIMEKEEPING_HZ (timekeeping_counts_per_tick k)
            TC74_DATA_READY_POLL_PERIOD)) .lt = false →
      tc74_trace k
        (tc74_retry_events
          [.poll t1, .answer c1, .poll t2, .poll t3, .poll t4, .poll t5, .answer c2, .poll t6,
            .poll t7, .poll t8, .answer c3, .poll t9])
        ⟨(tc74_get_temperature k now d).2, []⟩ =
        [TC74_CONFIG_READ, TC74_CONFIG_READ, TC74_CONFIG_READ, TC74_DATA_READY_WAIT_INIT,
          TC74_DATA_READY_WAIT, TC74_DATA_READY_CONFIG_READ_DO, TC74_DATA_READY_CONFIG_READ,
          TC74_DATA_READY_CONFIG_READ, TC74_DATA_READY_CONFIG_READ, TC74_DATA_READY_WAIT,
          TC74_DATA_READY_CONFIG_READ_DO, TC74_DATA_READY_CONFIG_READ,
          TC74_DATA_READY_CONFIG_READ, TC74_DATA_READY_CONFIG_READ, TC74_IDLE] ∧
      (tc74_run k
        (tc74_retry_events
          [.poll t1, .answer c1, .poll t2, .poll t3, .poll t4, .poll t5, .answer c2, .poll t6,
            .poll t7, .poll t8, .answer c3, .poll t9])
        ⟨(tc74_get_temperature k now d).2, []⟩).enqueued =
        [tc74_config_read_transfer, tc74_config_read_transfer, tc74_config_read_transfer]) := by
  obtain ⟨he, hf, _, hst⟩ :=
    tc74_retry_inv_run k steps _ henv (tc74_retry_inv_start k now d hidle)
  refine ⟨by simp [tc74_get_temperature, tc74_is_busy, hidle], he,
    fun hm => absurd (he _ hm) (by decide), ?_,
    (tc74_get_temperature_result_flag nonnull _).1 hf, fun hi => ?_, rfl, ?_⟩
  · simp only [TC74_DATA_READY_POLL_COUNT] at hst ⊢
    rcases hst with ⟨_, hl⟩ | ⟨_, hl⟩ | ⟨_, hl, _⟩ | ⟨_, hl, _, _⟩ | ⟨_, hl, _, _⟩ |
      ⟨_, hl, _, _⟩ | ⟨_, hl⟩ <;> omega
  · rcases hst with ⟨hs, _⟩ | ⟨hs, _⟩ | ⟨hs, _⟩ | ⟨hs, _⟩ | ⟨hs, _⟩ | ⟨hs, _⟩ | ⟨_, hl⟩
    all_goals first
      | exact hl
      | (rw [hi] at hs; cases hs)
  · intro t1 t2 t3 t4 t5 t6 t7 t8 t9 c1 c2 c3 h1 h2 h3 hlate1 hlate2
    have hcan := tc74_retry_canonical k now d hidle t1 t2 t3 t4 t5 t6 t7 t8 t9 c1 c2 c3
      h1.1 h1.2.1 h1.2.2 h2.1 h2.2.1 h2.2.2 h3.1 h3.2.1 h3.2.2 hlate1 hlate2
    refine ⟨hcan.1, ?_⟩
    obtain ⟨he', _, _, hst'⟩ := tc74_retry_inv_run k
      [.poll t1, .answer c1, .poll t2, .poll t3, .poll t4, .poll t5, .answer c2, .poll t6,
        .poll t7, .poll t8, .answer c3, .poll t9] _
      (by
        intro b hb
        simp only [List.mem_cons, reduceCtorEq, tc74_retry_step.answer.injEq, false_or,
          List.mem_singleton, or_false, List.not_mem_nil] at hb
        rcases hb with rfl | rfl | rfl
        · exact h1
        · exact h2
        · exact h3)
      (tc74_retry_inv_start k now d hidle)
    have hl : (tc74_run k
        (tc74_retry_events
          [.poll t1, .answer c1, .poll t2, .poll t3, .poll t4, .poll t5, .answer c2, .poll t6,
            .poll t7, .poll t8, .answer c3, .poll t9])
        ⟨(tc74_get_temperature k now d).2, []⟩).enqueued.length = 3 := by
      rcases hst' with ⟨hs, _⟩ | ⟨hs, _⟩ | ⟨hs, _⟩ | ⟨hs, _⟩ | ⟨hs, _⟩ | ⟨hs, _⟩ | ⟨_, hl⟩
      all_goals first
        | exact hl
        | (rw [hcan.2] at hs; cases hs)
    generalize (tc74_run k
        (tc74_retry_events
          [.poll t1, .answer c1, .poll t2, .poll t3, .poll t4, .poll t5, .answer c2, .poll t6,
            .poll t7, .poll t8, .answer c3, .poll t9])
        ⟨(tc74_get_temperature k now d).2, []⟩).enqueued = l at he' hl
    match l, hl, he' with
    | [a, b, c], _, he' =>
      rw [he' a (by simp), he' b (by simp), he' c (by simp)]

/-- Witness of C23: config reads answered with `0x00`, polls at ticks 7 and
later with the waits of one tick (125 ms at 8 Hz) run out. -/
theorem tc74_retry_bound_witness :
    (tc74_run ⟨16000000, 64, 8⟩
      (tc74_retry_events
        [.poll ⟨7, 1⟩, .answer 0, .poll ⟨7, 2⟩, .poll ⟨7, 3⟩, .poll ⟨8, 5⟩, .poll ⟨8, 6⟩,
          .answer 0, .poll ⟨8, 7⟩, .poll ⟨9, 6⟩, .poll ⟨9, 7⟩, .answer 0, .poll ⟨9, 8⟩])
      ⟨(tc74_get_temperature ⟨16000000, 64, 8⟩ ⟨7, 0⟩
        ⟨0x48, TC74_IDLE, false, true, true, 1, ⟨0, 0⟩, 0, true, 0x40, 25⟩).2,
        []⟩).data.state = TC74_IDLE ∧
    (tc74_run ⟨16000000, 64, 8⟩
      (tc74_retry_events
        [.poll ⟨7, 1⟩, .answer 0, .poll ⟨7, 2⟩, .poll ⟨7, 3⟩, .poll ⟨8, 5⟩, .poll ⟨8, 6⟩,
          .answer 0, .poll ⟨8, 7⟩, .poll ⟨9, 6⟩, .poll ⟨9, 7⟩, .answer 0, .poll ⟨9, 8⟩])
      ⟨(tc74_get_temperature ⟨16000000, 64, 8⟩ ⟨7, 0⟩
        ⟨0x48, TC74_IDLE, false, true, true, 1, ⟨0, 0⟩, 0, true, 0x40, 25⟩).2,
        []⟩).enqueued.length = TC74_DATA_READY_POLL_COUNT :=
  ⟨by decide,
    (tc74_retry_bound ⟨16000000, 64, 8⟩ ⟨7, 0⟩
      ⟨0x48, TC74_IDLE, false, true, true, 1, ⟨0, 0⟩, 0, true, 0x40, 25⟩ true
      [.poll ⟨7, 1⟩, .answer 0, .poll ⟨7, 2⟩, .poll ⟨7, 3⟩, .poll ⟨8, 5⟩, .poll ⟨8, 6⟩,
        .answer 0, .poll ⟨8, 7⟩, .poll ⟨9, 6⟩, .poll ⟨9, 7⟩, .answer 0, .poll ⟨9, 8⟩]
      rfl
      (by
        intro b hb
        simp only [List.mem_cons, reduceCtorEq, tc74_retry_step.answer.injEq, false_or,
          List.mem_singleton, or_false, or_self, List.not_mem_nil] at hb
        subst hb
        decide)).2.2.2.2.2.1 (by decide)⟩

/-! ## Theorems: debug log buffer -/

/-- The number of buffered bytes never exceeds the buffer size, whatever is
put and read. -/
theorem debug_run_valid_length (size : Nat) (cs : List debug_call) :
    ∀ s : debug_state, s.debug_buf_valid_length ≤ size → size < 65536 →
      (debug_run size cs s).2.debug_buf_valid_length ≤ size := by
  induction cs with
  | nil =>
    intro s h _
    exact h
  | cons c cs ih =>
    intro s h hsz
    cases c with
    | put data =>
      simp only [debug_run]
      refine ih _ ?_ hsz
      simp only [debug_put, debug_put_atomic, DEBUG_BUF_LEN_T]
      split
      · simp only
        split <;> omega
      · exact h
    | get =>
      simp only [debug_run]
      refine ih _ ?_ hsz
      simp only [debug_buf_get, debug_buf_is_empty_atomic, debug_buf_get_atomic,
        DEBUG_BUF_LEN_T]
      by_cases h0 : s.debug_buf_valid_length = 0
      · simp [h0]
      · simp only [h0, decide_False, Bool.not_false, if_true]
        split <;> omega

set_option maxRecDepth 100000 in
/-- The default buffer overrun by one byte, evaluated: the bytes 0 to 255 are
put into the empty buffer of size 255 and two bytes are read out. -/
theorem debug_run_overrun (cs : List debug_call)
    (h : cs = (List.range 256).map debug_call.put ++ [debug_call.get, debug_call.get]) :
    (debug_run DEBUG_BUF_SIZE cs (debug_setup DEBUG_BUF_SIZE)).1 = [255, 1] ∧
    ¬ List.Sublist [255, 1] (List.range 256) := by
  subst h
  constructor
  · rfl
  · decide

/-- C28, the code at the failing input: with the default buffer size 255, the
bytes 0, 1, ..., 255 are put into the empty buffer and then two bytes are read
out.  The last put finds the buffer full and overwrites the oldest unread
byte in place, so the reads return 255 and then 1: the byte written last is
read out before a byte written earlier, and what is read out is no
subsequence of what was written. -/
theorem debug_put_full_reorders :
    (debug_run DEBUG_BUF_SIZE
      ((List.range 256).map debug_call.put ++ [debug_call.get, debug_call.get])
      (debug_setup DEBUG_BUF_SIZE)).1 = [255, 1] ∧
    ¬ List.Sublist [255, 1] (List.range 256) :=
  debug_run_overrun _ rfl

/-! ## Theorems: reading the clock -/

/-- A turn of the loop of `timekeeping_now_timestamp` that starts with the
flag set and sees a compare match before the second read of `TIFR3`: the
function goes round again with one more tick counted and cleared. -/
theorem timekeeping_now_timestamp_retry (o : timer3_obs) (os : List timer3_obs)
    (s : timekeeping_state) (h : o.match_after = true) :
    timekeeping_now_timestamp (o :: os) s =
      timekeeping_now_timestamp os
        (if s.OCF3A || o.match_before then
          ⟨(s.timekeeping_ticks + 1) % 4294967296, true, s.cleared + 1⟩
         else ⟨s.timekeeping_ticks, true, s.cleared⟩) := by
  cases hf : (s.OCF3A || o.match_before) <;>
    simp [timekeeping_now_timestamp, hf, h]

/-- A turn of the loop of `timekeeping_now_timestamp` that sees no compare
match before the second read of `TIFR3` is the last. -/
theorem timekeeping_now_timestamp_last (o : timer3_obs) (os : List timer3_obs)
    (s : timekeeping_state) (h : o.match_after = false) :
    timekeeping_now_timestamp (o :: os) s =
      some (if s.OCF3A || o.match_before then
          ⟨⟨(s.timekeeping_ticks + 1) % 4294967296, o.TCNT3 % 65536⟩,
            ⟨(s.timekeeping_ticks + 1) % 4294967296, false, s.cleared + 1⟩, os⟩
        else
          ⟨⟨s.timekeeping_ticks, o.TCNT3 % 65536⟩,
            ⟨s.timekeeping_ticks, false, s.cleared⟩, os⟩) := by
  cases hf : (s.OCF3A || o.match_before) <;>
    simp [timekeeping_now_timestamp, hf, h]

/-- The loop of `timekeeping_now_timestamp` entered with the flag set: every
turn counts and clears one tick, and the first turn that sees no compare match
before the second read of `TIFR3` returns. -/
theorem timekeeping_now_timestamp_loop (pre : List timer3_obs) :
    ∀ (o : timer3_obs) (rest : List timer3_obs) (s : timekeeping_state),
      (∀ p ∈ pre, p.match_after = true) → o.match_after = false → s.OCF3A = true →
      timekeeping_now_timestamp (pre ++ o :: rest) s =
        some ⟨⟨(s.timekeeping_ticks + (pre.length + 1)) % 4294967296, o.TCNT3 % 65536⟩,
          ⟨(s.timekeeping_ticks + (pre.length + 1)) % 4294967296, false,
            s.cleared + (pre.length + 1)⟩, rest⟩ := by
  induction pre with
  | nil =>
    intro o rest s _ ho hs
    rw [List.nil_append, timekeeping_now_timestamp_last o rest s ho]
    simp [hs]
  | cons p ps ih =>
    intro o rest s hpre ho hs
    rw [List.cons_append, timekeeping_now_timestamp_retry p _ s (hpre p (List.mem_cons_self _ _))]
    simp only [hs, Bool.true_or, if_true]
    rw [ih o rest _ (fun q hq => hpre q (List.mem_cons_of_mem _ hq)) ho rfl]
    simp only [List.length_cons]
    have e : ((s.timekeeping_ticks + 1) % 4294967296 + (ps.length + 1)) % 4294967296 =
        (s.timekeeping_ticks + (ps.length + 1 + 1)) % 4294967296 := by omega
    rw [e]
    have e2 : s.cleared + 1 + (ps.length + 1) = s.cleared + (ps.length + 1 + 1) := by omega
    rw [e2]

/-- C29: `timekeeping_now_timestamp` returns a consistent pair when tick
boundaries are crossed during the read.  The timer is an overflow flag
(`OCF3A`) and a counter (`TCNT3`) that may change between any two register
reads: around each turn of the loop a compare match may set the flag before
the first read of `TIFR3` and again before the second, and `TCNT3` may hold
any value.  If the turns `pre` all see the flag set at the second read and the
next turn `o` sees it clear, the function returns in that turn: the counts
returned are the sample of `TCNT3` taken in that turn, right after which the
flag was observed clear; the ticks returned are the stored tick counter, which
was advanced (modulo 2^32) by exactly the number of flags cleared; and a flag
was cleared in every turn that found it set at the first read, that is in
every turn but possibly the first. -/
theorem timekeeping_now_timestamp_consistent (pre : List timer3_obs) (o : timer3_obs)
    (rest : List timer3_obs) (s : timekeeping_state)
    (hpre : ∀ p ∈ pre, p.match_after = true) (ho : o.match_after = false)
    (hticks : s.timekeeping_ticks < 4294967296) :
    ∃ r, timekeeping_now_timestamp (pre ++ o :: rest) s = some r ∧
      r.rest = rest ∧
      r.out.counts = o.TCNT3 % 65536 ∧
      r.state.OCF3A = false ∧
      r.out.ticks = r.state.timekeeping_ticks ∧
      r.state.timekeeping_ticks =
        (s.timekeeping_ticks + (r.state.cleared - s.cleared)) % 4294967296 ∧
      r.state.cleared =
        s.cleared + pre.length +
          (if (s.OCF3A || ((pre ++ [o]).headD o).match_before) = true then 1 else 0) := by
  cases pre with
  | nil =>
    rw [List.nil_append, timekeeping_now_timestamp_last o rest s ho]
    cases hf : (s.OCF3A || o.match_before)
    · refine ⟨_, rfl, rfl, rfl, rfl, rfl, ?_, ?_⟩
      · simp [Nat.mod_eq_of_lt hticks]
      · simp [hf]
    · refine ⟨_, rfl, rfl, rfl, rfl, rfl, ?_, ?_⟩
      · simp
      · simp [hf]
  | cons p ps =>
    rw [List.cons_append, timekeeping_now_timestamp_retry p _ s (hpre p (List.mem_cons_self _ _))]
    cases hf : (s.OCF3A || p.match_before)
    · simp only [Bool.false_eq_true, if_false]
      rw [timekeeping_now_timestamp_loop ps o rest _
        (fun q hq => hpre q (List.mem_cons_of_mem _ hq)) ho rfl]
      refine ⟨_, rfl, rfl, rfl, rfl, rfl, ?_, ?_⟩
      · simp
      · simp [hf]
    · simp only [if_true]
      rw [timekeeping_now_timestamp_loop ps o rest _
        (fun q hq => hpre q (List.mem_cons_of_mem _ hq)) ho rfl]
      refine ⟨_, rfl, rfl, rfl, rfl, rfl, ?_, ?_⟩
      · simp only
        have e : s.cleared + 1 + (ps.length + 1) - s.cleared = ps.length + 1 + 1 := by omega
        rw [e]
        omega
      · simp [hf]
        omega

/-- Witness of C29: the tick boundary is crossed between the first read of
`TIFR3` and the read of `TCNT3` in the first turn, so the sample 3 taken there
is dropped; the second turn counts the tick and returns the sample 9 with the
ticks advanced from 41 to 42. -/
theorem timekeeping_now_timestamp_consistent_witness :
    ∃ r, timekeeping_now_timestamp [⟨false, 3, true⟩, ⟨false, 9, false⟩] ⟨41, false, 0⟩ =
        some r ∧
      r.rest = [] ∧ r.out.counts = 9 ∧ r.state.OCF3A = false ∧
      r.out.ticks = r.state.timekeeping_ticks ∧
      r.state.timekeeping_ticks = (41 + (r.state.cleared - 0)) % 4294967296 ∧
      r.state.cleared = 1 :=
  timekeeping_now_timestamp_consistent [⟨false, 3, true⟩] ⟨false, 9, false⟩ []
    ⟨41, false, 0⟩ (by simp) rfl (by decide)

/-! ## Theorems: main loop -/

/-- The fields of `timestamp_diff` on valid operands, with the truncations
resolved. -/
theorem timestamp_diff_fields (cpt : Nat) (a b : timestamp) (hcpt : cpt ≤ 65536)
    (ha : a.valid cpt) (hb : b.valid cpt) :
    (timestamp_diff cpt a b).ticks =
      (if a.counts ≥ b.counts then (a.ticks + 4294967296 - b.ticks) % 4294967296
       else (a.ticks + 4294967296 - b.ticks + 4294967295) % 4294967296) ∧
    (timestamp_diff cpt a b).counts =
      (if a.counts ≥ b.counts then a.counts - b.counts else cpt - b.counts + a.counts) := by
  obtain ⟨hat, hac⟩ := ha
  obtain ⟨hbt, hbc⟩ := hb
  obtain ⟨at_, ac⟩ := a
  obtain ⟨bt, bc⟩ := b
  simp only at hat hac hbt hbc
  by_cases h : ac ≥ bc
  · simp only [timestamp_diff, h, if_true, true_and]
    omega
  · simp only [timestamp_diff, h, if_false]
    constructor <;> omega

/-- The temporal `<` as the half-range rule on the difference. -/
theorem timestamp_temporal_cmp_lt (cpt : Nat) (a b : timestamp) :
    timestamp_temporal_cmp cpt a b .lt =
      decide ((timestamp_diff cpt a b).ticks > 2147483647 ∨
        ((timestamp_diff cpt a b).ticks = 2147483647 ∧ (timestamp_diff cpt a b).counts > 0)) := by
  simp only [timestamp_temporal_cmp]
  generalize timestamp_diff cpt a b = d
  obtain ⟨dt, dc⟩ := d
  simp only [timestampi_iszero, timestampi_cmp, timestamp_cmp_internal, cmp_oper.eval,
    UINT32_MAX]
  by_cases h1 : dt = 0 <;> by_cases h2 : dc = 0 <;> by_cases h3 : dt = 4294967295 / 2 <;>
    simp [h1, h2, h3]

/-- The arithmetic behind the comparison of two times by their offsets from a
common reference: `(dat, dac)`, `(dbt, dbc)` are the differences of `a` and
`b` from `r`, both at most a quarter of the tick range, and `(dabt, dabc)` is
the difference of `a` from `b`. -/
theorem timestamp_offset_core (cpt at_ ac bt bc rt rc dat dac dbt dbc dabt dabc : Nat)
    (hcpt : cpt ≤ 65536) (hat : at_ < 4294967296) (hac : ac < cpt)
    (hbt : bt < 4294967296) (hbc : bc < cpt) (hrt : rt < 4294967296) (hrc : rc < cpt)
    (e1 : dat = (if ac ≥ rc then (at_ + 4294967296 - rt) % 4294967296
       else (at_ + 4294967296 - rt + 4294967295) % 4294967296))
    (e2 : dac = (if ac ≥ rc then ac - rc else cpt - rc + ac))
    (e3 : dbt = (if bc ≥ rc then (bt + 4294967296 - rt) % 4294967296
       else (bt + 4294967296 - rt + 4294967295) % 4294967296))
    (e4 : dbc = (if bc ≥ rc then bc - rc else cpt - rc + bc))
    (e5 : dabt = (if ac ≥ bc then (at_ + 4294967296 - bt) % 4294967296
       else (at_ + 4294967296 - bt + 4294967295) % 4294967296))
    (e6 : dabc = (if ac ≥ bc then ac - bc else cpt - bc + ac))
    (hwa : dat < 1073741823 ∨ (dat = 1073741823 ∧ dac = 0))
    (hwb : dbt < 1073741823 ∨ (dbt = 1073741823 ∧ dbc = 0)) :
    (dabt > 2147483647 ∨ (dabt = 2147483647 ∧ dabc > 0)) ↔
      dat * 65536 + dac < dbt * 65536 + dbc := by
  split at e1 <;> split at e3 <;> split at e5 <;> simp only [*, if_true, if_false] at e2 e4 e6 <;>
    omega

/-- An interval of at most `(UINT32_MAX / 4, 0)`, spelled out. -/
theorem timestampi_cmp_le_quarter (d : timestamp_interval)
    (h : timestampi_cmp d ⟨UINT32_MAX / 4, 0⟩ .le = true) :
    d.ticks < 1073741823 ∨ (d.ticks = 1073741823 ∧ d.counts = 0) := by
  obtain ⟨dt, dc⟩ := d
  simp only [timestampi_cmp, timestamp_cmp_internal, cmp_oper.eval, UINT32_MAX] at h
  show dt < 1073741823 ∨ (dt = 1073741823 ∧ dc = 0)
  split at h <;> simp only [decide_eq_true_eq] at h <;> omega

/-- Two valid times that both lie at most `UINT32_MAX / 4` ticks after a
common reference time compare temporally `<` exactly as their offsets from
the reference compare. -/
theorem timestamp_temporal_cmp_lt_offset (cpt : Nat) (r a b : timestamp) (hcpt : cpt ≤ 65536)
    (hr : r.valid cpt) (ha : a.valid cpt) (hb : b.valid cpt)
    (hwa : timestampi_cmp (timestamp_diff cpt a r) ⟨UINT32_MAX / 4, 0⟩ .le = true)
    (hwb : timestampi_cmp (timestamp_diff cpt b r) ⟨UINT32_MAX / 4, 0⟩ .le = true) :
    timestamp_temporal_cmp cpt a b .lt =
      decide (timestamp_offset cpt r a < timestamp_offset cpt r b) := by
  rw [timestamp_temporal_cmp_lt]
  simp only [timestamp_offset]
  exact decide_eq_decide.mpr
    (timestamp_offset_core cpt a.ticks a.counts b.ticks b.counts r.ticks r.counts _ _ _ _ _ _
      hcpt ha.1 ha.2 hb.1 hb.2 hr.1 hr.2
      (timestamp_diff_fields cpt a r hcpt ha hr).1 (timestamp_diff_fields cpt a r hcpt ha hr).2
      (timestamp_diff_fields cpt b r hcpt hb hr).1 (timestamp_diff_fields cpt b r hcpt hb hr).2
      (timestamp_diff_fields cpt a b hcpt ha hb).1 (timestamp_diff_fields cpt a b hcpt ha hb).2
      (timestampi_cmp_le_quarter _ hwa) (timestampi_cmp_le_quarter _ hwb))

/-- What the three `MAIN_GET_TIMEOUT` lines keep, by the offsets of the three
times from a common reference. -/
theorem main_next_poll_time_offsets (cpt : Nat) (uninit t1 t2 t3 : timestamp) (o1 o2 o3 : Nat)
    (h21 : timestamp_temporal_cmp cpt t2 t1 .lt = decide (o2 < o1))
    (h31 : timestamp_temporal_cmp cpt t3 t1 .lt = decide (o3 < o1))
    (h32 : timestamp_temporal_cmp cpt t3 t2 .lt = decide (o3 < o2)) :
    main_next_poll_time cpt uninit t1 t2 t3 =
      (if o2 < o1 then (if o3 < o2 then t3 else t2) else (if o3 < o1 then t3 else t1), true) := by
  simp only [main_next_poll_time, MAIN_GET_TIMEOUT, Bool.not_false, Bool.true_or, if_true, h21]
  by_cases c21 : o2 < o1
  · simp only [c21, decide_True, if_true, Bool.not_true, Bool.false_or, h32]
    by_cases c32 : o3 < o2 <;> simp [c32]
  · simp only [c21, decide_False, Bool.false_eq_true, if_false, Bool.not_true, Bool.false_or,
      h31]
    by_cases c31 : o3 < o1 <;> simp [c31]

/-- C27: next-wake aggregation takes the minimum.  For three valid module
next-poll times that each lie at most `UINT32_MAX / 4` ticks (inclusive) after
one common valid reference time, the three `MAIN_GET_TIMEOUT` lines of `main`
leave `next_poll_time_set` true and `next_poll_time` equal to one of the three
times, and none of the three compares temporally `<` it; so a time that some
module time precedes, such as a `max_future` sentinel when a real deadline is
reported, is never the one kept. -/
theorem main_next_poll_time_earliest (cpt : Nat) (r uninit temp_next serial_next i2c_next :
      timestamp)
    (hcpt : cpt ≤ 65536) (hr : r.valid cpt) (h1 : temp_next.valid cpt)
    (h2 : serial_next.valid cpt) (h3 : i2c_next.valid cpt)
    (hw1 : timestampi_cmp (timestamp_diff cpt temp_next r) ⟨UINT32_MAX / 4, 0⟩ .le = true)
    (hw2 : timestampi_cmp (timestamp_diff cpt serial_next r) ⟨UINT32_MAX / 4, 0⟩ .le = true)
    (hw3 : timestampi_cmp (timestamp_diff cpt i2c_next r) ⟨UINT32_MAX / 4, 0⟩ .le = true) :
    (main_next_poll_time cpt uninit temp_next serial_next i2c_next).2 = true ∧
    ((main_next_poll_time cpt uninit temp_next serial_next i2c_next).1 = temp_next ∨
      (main_next_poll_time cpt uninit temp_next serial_next i2c_next).1 = serial_next ∨
      (main_next_poll_time cpt uninit temp_next serial_next i2c_next).1 = i2c_next) ∧
    timestamp_temporal_cmp cpt temp_next
      (main_next_poll_time cpt uninit temp_next serial_next i2c_next).1 .lt = false ∧
    timestamp_temporal_cmp cpt serial_next
      (main_next_poll_time cpt uninit temp_next serial_next i2c_next).1 .lt = false ∧
    timestamp_temporal_cmp cpt i2c_next
      (main_next_poll_time cpt uninit temp_next serial_next i2c_next).1 .lt = false ∧
    (∀ t u : timestamp, (t = temp_next ∨ t = serial_next ∨ t = i2c_next) →
      timestamp_temporal_cmp cpt t u .lt = true →
      (main_next_poll_time cpt uninit temp_next serial_next i2c_next).1 ≠ u) := by
  have c := fun a b ha hb hwa hwb => timestamp_temporal_cmp_lt_offset cpt r a b hcpt hr ha hb hwa hwb
  have e := main_next_poll_time_offsets cpt uninit temp_next serial_next i2c_next _ _ _
    (c _ _ h2 h1 hw2 hw1) (c _ _ h3 h1 hw3 hw1) (c _ _ h3 h2 hw3 hw2)
  have key : timestamp_temporal_cmp cpt temp_next
        (main_next_poll_time cpt uninit temp_next serial_next i2c_next).1 .lt = false ∧
      timestamp_temporal_cmp cpt serial_next
        (main_next_poll_time cpt uninit temp_next serial_next i2c_next).1 .lt = false ∧
      timestamp_temporal_cmp cpt i2c_next
        (main_next_poll_time cpt uninit temp_next serial_next i2c_next).1 .lt = false := by
    rw [e]
    by_cases c21 : timestamp_offset cpt r serial_next < timestamp_offset cpt r temp_next <;>
    by_cases c31 : timestamp_offset cpt r i2c_next < timestamp_offset cpt r temp_next <;>
    by_cases c32 : timestamp_offset cpt r i2c_next < timestamp_offset cpt r serial_next <;>
    simp only [c21, c31, c32, if_true, if_false] <;>
    refine ⟨?_, ?_, ?_⟩ <;>
    (first
      | rw [c _ _ h1 h1 hw1 hw1] | rw [c _ _ h1 h2 hw1 hw2] | rw [c _ _ h1 h3 hw1 hw3]
      | rw [c _ _ h2 h1 hw2 hw1] | rw [c _ _ h2 h2 hw2 hw2] | rw [c _ _ h2 h3 hw2 hw3]
      | rw [c _ _ h3 h1 hw3 hw1] | rw [c _ _ h3 h2 hw3 hw2] | rw [c _ _ h3 h3 hw3 hw3]) <;>
    simp only [decide_eq_false_iff_not] <;> omega
  refine ⟨by rw [e], ?_, key.1, key.2.1, key.2.2, ?_⟩
  · rw [e]
    dsimp only
    split <;> split <;> simp
  · intro t u ht hlt heq
    rw [heq] at key
    rcases ht with rfl | rfl | rfl
    · rw [key.1] at hlt
      cases hlt
    · rw [key.2.1] at hlt
      cases hlt
    · rw [key.2.2] at hlt
      cases hlt

/-- Witness of C27: the reference time is shortly before the tick counter
wraps; the temperature module reports the `max_future` sentinel, the serial
module a deadline after the wrap and the I2C module one before it. -/
theorem main_next_poll_time_earliest_witness :
    (main_next_poll_time 31250 ⟨0, 0⟩ (timekeeping_timestamp_max_future ⟨4294967290, 100⟩)
      ⟨3, 5⟩ ⟨4294967295, 0⟩).2 = true ∧
    timestamp_temporal_cmp 31250 (timekeeping_timestamp_max_future ⟨4294967290, 100⟩)
      (main_next_poll_time 31250 ⟨0, 0⟩ (timekeeping_timestamp_max_future ⟨4294967290, 100⟩)
        ⟨3, 5⟩ ⟨4294967295, 0⟩).1 .lt = false ∧
    timestamp_temporal_cmp 31250 ⟨3, 5⟩
      (main_next_poll_time 31250 ⟨0, 0⟩ (timekeeping_timestamp_max_future ⟨4294967290, 100⟩)
        ⟨3, 5⟩ ⟨4294967295, 0⟩).1 .lt = false ∧
    timestamp_temporal_cmp 31250 ⟨4294967295, 0⟩
      (main_next_poll_time 31250 ⟨0, 0⟩ (timekeeping_timestamp_max_future ⟨4294967290, 100⟩)
        ⟨3, 5⟩ ⟨4294967295, 0⟩).1 .lt = false ∧
    (main_next_poll_time 31250 ⟨0, 0⟩ (timekeeping_timestamp_max_future ⟨4294967290, 100⟩)
      ⟨3, 5⟩ ⟨4294967295, 0⟩).1 = ⟨4294967295, 0⟩ :=
  have h := main_next_poll_time_earliest 31250 ⟨4294967290, 100⟩ ⟨0, 0⟩
    (timekeeping_timestamp_max_future ⟨4294967290, 100⟩) ⟨3, 5⟩ ⟨4294967295, 0⟩
    (by decide) ⟨by decide, by decide⟩ ⟨by decide, by decide⟩ ⟨by decide, by decide⟩
    ⟨by decide, by decide⟩ (by decide) (by decide) (by decide)
  ⟨h.1, h.2.2.1, h.2.2.2.1, h.2.2.2.2.1, by decide⟩

/-! ## Theorems: the transition table of the I2C engine -/

set_option linter.unusedTactic false in
set_option linter.unreachableTactic false in
set_option maxHeartbeats 4000000 in
/-- One `i2c_poll_atomic` call, with callbacks that do not call into the
module, leaves the state as it is or moves along an edge of the transition
table. -/
theorem i2c_poll_atomic_edge (k : timekeeping_config) {cb : i2c_callbacks}
    (hcb : i2c_callbacks_inert cb) (hw : i2c_hw) {s s' : i2c_engine}
    (h : i2c_poll_atomic k cb hw s = some s') :
    s'.i2c_state = s.i2c_state ∨
      i2c_phase_edge (decide (s.i2c_transaction_list_head = [])) s.i2c_state.phase
        s'.i2c_state.phase = true := by
  rcases hs : s.i2c_state <;> cases hq : s.i2c_transaction_list_head
  all_goals
    simp only [i2c_poll_atomic, hs, hq, i2c_is_reset_idle_poll_state, reduceCtorEq,
      decide_False, decide_True, Bool.or_false, Bool.or_true, Bool.true_or, Bool.or_self,
      Bool.false_eq_true, if_false, or_self, or_true, true_or, if_true, false_and, true_and,
      ne_eq, not_true_eq_false, not_false_eq_true, List.head?_nil, List.head?_cons,
      Option.map_none', Option.map_some', Option.some_bind, Option.none_bind,
      i2c_twcr_set_cmd_bits, i2c_twcr_set_cmd_bits_atomic, i2c_twdr_write] at h
  all_goals
    repeat' split at h
  all_goals
    try simp only [Option.some_bind, Option.none_bind, Bool.false_eq_true, if_false,
      if_true, decide_eq_true_eq] at h
  all_goals
    repeat' split at h
  all_goals
    first
    | cases h; done
    | (obtain rfl := Option.some.inj h
       simp [hs, i2c_states.phase, i2c_phase_edge, i2c_phase.hardware_wait]
       done)
    | (have he0 := (I2C_SETSTATE_frame k hcb h).1
       simp [he0, i2c_states.phase, i2c_phase_edge, i2c_phase.hardware_wait]
       done)
    | (have hc0 := i2c_transaction_maybe_timedout_cases k cb h
       rcases hc0 with ⟨_, he1⟩ | ⟨_, hne, h2⟩ | ⟨_, heq, h2⟩
       · subst he1
         simp [hs, i2c_states.phase, i2c_phase_edge, i2c_phase.hardware_wait]
       · first
         | (simp at hne
            done)
         | (have he0 := (I2C_SETSTATE_frame k hcb h2).1
            simp [he0, i2c_states.phase, i2c_phase_edge, i2c_phase.hardware_wait])
       · first
         | (simp at heq
            done)
         | (have he0 := (I2C_SETSTATE_frame k hcb h2).1
            simp [he0, i2c_states.phase, i2c_phase_edge, i2c_phase.hardware_wait])
       done)

/-- C30: the step relation of the engine follows the transition table.  With
callbacks that do not call into the module, for every state and every
hardware input: one `i2c_poll_atomic` call returns whenever the queue head it
works on is present, and it leaves the state unchanged or moves along an edge
of the table, which is: StartPending to StartSent; RepeatedStartPending to
RepeatedStartSent; StartSent and RepeatedStartSent to AddressPhase;
AddressPhase to WritePhase or ReadPhase; WritePhase to WritePhase,
RepeatedStartPending or StopPending; ReadPhase to ReadPhase or StopPending;
StopPending to StopSent; the hardware-wait phases (StartSent,
RepeatedStartSent, AddressPhase, WritePhase, ReadPhase) to FailedNeedsReset;
FailedNeedsReset to Reset; StopSent to Reset; StopSent and Reset to
StartPending when the queue is not empty and to Idle when it is empty.  No
edge leaves Idle, so a poll in `I2C_IDLE` stays there; `i2c_transaction`
leaves every state as it is except that in `I2C_IDLE` it goes to
`I2C_START_DO`, and only when it has enqueued the transaction. -/
theorem i2c_transition_table (k : timekeeping_config) (cb : i2c_callbacks)
    (hcb : i2c_callbacks_inert cb) (hw : i2c_hw) (s : i2c_engine) :
    (s.i2c_transaction_list_head ≠ [] ∨ s.i2c_state.uses_head = false →
      ∃ s', i2c_poll_atomic k cb hw s = some s') ∧
    (∀ s', i2c_poll_atomic k cb hw s = some s' →
      (s'.i2c_state = s.i2c_state ∨
        i2c_phase_edge (decide (s.i2c_transaction_list_head = [])) s.i2c_state.phase
          s'.i2c_state.phase = true) ∧
      (s.i2c_state = I2C_IDLE → s'.i2c_state = I2C_IDLE)) ∧
    (∀ (now : timestamp) (malloc_ok : Bool) (r : i2c_request),
      ∃ s', i2c_transaction_req k cb now malloc_ok r s = some (r.accepted malloc_ok, s') ∧
        s'.i2c_transaction_list_head = s.i2c_transaction_list_head ++
          (if r.accepted malloc_ok = true then [r.node] else []) ∧
        (s'.i2c_state = s.i2c_state ∨
          (s.i2c_state = I2C_IDLE ∧ s'.i2c_state = I2C_START_DO ∧
            r.accepted malloc_ok = true))) ∧
    (∀ (queue_empty : Bool) (p q : i2c_phase),
      i2c_phase_edge queue_empty p q = true ↔
        (p = .StartPending ∧ q = .StartSent) ∨
        (p = .RepeatedStartPending ∧ q = .RepeatedStartSent) ∨
        ((p = .StartSent ∨ p = .RepeatedStartSent) ∧ q = .AddressPhase) ∨
        (p = .AddressPhase ∧ (q = .WritePhase ∨ q = .ReadPhase)) ∨
        (p = .WritePhase ∧
          (q = .WritePhase ∨ q = .RepeatedStartPending ∨ q = .StopPending)) ∨
        (p = .ReadPhase ∧ (q = .ReadPhase ∨ q = .StopPending)) ∨
        (p = .StopPending ∧ q = .StopSent) ∨
        ((p = .StartSent ∨ p = .RepeatedStartSent ∨ p = .AddressPhase ∨ p = .WritePhase ∨
            p = .ReadPhase) ∧ q = .FailedNeedsReset) ∨
        (p = .FailedNeedsReset ∧ q = .Reset) ∨
        (p = .StopSent ∧ q = .Reset) ∨
        ((p = .StopSent ∨ p = .Reset) ∧ q = .StartPending ∧ queue_empty = false) ∨
        ((p = .StopSent ∨ p = .Reset) ∧ q = .Idle ∧ queue_empty = true)) := by
  refine ⟨i2c_poll_atomic_total k cb hw s, fun s' h => ?_, fun now malloc_ok r => ?_, ?_⟩
  · have he := i2c_poll_atomic_edge k hcb hw h
    refine ⟨he, fun hi => ?_⟩
    rcases he with he | he
    · rw [he, hi]
    · rw [hi] at he
      revert he
      cases s'.i2c_state <;> cases decide (s.i2c_transaction_list_head = []) <;> decide
  · obtain ⟨s', h1, _, _, h4, h5⟩ := i2c_transaction_req_effect k cb now malloc_ok r s
    exact ⟨s', h1, h4, h5⟩
  · intro queue_empty p q
    cases queue_empty <;> cases p <;> cases q <;> decide

/-- Witness of C30: a poll in `I2C_START_DO` with one transaction queued
returns, and it stays in StartPending or moves along an edge from it. -/
theorem i2c_transition_table_witness :
    ∃ s', i2c_poll_atomic ⟨16000000, 64, 8⟩ (fun _ s => s) ⟨0, 0, 0, ⟨7, 1⟩, ⟨7, 1⟩⟩
        { i2c_boot 0 0 0 0 (fun _ => 0) with
          i2c_state := I2C_START_DO,
          i2c_transaction_list_head := [⟨0x48, 100, 1, 0, 0, 5, 1, 0⟩] } = some s' ∧
      (s'.i2c_state = I2C_START_DO ∨
        i2c_phase_edge false i2c_phase.StartPending s'.i2c_state.phase = true) :=
  have t := i2c_transition_table ⟨16000000, 64, 8⟩ (fun _ s => s) (fun _ _ => rfl)
    ⟨0, 0, 0, ⟨7, 1⟩, ⟨7, 1⟩⟩
    { i2c_boot 0 0 0 0 (fun _ => 0) with
      i2c_state := I2C_START_DO,
      i2c_transaction_list_head := [⟨0x48, 100, 1, 0, 0, 5, 1, 0⟩] }
  match t.1 (Or.inl (by simp)) with
  | ⟨s', h⟩ => ⟨s', h, (t.2.1 s' h).1⟩

/-! ## Theorems: TC74 initial state -/

/-- What `tc74_init` leaves, whatever the instance held before: the instance
is not busy and `tc74_get_next_poll_time` returns the `max_future` sentinel,
but the result flag is the one the instance held before, so
`tc74_get_temperature_result` returns that flag. -/
theorem tc74_init_spec (addr : Nat) (d : tc74_data) (now : timestamp) (nonnull : Bool) :
    tc74_is_busy (tc74_init addr d) = false ∧
    tc74_get_next_poll_time now (tc74_init addr d) = timekeeping_timestamp_max_future now ∧
    (tc74_get_temperature_result nonnull (tc74_init addr d)).1 = d.get_temp_result ∧
    (tc74_init addr d).get_temp_result = d.get_temp_result ∧
    (tc74_init addr d).temp = d.temp := by
  refine ⟨by simp [tc74_is_busy, tc74_init], ?_, ?_, rfl, rfl⟩
  · simp [tc74_get_next_poll_time, tc74_init, tc74_is_i2c_transfer_state]
  · cases h : d.get_temp_result <;> simp [tc74_get_temperature_result, tc74_init, h]

/-- C39, the code at the failing input: a caller-allocated instance whose
memory holds a set result flag and the value 37 (an instance not zeroed, or one
initialised again after a read) is passed to `tc74_init` with address `0x48`.
Afterwards the instance is not busy and `tc74_get_next_poll_time` returns the
`max_future` sentinel, but `tc74_get_temperature_result` returns true and
writes 37 although no read has succeeded since: `tc74_init` does not assign
`get_temp_result`. -/
theorem tc74_init_stale_result :
    tc74_is_busy
      (tc74_init 0x48 ⟨0, TC74_TEMP_READ, true, true, true, 1, ⟨0, 0⟩, 2, true, 0x40, 37⟩) =
      false ∧
    tc74_get_next_poll_time ⟨7, 0⟩
      (tc74_init 0x48 ⟨0, TC74_TEMP_READ, true, true, true, 1, ⟨0, 0⟩, 2, true, 0x40, 37⟩) =
      timekeeping_timestamp_max_future ⟨7, 0⟩ ∧
    tc74_get_temperature_result true
      (tc74_init 0x48 ⟨0, TC74_TEMP_READ, true, true, true, 1, ⟨0, 0⟩, 2, true, 0x40, 37⟩) =
      (true, some 37) := by
  decide

/-! ## Theorems: conversion from milliseconds -/

/-- The arithmetic of `TIMESTAMPI_FROM_MS`: the quotient of `n * c` by 1000
splits into the quotient of `n` by 1000, in units of `c`, and a rest below
`c`. -/
theorem timestampi_from_ms_split (n c : Nat) (hc : 0 < c) :
    n / 1000 * c + n * c / 1000 % c = n * c / 1000 := by
  have h1 : n * c / 1000 / c = n / 1000 := by
    rw [Nat.div_div_eq_div_mul, Nat.mul_div_mul_right _ _ hc]
  have h2 := Nat.div_add_mod (n * c / 1000) c
  rw [h1] at h2
  rw [Nat.mul_comm] at h2
  exact h2

/-- C40: the conversion from milliseconds is exact to one count.  For every
`ms` in `[0, UINT32_MAX]`, every `TIMEKEEPING_HZ` of at most 1000 (so in
particular in `[1, 1000]`) and every
counts per tick `c` in `[2, 65536]`, `TIMESTAMPI_FROM_MS(ms)` has
`counts < c` and `ticks * c + counts = floor(ms * TIMEKEEPING_HZ * c / 1000)`;
the 64-bit products do not overflow (`ms * TIMEKEEPING_HZ` and
`ms * TIMEKEEPING_HZ * c` are below `2^64`), and the fields are not truncated
(`ticks` is the quotient `ms * TIMEKEEPING_HZ / 1000`, below `2^32`, and
`counts` is `ms * TIMEKEEPING_HZ * c / 1000 % c`, below `2^16`). -/
theorem TIMESTAMPI_FROM_MS_exact (hz cpt ms : Nat) (hms : ms ≤ UINT32_MAX)
    (hhz : hz ≤ 1000) (hc1 : 2 ≤ cpt) (hc2 : cpt ≤ 65536) :
    (TIMESTAMPI_FROM_MS hz cpt ms).counts < cpt ∧
    (TIMESTAMPI_FROM_MS hz cpt ms).ticks * cpt + (TIMESTAMPI_FROM_MS hz cpt ms).counts =
      ms * hz * cpt / 1000 ∧
    ms * hz < 18446744073709551616 ∧
    ms * hz * cpt < 18446744073709551616 ∧
    (TIMESTAMPI_FROM_MS hz cpt ms).ticks = ms * hz / 1000 ∧
    ms * hz / 1000 < 4294967296 ∧
    (TIMESTAMPI_FROM_MS hz cpt ms).counts = ms * hz * cpt / 1000 % cpt ∧
    ms * hz * cpt / 1000 % cpt < 65536 := by
  simp only [UINT32_MAX] at hms
  have hn : ms * hz ≤ 4294967295 * 1000 := Nat.mul_le_mul hms hhz
  have hnc : ms * hz * cpt ≤ 4294967295 * 1000 * 65536 := Nat.mul_le_mul hn hc2
  have h64 : ms * hz < 18446744073709551616 := by omega
  have h64c : ms * hz * cpt < 18446744073709551616 := by omega
  have hq : ms * hz / 1000 < 4294967296 := by omega
  have hr : ms * hz * cpt / 1000 % cpt < cpt := Nat.mod_lt _ (by omega)
  have et : (TIMESTAMPI_FROM_MS hz cpt ms).ticks = ms * hz / 1000 := by
    simp only [TIMESTAMPI_FROM_MS, Nat.mod_eq_of_lt h64, Nat.mod_eq_of_lt hq]
  have ec : (TIMESTAMPI_FROM_MS hz cpt ms).counts = ms * hz * cpt / 1000 % cpt := by
    simp only [TIMESTAMPI_FROM_MS, Nat.mod_eq_of_lt h64, Nat.mod_eq_of_lt h64c]
    exact Nat.mod_eq_of_lt (by omega)
  refine ⟨by rw [ec]; exact hr, ?_, h64, h64c, et, hq, ec, by omega⟩
  rw [et, ec]
  exact timestampi_from_ms_split (ms * hz) cpt (by omega)

/-- Witness of C40: the largest input, `UINT32_MAX` ms, at 8 Hz with 31250
counts per tick. -/
theorem TIMESTAMPI_FROM_MS_exact_witness :
    (TIMESTAMPI_FROM_MS 8 31250 4294967295).counts < 31250 ∧
    (TIMESTAMPI_FROM_MS 8 31250 4294967295).ticks * 31250 +
        (TIMESTAMPI_FROM_MS 8 31250 4294967295).counts =
      4294967295 * 8 * 31250 / 1000 :=
  have h := TIMESTAMPI_FROM_MS_exact 8 31250 4294967295 (by decide) (by decide) (by decide)
    (by decide)
  ⟨h.1, h.2.1⟩

/-! ## Theorems: the temporal order -/

/-- The temporal `>` as the half-range rule on the difference. -/
theorem timestamp_temporal_cmp_gt (cpt : Nat) (a b : timestamp) :
    timestamp_temporal_cmp cpt a b .gt =
      decide (((timestamp_diff cpt a b).ticks ≠ 0 ∨ (timestamp_diff cpt a b).counts ≠ 0) ∧
        ((timestamp_diff cpt a b).ticks < 2147483647 ∨
          ((timestamp_diff cpt a b).ticks = 2147483647 ∧
            (timestamp_diff cpt a b).counts = 0))) := by
  simp only [timestamp_temporal_cmp]
  generalize timestamp_diff cpt a b = d
  obtain ⟨dt, dc⟩ := d
  simp only [timestampi_iszero, timestampi_cmp, timestamp_cmp_internal, cmp_oper.eval,
    UINT32_MAX]
  by_cases h1 : dt = 0 <;> by_cases h2 : dc = 0 <;> by_cases h3 : dt = 4294967295 / 2 <;>
    simp [h1, h2, h3]
  all_goals omega

/-- An interval of at most `(UINT32_MAX / 2, 0)`, spelled out. -/
theorem timestampi_cmp_le_half (d : timestamp_interval) :
    timestampi_cmp d ⟨UINT32_MAX / 2, 0⟩ .le = true ↔
      (d.ticks < 2147483647 ∨ (d.ticks = 2147483647 ∧ d.counts = 0)) := by
  obtain ⟨dt, dc⟩ := d
  simp only [timestampi_cmp, timestamp_cmp_internal, cmp_oper.eval, UINT32_MAX]
  show _ ↔ (dt < 2147483647 ∨ (dt = 2147483647 ∧ dc = 0))
  split <;> simp only [decide_eq_true_eq] <;> omega

/-- The arithmetic behind the two directions of a temporal comparison:
`(dt, dc)` is the difference of `a` from `b` and `(et, ec)` that of `b` from
`a`. -/
theorem timestamp_order_core (cpt at_ ac bt bc dt dc et ec : Nat)
    (hat : at_ < 4294967296) (hac : ac < cpt)
    (hbt : bt < 4294967296) (hbc : bc < cpt)
    (e1 : dt = (if ac ≥ bc then (at_ + 4294967296 - bt) % 4294967296
       else (at_ + 4294967296 - bt + 4294967295) % 4294967296))
    (e2 : dc = (if ac ≥ bc then ac - bc else cpt - bc + ac))
    (e3 : et = (if bc ≥ ac then (bt + 4294967296 - at_) % 4294967296
       else (bt + 4294967296 - at_ + 4294967295) % 4294967296))
    (e4 : ec = (if bc ≥ ac then bc - ac else cpt - ac + bc)) :
    (((et ≠ 0 ∨ ec ≠ 0) ∧ (et < 2147483647 ∨ (et = 2147483647 ∧ ec = 0))) →
      (dt > 2147483647 ∨ (dt = 2147483647 ∧ dc > 0))) ∧
    (((dt < 2147483647 ∨ (dt = 2147483647 ∧ dc = 0)) ∨
        (et < 2147483647 ∨ (et = 2147483647 ∧ ec = 0))) →
      ¬ ((dt > 2147483647 ∨ (dt = 2147483647 ∧ dc > 0)) ∧
          (et > 2147483647 ∨ (et = 2147483647 ∧ ec > 0))) ∧
      ((dt > 2147483647 ∨ (dt = 2147483647 ∧ dc > 0)) ↔
        ((et ≠ 0 ∨ ec ≠ 0) ∧ (et < 2147483647 ∨ (et = 2147483647 ∧ ec = 0))))) := by
  split at e1 <;> split at e3 <;> simp only [*, if_true, if_false] at e2 e4 <;> omega

/-- C34, as amended: the temporal comparison orders two valid timestamps
whose difference, in one of the two directions, is at most
`(UINT32_MAX / 2, 0)`: then `a < b` and `b < a` are never both true, and
`a < b` holds exactly when `b > a` holds.  For every pair of valid timestamps
`b > a` implies `a < b`. -/
theorem timestamp_temporal_cmp_order (cpt : Nat) (a b : timestamp) (hcpt : cpt ≤ 65536)
    (ha : a.valid cpt) (hb : b.valid cpt) :
    (timestamp_temporal_cmp cpt b a .gt = true → timestamp_temporal_cmp cpt a b .lt = true) ∧
    (timestampi_cmp (timestamp_diff cpt a b) ⟨UINT32_MAX / 2, 0⟩ .le = true ∨
        timestampi_cmp (timestamp_diff cpt b a) ⟨UINT32_MAX / 2, 0⟩ .le = true →
      ¬ (timestamp_temporal_cmp cpt a b .lt = true ∧
          timestamp_temporal_cmp cpt b a .lt = true) ∧
      (timestamp_temporal_cmp cpt a b .lt = true ↔
        timestamp_temporal_cmp cpt b a .gt = true)) := by
  have hab := timestamp_diff_fields cpt a b hcpt ha hb
  have hba := timestamp_diff_fields cpt b a hcpt hb ha
  have core := timestamp_order_core cpt a.ticks a.counts b.ticks b.counts _ _ _ _
    ha.1 ha.2 hb.1 hb.2 hab.1 hab.2 hba.1 hba.2
  rw [timestampi_cmp_le_half, timestampi_cmp_le_half]
  rw [timestamp_temporal_cmp_gt, timestamp_temporal_cmp_lt cpt a b,
    timestamp_temporal_cmp_lt cpt b a]
  simp only [decide_eq_true_eq]
  exact core

/-- Witness of C34: two timestamps one tick apart across the wrap of the tick
counter. -/
theorem timestamp_temporal_cmp_order_witness :
    ¬ (timestamp_temporal_cmp 31250 ⟨4294967295, 17⟩ ⟨0, 17⟩ .lt = true ∧
        timestamp_temporal_cmp 31250 ⟨0, 17⟩ ⟨4294967295, 17⟩ .lt = true) ∧
    (timestamp_temporal_cmp 31250 ⟨4294967295, 17⟩ ⟨0, 17⟩ .lt = true ↔
      timestamp_temporal_cmp 31250 ⟨0, 17⟩ ⟨4294967295, 17⟩ .gt = true) :=
  (timestamp_temporal_cmp_order 31250 ⟨4294967295, 17⟩ ⟨0, 17⟩ (by decide)
    ⟨by decide, by decide⟩ ⟨by decide, by decide⟩).2 (Or.inr (by decide))

/-- Counterexample to C34 as stated: the valid timestamps `(2^31, 0)` and
`(0, 0)` lie exactly half the tick range apart; each compares temporally `<`
the other, and the first is `<` the second although the second is not `>` the
first. -/
theorem timestamp_temporal_cmp_half_apart :
    (⟨2147483648, 0⟩ : timestamp).valid 31250 ∧ (⟨0, 0⟩ : timestamp).valid 31250 ∧
    timestamp_temporal_cmp 31250 ⟨2147483648, 0⟩ ⟨0, 0⟩ .lt = true ∧
    timestamp_temporal_cmp 31250 ⟨0, 0⟩ ⟨2147483648, 0⟩ .lt = true ∧
    timestamp_temporal_cmp 31250 ⟨0, 0⟩ ⟨2147483648, 0⟩ .gt = false := by
  decide

/-- C35, as amended: `timestamp_opposite(in)` returns the timestamp with the
maximum difference from `in`, as measured by `timestamp_diff`, among the
timestamps that `timestamp_temporal_cmp` treats as later than `in`: the
difference of `timestamp_opposite(in)` from a valid `in` is
`(UINT32_MAX / 2, 0)`, it compares temporally `>` with `in`, and every valid
`x` that compares temporally `>` or `>=` with `in` has
`timestamp_diff(x, in) <= timestamp_diff(timestamp_opposite(in), in)` under
`timestampi_cmp`. -/
theorem timestamp_opposite_latest_future (cpt : Nat) (i x : timestamp)
    (hi : i.valid cpt) :
    timestamp_diff cpt (timestamp_opposite i) i = ⟨UINT32_MAX / 2, 0⟩ ∧
    timestamp_temporal_cmp cpt (timestamp_opposite i) i .gt = true ∧
    (timestamp_temporal_cmp cpt x i .gt = true ∨ timestamp_temporal_cmp cpt x i .ge = true →
      timestampi_cmp (timestamp_diff cpt x i)
        (timestamp_diff cpt (timestamp_opposite i) i) .le = true) := by
  have e : timestamp_diff cpt (timestamp_opposite i) i = ⟨UINT32_MAX / 2, 0⟩ := by
    obtain ⟨hit, _⟩ := hi
    obtain ⟨it, ic⟩ := i
    simp only at hit
    simp only [timestamp_diff, timestamp_opposite, UINT32_MAX, ge_iff_le, le_refl, if_true,
      Nat.sub_self, timestamp_interval.mk.injEq, Nat.zero_mod, and_true]
    omega
  refine ⟨e, ?_, ?_⟩
  · rw [timestamp_temporal_cmp_gt, e]
    decide
  · rw [e, timestampi_cmp_le_half]
    intro h
    rcases h with h | h
    · rw [timestamp_temporal_cmp_gt] at h
      simp only [decide_eq_true_eq] at h
      exact h.2
    · simp only [timestamp_temporal_cmp] at h
      revert h
      generalize timestamp_diff cpt x i = d
      obtain ⟨dt, dc⟩ := d
      simp only [timestampi_iszero, timestampi_cmp, timestamp_cmp_internal, cmp_oper.eval,
        UINT32_MAX]
      by_cases h1 : dt = 0 <;> by_cases h2 : dc = 0 <;> by_cases h3 : dt = 4294967295 / 2 <;>
        simp [h1, h2, h3]
      all_goals omega

/-- Witness of C35: the opposite of a timestamp near the wrap of the tick
counter. -/
theorem timestamp_opposite_latest_future_witness :
    timestamp_diff 31250 (timestamp_opposite ⟨4294967000, 17⟩) ⟨4294967000, 17⟩ =
      ⟨UINT32_MAX / 2, 0⟩ ∧
    timestampi_cmp (timestamp_diff 31250 ⟨5, 3⟩ ⟨4294967000, 17⟩)
      (timestamp_diff 31250 (timestamp_opposite ⟨4294967000, 17⟩) ⟨4294967000, 17⟩) .le =
      true :=
  have h := timestamp_opposite_latest_future 31250 ⟨4294967000, 17⟩ ⟨5, 3⟩
    ⟨by decide, by decide⟩
  ⟨h.1, h.2.2 (Or.inl (by decide))⟩

/-- Counterexample to C35 as stated: for `in = (0, 0)` the valid timestamp
`x = (2^31, 0)` has a larger difference from `in` than
`timestamp_opposite(in)` has, and so has `(UINT32_MAX, 31249)`, the timestamp
one count before `in`. -/
theorem timestamp_opposite_not_maximal :
    (⟨0, 0⟩ : timestamp).valid 31250 ∧ (⟨2147483648, 0⟩ : timestamp).valid 31250 ∧
    timestampi_cmp (timestamp_diff 31250 ⟨2147483648, 0⟩ ⟨0, 0⟩)
      (timestamp_diff 31250 (timestamp_opposite ⟨0, 0⟩) ⟨0, 0⟩) .le = false ∧
    timestamp_diff 31250 (timestamp_opposite ⟨0, 0⟩) ⟨0, 0⟩ = ⟨2147483647, 0⟩ ∧
    timestamp_diff 31250 ⟨4294967295, 31249⟩ ⟨0, 0⟩ = ⟨4294967295, 31249⟩ := by
  decide

/-! ## Theorems: enqueueing from a completion callback -/

/-- What `I2C_SETSTATE` into a terminal state leaves of the queue when the
callback of the head calls `i2c_transaction` with an accepted request: with a
single transaction queued the queue is empty afterwards, the node the callback
enqueued is gone; with more queued the queue is the rest followed by the new
node.  In both cases the `i2c_transaction` call of the callback returned
true. -/
theorem I2C_SETSTATE_callback_enqueue (k : timekeeping_config) (now cnow : timestamp)
    (r : i2c_request) (st : i2c_states) (s1 : i2c_engine) (tr : i2c_transaction_list)
    (rest : List i2c_transaction_list)
    (hst : st = I2C_TRANS_OK_STOP_DO ∨ st = I2C_TRANS_FAILED_RESET)
    (hne : s1.i2c_state ≠ st) (hq : s1.i2c_transaction_list_head = tr :: rest)
    (hf : tr.func ≠ NULL) (hacc : r.accepted true = true) :
    ∃ s', I2C_SETSTATE k (i2c_callback_enqueue k cnow r) now st s1 = some s' ∧
      s'.i2c_state = st ∧
      s'.i2c_transaction_list_head = (if rest = [] then [] else rest ++ [r.node]) ∧
      s'.released = s1.released ++ [⟨tr, decide (st = I2C_TRANS_OK_STOP_DO)⟩] := by
  simp only [i2c_request.accepted, Bool.not_eq_true', Bool.or_eq_false_iff,
    decide_eq_false_iff_not, Bool.not_eq_false] at hacc
  obtain ⟨⟨⟨h1, h2⟩, h3⟩, _⟩ := hacc
  obtain ⟨s', h⟩ := I2C_SETSTATE_total k (i2c_callback_enqueue k cnow r) now st s1
    (Or.inl (by rw [hq]; simp))
  refine ⟨s', h, ?_⟩
  unfold I2C_SETSTATE at h
  rcases hst with rfl | rfl
  all_goals
    simp only [ne_eq, hne, not_false_eq_true, if_true, i2c_set_state_do, hq, hf, true_or,
      or_true, Option.map_some', i2c_is_reset_idle_poll_state, Option.some.injEq,
      i2c_callback_enqueue, i2c_transaction_req, i2c_transaction, h1, h2, h3, if_false,
      reduceCtorEq, decide_False, decide_True, Bool.or_self, Bool.not_false, Bool.and_false,
      Bool.false_eq_true] at h
    subst h
    cases rest <;> simp [i2c_request.node]

/-- C38, the code at the failing input: the engine is in `I2C_WRITE` with one
transaction queued, a write to address `0x48` whose last byte has been sent and
whose completion callback enqueues a one-byte read from address `0x4b`.  The
hardware reports the byte acknowledged; the poll enters
`I2C_TRANS_OK_STOP_DO`, the callback runs and its `i2c_transaction` call
returns true, and when the poll returns the queue is empty: the transaction
just accepted is gone, because `i2c_set_state_do` read the `next` link of the
head before it invoked the callback.  With a second transaction queued behind
the head the same poll leaves that one followed by the newly enqueued one. -/
theorem i2c_callback_enqueue_lost :
    (i2c_poll_atomic ⟨16000000, 64, 8⟩
      (i2c_callback_enqueue ⟨16000000, 64, 8⟩ ⟨7, 2⟩ ⟨0x4b, 0, 0, 200, 1, 6, 2⟩)
      ⟨0x80, 0x28, 0, ⟨7, 1⟩, ⟨7, 1⟩⟩
      { i2c_boot 0 0 0 0 (fun _ => 0) with
        i2c_state := I2C_WRITE,
        i2c_transaction_list_head := [⟨0x48, 101, 0, 0, 0, 5, 1, 0⟩] }).map
      (fun s => (s.i2c_state, s.i2c_transaction_list_head)) =
      some (I2C_TRANS_OK_STOP_DO, []) ∧
    i2c_callback_enqueue_result ⟨16000000, 64, 8⟩ ⟨7, 2⟩ ⟨0x4b, 0, 0, 200, 1, 6, 2⟩
      { i2c_boot 0x80 0x28 0 0 (fun _ => 0) with
        i2c_state := I2C_TRANS_OK_STOP_DO,
        i2c_transaction_list_head := [⟨0x48, 101, 0, 0, 0, 5, 1, 0⟩] } = some true ∧
    (i2c_poll_atomic ⟨16000000, 64, 8⟩
      (i2c_callback_enqueue ⟨16000000, 64, 8⟩ ⟨7, 2⟩ ⟨0x4b, 0, 0, 200, 1, 6, 2⟩)
      ⟨0x80, 0x28, 0, ⟨7, 1⟩, ⟨7, 1⟩⟩
      { i2c_boot 0 0 0 0 (fun _ => 0) with
        i2c_state := I2C_WRITE,
        i2c_transaction_list_head :=
          [⟨0x48, 101, 0, 0, 0, 5, 1, 0⟩, ⟨0x4f, 300, 1, 0, 0, 0, 3, 0⟩] }).map
      (fun s => (s.i2c_state, s.i2c_transaction_list_head)) =
      some (I2C_TRANS_OK_STOP_DO,
        [⟨0x4f, 300, 1, 0, 0, 0, 3, 0⟩, ⟨0x4b, 0, 0, 200, 1, 6, 2, 0⟩]) := by
  decide

/-- The `i2c_transaction` call of an enqueueing callback returns true, in
whatever state the callback is invoked, when the arguments are well formed. -/
theorem i2c_callback_enqueue_accepts (k : timekeeping_config) (now : timestamp)
    (r : i2c_request) (s : i2c_engine) (hacc : r.accepted true = true) :
    i2c_callback_enqueue_result k now r s = some true := by
  obtain ⟨s', h, _⟩ := i2c_transaction_req_effect k (fun _ s1 => s1) now true r s
  rw [i2c_callback_enqueue_result, h, hacc]
  rfl

/-- C9, the code at the failing input: a one-byte write T1 to address `0x48`
(callback 5, user data 1) is enqueued on the idle engine and completes with
every phase acknowledged; its completion callback enqueues a one-byte read T2
from address `0x4b` (callback 6, user data 2), and that `i2c_transaction` call
returns true.  When the poll returns the queue is empty, the stop condition
is sent and the engine goes idle: T2 is gone.  Then a one-byte write T3 to
address `0x4f` (callback 7, user data 3) is enqueued and completes.  The
callbacks invoked are those of T1 and T3, which is no prefix of the callbacks
of the enqueue sequence T1, T2, T3: T3 has completed before T2, enqueued
earlier. -/
theorem i2c_callback_enqueue_breaks_fifo :
    (i2c_run ⟨16000000, 64, 8⟩
      (i2c_callback_enqueue_on ⟨16000000, 64, 8⟩ ⟨7, 6⟩ 1 ⟨0x4b, 0, 0, 200, 1, 6, 2⟩)
      [i2c_op.transaction ⟨7, 0⟩ true ⟨0x48, 100, 1, 0, 0, 5, 1⟩,
        i2c_op.poll ⟨0, 0, 0, ⟨7, 1⟩, ⟨7, 1⟩⟩,
        i2c_op.poll ⟨0x80, 0x08, 0, ⟨7, 2⟩, ⟨7, 2⟩⟩,
        i2c_op.poll ⟨0x80, 0x18, 0, ⟨7, 3⟩, ⟨7, 3⟩⟩,
        i2c_op.poll ⟨0x80, 0x18, 0, ⟨7, 4⟩, ⟨7, 4⟩⟩,
        i2c_op.poll ⟨0x80, 0x28, 0, ⟨7, 5⟩, ⟨7, 5⟩⟩]
      (i2c_boot 0 0 0 0 (fun _ => 0))).map
      (fun s => (s.i2c_state, s.i2c_transaction_list_head, s.completions)) =
      some (I2C_TRANS_OK_STOP_DO, [], [⟨5, 1, true, 0⟩]) ∧
    (∀ s : i2c_engine,
      i2c_callback_enqueue_result ⟨16000000, 64, 8⟩ ⟨7, 6⟩ ⟨0x4b, 0, 0, 200, 1, 6, 2⟩ s =
        some true) ∧
    (i2c_run ⟨16000000, 64, 8⟩
      (i2c_callback_enqueue_on ⟨16000000, 64, 8⟩ ⟨7, 6⟩ 1 ⟨0x4b, 0, 0, 200, 1, 6, 2⟩)
      [i2c_op.transaction ⟨7, 0⟩ true ⟨0x48, 100, 1, 0, 0, 5, 1⟩,
        i2c_op.poll ⟨0, 0, 0, ⟨7, 1⟩, ⟨7, 1⟩⟩,
        i2c_op.poll ⟨0x80, 0x08, 0, ⟨7, 2⟩, ⟨7, 2⟩⟩,
        i2c_op.poll ⟨0x80, 0x18, 0, ⟨7, 3⟩, ⟨7, 3⟩⟩,
        i2c_op.poll ⟨0x80, 0x18, 0, ⟨7, 4⟩, ⟨7, 4⟩⟩,
        i2c_op.poll ⟨0x80, 0x28, 0, ⟨7, 5⟩, ⟨7, 5⟩⟩,
        i2c_op.poll ⟨0, 0xf8, 0, ⟨7, 7⟩, ⟨7, 7⟩⟩,
        i2c_op.poll ⟨0, 0xf8, 0, ⟨7, 8⟩, ⟨7, 8⟩⟩]
      (i2c_boot 0 0 0 0 (fun _ => 0))).map
      (fun s => (s.i2c_state, s.i2c_transaction_list_head, s.completions)) =
      some (I2C_IDLE, [], [⟨5, 1, true, 0⟩]) ∧
    (i2c_run ⟨16000000, 64, 8⟩
      (i2c_callback_enqueue_on ⟨16000000, 64, 8⟩ ⟨7, 6⟩ 1 ⟨0x4b, 0, 0, 200, 1, 6, 2⟩)
      [i2c_op.transaction ⟨7, 0⟩ true ⟨0x48, 100, 1, 0, 0, 5, 1⟩,
        i2c_op.poll ⟨0, 0, 0, ⟨7, 1⟩, ⟨7, 1⟩⟩,
        i2c_op.poll ⟨0x80, 0x08, 0, ⟨7, 2⟩, ⟨7, 2⟩⟩,
        i2c_op.poll ⟨0x80, 0x18, 0, ⟨7, 3⟩, ⟨7, 3⟩⟩,
        i2c_op.poll ⟨0x80, 0x18, 0, ⟨7, 4⟩, ⟨7, 4⟩⟩,
        i2c_op.poll ⟨0x80, 0x28, 0, ⟨7, 5⟩, ⟨7, 5⟩⟩,
        i2c_op.poll ⟨0, 0xf8, 0, ⟨7, 7⟩, ⟨7, 7⟩⟩,
        i2c_op.poll ⟨0, 0xf8, 0, ⟨7, 8⟩, ⟨7, 8⟩⟩,
        i2c_op.transaction ⟨7, 9⟩ true ⟨0x4f, 100, 1, 0, 0, 7, 3⟩,
        i2c_op.poll ⟨0, 0, 0, ⟨8, 1⟩, ⟨8, 1⟩⟩,
        i2c_op.poll ⟨0x80, 0x08, 0, ⟨8, 2⟩, ⟨8, 2⟩⟩,
        i2c_op.poll ⟨0x80, 0x18, 0, ⟨8, 3⟩, ⟨8, 3⟩⟩,
        i2c_op.poll ⟨0x80, 0x18, 0, ⟨8, 4⟩, ⟨8, 4⟩⟩,
        i2c_op.poll ⟨0x80, 0x28, 0, ⟨8, 5⟩, ⟨8, 5⟩⟩]
      (i2c_boot 0 0 0 0 (fun _ => 0))).map
      (fun s => (s.i2c_state, s.i2c_transaction_list_head, s.released, s.completions)) =
      some (I2C_TRANS_OK_STOP_DO, [],
        [⟨⟨0x48, 101, 0, 0, 0, 5, 1, 0⟩, true⟩, ⟨⟨0x4f, 101, 0, 0, 0, 7, 3, 0⟩, true⟩],
        [⟨5, 1, true, 0⟩, ⟨7, 3, true, 0⟩]) ∧
    ¬ (([⟨5, 1, true, 0⟩, ⟨7, 3, true, 0⟩] : List i2c_completion).map i2c_completion.ident <+:
      ([⟨0x48, 100, 1, 0, 0, 5, 1⟩, ⟨0x4b, 0, 0, 200, 1, 6, 2⟩,
        ⟨0x4f, 100, 1, 0, 0, 7, 3⟩] : List i2c_request).map
        (fun r => (r.completion, r.comp_data))) := by
  refine ⟨by decide, fun s => i2c_callback_enqueue_accepts _ _ _ s (by decide), by decide,
    by decide, by decide⟩

/-- C10, the code at the failing input: a one-byte read T1 from address `0x4b`
(callback 5, user data 1) is enqueued on the idle engine and its address is
not acknowledged; its completion callback retries by enqueueing the read again
as T2 (user data 2), and that `i2c_transaction` call returns true.  When the
callback returns the queue holds T1 and T2; when the step that entered
`I2C_TRANS_FAILED_RESET` returns the queue is empty: the step has removed both
T1 and T2 although it released and called back T1 only.  The engine resets
and goes idle; T2 is queued by an accepted call and never released, and its
callback is never invoked. -/
theorem i2c_callback_retry_never_released :
    (i2c_run ⟨16000000, 64, 8⟩
      (i2c_callback_enqueue_on ⟨16000000, 64, 8⟩ ⟨7, 4⟩ 1 ⟨0x4b, 0, 0, 200, 1, 5, 2⟩)
      [i2c_op.transaction ⟨7, 0⟩ true ⟨0x4b, 0, 0, 200, 1, 5, 1⟩,
        i2c_op.poll ⟨0, 0, 0, ⟨7, 1⟩, ⟨7, 1⟩⟩,
        i2c_op.poll ⟨0x80, 0x08, 0, ⟨7, 2⟩, ⟨7, 2⟩⟩]
      (i2c_boot 0 0 0 0 (fun _ => 0))).map
      (fun s => (s.i2c_state, s.i2c_transaction_list_head, s.released, s.completions)) =
      some (I2C_ADDR, [⟨0x4b, 0, 0, 200, 1, 5, 1, 0⟩], [], []) ∧
    (∀ s : i2c_engine,
      i2c_callback_enqueue_result ⟨16000000, 64, 8⟩ ⟨7, 4⟩ ⟨0x4b, 0, 0, 200, 1, 5, 2⟩ s =
        some true) ∧
    (i2c_callback_enqueue_on ⟨16000000, 64, 8⟩ ⟨7, 4⟩ 1 ⟨0x4b, 0, 0, 200, 1, 5, 2⟩
      ⟨5, 1, false, 0⟩
      { i2c_boot 0x80 0x48 0 0 (fun _ => 0) with
        i2c_state := I2C_TRANS_FAILED_RESET,
        i2c_transaction_list_head := [⟨0x4b, 0, 0, 200, 1, 5, 1, 0⟩] }).i2c_transaction_list_head =
      [⟨0x4b, 0, 0, 200, 1, 5, 1, 0⟩, ⟨0x4b, 0, 0, 200, 1, 5, 2, 0⟩] ∧
    (i2c_run ⟨16000000, 64, 8⟩
      (i2c_callback_enqueue_on ⟨16000000, 64, 8⟩ ⟨7, 4⟩ 1 ⟨0x4b, 0, 0, 200, 1, 5, 2⟩)
      [i2c_op.transaction ⟨7, 0⟩ true ⟨0x4b, 0, 0, 200, 1, 5, 1⟩,
        i2c_op.poll ⟨0, 0, 0, ⟨7, 1⟩, ⟨7, 1⟩⟩,
        i2c_op.poll ⟨0x80, 0x08, 0, ⟨7, 2⟩, ⟨7, 2⟩⟩,
        i2c_op.poll ⟨0x80, 0x48, 0, ⟨7, 3⟩, ⟨7, 3⟩⟩]
      (i2c_boot 0 0 0 0 (fun _ => 0))).map
      (fun s => (s.i2c_state, s.i2c_transaction_list_head, s.released, s.completions)) =
      some (I2C_TRANS_FAILED_RESET, [], [⟨⟨0x4b, 0, 0, 200, 1, 5, 1, 0⟩, false⟩],
        [⟨5, 1, false, 0⟩]) ∧
    (i2c_run ⟨16000000, 64, 8⟩
      (i2c_callback_enqueue_on ⟨16000000, 64, 8⟩ ⟨7, 4⟩ 1 ⟨0x4b, 0, 0, 200, 1, 5, 2⟩)
      [i2c_op.transaction ⟨7, 0⟩ true ⟨0x4b, 0, 0, 200, 1, 5, 1⟩,
        i2c_op.poll ⟨0, 0, 0, ⟨7, 1⟩, ⟨7, 1⟩⟩,
        i2c_op.poll ⟨0x80, 0x08, 0, ⟨7, 2⟩, ⟨7, 2⟩⟩,
        i2c_op.poll ⟨0x80, 0x48, 0, ⟨7, 3⟩, ⟨7, 3⟩⟩,
        i2c_op.poll ⟨0, 0xf8, 0, ⟨7, 5⟩, ⟨7, 5⟩⟩,
        i2c_op.poll ⟨0, 0xf8, 0, ⟨7, 6⟩, ⟨7, 6⟩⟩,
        i2c_op.poll ⟨0, 0xf8, 0, ⟨8, 0⟩, ⟨8, 0⟩⟩]
      (i2c_boot 0 0 0 0 (fun _ => 0))).map
      (fun s => (s.i2c_state, s.i2c_transaction_list_head, s.released, s.completions)) =
      some (I2C_IDLE, [], [⟨⟨0x4b, 0, 0, 200, 1, 5, 1, 0⟩, false⟩], [⟨5, 1, false, 0⟩]) := by
  refine ⟨by decide, fun s => i2c_callback_enqueue_accepts _ _ _ s (by decide), by decide,
    by decide, by decide⟩

/-! ## Theorems: the queue head and the wake-up times of the engine -/

/-- What `i2c_transaction` does to the state and to the state-changed flag:
on an idle engine an accepted request sets `I2C_START_DO` and the flag, every
other call leaves both alone. -/
theorem i2c_transaction_req_changed (k : timekeeping_config) (cb : i2c_callbacks)
    (now : timestamp) (malloc_ok : Bool) (r : i2c_request) (s : i2c_engine) :
    ∃ s', i2c_transaction_req k cb now malloc_ok r s = some (r.accepted malloc_ok, s') ∧
      s'.i2c_state =
        (if s.i2c_state = I2C_IDLE ∧ r.accepted malloc_ok = true then I2C_START_DO
         else s.i2c_state) ∧
      s'.i2c_state_changed =
        (if s.i2c_state = I2C_IDLE ∧ r.accepted malloc_ok = true then true
         else s.i2c_state_changed) ∧
      s'.i2c_transaction_list_head = s.i2c_transaction_list_head ++
        (if r.accepted malloc_ok = true then [r.node] else []) := by
  unfold i2c_transaction_req i2c_transaction
  by_cases h1 : r.wrlen = 0 ∧ r.rdlen = 0
  · exact ⟨s, by simp [i2c_request.accepted, h1], by simp [i2c_request.accepted, h1],
      by simp [i2c_request.accepted, h1], by simp [i2c_request.accepted, h1]⟩
  by_cases h2 : r.wrlen > 0 ∧ r.wrbuf = NULL
  · exact ⟨s, by simp [i2c_request.accepted, h1, h2], by simp [i2c_request.accepted, h2],
      by simp [i2c_request.accepted, h2], by simp [i2c_request.accepted, h2]⟩
  by_cases h3 : r.rdlen > 0 ∧ r.rdbuf = NULL
  · exact ⟨s, by simp [i2c_request.accepted, h1, h2, h3], by simp [i2c_request.accepted, h3],
      by simp [i2c_request.accepted, h3], by simp [i2c_request.accepted, h3]⟩
  by_cases h4 : malloc_ok = false
  · exact ⟨s, by simp [i2c_request.accepted, h1, h2, h3, h4],
      by simp [i2c_request.accepted, h4], by simp [i2c_request.accepted, h4],
      by simp [i2c_request.accepted, h4]⟩
  obtain rfl : malloc_ok = true := by simpa using h4
  have hacc : r.accepted true = true := by
    simp [i2c_request.accepted, h1, h2, h3]
  simp only [h1, h2, h3, if_false, reduceCtorEq, hacc, and_true, if_true]
  by_cases hs : s.i2c_state = I2C_IDLE
  · simp only [hs, if_true, I2C_SETSTATE, ne_eq, not_false_eq_true, i2c_set_state_do,
      reduceCtorEq, or_self, if_false, Option.map_some', i2c_is_reset_idle_poll_state,
      decide_False, Bool.or_self, Bool.and_false, Bool.false_eq_true]
    exact ⟨_, rfl, rfl, rfl, rfl⟩
  · simp only [hs, if_false]
    exact ⟨_, rfl, rfl, rfl, rfl⟩

/-- One call keeps the wake-up invariant of the engine: the engine is idle
only with an empty queue, and while the state-changed flag is clear the state
is not one that acts at once. -/
theorem i2c_step_wake_inv (k : timekeeping_config) {cb : i2c_callbacks}
    (hcb : i2c_callbacks_inert cb) (op : i2c_op) {s s' : i2c_engine}
    (h : i2c_step k cb op s = some s')
    (h1 : s.i2c_state = I2C_IDLE → s.i2c_transaction_list_head = [])
    (h2 : s.i2c_state_changed = false → s.i2c_state.acts_at_once = false) :
    (s'.i2c_state = I2C_IDLE → s'.i2c_transaction_list_head = []) ∧
    (s'.i2c_state_changed = false → s'.i2c_state.acts_at_once = false) := by
  cases op with
  | transaction now malloc_ok r =>
    obtain ⟨s1, e, a1, a2, a3⟩ := i2c_transaction_req_changed k cb now malloc_ok r s
    simp only [i2c_step, e, Option.map_some', Option.some.injEq] at h
    subst h
    by_cases hc : s.i2c_state = I2C_IDLE ∧ r.accepted malloc_ok = true
    · rw [a1, a2, if_pos hc, if_pos hc]
      exact ⟨fun h => (by cases h), fun h => (by cases h)⟩
    · rw [a1, a2, a3, if_neg hc, if_neg hc]
      refine ⟨fun hi => ?_, h2⟩
      have hna : ¬ r.accepted malloc_ok = true := fun ha => hc ⟨hi, ha⟩
      simp [hna, h1 hi]
  | poll hw =>
    simp only [i2c_step] at h
    obtain ⟨_, hch, hact, _, _⟩ := i2c_poll_atomic_step k hcb hw h
    obtain ⟨_, hkeep, _, hidle⟩ := i2c_poll_atomic_effect k hcb hw h
    constructor
    · intro hi
      have hnt : ¬ i2c_enters_terminal s s' := by
        intro ht
        rcases ht.1 with h0 | h0 <;> rw [hi] at h0 <;> cases h0
      obtain ⟨_, _, hid, _⟩ := hkeep hnt
      have hq : s.i2c_transaction_list_head = [] := by
        by_cases hs : s.i2c_state = I2C_IDLE
        · exact h1 hs
        · exact hidle hi hs
      rw [hq] at hid
      simpa using hid
    · intro hc
      rw [hch] at hc
      have hsame : s'.i2c_state = s.i2c_state := by simpa using hc
      cases ha : s'.i2c_state.acts_at_once
      · rfl
      · rw [hsame] at ha
        exact absurd hsame (hact ha)

/-- The wake-up invariant along a sequence of calls, together with the
presence of the queue head where it is used: the calls all return. -/
theorem i2c_run_wake_inv (k : timekeeping_config) {cb : i2c_callbacks}
    (hcb : i2c_callbacks_inert cb) (ops : List i2c_op) :
    ∀ s : i2c_engine, i2c_head_present s →
      s.completions = s.released.filterMap i2c_release.callback →
      (s.i2c_state = I2C_IDLE → s.i2c_transaction_list_head = []) →
      (s.i2c_state_changed = false → s.i2c_state.acts_at_once = false) →
      ∃ s', i2c_run k cb ops s = some s' ∧ i2c_head_present s' ∧
        (s'.i2c_state = I2C_IDLE → s'.i2c_transaction_list_head = []) ∧
        (s'.i2c_state_changed = false → s'.i2c_state.acts_at_once = false) := by
  induction ops with
  | nil =>
    intro s hp _ h1 h2
    exact ⟨s, rfl, hp, h1, h2⟩
  | cons op ops ih =>
    intro s hp hc h1 h2
    obtain ⟨s1, e1, hp1, hc1, _, _⟩ := i2c_step_accounting k hcb op s hp hc
    obtain ⟨g1, g2⟩ := i2c_step_wake_inv k hcb op e1 h1 h2
    obtain ⟨s2, e2, hp2, f1, f2⟩ := ih s1 hp1 hc1 g1 g2
    exact ⟨s2, by simp [i2c_run, e1, e2], hp2, f1, f2⟩

/-- C36: no missed wake-up in the bus engine.  In every state reached from
`i2c_setup` (which has left the state `s0`) by `i2c_transaction` and
`i2c_poll_atomic` calls, under arbitrary
hardware inputs and with callbacks that do not call into the module (the calls
all return): the engine is in `I2C_IDLE` only when the queue is empty; if the
state-changed flag is clear, as it can be right after an `i2c_poll_atomic`,
the state is `I2C_IDLE`, a settling state (`I2C_RESET`,
`I2C_TRANS_OK_STOP_TX`) or a hardware-wait state (`I2C_START_TX`,
`I2C_REPEATED_START_TX`, `I2C_ADDR`, `I2C_WRITE`, `I2C_READ`); and
`i2c_get_next_poll_time` reaches its last branch, which returns the
`max_future` sentinel, only when the engine is idle with nothing queued, and
returns the current time, the settle poll time or the transaction deadline
otherwise. -/
theorem i2c_no_missed_wakeup (k : timekeeping_config) (cb : i2c_callbacks)
    (hcb : i2c_callbacks_inert cb) (clock twcr twsr twdr twbr : Nat) (mem : Nat → Nat)
    (s0 : i2c_engine)
    (hsetup : i2c_setup k clock (i2c_boot twcr twsr twdr twbr mem) = some s0)
    (ops : List i2c_op) (now : timestamp) :
    ∃ s, i2c_run k cb ops s0 = some s ∧
      (s.i2c_state = I2C_IDLE → s.i2c_transaction_list_head = []) ∧
      (s.i2c_state_changed = false →
        s.i2c_state = I2C_IDLE ∨ s.i2c_state = I2C_RESET ∨
        s.i2c_state = I2C_TRANS_OK_STOP_TX ∨ s.i2c_state = I2C_START_TX ∨
        s.i2c_state = I2C_REPEATED_START_TX ∨ s.i2c_state = I2C_ADDR ∨
        s.i2c_state = I2C_WRITE ∨ s.i2c_state = I2C_READ) ∧
      (s.i2c_state_changed = false → i2c_is_reset_idle_poll_state s = false →
        i2c_is_transaction_wait_deadline_state s = false →
        i2c_get_next_poll_time now s = timekeeping_timestamp_max_future now ∧
        s.i2c_state = I2C_IDLE ∧ s.i2c_transaction_list_head = []) ∧
      (¬ (s.i2c_state_changed = false ∧ i2c_is_reset_idle_poll_state s = false ∧
          i2c_is_transaction_wait_deadline_state s = false) →
        i2c_get_next_poll_time now s = now ∨
        i2c_get_next_poll_time now s = s.i2c_next_reset_idle_poll ∨
        i2c_get_next_poll_time now s = s.i2c_transaction_deadline) := by
  obtain ⟨hst, hch, hq, hr, hc⟩ := i2c_setup_boot k clock twcr twsr twdr twbr mem s0 hsetup
  obtain ⟨s, hrun, _, h1, h2⟩ := i2c_run_wake_inv k hcb ops
    s0
    (by intro hu; rw [hst] at hu; simp [i2c_states.uses_head] at hu)
    (by rw [hc, hr]; rfl) (fun _ => hq) (fun _ => by rw [hst]; rfl)
  have h3 : s.i2c_state_changed = false →
      s.i2c_state = I2C_IDLE ∨ s.i2c_state = I2C_RESET ∨
      s.i2c_state = I2C_TRANS_OK_STOP_TX ∨ s.i2c_state = I2C_START_TX ∨
      s.i2c_state = I2C_REPEATED_START_TX ∨ s.i2c_state = I2C_ADDR ∨
      s.i2c_state = I2C_WRITE ∨ s.i2c_state = I2C_READ := by
    intro hc0
    have := h2 hc0
    revert this
    cases s.i2c_state <;> simp [i2c_states.acts_at_once]
  refine ⟨s, hrun, h1, h3, fun hc0 hr0 hw0 => ?_, fun hn => ?_⟩
  · have hi : s.i2c_state = I2C_IDLE := by
      have := h3 hc0
      revert this hr0 hw0
      simp only [i2c_is_reset_idle_poll_state, i2c_is_transaction_wait_deadline_state]
      cases s.i2c_state <;> simp
    exact ⟨by simp [i2c_get_next_poll_time, hc0, hr0, hw0], hi, h1 hi⟩
  · simp only [i2c_get_next_poll_time]
    cases hc0 : s.i2c_state_changed
    · cases hr0 : i2c_is_reset_idle_poll_state s
      · cases hw0 : i2c_is_transaction_wait_deadline_state s
        · exact absurd ⟨hc0, hr0, hw0⟩ hn
        · simp
      · simp
    · simp

/-- Witness of C36: a one-byte write is enqueued and the start condition is
requested and sent; the engine waits for the hardware in `I2C_START_TX`. -/
theorem i2c_no_missed_wakeup_witness :
    ∃ s0, i2c_setup ⟨16000000, 64, 8⟩ 100000 (i2c_boot 0 0 0 0 (fun _ => 0)) = some s0 ∧
    ∃ s, i2c_run ⟨16000000, 64, 8⟩ (fun _ s => s)
        [i2c_op.transaction ⟨7, 0⟩ true ⟨0x48, 100, 1, 0, 0, 5, 1⟩,
         i2c_op.poll ⟨0, 0, 0, ⟨7, 1⟩, ⟨7, 1⟩⟩, i2c_op.poll ⟨0, 0, 0, ⟨7, 2⟩, ⟨7, 2⟩⟩]
        s0 = some s ∧
      (s.i2c_state = I2C_IDLE → s.i2c_transaction_list_head = []) ∧
      (s.i2c_state_changed = false →
        s.i2c_state = I2C_IDLE ∨ s.i2c_state = I2C_RESET ∨
        s.i2c_state = I2C_TRANS_OK_STOP_TX ∨ s.i2c_state = I2C_START_TX ∨
        s.i2c_state = I2C_REPEATED_START_TX ∨ s.i2c_state = I2C_ADDR ∨
        s.i2c_state = I2C_WRITE ∨ s.i2c_state = I2C_READ) :=
  ⟨_, rfl,
    match i2c_no_missed_wakeup ⟨16000000, 64, 8⟩ (fun _ s => s) (fun _ _ => rfl)
    100000 0 0 0 0 (fun _ => 0) _ rfl
    [i2c_op.transaction ⟨7, 0⟩ true ⟨0x48, 100, 1, 0, 0, 5, 1⟩,
     i2c_op.poll ⟨0, 0, 0, ⟨7, 1⟩, ⟨7, 1⟩⟩, i2c_op.poll ⟨0, 0, 0, ⟨7, 2⟩, ⟨7, 2⟩⟩] ⟨7, 3⟩ with
  | ⟨s, h, h1, h2, _⟩ => ⟨s, h, h1, h2⟩⟩

/-- C37: the queue head is never dereferenced when the queue is empty.  With
callbacks that do not call into the module, every sequence of
`i2c_transaction` and `i2c_poll_atomic` calls after `i2c_setup` (which has left
the state `s0`), under arbitrary hardware register values, returns (no call dereferences a `NULL`
head), and in the state `s` it reaches the queue is not empty whenever the
state is `I2C_START_DO`, `I2C_START_TX`, `I2C_ADDR`, `I2C_WRITE_FIRST`,
`I2C_WRITE`, `I2C_REPEATED_START_DO`, `I2C_REPEATED_START_TX`,
`I2C_READ_FIRST` or `I2C_READ`; every further call returns as well, and when
it enters `I2C_TRANS_OK_STOP_DO` or `I2C_TRANS_FAILED_RESET` the queue was not
empty: its head is the node released. -/
theorem i2c_head_never_null (k : timekeeping_config) (cb : i2c_callbacks)
    (hcb : i2c_callbacks_inert cb) (clock twcr twsr twdr twbr : Nat) (mem : Nat → Nat)
    (s0 : i2c_engine)
    (hsetup : i2c_setup k clock (i2c_boot twcr twsr twdr twbr mem) = some s0)
    (ops : List i2c_op) (op : i2c_op) :
    ∃ s s', i2c_run k cb ops s0 = some s ∧
      i2c_step k cb op s = some s' ∧
      (s.i2c_state = I2C_START_DO ∨ s.i2c_state = I2C_START_TX ∨ s.i2c_state = I2C_ADDR ∨
        s.i2c_state = I2C_WRITE_FIRST ∨ s.i2c_state = I2C_WRITE ∨
        s.i2c_state = I2C_REPEATED_START_DO ∨ s.i2c_state = I2C_REPEATED_START_TX ∨
        s.i2c_state = I2C_READ_FIRST ∨ s.i2c_state = I2C_READ →
        s.i2c_transaction_list_head ≠ []) ∧
      ((s'.i2c_state = I2C_TRANS_OK_STOP_DO ∨ s'.i2c_state = I2C_TRANS_FAILED_RESET) →
        s'.i2c_state ≠ s.i2c_state →
        ∃ tr rest, s.i2c_transaction_list_head = tr :: rest ∧
          s'.i2c_transaction_list_head = rest) := by
  obtain ⟨hst, _, hq, hr, hc⟩ := i2c_setup_boot k clock twcr twsr twdr twbr mem s0 hsetup
  obtain ⟨s, hrun, hp, _, _, _⟩ := i2c_run_accounting k hcb ops
    s0
    (by intro hu; rw [hst] at hu; simp [i2c_states.uses_head] at hu)
    (by rw [hc, hr]; rfl)
  obtain ⟨s', hstep, hterm, _⟩ := i2c_step_release_rule k hcb op s hp
  refine ⟨s, s', hrun, hstep, fun hs => hp ?_, fun ht hne => ?_⟩
  · rcases hs with h | h | h | h | h | h | h | h | h <;> rw [h] <;> rfl
  · obtain ⟨tr, rest, _, e1, _, e2, _⟩ := hterm ⟨ht, hne⟩
    exact ⟨tr, rest, e1, e2⟩

/-- Witness of C37: a one-byte write is enqueued, started and addressed; the
address is not acknowledged and the next call enters
`I2C_TRANS_FAILED_RESET`. -/
theorem i2c_head_never_null_witness :
    ∃ s0, i2c_setup ⟨16000000, 64, 8⟩ 100000 (i2c_boot 0 0 0 0 (fun _ => 0)) = some s0 ∧
    ∃ s s', i2c_run ⟨16000000, 64, 8⟩ (fun _ s => s)
        [i2c_op.transaction ⟨7, 0⟩ true ⟨0x48, 100, 1, 0, 0, 5, 1⟩,
         i2c_op.poll ⟨0, 0, 0, ⟨7, 1⟩, ⟨7, 1⟩⟩, i2c_op.poll ⟨0x80, 0x08, 0, ⟨7, 2⟩, ⟨7, 2⟩⟩]
        s0 = some s ∧
      i2c_step ⟨16000000, 64, 8⟩ (fun _ s => s)
        (i2c_op.poll ⟨0x80, 0x20, 0, ⟨7, 3⟩, ⟨7, 3⟩⟩) s = some s' ∧
      (s.i2c_state = I2C_START_DO ∨ s.i2c_state = I2C_START_TX ∨ s.i2c_state = I2C_ADDR ∨
        s.i2c_state = I2C_WRITE_FIRST ∨ s.i2c_state = I2C_WRITE ∨
        s.i2c_state = I2C_REPEATED_START_DO ∨ s.i2c_state = I2C_REPEATED_START_TX ∨
        s.i2c_state = I2C_READ_FIRST ∨ s.i2c_state = I2C_READ →
        s.i2c_transaction_list_head ≠ []) ∧
      ((s'.i2c_state = I2C_TRANS_OK_STOP_DO ∨ s'.i2c_state = I2C_TRANS_FAILED_RESET) →
        s'.i2c_state ≠ s.i2c_state →
        ∃ tr rest, s.i2c_transaction_list_head = tr :: rest ∧
          s'.i2c_transaction_list_head = rest) :=
  ⟨_, rfl,
    i2c_head_never_null ⟨16000000, 64, 8⟩ (fun _ s => s) (fun _ _ => rfl)
    100000 0 0 0 0 (fun _ => 0) _ rfl _ _⟩

/-! ## Theorems: address byte and read phase -/

/-- The address byte in numbers: the low eight bits of the address shifted
left by one with the direction bit or-ed in have the direction bit as bit 0
and the low seven bits of the address above it. -/
theorem i2c_address_byte (addr : Nat) (rd : Bool) :
    (((addr <<< 1) % 256) ||| (if rd = true then TW_READ else TW_WRITE)) % 256 =
      2 * (addr % 128) + (if rd = true then 1 else 0) := by
  have e : (addr <<< 1) % 256 = 2 * (addr % 128) := by
    rw [Nat.shiftLeft_eq]
    omega
  have key : ∀ m < 128, ((2 * m ||| 1) % 256 = 2 * m + 1) ∧ ((2 * m ||| 0) % 256 = 2 * m) := by
    decide
  have hm : addr % 128 < 128 := Nat.mod_lt _ (by decide)
  rw [e]
  cases rd
  · simpa [TW_WRITE] using (key _ hm).2
  · simpa [TW_READ] using (key _ hm).1

/-- The poll in `I2C_START_TX` or `I2C_REPEATED_START_TX` once the hardware
reports a start or repeated start condition sent: it writes the address byte
to the data register, with the read bit exactly when the head has nothing left
to write, and waits for the acknowledge in `I2C_ADDR`. -/
theorem i2c_poll_start_sent (k : timekeeping_config) {cb : i2c_callbacks}
    (hcb : i2c_callbacks_inert cb) (hw : i2c_hw) (s : i2c_engine)
    (tr : i2c_transaction_list) (rest : List i2c_transaction_list)
    (hs : s.i2c_state = I2C_START_TX ∨ s.i2c_state = I2C_REPEATED_START_TX)
    (hq : s.i2c_transaction_list_head = tr :: rest)
    (hc : hw.completed TW_START = true ∨ hw.completed TW_REP_START = true) :
    ∃ s', i2c_poll_atomic k cb hw s = some s' ∧ s'.i2c_state = I2C_ADDR ∧
      s'.i2c_transaction_list_head = tr :: rest ∧
      s'.completions = s.completions ∧ s'.released = s.released ∧ s'.mem = s.mem ∧
      s'.i2c_transaction_deadline = s.i2c_transaction_deadline ∧
      i2c_twdr_writes s'.hw_writes = i2c_twdr_writes s.hw_writes ++
        [(((tr.addr <<< 1) % 256) ||| (if tr.wrlen = 0 then TW_READ else TW_WRITE)) % 256] := by
  obtain ⟨s', h⟩ := i2c_poll_atomic_total k cb hw s (Or.inl (by rw [hq]; simp))
  refine ⟨s', h, ?_⟩
  simp only [i2c_hw.completed, Bool.and_eq_true, Bool.not_eq_true', decide_eq_true_eq] at hc
  have hint : bit_is_clear hw.twcr TWINT = false := by
    rcases hc with hc | hc <;> exact hc.1
  have hstat : ¬ (hw.twsr &&& TW_STATUS_MASK ≠ TW_START ∧
      hw.twsr &&& TW_STATUS_MASK ≠ TW_REP_START) := by
    rcases hc with hc | hc
    · exact fun hn => hn.1 hc.2
    · exact fun hn => hn.2 hc.2
  rcases hs with hs | hs
  all_goals
    simp only [i2c_poll_atomic, hs, hq, i2c_is_reset_idle_poll_state, reduceCtorEq,
      decide_False, decide_True, Bool.or_false, Bool.or_true, Bool.true_or, Bool.or_self,
      Bool.false_eq_true, if_false, or_self, or_true, true_or, if_true, false_and, true_and,
      ne_eq, not_true_eq_false, not_false_eq_true, List.head?_nil, List.head?_cons,
      Option.map_none', Option.map_some', Option.some_bind, Option.none_bind,
      i2c_twcr_set_cmd_bits, i2c_twcr_set_cmd_bits_atomic, i2c_twdr_write] at h
    simp only [hint, TW_STATUS, Bool.false_eq_true, if_false] at h
    rw [if_neg hstat] at h
    have hf := I2C_SETSTATE_frame k hcb h
    clear h
    simp [hs, hq] at hf
    simp [hf, i2c_twdr_writes_append, i2c_twdr_writes]

/-- The poll at the end of the write phase of a transaction that goes on to
read: in `I2C_WRITE_FIRST`, or in `I2C_WRITE` once the byte before was
acknowledged, with nothing left to write and bytes to read it goes to
`I2C_REPEATED_START_DO`. -/
theorem i2c_poll_WRITE_to_read (k : timekeeping_config) {cb : i2c_callbacks}
    (hcb : i2c_callbacks_inert cb) (hw : i2c_hw) (s : i2c_engine)
    (tr : i2c_transaction_list) (rest : List i2c_transaction_list)
    (hs : s.i2c_state = I2C_WRITE_FIRST ∨
      (s.i2c_state = I2C_WRITE ∧ hw.completed TW_MT_DATA_ACK = true))
    (hq : s.i2c_transaction_list_head = tr :: rest) (hwr : tr.wrlen = 0)
    (hrd : tr.rdlen > 0) :
    ∃ s', i2c_poll_atomic k cb hw s = some s' ∧ s'.i2c_state = I2C_REPEATED_START_DO ∧
      s'.i2c_transaction_list_head = tr :: rest ∧
      s'.completions = s.completions ∧ s'.released = s.released ∧ s'.mem = s.mem ∧
      s'.i2c_transaction_deadline = s.i2c_transaction_deadline ∧
      s'.hw_writes = s.hw_writes := by
  obtain ⟨s', h⟩ := i2c_poll_atomic_total k cb hw s (Or.inl (by rw [hq]; simp))
  refine ⟨s', h, ?_⟩
  rcases hs with hs | ⟨hs, hc⟩
  · simp only [i2c_poll_atomic, hs, hq, i2c_is_reset_idle_poll_state, reduceCtorEq,
      decide_False, decide_True, Bool.or_false, Bool.or_true, Bool.true_or, Bool.or_self,
      Bool.false_eq_true, if_false, or_self, or_true, true_or, if_true, false_and, true_and,
      ne_eq, not_true_eq_false, not_false_eq_true, List.head?_nil, List.head?_cons,
      Option.map_none', Option.map_some', Option.some_bind, Option.none_bind,
      i2c_twcr_set_cmd_bits, i2c_twcr_set_cmd_bits_atomic, i2c_twdr_write] at h
    simp [hwr, hrd] at h
    have hf := I2C_SETSTATE_frame k hcb h
    clear h
    simp [hs, hq] at hf
    simp [hf]
  · simp only [i2c_hw.completed, Bool.and_eq_true, Bool.not_eq_true', decide_eq_true_eq] at hc
    obtain ⟨hint, hstat⟩ := hc
    simp only [i2c_poll_atomic, hs, hq, i2c_is_reset_idle_poll_state, reduceCtorEq,
      decide_False, decide_True, Bool.or_false, Bool.or_true, Bool.true_or, Bool.or_self,
      Bool.false_eq_true, if_false, or_self, or_true, true_or, if_true, false_and, true_and,
      ne_eq, not_true_eq_false, not_false_eq_true, List.head?_nil, List.head?_cons,
      Option.map_none', Option.map_some', Option.some_bind, Option.none_bind,
      i2c_twcr_set_cmd_bits, i2c_twcr_set_cmd_bits_atomic, i2c_twdr_write] at h
    simp [hint, TW_STATUS, hstat, hwr, hrd] at h
    have hf := I2C_SETSTATE_frame k hcb h
    clear h
    simp [hs, hq] at hf
    simp [hf]

/-- The poll in `I2C_REPEATED_START_DO`: it requests a repeated start
condition and waits for it in `I2C_REPEATED_START_TX`. -/
theorem i2c_poll_REPEATED_START_DO (k : timekeeping_config) {cb : i2c_callbacks}
    (hcb : i2c_callbacks_inert cb) (hw : i2c_hw) (s : i2c_engine)
    (tr : i2c_transaction_list) (rest : List i2c_transaction_list)
    (hs : s.i2c_state = I2C_REPEATED_START_DO)
    (hq : s.i2c_transaction_list_head = tr :: rest) :
    ∃ s', i2c_poll_atomic k cb hw s = some s' ∧ s'.i2c_state = I2C_REPEATED_START_TX ∧
      s'.i2c_transaction_list_head = tr :: rest ∧
      s'.completions = s.completions ∧ s'.released = s.released ∧ s'.mem = s.mem ∧
      s'.i2c_transaction_deadline = s.i2c_transaction_deadline ∧
      i2c_twdr_writes s'.hw_writes = i2c_twdr_writes s.hw_writes := by
  obtain ⟨s', h⟩ := i2c_poll_atomic_total k cb hw s (Or.inl (by rw [hq]; simp))
  refine ⟨s', h, ?_⟩
  simp only [i2c_poll_atomic, hs, hq, i2c_is_reset_idle_poll_state, reduceCtorEq,
    decide_False, decide_True, Bool.or_false, Bool.or_true, Bool.true_or, Bool.or_self,
    Bool.false_eq_true, if_false, or_self, or_true, true_or, if_true, false_and, true_and,
    ne_eq, not_true_eq_false, not_false_eq_true, List.head?_nil, List.head?_cons,
    Option.map_none', Option.map_some', Option.some_bind, Option.none_bind,
    i2c_twcr_set_cmd_bits, i2c_twcr_set_cmd_bits_atomic, i2c_twdr_write] at h
  have hf := I2C_SETSTATE_frame k hcb h
  clear h
  simp [hs, hq] at hf
  simp [hf, i2c_twdr_writes_append, i2c_twdr_writes]

/-- A write-then-read transaction up to its second address phase: enqueued on
the idle engine, each step acknowledged by the hardware, it is addressed with
the write bit, its bytes are written, and after the repeated start it is
addressed with the read bit. -/
theorem i2c_write_then_read_address (k : timekeeping_config) {cb : i2c_callbacks}
    (hcb : i2c_callbacks_inert cb) (s0 : i2c_engine) (now : timestamp) (r : i2c_request)
    (h0 h1 h2 h3 : i2c_hw) (acks : List i2c_hw) (last h4 h5 : i2c_hw)
    (hs0 : s0.i2c_state = I2C_IDLE) (hq0 : s0.i2c_transaction_list_head = [])
    (hwr : r.wrlen = acks.length + 1) (hrd : 0 < r.rdlen) (hbuf : r.wrbuf ≠ NULL)
    (hrbuf : r.rdbuf ≠ NULL)
    (hstart : h1.completed TW_START = true) (haddr : h2.completed TW_MT_SLA_ACK = true)
    (hacks : ∀ hw ∈ acks, hw.completed TW_MT_DATA_ACK = true)
    (hlast : last.completed TW_MT_DATA_ACK = true)
    (hrep : h5.completed TW_REP_START = true) :
    ∃ s, i2c_run k cb
        ([i2c_op.transaction now true r, i2c_op.poll h0, i2c_op.poll h1, i2c_op.poll h2,
            i2c_op.poll h3] ++ acks.map i2c_op.poll ++
          [i2c_op.poll last, i2c_op.poll h4, i2c_op.poll h5]) s0 = some s ∧
      s.i2c_state = I2C_ADDR ∧
      i2c_twdr_writes s.hw_writes = i2c_twdr_writes s0.hw_writes ++
        ((2 * (r.addr % 128) + 0) ::
          (List.range r.wrlen).map (fun i => s0.mem (r.wrbuf + i) % 256)) ++
        [2 * (r.addr % 128) + 1] := by
  have hacc : r.accepted true = true := by
    simp [i2c_request.accepted, hwr, hbuf, hrbuf]
  obtain ⟨s1, e1, a1, a2, a3, a4, a5, a6, _⟩ := i2c_transaction_req_idle k hcb now r s0 hs0 hacc
  rw [hq0, List.nil_append] at a2
  obtain ⟨s2, e2, b1, b2, b3, b4, b5, _, b7⟩ := i2c_poll_START_DO k hcb h0 s1 r.node [] a1 a2
  obtain ⟨s3, e3, c1, c2, c3, c4, c5, _, c7⟩ :=
    i2c_poll_start_sent k hcb h1 s2 r.node [] (Or.inl b1) b2 (Or.inl hstart)
  have hnode : r.node.wrlen ≠ 0 := by
    simp only [i2c_request.node]
    omega
  obtain ⟨s4, e4, d1, d2, d3, d4, d5, _, d7⟩ :=
    i2c_poll_ADDR_write k hcb h2 s3 r.node [] c1 c2 haddr hnode
  obtain ⟨s5, e5, f1, f2, f3, f4, f5, _, f7⟩ :=
    i2c_poll_WRITE_byte k hcb h3 s4 r.node [] (Or.inl d1) d2 hnode
  obtain ⟨s6, e6, g1, g2, g3, g4, g5, _, g7⟩ :=
    i2c_run_WRITE_bytes k hcb acks s5 (i2c_write_advance r.node) [] f1 f2
      (by simp only [i2c_write_advance, i2c_request.node]; omega) hacks
  obtain ⟨s7, e7, p1, p2, p3, p4, p5, _, p7⟩ :=
    i2c_poll_WRITE_to_read k hcb last s6 _ [] (Or.inr ⟨g1, hlast⟩) g2 rfl
      (by simp only [i2c_write_advance, i2c_request.node]; exact hrd)
  obtain ⟨s8, e8, q1, q2, q3, q4, q5, _, q7⟩ :=
    i2c_poll_REPEATED_START_DO k hcb h4 s7 _ [] p1 p2
  obtain ⟨s9, e9, r1, r2, r3, r4, r5, _, r7⟩ :=
    i2c_poll_start_sent k hcb h5 s8 _ [] (Or.inr q1) q2 (Or.inr hrep)
  have hmem5 : s5.mem = s0.mem := by rw [f5, d5, c5, b5, a5]
  have hmem4 : s4.mem = s0.mem := by rw [d5, c5, b5, a5]
  have hw0 := i2c_address_byte r.addr false
  have hw1 := i2c_address_byte r.addr true
  simp only [Bool.false_eq_true, if_false, if_true] at hw0 hw1
  refine ⟨s9, ?_, r1, ?_⟩
  · have e1s : (i2c_transaction_req k cb now true r s0).map Prod.snd = some s1 := e1
    rw [i2c_run_append, i2c_run_append]
    simp only [i2c_run, i2c_step, e1s, e2, e3, e4, e5, e6, Option.some_bind, e7, e8, e9]
  · rw [r7, q7, p7, g7, f7, d7, c7, b7, a6, hmem5, hmem4, hwr, List.range_succ_eq_map,
      List.map_cons, List.map_map]
    simp only [i2c_request.node, i2c_write_advance, hwr, Nat.add_one_ne_zero, if_false,
      if_true, hw0, hw1, List.append_assoc, List.singleton_append, Nat.add_zero,
      List.cons_append, List.nil_append, List.append_cancel_left_eq, List.cons.injEq, true_and,
      List.append_cancel_right_eq]
    apply List.map_congr_left
    intro i _
    simp only [Function.comp_apply, Nat.succ_eq_add_one]
    congr 2
    omega

/-- A read-only transaction up to its address phase: enqueued on the idle
engine, it is addressed with the read bit. -/
theorem i2c_read_only_address (k : timekeeping_config) {cb : i2c_callbacks}
    (hcb : i2c_callbacks_inert cb) (s0 : i2c_engine) (now : timestamp) (r : i2c_request)
    (h0 h1 : i2c_hw)
    (hs0 : s0.i2c_state = I2C_IDLE) (hq0 : s0.i2c_transaction_list_head = [])
    (hwr : r.wrlen = 0) (hrd : 0 < r.rdlen) (hrbuf : r.rdbuf ≠ NULL)
    (hstart : h1.completed TW_START = true) :
    ∃ s, i2c_run k cb [i2c_op.transaction now true r, i2c_op.poll h0, i2c_op.poll h1] s0 =
        some s ∧
      s.i2c_state = I2C_ADDR ∧ s.i2c_transaction_list_head = [r.node] ∧
      s.completions = s0.completions ∧ s.released = s0.released ∧ s.mem = s0.mem ∧
      i2c_twdr_writes s.hw_writes = i2c_twdr_writes s0.hw_writes ++ [2 * (r.addr % 128) + 1] := by
  have hacc : r.accepted true = true := by
    simp [i2c_request.accepted, hwr, hrbuf]
    omega
  obtain ⟨s1, e1, a1, a2, a3, a4, a5, a6, _⟩ := i2c_transaction_req_idle k hcb now r s0 hs0 hacc
  rw [hq0, List.nil_append] at a2
  obtain ⟨s2, e2, b1, b2, b3, b4, b5, _, b7⟩ := i2c_poll_START_DO k hcb h0 s1 r.node [] a1 a2
  obtain ⟨s3, e3, c1, c2, c3, c4, c5, _, c7⟩ :=
    i2c_poll_start_sent k hcb h1 s2 r.node [] (Or.inl b1) b2 (Or.inl hstart)
  have hw1 := i2c_address_byte r.addr true
  simp only [if_true] at hw1
  refine ⟨s3, ?_, c1, c2, by rw [c3, b3, a3], by rw [c4, b4, a4], by rw [c5, b5, a5], ?_⟩
  · have e1s : (i2c_transaction_req k cb now true r s0).map Prod.snd = some s1 := e1
    simp only [i2c_run, i2c_step, e1s, e2, e3, Option.some_bind]
  · rw [c7, b7, a6]
    simp only [i2c_request.node, hwr, if_true, hw1]

/-- C32: whenever the poll in `I2C_START_TX` or `I2C_REPEATED_START_TX` finds a
start or repeated start condition sent (status `TW_START` or `TW_REP_START`),
the byte written to the data register is the device address shifted left by
one, cut to 8 bits, with the lowest bit 1 exactly when the head transaction
has no write bytes left and 0 otherwise, and the engine waits in `I2C_ADDR`.
Hence a write-then-read transaction started on the idle engine is addressed
with the write bit first and, after its bytes are written and the repeated
start is sent, with the read bit; a read-only transaction is addressed with
the read bit. For the address `0x4B` the read byte is `0x97`, for `0x48` the
write byte is `0x90`. -/
theorem i2c_address_byte_direction (k : timekeeping_config) (cb : i2c_callbacks)
    (hcb : i2c_callbacks_inert cb) :
    (∀ (hw : i2c_hw) (s : i2c_engine) (tr : i2c_transaction_list)
        (rest : List i2c_transaction_list),
      (s.i2c_state = I2C_START_TX ∨ s.i2c_state = I2C_REPEATED_START_TX) →
      s.i2c_transaction_list_head = tr :: rest →
      (hw.completed TW_START = true ∨ hw.completed TW_REP_START = true) →
      ∃ s', i2c_poll_atomic k cb hw s = some s' ∧ s'.i2c_state = I2C_ADDR ∧
        s'.i2c_transaction_list_head = tr :: rest ∧
        i2c_twdr_writes s'.hw_writes = i2c_twdr_writes s.hw_writes ++
          [(tr.addr <<< 1) % 256 + (if tr.wrlen = 0 then 1 else 0)] ∧
        ((tr.addr <<< 1) % 256 + (if tr.wrlen = 0 then 1 else 0)) / 2 = tr.addr % 128 ∧
        ((tr.addr <<< 1) % 256 + (if tr.wrlen = 0 then 1 else 0)) % 2 =
          (if tr.wrlen = 0 then TW_READ else TW_WRITE)) ∧
    (∀ (s0 : i2c_engine) (now : timestamp) (r : i2c_request) (h0 h1 h2 h3 : i2c_hw)
        (acks : List i2c_hw) (last h4 h5 : i2c_hw),
      s0.i2c_state = I2C_IDLE → s0.i2c_transaction_list_head = [] →
      r.wrlen = acks.length + 1 → 0 < r.rdlen → r.wrbuf ≠ NULL → r.rdbuf ≠ NULL →
      h1.completed TW_START = true → h2.completed TW_MT_SLA_ACK = true →
      (∀ hw ∈ acks, hw.completed TW_MT_DATA_ACK = true) →
      last.completed TW_MT_DATA_ACK = true → h5.completed TW_REP_START = true →
      ∃ s, i2c_run k cb
          ([i2c_op.transaction now true r, i2c_op.poll h0, i2c_op.poll h1, i2c_op.poll h2,
              i2c_op.poll h3] ++ acks.map i2c_op.poll ++
            [i2c_op.poll last, i2c_op.poll h4, i2c_op.poll h5]) s0 = some s ∧
        s.i2c_state = I2C_ADDR ∧
        i2c_twdr_writes s.hw_writes = i2c_twdr_writes s0.hw_writes ++
          ((2 * (r.addr % 128) + 0) ::
            (List.range r.wrlen).map (fun i => s0.mem (r.wrbuf + i) % 256)) ++
          [2 * (r.addr % 128) + 1]) ∧
    (∀ (s0 : i2c_engine) (now : timestamp) (r : i2c_request) (h0 h1 : i2c_hw),
      s0.i2c_state = I2C_IDLE → s0.i2c_transaction_list_head = [] →
      r.wrlen = 0 → 0 < r.rdlen → r.rdbuf ≠ NULL → h1.completed TW_START = true →
      ∃ s, i2c_run k cb [i2c_op.transaction now true r, i2c_op.poll h0, i2c_op.poll h1] s0 =
          some s ∧
        s.i2c_state = I2C_ADDR ∧
        i2c_twdr_writes s.hw_writes =
          i2c_twdr_writes s0.hw_writes ++ [2 * (r.addr % 128) + 1]) ∧
    (((0x4B <<< 1) % 256) ||| TW_READ) % 256 = 0x97 ∧
    (((0x48 <<< 1) % 256) ||| TW_WRITE) % 256 = 0x90 := by
  refine ⟨?_, ?_, ?_, by decide, by decide⟩
  · intro hw s tr rest hs hq hc
    obtain ⟨s', e, a1, a2, _, _, _, _, a7⟩ := i2c_poll_start_sent k hcb hw s tr rest hs hq hc
    have hb := i2c_address_byte tr.addr (decide (tr.wrlen = 0))
    have e2 : (tr.addr <<< 1) % 256 = 2 * (tr.addr % 128) := by
      rw [Nat.shiftLeft_eq]
      omega
    simp only [decide_eq_true_eq] at hb
    refine ⟨s', e, a1, a2, ?_, ?_, ?_⟩
    · rw [a7, hb, e2]
    · rw [e2]
      split <;> omega
    · rw [e2]
      split <;> simp only [TW_READ, TW_WRITE] <;> omega
  · intro s0 now r h0 h1 h2 h3 acks last h4 h5 hs0 hq0 hwr hrd hbuf hrbuf hstart haddr hacks
      hlast hrep
    exact i2c_write_then_read_address k hcb s0 now r h0 h1 h2 h3 acks last h4 h5 hs0 hq0 hwr
      hrd hbuf hrbuf hstart haddr hacks hlast hrep
  · intro s0 now r h0 h1 hs0 hq0 hwr hrd hrbuf hstart
    obtain ⟨s, e, a1, _, _, _, _, a6⟩ :=
      i2c_read_only_address k hcb s0 now r h0 h1 hs0 hq0 hwr hrd hrbuf hstart
    exact ⟨s, e, a1, a6⟩

/-- Witness of C32: one byte held at address 100 is written to the device at
address `0x4b` and one byte is then read back; the data register receives
`0x96` (the address with the write bit), the byte, and after the repeated
start `0x97` (the address with the read bit). -/
theorem i2c_address_byte_direction_witness :
    i2c_callbacks_inert (fun _ s => s) ∧
    ∃ s, i2c_run ⟨16000000, 64, 8⟩ (fun _ s => s)
        ([i2c_op.transaction ⟨7, 0⟩ true ⟨0x4b, 100, 1, 200, 1, 5, 1⟩,
            i2c_op.poll ⟨0, 0, 0, ⟨7, 1⟩, ⟨7, 1⟩⟩,
            i2c_op.poll ⟨0x80, 0x08, 0, ⟨7, 2⟩, ⟨7, 2⟩⟩,
            i2c_op.poll ⟨0x80, 0x18, 0, ⟨7, 3⟩, ⟨7, 3⟩⟩,
            i2c_op.poll ⟨0x80, 0x18, 0, ⟨7, 4⟩, ⟨7, 4⟩⟩] ++
          ([] : List i2c_hw).map i2c_op.poll ++
          [i2c_op.poll ⟨0x80, 0x28, 0, ⟨7, 6⟩, ⟨7, 6⟩⟩,
            i2c_op.poll ⟨0, 0xf8, 0, ⟨7, 7⟩, ⟨7, 7⟩⟩,
            i2c_op.poll ⟨0x80, 0x10, 0, ⟨7, 8⟩, ⟨7, 8⟩⟩])
        (i2c_boot 0 0 0 0 (fun a => a + 1)) = some s ∧
      s.i2c_state = I2C_ADDR ∧
      i2c_twdr_writes s.hw_writes = [] ++
        ((2 * (0x4b % 128) + 0) ::
          (List.range 1).map (fun i => (fun a => a + 1) (100 + i) % 256)) ++
        [2 * (0x4b % 128) + 1] :=
  ⟨fun _ _ => rfl,
    (i2c_address_byte_direction ⟨16000000, 64, 8⟩ (fun _ s => s) (fun _ _ => rfl)).2.1
      (i2c_boot 0 0 0 0 (fun a => a + 1)) ⟨7, 0⟩ ⟨0x4b, 100, 1, 200, 1, 5, 1⟩
      ⟨0, 0, 0, ⟨7, 1⟩, ⟨7, 1⟩⟩ ⟨0x80, 0x08, 0, ⟨7, 2⟩, ⟨7, 2⟩⟩ ⟨0x80, 0x18, 0, ⟨7, 3⟩, ⟨7, 3⟩⟩
      ⟨0x80, 0x18, 0, ⟨7, 4⟩, ⟨7, 4⟩⟩ [] ⟨0x80, 0x28, 0, ⟨7, 6⟩, ⟨7, 6⟩⟩
      ⟨0, 0xf8, 0, ⟨7, 7⟩, ⟨7, 7⟩⟩ ⟨0x80, 0x10, 0, ⟨7, 8⟩, ⟨7, 8⟩⟩
      rfl rfl rfl (by decide) (by decide) (by decide) (by decide) (by decide) (by decide)
      (by decide) (by decide)⟩

/-- The control register value of a byte request: the acknowledge-enable bit
is set exactly when it was asked for, and the interrupt flag is written. -/
theorem i2c_read_request_bits (x : Nat) (more : Bool) :
    bit_is_set (((x &&& (255 ^^^ (BV TWINT ||| BV TWEA ||| BV TWSTA ||| BV TWSTO))) |||
      (BV TWINT ||| (if more = true then BV TWEA else 0) ||| BV TWIE)) % 256) TWEA = more ∧
    bit_is_set (((x &&& (255 ^^^ (BV TWINT ||| BV TWEA ||| BV TWSTA ||| BV TWSTO))) |||
      (BV TWINT ||| (if more = true then BV TWEA else 0) ||| BV TWIE)) % 256) TWINT = true := by
  have key : ∀ y < 16, ∀ b : Bool,
      bit_is_set ((y ||| (BV TWINT ||| (if b = true then BV TWEA else 0) ||| BV TWIE)) % 256)
        TWEA = b ∧
      bit_is_set ((y ||| (BV TWINT ||| (if b = true then BV TWEA else 0) ||| BV TWIE)) % 256)
        TWINT = true := by
    decide
  have e : x &&& (255 ^^^ (BV TWINT ||| BV TWEA ||| BV TWSTA ||| BV TWSTO)) = x % 16 :=
    Nat.and_pow_two_sub_one_eq_mod x 4
  rw [e]
  exact key _ (Nat.mod_lt _ (by decide)) more

/-- The control register writes of two histories in a row. -/
theorem i2c_twcr_writes_append (a b : List i2c_hw_write) :
    i2c_twcr_writes (a ++ b) = i2c_twcr_writes a ++ i2c_twcr_writes b := by
  induction a with
  | nil => rfl
  | cons w a ih => cases w <;> simp [i2c_twcr_writes, ih]

/-- The poll in `I2C_READ_FIRST` for a transaction that reads: it requests the
first byte, with the acknowledge-enable bit when more than one byte is to be
read, and waits for it in `I2C_READ`. -/
theorem i2c_poll_READ_FIRST (k : timekeeping_config) {cb : i2c_callbacks}
    (hcb : i2c_callbacks_inert cb) (hw : i2c_hw) (s : i2c_engine)
    (tr : i2c_transaction_list) (rest : List i2c_transaction_list)
    (hs : s.i2c_state = I2C_READ_FIRST)
    (hq : s.i2c_transaction_list_head = tr :: rest) (hrd : tr.rdlen > 0) :
    ∃ s', i2c_poll_atomic k cb hw s = some s' ∧ s'.i2c_state = I2C_READ ∧
      s'.i2c_transaction_list_head = tr :: rest ∧
      s'.completions = s.completions ∧ s'.released = s.released ∧ s'.mem = s.mem ∧
      s'.i2c_transaction_deadline = s.i2c_transaction_deadline ∧
      s'.hw_writes = s.hw_writes ++
        [.TWCR (((hw.twcr &&& (255 ^^^ (BV TWINT ||| BV TWEA ||| BV TWSTA ||| BV TWSTO))) |||
          (BV TWINT ||| (if decide (tr.rdlen > 1) = true then BV TWEA else 0) ||| BV TWIE)) %
            256)] := by
  obtain ⟨s', h⟩ := i2c_poll_atomic_total k cb hw s (Or.inl (by rw [hq]; simp))
  refine ⟨s', h, ?_⟩
  simp only [i2c_poll_atomic, hs, hq, i2c_is_reset_idle_poll_state, reduceCtorEq,
    decide_False, decide_True, Bool.or_false, Bool.or_true, Bool.true_or, Bool.or_self,
    Bool.false_eq_true, if_false, or_self, or_true, true_or, if_true, false_and, true_and,
    ne_eq, not_true_eq_false, not_false_eq_true, List.head?_nil, List.head?_cons,
    Option.map_none', Option.map_some', Option.some_bind, Option.none_bind,
    i2c_twcr_set_cmd_bits, i2c_twcr_set_cmd_bits_atomic, i2c_twdr_write, hrd] at h
  have hf := I2C_SETSTATE_frame k hcb h
  clear h
  simp [hs, hq] at hf
  simp [hf]

/-- The poll in `I2C_READ` once a byte has arrived and more than one byte was
still to be read: the byte is stored at `rdbuf`, the head advances, and the
next byte is requested, with the acknowledge-enable bit when more than one
byte is to be read after this one. -/
theorem i2c_poll_READ_more (k : timekeeping_config) {cb : i2c_callbacks}
    (hcb : i2c_callbacks_inert cb) (hw : i2c_hw) (s : i2c_engine)
    (tr : i2c_transaction_list) (rest : List i2c_transaction_list)
    (hs : s.i2c_state = I2C_READ)
    (hq : s.i2c_transaction_list_head = tr :: rest)
    (hc : hw.completed TW_MR_DATA_ACK = true ∨ hw.completed TW_MR_DATA_NACK = true)
    (hrd : 1 < tr.rdlen) (hrd2 : tr.rdlen < 256) :
    ∃ s', i2c_poll_atomic k cb hw s = some s' ∧ s'.i2c_state = I2C_READ ∧
      s'.i2c_transaction_list_head = i2c_read_advance tr :: rest ∧
      s'.completions = s.completions ∧ s'.released = s.released ∧
      s'.mem = Function.update s.mem tr.rdbuf hw.twdr ∧
      s'.i2c_transaction_deadline = s.i2c_transaction_deadline ∧
      s'.hw_writes = s.hw_writes ++
        [.TWCR (((hw.twcr &&& (255 ^^^ (BV TWINT ||| BV TWEA ||| BV TWSTA ||| BV TWSTO))) |||
          (BV TWINT ||| (if decide (tr.rdlen > 2) = true then BV TWEA else 0) ||| BV TWIE)) %
            256)] := by
  obtain ⟨s', h⟩ := i2c_poll_atomic_total k cb hw s (Or.inl (by rw [hq]; simp))
  refine ⟨s', h, ?_⟩
  simp only [i2c_hw.completed, Bool.and_eq_true, Bool.not_eq_true', decide_eq_true_eq] at hc
  have hint : bit_is_clear hw.twcr TWINT = false := by
    rcases hc with hc | hc <;> exact hc.1
  have hstat : ¬ (hw.twsr &&& TW_STATUS_MASK ≠ TW_MR_DATA_ACK ∧
      hw.twsr &&& TW_STATUS_MASK ≠ TW_MR_DATA_NACK) := by
    rcases hc with hc | hc
    · exact fun hn => hn.1 hc.2
    · exact fun hn => hn.2 hc.2
  have e1 : (tr.rdlen + 256 - 1) % 256 = tr.rdlen - 1 := by omega
  have e2 : tr.rdlen - 1 > 0 := by omega
  simp only [i2c_poll_atomic, hs, hq, i2c_is_reset_idle_poll_state, reduceCtorEq,
    decide_False, decide_True, Bool.or_false, Bool.or_true, Bool.true_or, Bool.or_self,
    Bool.false_eq_true, if_false, or_self, or_true, true_or, if_true, false_and, true_and,
    ne_eq, not_true_eq_false, not_false_eq_true, List.head?_nil, List.head?_cons,
    Option.map_none', Option.map_some', Option.some_bind, Option.none_bind,
    i2c_twcr_set_cmd_bits, i2c_twcr_set_cmd_bits_atomic, i2c_twdr_write, hint, TW_STATUS,
    hstat, e1, e2] at h
  have hf := I2C_SETSTATE_frame k hcb h
  clear h
  simp [hs, hq] at hf
  have e3 : (tr.rdlen - 1 > 1) = (tr.rdlen > 2) := by
    apply propext
    omega
  simp [hf, i2c_read_advance, e3]
  omega

/-- The poll in `I2C_READ` once the last byte has arrived: the byte is stored
at `rdbuf` and the engine enters `I2C_TRANS_OK_STOP_DO`, releasing the head
with success and reporting the number of bytes read. -/
theorem i2c_poll_READ_last (k : timekeeping_config) {cb : i2c_callbacks}
    (hcb : i2c_callbacks_inert cb) (hw : i2c_hw) (s : i2c_engine)
    (tr : i2c_transaction_list) (rest : List i2c_transaction_list)
    (hs : s.i2c_state = I2C_READ)
    (hq : s.i2c_transaction_list_head = tr :: rest)
    (hc : hw.completed TW_MR_DATA_ACK = true ∨ hw.completed TW_MR_DATA_NACK = true)
    (hrd : tr.rdlen = 1) :
    ∃ s', i2c_poll_atomic k cb hw s = some s' ∧ s'.i2c_state = I2C_TRANS_OK_STOP_DO ∧
      s'.i2c_transaction_list_head = rest ∧
      s'.completions = s.completions ++
        (if tr.func ≠ NULL then [⟨tr.func, tr.data, true, (tr.rdlen_actual + 1) % 256⟩]
         else []) ∧
      s'.released = s.released ++ [⟨i2c_read_advance tr, true⟩] ∧
      s'.hw_writes = s.hw_writes ∧
      (tr.func = NULL → s'.mem = Function.update s.mem tr.rdbuf hw.twdr) ∧
      (tr.func ≠ NULL → ∃ sx : i2c_engine, sx.mem = Function.update s.mem tr.rdbuf hw.twdr ∧
        s'.mem = (cb ⟨tr.func, tr.data, true, (tr.rdlen_actual + 1) % 256⟩ sx).mem) := by
  obtain ⟨s', h⟩ := i2c_poll_atomic_total k cb hw s (Or.inl (by rw [hq]; simp))
  refine ⟨s', h, ?_⟩
  simp only [i2c_hw.completed, Bool.and_eq_true, Bool.not_eq_true', decide_eq_true_eq] at hc
  have hint : bit_is_clear hw.twcr TWINT = false := by
    rcases hc with hc | hc <;> exact hc.1
  have hstat : ¬ (hw.twsr &&& TW_STATUS_MASK ≠ TW_MR_DATA_ACK ∧
      hw.twsr &&& TW_STATUS_MASK ≠ TW_MR_DATA_NACK) := by
    rcases hc with hc | hc
    · exact fun hn => hn.1 hc.2
    · exact fun hn => hn.2 hc.2
  simp only [i2c_poll_atomic, hs, hq, i2c_is_reset_idle_poll_state, reduceCtorEq,
    decide_False, decide_True, Bool.or_false, Bool.or_true, Bool.true_or, Bool.or_self,
    Bool.false_eq_true, if_false, or_self, or_true, true_or, if_true, false_and, true_and,
    ne_eq, not_true_eq_false, not_false_eq_true, List.head?_nil, List.head?_cons,
    Option.map_none', Option.map_some', Option.some_bind, Option.none_bind,
    i2c_twcr_set_cmd_bits, i2c_twcr_set_cmd_bits_atomic, i2c_twdr_write, hint, TW_STATUS,
    hstat, hrd, Nat.reduceAdd, Nat.reduceSub, Nat.reduceMod, gt_iff_lt, Nat.lt_irrefl] at h
  have hm := I2C_SETSTATE_terminal_mem k cb hw.now I2C_TRANS_OK_STOP_DO _
    { tr with rdbuf := tr.rdbuf + 1, rdlen := 0, rdlen_actual := (tr.rdlen_actual + 1) % 256 }
    rest (Or.inl rfl) (by simp [hs]) rfl h
  have hf := I2C_SETSTATE_frame k hcb h
  clear h
  simp [hs, hq] at hf
  simp only [decide_True] at hm
  refine ⟨hf.1, ?_, ?_, ?_, ?_, hm.1, hm.2⟩
  all_goals simp [hf, i2c_read_advance, hrd]

/-- The read phase: in `I2C_READ` with as many bytes left as there are polls,
each seeing a byte arrived, the polls store the bytes in buffer order, request
every byte after the first one with the acknowledge-enable bit set except the
last one, and the last poll enters `I2C_TRANS_OK_STOP_DO`, releasing the head
with success and the number of bytes read. -/
theorem i2c_run_READ_bytes (k : timekeeping_config) {cb : i2c_callbacks}
    (hcb : i2c_callbacks_inert cb) (ds : List i2c_hw) :
    ∀ (s : i2c_engine) (tr : i2c_transaction_list) (rest : List i2c_transaction_list),
      s.i2c_state = I2C_READ → s.i2c_transaction_list_head = tr :: rest →
      tr.rdlen = ds.length → 0 < ds.length → tr.rdlen_actual + ds.length < 256 →
      (∀ hw ∈ ds, hw.completed TW_MR_DATA_ACK = true ∨ hw.completed TW_MR_DATA_NACK = true) →
      ∃ (s' : i2c_engine) (M : Nat → Nat),
        i2c_run k cb (ds.map i2c_op.poll) s = some s' ∧
        s'.i2c_state = I2C_TRANS_OK_STOP_DO ∧
        s'.i2c_transaction_list_head = rest ∧
        s'.completions = s.completions ++
          (if tr.func ≠ NULL then
            [⟨tr.func, tr.data, true, tr.rdlen_actual + ds.length⟩] else []) ∧
        s'.released = s.released ++
          [⟨{ tr with rdbuf := tr.rdbuf + ds.length, rdlen := 0,
                      rdlen_actual := tr.rdlen_actual + ds.length }, true⟩] ∧
        i2c_twdr_writes s'.hw_writes = i2c_twdr_writes s.hw_writes ∧
        (i2c_twcr_writes s'.hw_writes).map (fun v => bit_is_set v TWEA) =
          (i2c_twcr_writes s.hw_writes).map (fun v => bit_is_set v TWEA) ++
            (List.replicate (ds.length - 2) true ++ if 2 ≤ ds.length then [false] else []) ∧
        (∀ a, M a = if tr.rdbuf ≤ a ∧ a < tr.rdbuf + ds.length then
            (ds.map i2c_hw.twdr).getD (a - tr.rdbuf) 0 else s.mem a) ∧
        (tr.func = NULL → s'.mem = M) ∧
        (tr.func ≠ NULL → ∃ sx : i2c_engine, sx.mem = M ∧
          s'.mem = (cb ⟨tr.func, tr.data, true, tr.rdlen_actual + ds.length⟩ sx).mem) := by
  induction ds with
  | nil =>
    intro s tr rest _ _ _ hpos
    simp at hpos
  | cons d ds ih =>
    intro s tr rest hs hq hlen _ hact hds
    cases ds with
    | nil =>
      simp only [List.length_cons, List.length_nil, Nat.zero_add] at hlen hact
      obtain ⟨s1, h1, a1, a2, a3, a4, a5, a6, a7⟩ :=
        i2c_poll_READ_last k hcb d s tr rest hs hq (hds d (by simp)) hlen
      have e : (tr.rdlen_actual + 1) % 256 = tr.rdlen_actual + 1 := Nat.mod_eq_of_lt hact
      rw [e] at a3 a7
      refine ⟨s1, Function.update s.mem tr.rdbuf d.twdr, by simp [i2c_run, i2c_step, h1], a1,
        a2, a3, ?_, by rw [a5], ?_, ?_, a6, a7⟩
      · rw [a4]
        simp [i2c_read_advance, hlen, e]
      · rw [a5]
        simp
      · intro a
        by_cases ha : a = tr.rdbuf
        · subst ha
          simp
        · rw [Function.update_noteq ha]
          have : ¬ (tr.rdbuf ≤ a ∧ a < tr.rdbuf + 1) := by omega
          simp [this]
    | cons d2 ds =>
      simp only [List.length_cons] at hlen hact ih
      obtain ⟨s1, h1, a1, a2, a3, a4, a5, a6, a7⟩ :=
        i2c_poll_READ_more k hcb d s tr rest hs hq (hds d (by simp)) (by omega) (by omega)
      have e1 : (i2c_read_advance tr).rdlen = ds.length + 1 := by
        simp only [i2c_read_advance]
        omega
      have e2 : (i2c_read_advance tr).rdlen_actual = tr.rdlen_actual + 1 := by
        simp only [i2c_read_advance]
        omega
      obtain ⟨s2, M, h2, b1, b2, b3, b4, b5, b6, b7, b8, b9⟩ :=
        ih s1 (i2c_read_advance tr) rest a1 a2 e1 (by omega) (by rw [e2]; omega)
          (fun x hx => hds x (by simp [hx]))
      have e3 : (i2c_read_advance tr).func = tr.func := rfl
      have e4 : (i2c_read_advance tr).data = tr.data := rfl
      have e5 : (i2c_read_advance tr).rdbuf = tr.rdbuf + 1 := rfl
      have e6 : tr.rdlen_actual + 1 + (ds.length + 1) = tr.rdlen_actual + (ds.length + 1 + 1) := by
        omega
      rw [e2, e3, e4, e6] at b3 b9
      rw [e3] at b8
      have hrun : i2c_run k cb ((d :: d2 :: ds).map i2c_op.poll) s = some s2 := by
        simp only [List.map_cons, i2c_run, i2c_step] at h2 ⊢
        simp only [h1, Option.some_bind]
        exact h2
      simp only [List.length_cons]
      refine ⟨s2, M, hrun, b1, b2, by rw [b3, a3], ?_, ?_, ?_, ?_, b8, b9⟩
      · rw [b4, a4]
        simp only [i2c_read_advance, List.append_cancel_left_eq, List.cons.injEq, and_true,
          i2c_release.mk.injEq, i2c_transaction_list.mk.injEq, true_and]
        omega
      · rw [b5, a7]
        simp [i2c_twdr_writes_append, i2c_twdr_writes]
      · rw [b6, a7, i2c_twcr_writes_append]
        have hb := (i2c_read_request_bits d.twcr (decide (tr.rdlen > 2))).1
        simp only [i2c_twcr_writes, List.map_append, List.map_cons, List.map_nil, hb,
          List.append_assoc, List.append_cancel_left_eq, List.singleton_append]
        cases ds with
        | nil =>
          have : ¬ (tr.rdlen > 2) := by
            simp only [List.length_nil] at hlen
            omega
          simp [this]
        | cons d3 ds =>
          have : tr.rdlen > 2 := by
            simp only [List.length_cons] at hlen
            omega
          simp [this, List.replicate_succ]
      · intro a
        rw [b7 a, e5, a5]
        by_cases ha : a = tr.rdbuf
        · subst ha
          simp
        · rw [Function.update_noteq ha]
          by_cases hin : tr.rdbuf + 1 ≤ a ∧ a < tr.rdbuf + 1 + (ds.length + 1)
          · have hin2 : tr.rdbuf ≤ a ∧ a < tr.rdbuf + (ds.length + 1 + 1) := by omega
            have e7 : a - tr.rdbuf = (a - (tr.rdbuf + 1)) + 1 := by omega
            rw [if_pos hin, if_pos hin2, e7]
            simp only [List.map_cons, List.getD_cons_succ]
          · have hin2 : ¬ (tr.rdbuf ≤ a ∧ a < tr.rdbuf + (ds.length + 1 + 1)) := by omega
            rw [if_neg hin, if_neg hin2]

/-- The poll in `I2C_ADDR` once the hardware reports the address of a read
acknowledged: it goes on to `I2C_READ_FIRST`, whatever the head still has to
write. -/
theorem i2c_poll_ADDR_read (k : timekeeping_config) {cb : i2c_callbacks}
    (hcb : i2c_callbacks_inert cb) (hw : i2c_hw) (s : i2c_engine)
    (tr : i2c_transaction_list) (rest : List i2c_transaction_list)
    (hs : s.i2c_state = I2C_ADDR) (hq : s.i2c_transaction_list_head = tr :: rest)
    (hc : hw.completed TW_MR_SLA_ACK = true) :
    ∃ s', i2c_poll_atomic k cb hw s = some s' ∧ s'.i2c_state = I2C_READ_FIRST ∧
      s'.i2c_transaction_list_head = tr :: rest ∧
      s'.completions = s.completions ∧ s'.released = s.released ∧ s'.mem = s.mem ∧
      s'.i2c_transaction_deadline = s.i2c_transaction_deadline ∧
      s'.hw_writes = s.hw_writes := by
  obtain ⟨s', h⟩ := i2c_poll_atomic_total k cb hw s (Or.inl (by rw [hq]; simp))
  refine ⟨s', h, ?_⟩
  simp only [i2c_hw.completed, Bool.and_eq_true, Bool.not_eq_true', decide_eq_true_eq] at hc
  obtain ⟨hint, hstat⟩ := hc
  simp only [i2c_poll_atomic, hs, hq, i2c_is_reset_idle_poll_state, reduceCtorEq,
    decide_False, decide_True, Bool.or_false, Bool.or_true, Bool.true_or, Bool.or_self,
    Bool.false_eq_true, if_false, or_self, or_true, true_or, if_true, false_and, true_and,
    ne_eq, not_true_eq_false, not_false_eq_true, List.head?_nil, List.head?_cons,
    Option.map_none', Option.map_some', Option.some_bind, Option.none_bind,
    i2c_twcr_set_cmd_bits, i2c_twcr_set_cmd_bits_atomic, i2c_twdr_write] at h
  simp [hint, TW_STATUS, hstat, TW_MT_SLA_ACK, TW_MR_SLA_ACK] at h
  have hf := I2C_SETSTATE_frame k hcb h
  clear h
  simp [hs, hq] at hf
  simp [hf]

/-- The poll in `I2C_ADDR` once the hardware reports anything but an
acknowledged read address or, with bytes left to write, an acknowledged write
address: it enters `I2C_TRANS_FAILED_RESET`, releasing the head with a
failure. -/
theorem i2c_poll_ADDR_fail (k : timekeeping_config) {cb : i2c_callbacks}
    (hcb : i2c_callbacks_inert cb) (hw : i2c_hw) (s : i2c_engine)
    (tr : i2c_transaction_list) (rest : List i2c_transaction_list)
    (hs : s.i2c_state = I2C_ADDR) (hq : s.i2c_transaction_list_head = tr :: rest)
    (hint : bit_is_clear hw.twcr TWINT = false)
    (hstat : hw.twsr &&& TW_STATUS_MASK ≠ TW_MR_SLA_ACK)
    (hwr : hw.twsr &&& TW_STATUS_MASK ≠ TW_MT_SLA_ACK ∨ tr.wrlen = 0) :
    ∃ s', i2c_poll_atomic k cb hw s = some s' ∧ s'.i2c_state = I2C_TRANS_FAILED_RESET ∧
      s'.i2c_transaction_list_head = rest ∧
      s'.released = s.released ++ [⟨tr, false⟩] ∧
      s'.hw_writes = s.hw_writes := by
  obtain ⟨s', h⟩ := i2c_poll_atomic_total k cb hw s (Or.inl (by rw [hq]; simp))
  refine ⟨s', h, ?_⟩
  simp only [i2c_poll_atomic, hs, hq, i2c_is_reset_idle_poll_state, reduceCtorEq,
    decide_False, decide_True, Bool.or_false, Bool.or_true, Bool.true_or, Bool.or_self,
    Bool.false_eq_true, if_false, or_self, or_true, true_or, if_true, false_and, true_and,
    ne_eq, not_true_eq_false, not_false_eq_true, List.head?_nil, List.head?_cons,
    Option.map_none', Option.map_some', Option.some_bind, Option.none_bind,
    i2c_twcr_set_cmd_bits, i2c_twcr_set_cmd_bits_atomic, i2c_twdr_write] at h
  rcases hwr with hwr | hwr
  all_goals
    simp [hint, TW_STATUS, hstat, hwr] at h
    have hf := I2C_SETSTATE_frame k hcb h
    clear h
    simp [hs, hq] at hf
    simp [hf]

/-- The poll in `I2C_READ_FIRST` for a head with nothing to read: it enters
`I2C_TRANS_OK_STOP_DO`, releasing the head with success, and writes no
register. -/
theorem i2c_poll_READ_FIRST_done (k : timekeeping_config) {cb : i2c_callbacks}
    (hcb : i2c_callbacks_inert cb) (hw : i2c_hw) (s : i2c_engine)
    (tr : i2c_transaction_list) (rest : List i2c_transaction_list)
    (hs : s.i2c_state = I2C_READ_FIRST)
    (hq : s.i2c_transaction_list_head = tr :: rest) (hrd : tr.rdlen = 0) :
    ∃ s', i2c_poll_atomic k cb hw s = some s' ∧ s'.i2c_state = I2C_TRANS_OK_STOP_DO ∧
      s'.i2c_transaction_list_head = rest ∧
      s'.released = s.released ++ [⟨tr, true⟩] ∧
      s'.hw_writes = s.hw_writes := by
  obtain ⟨s', h⟩ := i2c_poll_atomic_total k cb hw s (Or.inl (by rw [hq]; simp))
  refine ⟨s', h, ?_⟩
  simp only [i2c_poll_atomic, hs, hq, i2c_is_reset_idle_poll_state, reduceCtorEq,
    decide_False, decide_True, Bool.or_false, Bool.or_true, Bool.true_or, Bool.or_self,
    Bool.false_eq_true, if_false, or_self, or_true, true_or, if_true, false_and, true_and,
    ne_eq, not_true_eq_false, not_false_eq_true, List.head?_nil, List.head?_cons,
    Option.map_none', Option.map_some', Option.some_bind, Option.none_bind,
    i2c_twcr_set_cmd_bits, i2c_twcr_set_cmd_bits_atomic, i2c_twdr_write, hrd, gt_iff_lt,
    Nat.lt_irrefl] at h
  have hf := I2C_SETSTATE_frame k hcb h
  clear h
  simp [hs, hq] at hf
  simp [hf]

/-- The acknowledge-enable bits of the `n` byte requests of a read: set in all
but the last. -/
theorem i2c_ack_pattern (n : Nat) (h : 0 < n) :
    decide (n > 1) :: (List.replicate (n - 2) true ++ if 2 ≤ n then [false] else []) =
      List.replicate (n - 1) true ++ [false] := by
  match n, h with
  | 1, _ => rfl
  | m + 2, _ => simp [List.replicate_succ]

/-- The read phase of a transaction that reads `n >= 1` bytes, from
`I2C_READ_FIRST` on, with every byte delivered by the hardware. -/
theorem i2c_read_phase (k : timekeeping_config) {cb : i2c_callbacks}
    (hcb : i2c_callbacks_inert cb) (s0 : i2c_engine) (tr : i2c_transaction_list)
    (rest : List i2c_transaction_list) (h0 : i2c_hw) (ds : List i2c_hw)
    (hs : s0.i2c_state = I2C_READ_FIRST) (hq : s0.i2c_transaction_list_head = tr :: rest)
    (hlen : tr.rdlen = ds.length) (hpos : 0 < ds.length) (hact : tr.rdlen_actual = 0)
    (h256 : ds.length < 256)
    (hds : ∀ hw ∈ ds, hw.completed TW_MR_DATA_ACK = true ∨ hw.completed TW_MR_DATA_NACK = true) :
    ∃ (s : i2c_engine) (M : Nat → Nat),
      i2c_run k cb (i2c_op.poll h0 :: ds.map i2c_op.poll) s0 = some s ∧
      s.i2c_state = I2C_TRANS_OK_STOP_DO ∧
      s.i2c_transaction_list_head = rest ∧
      s.completions = s0.completions ++
        (if tr.func ≠ NULL then [⟨tr.func, tr.data, true, ds.length⟩] else []) ∧
      s.released = s0.released ++
        [⟨{ tr with rdbuf := tr.rdbuf + ds.length, rdlen := 0, rdlen_actual := ds.length },
          true⟩] ∧
      i2c_twdr_writes s.hw_writes = i2c_twdr_writes s0.hw_writes ∧
      (i2c_twcr_writes s.hw_writes).map (fun v => bit_is_set v TWEA) =
        (i2c_twcr_writes s0.hw_writes).map (fun v => bit_is_set v TWEA) ++
          (List.replicate (ds.length - 1) true ++ [false]) ∧
      (∀ i, i < ds.length → M (tr.rdbuf + i) = (ds.map i2c_hw.twdr).getD i 0) ∧
      (∀ a, a < tr.rdbuf ∨ tr.rdbuf + ds.length ≤ a → M a = s0.mem a) ∧
      (tr.func = NULL → s.mem = M) ∧
      (tr.func ≠ NULL → ∃ sx : i2c_engine, sx.mem = M ∧
        s.mem = (cb ⟨tr.func, tr.data, true, ds.length⟩ sx).mem) := by
  obtain ⟨s1, h1, a1, a2, a3, a4, a5, a6, a7⟩ :=
    i2c_poll_READ_FIRST k hcb h0 s0 tr rest hs hq (by omega)
  obtain ⟨s2, M, h2, b1, b2, b3, b4, b5, b6, b7, b8, b9⟩ :=
    i2c_run_READ_bytes k hcb ds s1 tr rest a1 a2 hlen hpos (by omega) hds
  simp only [hact, Nat.zero_add] at b3 b4 b9
  refine ⟨s2, M, ?_, b1, b2, by rw [b3, a3], by rw [b4, a4], ?_, ?_, ?_, ?_, b8, b9⟩
  · simp only [i2c_run, i2c_step, h1, Option.some_bind]
    exact h2
  · rw [b5, a7]
    simp [i2c_twdr_writes_append, i2c_twdr_writes]
  · rw [b6, a7, i2c_twcr_writes_append]
    have hb := (i2c_read_request_bits h0.twcr (decide (tr.rdlen > 1))).1
    simp only [i2c_twcr_writes, List.map_append, List.map_cons, List.map_nil, hb,
      List.append_assoc, List.append_cancel_left_eq, List.singleton_append]
    rw [hlen]
    exact i2c_ack_pattern ds.length hpos
  · intro i hi
    rw [b7, a5, if_pos (by omega)]
    congr 1
    omega
  · intro a ha
    rw [b7, a5, if_neg (by omega)]

/-- C33: the read phase acknowledges all bytes but the last.  For a head
transaction in `I2C_READ_FIRST` that is to read `n` bytes, `1 <= n < 256`,
none read so far, with the hardware delivering a byte at each of the `n`
polls that follow the first one (callbacks that do not call into the module):
the calls return; the engine makes `n` byte requests, the first in
`I2C_READ_FIRST` and each further one when the byte before is stored, and the
acknowledge-enable bit is set in all of them but the last; the delivered bytes
are stored from `rdbuf` on, in order, and no other memory cell is touched
before the callback runs; the last poll enters `I2C_TRANS_OK_STOP_DO`,
releasing the head, and the callback, if there is one, is invoked once, with
success true and read length `n`, on that memory.  A read-only transaction
enqueued on the idle engine reaches `I2C_READ_FIRST` in this way once its
start condition and its address are acknowledged, and then completes so. -/
theorem i2c_read_phase_acks (k : timekeeping_config) (cb : i2c_callbacks)
    (hcb : i2c_callbacks_inert cb) :
    (∀ (s0 : i2c_engine) (tr : i2c_transaction_list) (rest : List i2c_transaction_list)
        (h0 : i2c_hw) (ds : List i2c_hw),
      s0.i2c_state = I2C_READ_FIRST → s0.i2c_transaction_list_head = tr :: rest →
      tr.rdlen = ds.length → 0 < ds.length → tr.rdlen_actual = 0 → ds.length < 256 →
      (∀ hw ∈ ds,
        hw.completed TW_MR_DATA_ACK = true ∨ hw.completed TW_MR_DATA_NACK = true) →
      ∃ (s : i2c_engine) (M : Nat → Nat),
        i2c_run k cb (i2c_op.poll h0 :: ds.map i2c_op.poll) s0 = some s ∧
        s.i2c_state = I2C_TRANS_OK_STOP_DO ∧
        s.i2c_transaction_list_head = rest ∧
        s.completions = s0.completions ++
          (if tr.func ≠ NULL then [⟨tr.func, tr.data, true, ds.length⟩] else []) ∧
        s.released = s0.released ++
          [⟨{ tr with rdbuf := tr.rdbuf + ds.length, rdlen := 0, rdlen_actual := ds.length },
            true⟩] ∧
        i2c_twdr_writes s.hw_writes = i2c_twdr_writes s0.hw_writes ∧
        (i2c_twcr_writes s.hw_writes).map (fun v => bit_is_set v TWEA) =
          (i2c_twcr_writes s0.hw_writes).map (fun v => bit_is_set v TWEA) ++
            (List.replicate (ds.length - 1) true ++ [false]) ∧
        (∀ i, i < ds.length → M (tr.rdbuf + i) = (ds.map i2c_hw.twdr).getD i 0) ∧
        (∀ a, a < tr.rdbuf ∨ tr.rdbuf + ds.length ≤ a → M a = s0.mem a) ∧
        (tr.func = NULL → s.mem = M) ∧
        (tr.func ≠ NULL → ∃ sx : i2c_engine, sx.mem = M ∧
          s.mem = (cb ⟨tr.func, tr.data, true, ds.length⟩ sx).mem)) ∧
    (∀ (s0 : i2c_engine) (now : timestamp) (r : i2c_request) (h0 h1 h2 h3 : i2c_hw)
        (ds : List i2c_hw),
      s0.i2c_state = I2C_IDLE → s0.i2c_transaction_list_head = [] →
      r.wrlen = 0 → r.rdlen = ds.length → 0 < ds.length → ds.length < 256 →
      r.rdbuf ≠ NULL →
      h1.completed TW_START = true → h2.completed TW_MR_SLA_ACK = true →
      (∀ hw ∈ ds,
        hw.completed TW_MR_DATA_ACK = true ∨ hw.completed TW_MR_DATA_NACK = true) →
      ∃ (s1 s : i2c_engine) (M : Nat → Nat),
        i2c_run k cb [i2c_op.transaction now true r, i2c_op.poll h0, i2c_op.poll h1,
          i2c_op.poll h2] s0 = some s1 ∧
        s1.i2c_state = I2C_READ_FIRST ∧
        i2c_run k cb (i2c_op.poll h3 :: ds.map i2c_op.poll) s1 = some s ∧
        s.i2c_state = I2C_TRANS_OK_STOP_DO ∧
        s.i2c_transaction_list_head = [] ∧
        s.completions = s0.completions ++
          (if r.completion ≠ NULL then [⟨r.completion, r.comp_data, true, ds.length⟩]
           else []) ∧
        (i2c_twcr_writes s.hw_writes).map (fun v => bit_is_set v TWEA) =
          (i2c_twcr_writes s1.hw_writes).map (fun v => bit_is_set v TWEA) ++
            (List.replicate (ds.length - 1) true ++ [false]) ∧
        (∀ i, i < ds.length → M (r.rdbuf + i) = (ds.map i2c_hw.twdr).getD i 0) ∧
        (∀ a, a < r.rdbuf ∨ r.rdbuf + ds.length ≤ a → M a = s0.mem a) ∧
        (r.completion = NULL → s.mem = M) ∧
        (r.completion ≠ NULL → ∃ sx : i2c_engine, sx.mem = M ∧
          s.mem = (cb ⟨r.completion, r.comp_data, true, ds.length⟩ sx).mem)) := by
  refine ⟨?_, ?_⟩
  · intro s0 tr rest h0 ds hs hq hlen hpos hact h256 hds
    exact i2c_read_phase k hcb s0 tr rest h0 ds hs hq hlen hpos hact h256 hds
  · intro s0 now r h0 h1 h2 h3 ds hs0 hq0 hwr hlen hpos h256 hrbuf hstart haddr hds
    obtain ⟨sa, ea, a1, a2, a3, a4, a5, _⟩ :=
      i2c_read_only_address k hcb s0 now r h0 h1 hs0 hq0 hwr (by omega) hrbuf hstart
    obtain ⟨s1, e1, b1, b2, b3, b4, b5, _, _⟩ := i2c_poll_ADDR_read k hcb h2 sa r.node [] a1 a2 haddr
    obtain ⟨s, M, e, c1, c2, c3, c4, _, c6, c7, c8, c9, c10⟩ :=
      i2c_read_phase k hcb s1 r.node [] h3 ds b1 b2 hlen hpos rfl h256 hds
    have hrun : i2c_run k cb [i2c_op.transaction now true r, i2c_op.poll h0, i2c_op.poll h1,
        i2c_op.poll h2] s0 = some s1 := by
      have e0 := i2c_run_append k cb
        [i2c_op.transaction now true r, i2c_op.poll h0, i2c_op.poll h1] [i2c_op.poll h2] s0
      simp only [List.cons_append, List.nil_append] at e0
      rw [e0, ea]
      simp only [Option.some_bind, i2c_run, i2c_step, e1]
    have hmem : s1.mem = s0.mem := by rw [b5, a5]
    refine ⟨s1, s, M, hrun, b1, e, c1, c2, ?_, c6, c7, ?_, c9, c10⟩
    · rw [c3, b3, a3]
      rfl
    · intro a ha
      rw [← hmem]
      exact c8 a ha

/-- Witness of C33: two bytes are read from the device at address `0x4b` into
the cells 200 and 201; the hardware delivers `0x11` and `0x22`. -/
theorem i2c_read_phase_acks_witness :
    i2c_callbacks_inert (fun _ s => s) ∧
    ∃ (s1 s : i2c_engine) (M : Nat → Nat),
      i2c_run ⟨16000000, 64, 8⟩ (fun _ s => s)
        [i2c_op.transaction ⟨7, 0⟩ true ⟨0x4b, 0, 0, 200, 2, 5, 1⟩,
          i2c_op.poll ⟨0, 0, 0, ⟨7, 1⟩, ⟨7, 1⟩⟩,
          i2c_op.poll ⟨0x80, 0x08, 0, ⟨7, 2⟩, ⟨7, 2⟩⟩,
          i2c_op.poll ⟨0x80, 0x40, 0, ⟨7, 3⟩, ⟨7, 3⟩⟩]
        (i2c_boot 0 0 0 0 (fun _ => 0)) = some s1 ∧
      s1.i2c_state = I2C_READ_FIRST ∧
      i2c_run ⟨16000000, 64, 8⟩ (fun _ s => s)
        (i2c_op.poll ⟨0x80, 0x40, 0, ⟨7, 4⟩, ⟨7, 4⟩⟩ ::
          [(⟨0x80, 0x50, 0x11, ⟨7, 5⟩, ⟨7, 5⟩⟩ : i2c_hw),
            ⟨0x80, 0x58, 0x22, ⟨7, 6⟩, ⟨7, 6⟩⟩].map i2c_op.poll) s1 = some s ∧
      s.i2c_state = I2C_TRANS_OK_STOP_DO ∧
      s.i2c_transaction_list_head = [] ∧
      s.completions = [] ++
        (if (5 : Nat) ≠ NULL then [(⟨5, 1, true, 2⟩ : i2c_completion)] else []) ∧
      (i2c_twcr_writes s.hw_writes).map (fun v => bit_is_set v TWEA) =
        (i2c_twcr_writes s1.hw_writes).map (fun v => bit_is_set v TWEA) ++
          (List.replicate (2 - 1) true ++ [false]) ∧
      (∀ i, i < 2 → M (200 + i) =
        ([(⟨0x80, 0x50, 0x11, ⟨7, 5⟩, ⟨7, 5⟩⟩ : i2c_hw),
          ⟨0x80, 0x58, 0x22, ⟨7, 6⟩, ⟨7, 6⟩⟩].map i2c_hw.twdr).getD i 0) ∧
      (∀ a, a < 200 ∨ 200 + 2 ≤ a → M a = (fun _ => 0) a) ∧
      ((5 : Nat) = NULL → s.mem = M) ∧
      ((5 : Nat) ≠ NULL → ∃ sx : i2c_engine, sx.mem = M ∧
        s.mem = ((fun _ s => s) (⟨5, 1, true, 2⟩ : i2c_completion) sx).mem) :=
  ⟨fun _ _ => rfl,
    (i2c_read_phase_acks ⟨16000000, 64, 8⟩ (fun _ s => s) (fun _ _ => rfl)).2
      (i2c_boot 0 0 0 0 (fun _ => 0)) ⟨7, 0⟩ ⟨0x4b, 0, 0, 200, 2, 5, 1⟩
      ⟨0, 0, 0, ⟨7, 1⟩, ⟨7, 1⟩⟩ ⟨0x80, 0x08, 0, ⟨7, 2⟩, ⟨7, 2⟩⟩ ⟨0x80, 0x40, 0, ⟨7, 3⟩, ⟨7, 3⟩⟩
      ⟨0x80, 0x40, 0, ⟨7, 4⟩, ⟨7, 4⟩⟩
      [⟨0x80, 0x50, 0x11, ⟨7, 5⟩, ⟨7, 5⟩⟩, ⟨0x80, 0x58, 0x22, ⟨7, 6⟩, ⟨7, 6⟩⟩]
      rfl rfl rfl rfl (by decide) (by decide) (by decide) (by decide) (by decide)
      (by decide)⟩

/-! ## Theorems: the branch after the address phase -/

/-- A poll that leaves `I2C_ADDR` for `I2C_READ_FIRST` saw the address of a
read acknowledged. -/
theorem i2c_poll_ADDR_to_read (k : timekeeping_config) {cb : i2c_callbacks}
    (hcb : i2c_callbacks_inert cb) (hw : i2c_hw) {s s' : i2c_engine}
    (hs : s.i2c_state = I2C_ADDR) (h : i2c_poll_atomic k cb hw s = some s')
    (hs0 : s'.i2c_state = I2C_READ_FIRST ∨ s'.i2c_state = I2C_READ) :
    hw.completed TW_MR_SLA_ACK = true := by
  have hs' : s'.i2c_state ≠ I2C_ADDR ∧ s'.i2c_state ≠ I2C_TRANS_FAILED_RESET ∧
      s'.i2c_state ≠ I2C_WRITE_FIRST := by
    rcases hs0 with h0 | h0 <;> rw [h0] <;> simp
  simp only [i2c_poll_atomic, hs, i2c_is_reset_idle_poll_state, reduceCtorEq,
    decide_False, decide_True, Bool.or_false, Bool.or_true, Bool.true_or, Bool.or_self,
    Bool.false_eq_true, if_false, or_self, or_true, true_or, if_true, false_and, true_and,
    ne_eq, not_true_eq_false, not_false_eq_true,
    i2c_twcr_set_cmd_bits, i2c_twcr_set_cmd_bits_atomic, i2c_twdr_write] at h
  by_cases hint : bit_is_clear hw.twcr TWINT = true
  · simp only [hint, if_true] at h
    rcases i2c_transaction_maybe_timedout_cases k cb h with ⟨_, rfl⟩ | ⟨_, _, h2⟩ | ⟨_, h3, _⟩
    · exact absurd rfl hs'.1
    · exact absurd (I2C_SETSTATE_frame k hcb h2).1 hs'.2.1
    · simp [hs] at h3
  · simp only [hint, Bool.false_eq_true, if_false] at h
    by_cases hmr : hw.twsr &&& TW_STATUS_MASK = TW_MR_SLA_ACK
    · simp only [Bool.not_eq_true] at hint
      simp [i2c_hw.completed, hint, hmr]
    · exfalso
      by_cases hmt : hw.twsr &&& TW_STATUS_MASK = TW_MT_SLA_ACK
      · cases hq : s.i2c_transaction_list_head with
        | nil => simp [TW_STATUS, hmt, hq] at h
        | cons tr rest =>
          by_cases hwr : tr.wrlen = 0
          · simp [TW_STATUS, hmt, hmr, hq, hwr, TW_MT_SLA_ACK, TW_MR_SLA_ACK] at h
            exact hs'.2.1 (I2C_SETSTATE_frame k hcb h).1
          · simp [TW_STATUS, hmt, hmr, hq, hwr, TW_MT_SLA_ACK, TW_MR_SLA_ACK] at h
            exact hs'.2.2 (I2C_SETSTATE_frame k hcb h).1
      · simp [TW_STATUS, hmt, hmr] at h
        exact hs'.2.1 (I2C_SETSTATE_frame k hcb h).1

/-- The poll in `I2C_ADDR` once the hardware has answered: it enters
`I2C_WRITE_FIRST` when the address of a write is acknowledged and the head has
bytes to write, `I2C_READ_FIRST` when the address of a read is acknowledged,
and `I2C_TRANS_FAILED_RESET` otherwise. -/
theorem i2c_poll_ADDR_branch (k : timekeeping_config) {cb : i2c_callbacks}
    (hcb : i2c_callbacks_inert cb) (hw : i2c_hw) (s : i2c_engine)
    (tr : i2c_transaction_list) (rest : List i2c_transaction_list)
    (hs : s.i2c_state = I2C_ADDR) (hq : s.i2c_transaction_list_head = tr :: rest)
    (hint : bit_is_clear hw.twcr TWINT = false) :
    ∃ s', i2c_poll_atomic k cb hw s = some s' ∧
      s'.i2c_state =
        (if hw.twsr &&& TW_STATUS_MASK = TW_MT_SLA_ACK ∧ tr.wrlen ≠ 0 then I2C_WRITE_FIRST
         else if hw.twsr &&& TW_STATUS_MASK = TW_MR_SLA_ACK then I2C_READ_FIRST
         else I2C_TRANS_FAILED_RESET) ∧
      s'.hw_writes = s.hw_writes := by
  by_cases hmt : hw.twsr &&& TW_STATUS_MASK = TW_MT_SLA_ACK ∧ tr.wrlen ≠ 0
  · obtain ⟨s', e, a1, _, _, _, _, _, _⟩ := i2c_poll_ADDR_write k hcb hw s tr rest hs hq
      (by simp [i2c_hw.completed, hint, hmt.1]) hmt.2
    have hf : s'.hw_writes = s.hw_writes := by
      simp only [i2c_poll_atomic, hs, hq, i2c_is_reset_idle_poll_state, reduceCtorEq,
        decide_False, decide_True, Bool.or_false, Bool.or_true, Bool.true_or, Bool.or_self,
        Bool.false_eq_true, if_false, or_self, or_true, true_or, if_true, false_and, true_and,
        ne_eq, not_true_eq_false, not_false_eq_true, List.head?_nil, List.head?_cons,
        Option.map_none', Option.map_some', Option.some_bind, Option.none_bind] at e
      simp [hint, TW_STATUS, hmt.1, hmt.2, TW_MT_SLA_ACK, TW_MR_SLA_ACK] at e
      exact (I2C_SETSTATE_frame k hcb e).2.2.2.1
    exact ⟨s', e, by rw [a1, if_pos hmt], hf⟩
  · by_cases hmr : hw.twsr &&& TW_STATUS_MASK = TW_MR_SLA_ACK
    · obtain ⟨s', e, a1, _, _, _, _, _, a7⟩ := i2c_poll_ADDR_read k hcb hw s tr rest hs hq
        (by simp [i2c_hw.completed, hint, hmr])
      exact ⟨s', e, by rw [a1, if_neg hmt, if_pos hmr], a7⟩
    · obtain ⟨s', e, a1, _, _, a4⟩ := i2c_poll_ADDR_fail k hcb hw s tr rest hs hq hint hmr
        (by
          by_cases h0 : hw.twsr &&& TW_STATUS_MASK = TW_MT_SLA_ACK
          · exact Or.inr (by
              by_contra hne
              exact hmt ⟨h0, hne⟩)
          · exact Or.inl h0)
      exact ⟨s', e, by rw [a1, if_neg hmt, if_neg hmr], a4⟩

/-- The three outcomes of a poll in `I2C_WRITE_FIRST` or `I2C_WRITE`: the next
byte of the write buffer is written to the data register and the head advances
by it; or the head and the registers are left alone; or the head is released,
as it is, with success only if it has nothing left to write. -/
theorem i2c_poll_write_phase (k : timekeeping_config) {cb : i2c_callbacks}
    (hcb : i2c_callbacks_inert cb) (hw : i2c_hw) {s s' : i2c_engine}
    (tr : i2c_transaction_list) (rest : List i2c_transaction_list)
    (hs : s.i2c_state = I2C_WRITE_FIRST ∨ s.i2c_state = I2C_WRITE)
    (hq : s.i2c_transaction_list_head = tr :: rest)
    (h : i2c_poll_atomic k cb hw s = some s') :
    (s'.i2c_state = I2C_WRITE ∧ tr.wrlen ≠ 0 ∧
      s'.i2c_transaction_list_head = i2c_write_advance tr :: rest ∧
      s'.released = s.released ∧
      i2c_twdr_writes s'.hw_writes = i2c_twdr_writes s.hw_writes ++ [s.mem tr.wrbuf % 256]) ∨
    ((s'.i2c_state = I2C_WRITE ∨ s'.i2c_state = I2C_REPEATED_START_DO) ∧
      s'.i2c_transaction_list_head = tr :: rest ∧ s'.released = s.released ∧
      s'.hw_writes = s.hw_writes) ∨
    ((s'.i2c_state = I2C_TRANS_OK_STOP_DO ∨ s'.i2c_state = I2C_TRANS_FAILED_RESET) ∧
      s'.i2c_transaction_list_head = rest ∧
      s'.released = s.released ++ [⟨tr, decide (s'.i2c_state = I2C_TRANS_OK_STOP_DO)⟩] ∧
      s'.hw_writes = s.hw_writes ∧
      (s'.i2c_state = I2C_TRANS_OK_STOP_DO → tr.wrlen = 0)) := by
  rcases hs with hs | hs
  · simp only [i2c_poll_atomic, hs, hq, i2c_is_reset_idle_poll_state, reduceCtorEq,
      decide_False, decide_True, Bool.or_false, Bool.or_true, Bool.true_or, Bool.or_self,
      Bool.false_eq_true, if_false, or_self, or_true, true_or, if_true, false_and, true_and,
      ne_eq, not_true_eq_false, not_false_eq_true, List.head?_nil, List.head?_cons,
      Option.map_none', Option.map_some', Option.some_bind, Option.none_bind,
      i2c_twcr_set_cmd_bits, i2c_twcr_set_cmd_bits_atomic, i2c_twdr_write] at h
    by_cases hwr : tr.wrlen = 0
    · by_cases hrd : tr.rdlen > 0
      · simp [hwr, hrd] at h
        have hf := I2C_SETSTATE_frame k hcb h
        clear h
        simp [hs, hq] at hf
        right; left
        simp [hf]
      · simp [hwr, hrd] at h
        have hf := I2C_SETSTATE_frame k hcb h
        clear h
        simp [hs, hq] at hf
        right; right
        simp [hf, hwr]
    · simp [hwr] at h
      have hf := I2C_SETSTATE_frame k hcb h
      clear h
      simp [hs, hq] at hf
      left
      simp [hf, hwr, i2c_twdr_writes_append, i2c_twdr_writes, i2c_write_advance]
  · simp only [i2c_poll_atomic, hs, hq, i2c_is_reset_idle_poll_state, reduceCtorEq,
      decide_False, decide_True, Bool.or_false, Bool.or_true, Bool.true_or, Bool.or_self,
      Bool.false_eq_true, if_false, or_self, or_true, true_or, if_true, false_and, true_and,
      ne_eq, not_true_eq_false, not_false_eq_true, List.head?_nil, List.head?_cons,
      Option.map_none', Option.map_some', Option.some_bind, Option.none_bind,
      i2c_twcr_set_cmd_bits, i2c_twcr_set_cmd_bits_atomic, i2c_twdr_write] at h
    by_cases hint : bit_is_clear hw.twcr TWINT = true
    · simp only [hint, if_true] at h
      rcases i2c_transaction_maybe_timedout_cases k cb h with ⟨_, rfl⟩ | ⟨_, _, h2⟩ | ⟨_, h3, _⟩
      · right; left
        simp [hs, hq]
      · have hf := I2C_SETSTATE_frame k hcb h2
        clear h h2
        simp [hs, hq] at hf
        right; right
        simp [hf]
      · simp [hs] at h3
    · simp only [hint, Bool.false_eq_true, if_false] at h
      by_cases hack : hw.twsr &&& TW_STATUS_MASK = TW_MT_DATA_ACK
      · by_cases hwr : tr.wrlen = 0
        · by_cases hrd : tr.rdlen > 0
          · simp [TW_STATUS, hack, hwr, hrd] at h
            have hf := I2C_SETSTATE_frame k hcb h
            clear h
            simp [hs, hq] at hf
            right; left
            simp [hf]
          · simp [TW_STATUS, hack, hwr, hrd] at h
            have hf := I2C_SETSTATE_frame k hcb h
            clear h
            simp [hs, hq] at hf
            right; right
            simp [hf, hwr]
        · simp [TW_STATUS, hack, hwr] at h
          have hf := I2C_SETSTATE_frame k hcb h
          clear h
          simp [hs, hq] at hf
          left
          simp [hf, hwr, i2c_twdr_writes_append, i2c_twdr_writes, i2c_write_advance]
      · by_cases hnack : hw.twsr &&& TW_STATUS_MASK = TW_MT_DATA_NACK
        · by_cases hwr : tr.wrlen = 0
          · by_cases hrd : tr.rdlen > 0
            · simp [TW_STATUS, hack, hnack, hwr, hrd, TW_MT_DATA_ACK, TW_MT_DATA_NACK] at h
              have hf := I2C_SETSTATE_frame k hcb h
              clear h
              simp [hs, hq] at hf
              right; left
              simp [hf]
            · simp [TW_STATUS, hack, hnack, hwr, hrd, TW_MT_DATA_ACK, TW_MT_DATA_NACK] at h
              have hf := I2C_SETSTATE_frame k hcb h
              clear h
              simp [hs, hq] at hf
              right; right
              simp [hf, hwr]
          · simp [TW_STATUS, hack, hnack, hwr, TW_MT_DATA_ACK, TW_MT_DATA_NACK] at h
            have hf := I2C_SETSTATE_frame k hcb h
            clear h
            simp [hs, hq] at hf
            right; right
            simp [hf]
        · simp [TW_STATUS, hack, hnack] at h
          have hf := I2C_SETSTATE_frame k hcb h
          clear h
          simp [hs, hq] at hf
          right; right
          simp [hf]

/-- Where a poll can come from when it ends in a read state or in
`I2C_TRANS_OK_STOP_DO`. -/
theorem i2c_poll_atomic_sources (k : timekeeping_config) {cb : i2c_callbacks}
    (hcb : i2c_callbacks_inert cb) (hw : i2c_hw) {s s' : i2c_engine}
    (h : i2c_poll_atomic k cb hw s = some s') :
    ((s'.i2c_state = I2C_READ_FIRST ∨ s'.i2c_state = I2C_READ) →
      s.i2c_state = I2C_ADDR ∨ s.i2c_state = I2C_READ_FIRST ∨ s.i2c_state = I2C_READ) ∧
    (s'.i2c_state = I2C_TRANS_OK_STOP_DO →
      s.i2c_state = I2C_TRANS_OK_STOP_DO ∨ s.i2c_state = I2C_WRITE_FIRST ∨
        s.i2c_state = I2C_WRITE ∨ s.i2c_state = I2C_READ_FIRST ∨ s.i2c_state = I2C_READ) := by
  have he := i2c_poll_atomic_edge k hcb hw h
  generalize s.i2c_state = st at he ⊢
  generalize s'.i2c_state = st' at he ⊢
  generalize decide (s.i2c_transaction_list_head = []) = b at he
  constructor
  · intro hs'
    rcases hs' with rfl | rfl <;> cases st <;>
      simp [i2c_states.phase, i2c_phase_edge, i2c_phase.hardware_wait] at he ⊢
  · intro hs'
    subst hs'
    cases st <;> simp [i2c_states.phase, i2c_phase_edge, i2c_phase.hardware_wait] at he ⊢

/-- One call, with the hardware keeping to the direction of the address byte,
preserves: the queue head has nothing left to write while the engine is in a
read state, and every node released with success had nothing left to write. -/
theorem i2c_step_direction_inv (k : timekeeping_config) {cb : i2c_callbacks}
    (hcb : i2c_callbacks_inert cb) (op : i2c_op) (s : i2c_engine)
    (hp : i2c_head_present s)
    (hc : s.completions = s.released.filterMap i2c_release.callback)
    (hk : i2c_direction_kept op s = true)
    (h3 : (s.i2c_state = I2C_READ_FIRST ∨ s.i2c_state = I2C_READ) →
      ∀ tr rest, s.i2c_transaction_list_head = tr :: rest → tr.wrlen = 0)
    (h4 : ∀ rel ∈ s.released, rel.success = true → rel.tr.wrlen = 0) :
    ∃ s', i2c_step k cb op s = some s' ∧ i2c_head_present s' ∧
      s'.completions = s'.released.filterMap i2c_release.callback ∧
      ((s'.i2c_state = I2C_READ_FIRST ∨ s'.i2c_state = I2C_READ) →
        ∀ tr rest, s'.i2c_transaction_list_head = tr :: rest → tr.wrlen = 0) ∧
      (∀ rel ∈ s'.released, rel.success = true → rel.tr.wrlen = 0) := by
  obtain ⟨s', e, hp', hc', _, _⟩ := i2c_step_accounting k hcb op s hp hc
  refine ⟨s', e, hp', hc', ?_⟩
  cases op with
  | transaction now malloc_ok r =>
    obtain ⟨s1, e1, hr, _, hq1, hst⟩ := i2c_transaction_req_effect k cb now malloc_ok r s
    have hs1 : s' = s1 := by
      simp only [i2c_step, e1, Option.map_some', Option.some.injEq] at e
      exact e.symm
    subst hs1
    constructor
    · intro hs' tr rest hq'
      have hsame : s'.i2c_state = s.i2c_state := by
        rcases hst with hst | ⟨_, hst, _⟩
        · exact hst
        · rcases hs' with h0 | h0 <;> rw [hst] at h0 <;> cases h0
      rw [hsame] at hs'
      have hne : s.i2c_transaction_list_head ≠ [] :=
        hp (by rcases hs' with h0 | h0 <;> rw [h0] <;> rfl)
      obtain ⟨tr0, rest0, hq0⟩ := List.exists_cons_of_ne_nil hne
      rw [hq1, hq0, List.cons_append] at hq'
      have h0 := h3 hs' tr0 rest0 hq0
      rw [← (List.cons.inj hq').1]
      exact h0
    · rw [hr]
      exact h4
  | poll hw =>
    simp only [i2c_step] at e
    obtain ⟨hE1, hE2⟩ := i2c_poll_atomic_sources k hcb hw e
    obtain ⟨hterm, hkeep, _, _⟩ := i2c_poll_atomic_effect k hcb hw e
    obtain ⟨_, _, _, _, hm⟩ := i2c_poll_atomic_step k hcb hw e
    by_cases ht : i2c_enters_terminal s s'
    · obtain ⟨⟨tr, rest, _, hq, _, _, _, _⟩, _⟩ := hterm ht
      obtain ⟨_, hmt⟩ := hm tr rest hq
      obtain ⟨_, tr1, hadv, hr1, _⟩ := hmt ht
      constructor
      · intro hs'
        exfalso
        rcases ht.1 with h0 | h0 <;> rcases hs' with h1 | h1 <;> rw [h0] at h1 <;> cases h1
      · intro rel hrel hsucc
        rw [hr1] at hrel
        rcases List.mem_append.1 hrel with hrel | hrel
        · exact h4 rel hrel hsucc
        · rw [List.mem_singleton] at hrel
          subst hrel
          simp only [decide_eq_true_eq] at hsucc
          show tr1.wrlen = 0
          rcases hE2 hsucc with h0 | h0 | h0 | h0 | h0
          · exact absurd (hsucc.trans h0.symm) ht.2
          · rcases i2c_poll_write_phase k hcb hw tr rest (Or.inl h0) hq e with
              ⟨c1, _⟩ | ⟨c1, _⟩ | ⟨_, _, c3, _, c5⟩
            · rw [hsucc] at c1
              cases c1
            · rw [hsucc] at c1
              rcases c1 with c1 | c1 <;> cases c1
            · rw [hr1] at c3
              have e3 := List.append_cancel_left c3
              simp only [List.cons.injEq, i2c_release.mk.injEq, and_true] at e3
              rw [e3]
              exact c5 hsucc
          · rcases i2c_poll_write_phase k hcb hw tr rest (Or.inr h0) hq e with
              ⟨c1, _⟩ | ⟨c1, _⟩ | ⟨_, _, c3, _, c5⟩
            · rw [hsucc] at c1
              cases c1
            · rw [hsucc] at c1
              rcases c1 with c1 | c1 <;> cases c1
            · rw [hr1] at c3
              have e3 := List.append_cancel_left c3
              simp only [List.cons.injEq, i2c_release.mk.injEq, and_true] at e3
              rw [e3]
              exact c5 hsucc
          · have h5 := h3 (Or.inl h0) tr rest hq
            rcases hadv with rfl | ⟨hw0, _⟩ | ⟨hr0, rfl⟩
            · exact h5
            · rw [h0] at hw0
              rcases hw0 with hw0 | hw0 <;> cases hw0
            · exact h5
          · have h5 := h3 (Or.inr h0) tr rest hq
            rcases hadv with rfl | ⟨hw0, _⟩ | ⟨hr0, rfl⟩
            · exact h5
            · rw [h0] at hw0
              rcases hw0 with hw0 | hw0 <;> cases hw0
            · exact h5
    · obtain ⟨hrel, _, _, _⟩ := hkeep ht
      constructor
      · intro hs' tr' rest' hq'
        have hsrc := hE1 hs'
        have hne : s.i2c_transaction_list_head ≠ [] :=
          hp (by rcases hsrc with h0 | h0 | h0 <;> rw [h0] <;> rfl)
        obtain ⟨tr, rest, hq⟩ := List.exists_cons_of_ne_nil hne
        obtain ⟨hmn, _⟩ := hm tr rest hq
        obtain ⟨_, tr1, hadv, hq1, _⟩ := hmn ht
        rw [hq1] at hq'
        have e1 := (List.cons.inj hq').1
        subst e1
        have h5 : tr.wrlen = 0 := by
          rcases hsrc with h0 | h0 | h0
          · have hcmp := i2c_poll_ADDR_to_read k hcb hw h0 e hs'
            simpa [i2c_direction_kept, h0, hcmp, hq] using hk
          · exact h3 (Or.inl h0) tr rest hq
          · exact h3 (Or.inr h0) tr rest hq
        rcases hadv with rfl | ⟨hw0, _⟩ | ⟨hr0, rfl⟩
        · exact h5
        · exfalso
          rcases hsrc with h0 | h0 | h0 <;> rw [h0] at hw0 <;>
            rcases hw0 with hw0 | hw0 <;> cases hw0
        · exact h5
      · rw [hrel]
        exact h4

/-- The invariants of `i2c_step_direction_inv` along a sequence of calls at
each of which the hardware keeps to the direction of the address byte: the
calls all return. -/
theorem i2c_run_direction_inv (k : timekeeping_config) {cb : i2c_callbacks}
    (hcb : i2c_callbacks_inert cb) (ops : List i2c_op) :
    ∀ s : i2c_engine, i2c_head_present s →
      s.completions = s.released.filterMap i2c_release.callback →
      i2c_run_direction_kept k cb ops s = true →
      ((s.i2c_state = I2C_READ_FIRST ∨ s.i2c_state = I2C_READ) →
        ∀ tr rest, s.i2c_transaction_list_head = tr :: rest → tr.wrlen = 0) →
      (∀ rel ∈ s.released, rel.success = true → rel.tr.wrlen = 0) →
      ∃ s', i2c_run k cb ops s = some s' ∧ i2c_head_present s' ∧
        ((s'.i2c_state = I2C_READ_FIRST ∨ s'.i2c_state = I2C_READ) →
          ∀ tr rest, s'.i2c_transaction_list_head = tr :: rest → tr.wrlen = 0) ∧
        (∀ rel ∈ s'.released, rel.success = true → rel.tr.wrlen = 0) := by
  induction ops with
  | nil =>
    intro s hp _ _ h3 h4
    exact ⟨s, rfl, hp, h3, h4⟩
  | cons op ops ih =>
    intro s hp hc hk h3 h4
    simp only [i2c_run_direction_kept, Bool.and_eq_true] at hk
    obtain ⟨s1, e1, hp1, hc1, g3, g4⟩ := i2c_step_direction_inv k hcb op s hp hc hk.1 h3 h4
    have hk2 := hk.2
    simp only [e1] at hk2
    obtain ⟨s2, e2, hp2, f3, f4⟩ := ih s1 hp1 hc1 hk2 g3 g4
    exact ⟨s2, by simp [i2c_run, e1, e2], hp2, f3, f4⟩

/-- What one poll does to the write cursor of the queue head: the head stays
queued or is released, and either its write buffer pointer and write length
are as before, or the byte under the pointer was written to the data register,
the pointer moved on by one and the length went down by one. -/
theorem i2c_poll_write_cursor (k : timekeeping_config) {cb : i2c_callbacks}
    (hcb : i2c_callbacks_inert cb) (hw : i2c_hw) {s s' : i2c_engine}
    (tr : i2c_transaction_list) (rest : List i2c_transaction_list)
    (hq : s.i2c_transaction_list_head = tr :: rest)
    (h : i2c_poll_atomic k cb hw s = some s') :
    ∃ tr1,
      ((s'.i2c_transaction_list_head = tr1 :: rest ∧ s'.released = s.released) ∨
        (s'.i2c_transaction_list_head = rest ∧
          s'.released =
            s.released ++ [⟨tr1, decide (s'.i2c_state = I2C_TRANS_OK_STOP_DO)⟩])) ∧
      ((tr1.wrlen = tr.wrlen ∧ tr1.wrbuf = tr.wrbuf) ∨
        (tr.wrlen ≠ 0 ∧ tr1.wrlen = tr.wrlen - 1 ∧ tr1.wrbuf = tr.wrbuf + 1 ∧
          i2c_twdr_writes s'.hw_writes =
            i2c_twdr_writes s.hw_writes ++ [s.mem tr.wrbuf % 256])) := by
  by_cases hst : s.i2c_state = I2C_WRITE_FIRST ∨ s.i2c_state = I2C_WRITE
  · rcases i2c_poll_write_phase k hcb hw tr rest hst hq h with
      ⟨_, c2, c3, c4, c5⟩ | ⟨_, c2, c3, _⟩ | ⟨_, c2, c3, _, _⟩
    · exact ⟨i2c_write_advance tr, Or.inl ⟨c3, c4⟩, Or.inr ⟨c2, rfl, rfl, c5⟩⟩
    · exact ⟨tr, Or.inl ⟨c2, c3⟩, Or.inl ⟨rfl, rfl⟩⟩
    · exact ⟨tr, Or.inr ⟨c2, c3⟩, Or.inl ⟨rfl, rfl⟩⟩
  · obtain ⟨_, _, _, _, hm⟩ := i2c_poll_atomic_step k hcb hw h
    obtain ⟨hmn, hmt⟩ := hm tr rest hq
    have hsame : ∀ tr1, i2c_head_advance s.i2c_state tr tr1 →
        tr1.wrlen = tr.wrlen ∧ tr1.wrbuf = tr.wrbuf := by
      intro tr1 hadv
      rcases hadv with rfl | ⟨hw0, _⟩ | ⟨_, rfl⟩
      · exact ⟨rfl, rfl⟩
      · exact absurd hw0 hst
      · exact ⟨rfl, rfl⟩
    by_cases ht : i2c_enters_terminal s s'
    · obtain ⟨hq', tr1, hadv, hr1, _⟩ := hmt ht
      exact ⟨tr1, Or.inr ⟨hq', hr1⟩, Or.inl (hsame tr1 hadv)⟩
    · obtain ⟨hr1, tr1, hadv, hq', _⟩ := hmn ht
      exact ⟨tr1, Or.inl ⟨hq', hr1⟩, Or.inl (hsame tr1 hadv)⟩

/-- C31, the code at the failing input: a one-byte write to the device at
address `0x48` is enqueued on the idle engine and started, and when the address
(sent with the write bit) has gone out the status register reads
`TW_MR_SLA_ACK`.  The check accepts it and the engine enters `I2C_READ_FIRST`
although the head has a byte to write; the next poll enters
`I2C_TRANS_OK_STOP_DO` and releases the transaction with success, the callback
reporting success, the data register having received the address byte only.
The mirrored mismatch is refused: for a one-byte read whose address is
answered with `TW_MT_SLA_ACK` the same check enters
`I2C_TRANS_FAILED_RESET`. -/
theorem i2c_read_ack_skips_write :
    (i2c_run ⟨16000000, 64, 8⟩ (fun _ s => s)
      [i2c_op.transaction ⟨7, 0⟩ true ⟨0x48, 100, 1, 0, 0, 5, 1⟩,
        i2c_op.poll ⟨0, 0, 0, ⟨7, 1⟩, ⟨7, 1⟩⟩,
        i2c_op.poll ⟨0x80, 0x08, 0, ⟨7, 2⟩, ⟨7, 2⟩⟩,
        i2c_op.poll ⟨0x80, 0x40, 0, ⟨7, 3⟩, ⟨7, 3⟩⟩]
      (i2c_boot 0 0 0 0 (fun a => a + 1))).map
      (fun s => (s.i2c_state, s.i2c_transaction_list_head)) =
      some (I2C_READ_FIRST, [⟨0x48, 100, 1, 0, 0, 5, 1, 0⟩]) ∧
    (i2c_run ⟨16000000, 64, 8⟩ (fun _ s => s)
      [i2c_op.transaction ⟨7, 0⟩ true ⟨0x48, 100, 1, 0, 0, 5, 1⟩,
        i2c_op.poll ⟨0, 0, 0, ⟨7, 1⟩, ⟨7, 1⟩⟩,
        i2c_op.poll ⟨0x80, 0x08, 0, ⟨7, 2⟩, ⟨7, 2⟩⟩,
        i2c_op.poll ⟨0x80, 0x40, 0, ⟨7, 3⟩, ⟨7, 3⟩⟩,
        i2c_op.poll ⟨0x80, 0x40, 0, ⟨7, 4⟩, ⟨7, 4⟩⟩]
      (i2c_boot 0 0 0 0 (fun a => a + 1))).map
      (fun s => (s.i2c_state, s.released, s.completions, i2c_twdr_writes s.hw_writes)) =
      some (I2C_TRANS_OK_STOP_DO, [⟨⟨0x48, 100, 1, 0, 0, 5, 1, 0⟩, true⟩],
        [⟨5, 1, true, 0⟩], [0x90]) ∧
    (i2c_run ⟨16000000, 64, 8⟩ (fun _ s => s)
      [i2c_op.transaction ⟨7, 0⟩ true ⟨0x4b, 0, 0, 200, 1, 5, 1⟩,
        i2c_op.poll ⟨0, 0, 0, ⟨7, 1⟩, ⟨7, 1⟩⟩,
        i2c_op.poll ⟨0x80, 0x08, 0, ⟨7, 2⟩, ⟨7, 2⟩⟩,
        i2c_op.poll ⟨0x80, 0x18, 0, ⟨7, 3⟩, ⟨7, 3⟩⟩]
      (i2c_boot 0 0 0 0 (fun a => a + 1))).map
      (fun s => (s.i2c_state, s.released, s.completions, i2c_twdr_writes s.hw_writes)) =
      some (I2C_TRANS_FAILED_RESET, [⟨⟨0x4b, 0, 0, 200, 1, 5, 1, 0⟩, false⟩],
        [⟨5, 1, false, 0⟩], [0x97]) := by
  refine ⟨by decide, by decide, by decide⟩

/-- The branch after the address phase follows the status the hardware
reports.  A poll in `I2C_ADDR` that finds the interrupt flag set
returns and enters `I2C_WRITE_FIRST` exactly when the status is
`TW_MT_SLA_ACK` and the head has bytes to write, `I2C_READ_FIRST` exactly when
the status is `TW_MR_SLA_ACK` (whatever the head has to write), and
`I2C_TRANS_FAILED_RESET` otherwise; if the hardware reports `TW_MR_SLA_ACK`
only while the head has nothing left to write, an accepted address leads to
`I2C_WRITE_FIRST` exactly when the head has bytes to write and to
`I2C_READ_FIRST` exactly when it has none.  Along every sequence of calls on
the idle engine at each of which the hardware keeps to that, the calls return
and every node released with success has no bytes left to write; and in any
poll the write length of the head goes down only by one, with the byte under
the write pointer written to the data register and the pointer moved on, from
the length and the pointer the request was enqueued with. -/
theorem i2c_address_phase_branch (k : timekeeping_config) (cb : i2c_callbacks)
    (hcb : i2c_callbacks_inert cb) :
    (∀ (hw : i2c_hw) (s : i2c_engine) (tr : i2c_transaction_list)
        (rest : List i2c_transaction_list),
      s.i2c_state = I2C_ADDR → s.i2c_transaction_list_head = tr :: rest →
      bit_is_clear hw.twcr TWINT = false →
      ∃ s', i2c_poll_atomic k cb hw s = some s' ∧
        s'.i2c_state =
          (if hw.twsr &&& TW_STATUS_MASK = TW_MT_SLA_ACK ∧ tr.wrlen ≠ 0 then I2C_WRITE_FIRST
           else if hw.twsr &&& TW_STATUS_MASK = TW_MR_SLA_ACK then I2C_READ_FIRST
           else I2C_TRANS_FAILED_RESET) ∧
        (s'.i2c_state = I2C_WRITE_FIRST ↔
          hw.twsr &&& TW_STATUS_MASK = TW_MT_SLA_ACK ∧ tr.wrlen ≠ 0) ∧
        (s'.i2c_state = I2C_READ_FIRST ↔ hw.twsr &&& TW_STATUS_MASK = TW_MR_SLA_ACK) ∧
        ((hw.twsr &&& TW_STATUS_MASK = TW_MR_SLA_ACK → tr.wrlen = 0) →
          s'.i2c_state ≠ I2C_TRANS_FAILED_RESET →
          (s'.i2c_state = I2C_WRITE_FIRST ↔ tr.wrlen ≠ 0) ∧
          (s'.i2c_state = I2C_READ_FIRST ↔ tr.wrlen = 0))) ∧
    (∀ (s0 : i2c_engine) (ops : List i2c_op),
      s0.i2c_state = I2C_IDLE → s0.i2c_transaction_list_head = [] →
      s0.released = [] → s0.completions = [] →
      i2c_run_direction_kept k cb ops s0 = true →
      ∃ s, i2c_run k cb ops s0 = some s ∧
        (∀ rel ∈ s.released, rel.success = true → rel.tr.wrlen = 0) ∧
        ((s.i2c_state = I2C_READ_FIRST ∨ s.i2c_state = I2C_READ) →
          ∀ tr rest, s.i2c_transaction_list_head = tr :: rest → tr.wrlen = 0)) ∧
    (∀ (hw : i2c_hw) (s s' : i2c_engine) (tr : i2c_transaction_list)
        (rest : List i2c_transaction_list),
      s.i2c_transaction_list_head = tr :: rest → i2c_poll_atomic k cb hw s = some s' →
      ∃ tr1,
        ((s'.i2c_transaction_list_head = tr1 :: rest ∧ s'.released = s.released) ∨
          (s'.i2c_transaction_list_head = rest ∧
            s'.released =
              s.released ++ [⟨tr1, decide (s'.i2c_state = I2C_TRANS_OK_STOP_DO)⟩])) ∧
        ((tr1.wrlen = tr.wrlen ∧ tr1.wrbuf = tr.wrbuf) ∨
          (tr.wrlen ≠ 0 ∧ tr1.wrlen = tr.wrlen - 1 ∧ tr1.wrbuf = tr.wrbuf + 1 ∧
            i2c_twdr_writes s'.hw_writes =
              i2c_twdr_writes s.hw_writes ++ [s.mem tr.wrbuf % 256]))) ∧
    (∀ r : i2c_request, r.node.wrlen = r.wrlen ∧ r.node.wrbuf = r.wrbuf) := by
  refine ⟨?_, ?_, ?_, fun r => ⟨rfl, rfl⟩⟩
  · intro hw s tr rest hs hq hint
    obtain ⟨s', e, a1, _⟩ := i2c_poll_ADDR_branch k hcb hw s tr rest hs hq hint
    refine ⟨s', e, a1, ?_, ?_, ?_⟩
    · rw [a1]
      by_cases hmt : hw.twsr &&& TW_STATUS_MASK = TW_MT_SLA_ACK ∧ tr.wrlen ≠ 0
      · simp [hmt]
      · rw [if_neg hmt]
        by_cases hmr : hw.twsr &&& TW_STATUS_MASK = TW_MR_SLA_ACK
        · rw [if_pos hmr]
          simp [hmt]
        · rw [if_neg hmr]
          simp [hmt]
    · rw [a1]
      by_cases hmt : hw.twsr &&& TW_STATUS_MASK = TW_MT_SLA_ACK ∧ tr.wrlen ≠ 0
      · rw [if_pos hmt, hmt.1]
        simp [TW_MT_SLA_ACK, TW_MR_SLA_ACK]
      · rw [if_neg hmt]
        by_cases hmr : hw.twsr &&& TW_STATUS_MASK = TW_MR_SLA_ACK
        · rw [if_pos hmr]
          simp [hmr]
        · rw [if_neg hmr]
          simp [hmr]
    · intro hdir hne
      rw [a1] at hne ⊢
      by_cases hmt : hw.twsr &&& TW_STATUS_MASK = TW_MT_SLA_ACK ∧ tr.wrlen ≠ 0
      · rw [if_pos hmt]
        simp [hmt.2]
      · rw [if_neg hmt] at hne ⊢
        by_cases hmr : hw.twsr &&& TW_STATUS_MASK = TW_MR_SLA_ACK
        · rw [if_pos hmr]
          simp [hdir hmr]
        · rw [if_neg hmr] at hne
          exact absurd rfl hne
  · intro s0 ops hs0 hq0 hr0 hc0 hk
    obtain ⟨s, e, _, f3, f4⟩ := i2c_run_direction_inv k hcb ops s0
      (by intro _; rw [hs0] at *; simp [i2c_states.uses_head] at *)
      (by rw [hc0, hr0]; rfl) hk
      (by intro h0; rcases h0 with h0 | h0 <;> rw [hs0] at h0 <;> cases h0)
      (by rw [hr0]; intro rel hrel; cases hrel)
    exact ⟨s, e, f4, f3⟩
  · intro hw s s' tr rest hq h
    exact i2c_poll_write_cursor k hcb hw tr rest hq h

/-- An instance of `i2c_address_phase_branch`: a one-byte write to the device
at address `0x48` whose address is acknowledged with `TW_MT_SLA_ACK` and whose
byte is acknowledged. -/
theorem i2c_address_phase_branch_witness :
    i2c_callbacks_inert (fun _ s => s) ∧
    ∃ s, i2c_run ⟨16000000, 64, 8⟩ (fun _ s => s)
        [i2c_op.transaction ⟨7, 0⟩ true ⟨0x48, 100, 1, 0, 0, 5, 1⟩,
          i2c_op.poll ⟨0, 0, 0, ⟨7, 1⟩, ⟨7, 1⟩⟩,
          i2c_op.poll ⟨0x80, 0x08, 0, ⟨7, 2⟩, ⟨7, 2⟩⟩,
          i2c_op.poll ⟨0x80, 0x18, 0, ⟨7, 3⟩, ⟨7, 3⟩⟩,
          i2c_op.poll ⟨0x80, 0x18, 0, ⟨7, 4⟩, ⟨7, 4⟩⟩,
          i2c_op.poll ⟨0x80, 0x28, 0, ⟨7, 5⟩, ⟨7, 5⟩⟩]
        (i2c_boot 0 0 0 0 (fun a => a + 1)) = some s ∧
      (∀ rel ∈ s.released, rel.success = true → rel.tr.wrlen = 0) ∧
      ((s.i2c_state = I2C_READ_FIRST ∨ s.i2c_state = I2C_READ) →
        ∀ tr rest, s.i2c_transaction_list_head = tr :: rest → tr.wrlen = 0) :=
  ⟨fun _ _ => rfl,
    (i2c_address_phase_branch ⟨16000000, 64, 8⟩ (fun _ s => s) (fun _ _ => rfl)).2.1
      (i2c_boot 0 0 0 0 (fun a => a + 1))
      [i2c_op.transaction ⟨7, 0⟩ true ⟨0x48, 100, 1, 0, 0, 5, 1⟩,
        i2c_op.poll ⟨0, 0, 0, ⟨7, 1⟩, ⟨7, 1⟩⟩,
        i2c_op.poll ⟨0x80, 0x08, 0, ⟨7, 2⟩, ⟨7, 2⟩⟩,
        i2c_op.poll ⟨0x80, 0x18, 0, ⟨7, 3⟩, ⟨7, 3⟩⟩,
        i2c_op.poll ⟨0x80, 0x18, 0, ⟨7, 4⟩, ⟨7, 4⟩⟩,
        i2c_op.poll ⟨0x80, 0x28, 0, ⟨7, 5⟩, ⟨7, 5⟩⟩]
      rfl rfl rfl rfl (by decide)⟩

end Avr
